import Mathlib

/-!
# SHA-256 / SHA-512 digest engine (`windows/external/digest/sha256.h`, `sha512.h`)

A shallow embedding of the two header-only hash implementations.

Conventions of the embedding:

* a pointer argument is an `Option`: `none` is `NULL`, `some v` is a pointer to
  an object whose current contents are `v`; a function returns its return code
  together with the contents of the objects it may have written;
* a byte array is a `List Nat` (bytes are numbers below 256), `uint32_t`,
  `uint64_t` and `size_t` values are `Nat` with an explicit reduction modulo
  `2^32` / `2^64` wherever the C operation can wrap;
* `p + k` on a byte pointer is `List.drop k`, `memcpy` overwrites a slice;
* the local message schedule `m[64]` / `m[80]` of the compression function is the
  list of the entries written so far (the source writes `m[i]` in increasing order of
  `i` and reads only entries already written);
* a `while` loop is a function with a fuel argument; it is called with enough
  fuel for the loop condition, not the fuel, to end it;
* differences of `size_t` values are taken where the invariant `buffer_len <= block size`
  of a context keeps them from wrapping.
-/

namespace Digest

/-! ## Shared helpers -/

/-- The largest `uint64_t`. -/
def UINT64_MAX : Nat := 2 ^ 64 - 1

/-- The call `memcpy(dst + off, src, n)`: bytes `off .. off + n` of `dst` are replaced by the
first `n` bytes of `src`. -/
def memcpy (dst : List Nat) (off : Nat) (src : List Nat) (n : Nat) : List Nat :=
  dst.take off ++ src.take n ++ dst.drop (off + n)

/-- Big-endian bytes of a 32-bit word, as stored by the `(uint8_t)(x >> s)` casts. -/
def store_be32 (x : Nat) : List Nat :=
  [(x >>> 24) % 256, (x >>> 16) % 256, (x >>> 8) % 256, x % 256]

/-- Big-endian bytes of a 64-bit word, as stored by the `(uint8_t)(x >> s)` casts. -/
def store_be64 (x : Nat) : List Nat :=
  [(x >>> 56) % 256, (x >>> 48) % 256, (x >>> 40) % 256, (x >>> 32) % 256,
   (x >>> 24) % 256, (x >>> 16) % 256, (x >>> 8) % 256, x % 256]

/-- The table `static const char hex_chars[] = "0123456789abcdef"`. -/
def hex_chars : List Char := "0123456789abcdef".toList

/-- The C string held in a character buffer: the characters before the first NUL. -/
def cstr (buf : List Char) : String :=
  String.mk (buf.takeWhile (fun c => c ≠ Char.ofNat 0))

/-! ## SHA-256 (`sha256.h`) -/

def SHA256_SUCCESS : Nat := 0
def SHA256_ERROR_NULL_POINTER : Nat := 1
def SHA256_ERROR_OVERFLOW : Nat := 2
def SHA256_BLOCK_SIZE : Nat := 64
def SHA256_DIGEST_SIZE : Nat := 32

/-- The context `SHA256_CTX`: `state[8]`, `count`, `buffer[64]`, `buffer_len`. -/
structure SHA256_CTX where
  state : List Nat
  count : Nat
  buffer : List Nat
  buffer_len : Nat
deriving DecidableEq

def SHA256_ROTR (x n : Nat) : Nat := (x >>> n) ||| ((x <<< (32 - n)) % 2 ^ 32)
def SHA256_CH (x y z : Nat) : Nat := (x &&& y) ^^^ ((x ^^^ 0xFFFFFFFF) &&& z)
def SHA256_MAJ (x y z : Nat) : Nat := (x &&& y) ^^^ (x &&& z) ^^^ (y &&& z)
def SHA256_EP0 (x : Nat) : Nat := SHA256_ROTR x 2 ^^^ SHA256_ROTR x 13 ^^^ SHA256_ROTR x 22
def SHA256_EP1 (x : Nat) : Nat := SHA256_ROTR x 6 ^^^ SHA256_ROTR x 11 ^^^ SHA256_ROTR x 25
def SHA256_SIG0 (x : Nat) : Nat := SHA256_ROTR x 7 ^^^ SHA256_ROTR x 18 ^^^ (x >>> 3)
def SHA256_SIG1 (x : Nat) : Nat := SHA256_ROTR x 17 ^^^ SHA256_ROTR x 19 ^^^ (x >>> 10)

/-- The round constants `SHA256_K[64]`. -/
def SHA256_K : List Nat := [
  0x428A2F98, 0x71374491, 0xB5C0FBCF, 0xE9B5DBA5, 0x3956C25B, 0x59F111F1, 0x923F82A4, 0xAB1C5ED5,
  0xD807AA98, 0x12835B01, 0x243185BE, 0x550C7DC3, 0x72BE5D74, 0x80DEB1FE, 0x9BDC06A7, 0xC19BF174,
  0xE49B69C1, 0xEFBE4786, 0x0FC19DC6, 0x240CA1CC, 0x2DE92C6F, 0x4A7484AA, 0x5CB0A9DC, 0x76F988DA,
  0x983E5152, 0xA831C66D, 0xB00327C8, 0xBF597FC7, 0xC6E00BF3, 0xD5A79147, 0x06CA6351, 0x14292967,
  0x27B70A85, 0x2E1B2138, 0x4D2C6DFC, 0x53380D13, 0x650A7354, 0x766A0ABB, 0x81C2C92E, 0x92722C85,
  0xA2BFE8A1, 0xA81A664B, 0xC24B8B70, 0xC76C51A3, 0xD192E819, 0xD6990624, 0xF40E3585, 0x106AA070,
  0x19A4C116, 0x1E376C08, 0x2748774C, 0x34B0BCB5, 0x391C0CB3, 0x4ED8AA4A, 0x5B9CCA4F, 0x682E6FF3,
  0x748F82EE, 0x78A5636F, 0x84C87814, 0x8CC70208, 0x90BEFFFA, 0xA4506CEB, 0xBEF9A3F7, 0xC67178F2]

/-- First loop of `sha256_transform`: `m[i]` for `i < 16` is the big-endian word at
`data[4 i .. 4 i + 3]`. The result is the written prefix `m[0 .. 16)`. -/
def sha256_schedule_load (data : List Nat) : List Nat :=
  (List.range 16).map (fun i =>
    ((data.getD (i * 4 + 0) 0 <<< 24) % 2 ^ 32) |||
    ((data.getD (i * 4 + 1) 0 <<< 16) % 2 ^ 32) |||
    ((data.getD (i * 4 + 2) 0 <<< 8) % 2 ^ 32) |||
    (data.getD (i * 4 + 3) 0))

/-- Second loop of `sha256_transform`: the store `m[i] = ...` for `16 <= i < 64` extends the
written prefix `m[0 .. i)` by one word. -/
def sha256_schedule_expand (m : List Nat) : List Nat :=
  (List.range' 16 48).foldl (fun m i =>
    m ++ [(SHA256_SIG1 (m.getD (i - 2) 0) + m.getD (i - 7) 0 +
           SHA256_SIG0 (m.getD (i - 15) 0) + m.getD (i - 16) 0) % 2 ^ 32]) m

/-- One iteration of the main compression loop on the working variables
`(a, b, c, d, e, f, g, h)`. -/
def sha256_round (m : List Nat)
    (w : Nat × Nat × Nat × Nat × Nat × Nat × Nat × Nat) (i : Nat) :
    Nat × Nat × Nat × Nat × Nat × Nat × Nat × Nat :=
  match w with
  | (a, b, c, d, e, f, g, h) =>
    let t1 := (h + SHA256_EP1 e + SHA256_CH e f g + SHA256_K.getD i 0 + m.getD i 0) % 2 ^ 32
    let t2 := (SHA256_EP0 a + SHA256_MAJ a b c) % 2 ^ 32
    ((t1 + t2) % 2 ^ 32, a, b, c, (d + t1) % 2 ^ 32, e, f, g)

/-- The main loop and the final additions of `sha256_transform`: run the 64 rounds on the
working variables seeded from `state` and add them back into the state words. -/
def sha256_rounds (m : List Nat) (state : List Nat) : List Nat :=
  let s := fun i => state.getD i 0
  let w := (List.range 64).foldl (sha256_round m) (s 0, s 1, s 2, s 3, s 4, s 5, s 6, s 7)
  let a := w.1
  let b := w.2.1
  let c := w.2.2.1
  let d := w.2.2.2.1
  let e := w.2.2.2.2.1
  let f := w.2.2.2.2.2.1
  let g := w.2.2.2.2.2.2.1
  let h := w.2.2.2.2.2.2.2
  [(s 0 + a) % 2 ^ 32, (s 1 + b) % 2 ^ 32, (s 2 + c) % 2 ^ 32, (s 3 + d) % 2 ^ 32,
   (s 4 + e) % 2 ^ 32, (s 5 + f) % 2 ^ 32, (s 6 + g) % 2 ^ 32, (s 7 + h) % 2 ^ 32]

/-- The function `sha256_transform(ctx, data)`: compress one 64-byte block into
`ctx->state`. The closing `memset` of the local array `m` changes nothing that the function
returns and is not represented. -/
def sha256_transform (ctx : SHA256_CTX) (data : List Nat) : SHA256_CTX :=
  let m := sha256_schedule_expand (sha256_schedule_load data)
  { ctx with state := sha256_rounds m ctx.state }

/-- The eight initial hash values that `sha256_init` assigns to `state[0 .. 8)`. -/
def SHA256_H0 : List Nat :=
  [0x6A09E667, 0xBB67AE85, 0x3C6EF372, 0xA54FF53A, 0x510E527F, 0x9B05688C, 0x1F83D9AB, 0x5BE0CD19]

/-- The function `sha256_init(ctx)`. The buffer bytes are not written. -/
def sha256_init (ctx : Option SHA256_CTX) : Nat × Option SHA256_CTX :=
  match ctx with
  | none => (SHA256_ERROR_NULL_POINTER, none)
  | some c => (SHA256_SUCCESS, some { c with state := SHA256_H0, count := 0, buffer_len := 0 })

/-- The block `if (ctx->buffer_len > 0) { ... }` of `sha256_update`: top up a partly filled
buffer and compress it when it becomes full. Returns the context, the advanced input pointer
and the remaining length. -/
def sha256_update_fill (ctx : SHA256_CTX) (input : List Nat) (remaining : Nat) :
    SHA256_CTX × List Nat × Nat :=
  if ctx.buffer_len > 0 then
    let space_in_buffer := SHA256_BLOCK_SIZE - ctx.buffer_len
    let to_copy := if remaining < space_in_buffer then remaining else space_in_buffer
    let c1 := { ctx with
      buffer := memcpy ctx.buffer ctx.buffer_len input to_copy,
      buffer_len := ctx.buffer_len + to_copy }
    let c2 := if c1.buffer_len = SHA256_BLOCK_SIZE then
        { sha256_transform c1 c1.buffer with buffer_len := 0 }
      else c1
    (c2, input.drop to_copy, remaining - to_copy)
  else (ctx, input, remaining)

/-- The loop `while (remaining >= SHA256_BLOCK_SIZE) { ... }` of `sha256_update`. -/
def sha256_update_loop : Nat → SHA256_CTX → List Nat → Nat → SHA256_CTX × List Nat × Nat
  | 0, ctx, input, remaining => (ctx, input, remaining)
  | fuel + 1, ctx, input, remaining =>
    if remaining ≥ SHA256_BLOCK_SIZE then
      sha256_update_loop fuel (sha256_transform ctx (input.take SHA256_BLOCK_SIZE))
        (input.drop SHA256_BLOCK_SIZE) (remaining - SHA256_BLOCK_SIZE)
    else (ctx, input, remaining)

/-- The block `if (remaining > 0) { ... }` of `sha256_update`: keep the final partial block
in the buffer. -/
def sha256_update_store (ctx : SHA256_CTX) (input : List Nat) (remaining : Nat) : SHA256_CTX :=
  if remaining > 0 then
    { ctx with
      buffer := memcpy ctx.buffer ctx.buffer_len input remaining,
      buffer_len := ctx.buffer_len + remaining }
  else ctx

/-- The part of `sha256_update` that follows the counter update: fill the buffer, compress
the complete blocks of the input, store the rest. -/
def sha256_update_data (ctx : SHA256_CTX) (input : List Nat) (len : Nat) : SHA256_CTX :=
  let r2 := sha256_update_fill ctx input len
  let r3 := sha256_update_loop r2.2.2 r2.1 r2.2.1 r2.2.2
  sha256_update_store r3.1 r3.2.1 r3.2.2

/-- The function `sha256_update(ctx, data, len)`. -/
def sha256_update (ctx : Option SHA256_CTX) (data : Option (List Nat)) (len : Nat) :
    Nat × Option SHA256_CTX :=
  match ctx with
  | none => (SHA256_ERROR_NULL_POINTER, none)
  | some c =>
    if len = 0 then (SHA256_SUCCESS, some c)
    else
      match data with
      | none => (SHA256_ERROR_NULL_POINTER, some c)
      | some input =>
        if c.count > UINT64_MAX - len then (SHA256_ERROR_OVERFLOW, some c)
        else if (c.count + len) % 2 ^ 64 > 0x1FFFFFFFFFFFFFFF then
          (SHA256_ERROR_OVERFLOW, some c)
        else
          let c1 := { c with count := (c.count + len) % 2 ^ 64 }
          (SHA256_SUCCESS, some (sha256_update_data c1 input len))

/-- The padding length `pad_len` computed by `sha256_final`. -/
def sha256_pad_len (buffer_len : Nat) : Nat :=
  if buffer_len < 56 then 56 - buffer_len
  else SHA256_BLOCK_SIZE + 56 - buffer_len

/-- The written part `padding[0 .. pad_len + 8)` of the scratch array of `sha256_final`:
`0x80`, `pad_len - 1` zero bytes, then the big-endian 64-bit `bit_count`. -/
def sha256_padding (pad_len bit_count : Nat) : List Nat :=
  [0x80] ++ List.replicate (pad_len - 1) 0 ++ store_be64 bit_count

/-- The loop `while (i < pad_len + 8) { ... }` of `sha256_final`; `total` is `pad_len + 8`. -/
def sha256_final_loop : Nat → SHA256_CTX → List Nat → Nat → Nat → SHA256_CTX
  | 0, ctx, _, _, _ => ctx
  | fuel + 1, ctx, padding, total, i =>
    if i < total then
      let space_in_buffer := SHA256_BLOCK_SIZE - ctx.buffer_len
      let to_copy := if total - i < space_in_buffer then total - i else space_in_buffer
      let c1 := { ctx with
        buffer := memcpy ctx.buffer ctx.buffer_len (padding.drop i) to_copy,
        buffer_len := ctx.buffer_len + to_copy }
      let c2 := if c1.buffer_len = SHA256_BLOCK_SIZE then
          { sha256_transform c1 c1.buffer with buffer_len := 0 }
        else c1
      sha256_final_loop fuel c2 padding total (i + to_copy)
    else ctx

/-- The context after `memset(ctx, 0, sizeof(SHA256_CTX))`. -/
def sha256_zero_ctx : SHA256_CTX :=
  { state := List.replicate 8 0, count := 0,
    buffer := List.replicate SHA256_BLOCK_SIZE 0, buffer_len := 0 }

/-- The function `sha256_final(ctx, hash)`. Returns the code, the context and the output
buffer. -/
def sha256_final (ctx : Option SHA256_CTX) (hash : Option (List Nat)) :
    Nat × Option SHA256_CTX × Option (List Nat) :=
  match ctx, hash with
  | none, _ => (SHA256_ERROR_NULL_POINTER, ctx, hash)
  | _, none => (SHA256_ERROR_NULL_POINTER, ctx, hash)
  | some c, some out =>
    let bit_count := (c.count * 8) % 2 ^ 64
    let pad_len := sha256_pad_len c.buffer_len
    let padding := sha256_padding pad_len bit_count
    let c1 := sha256_final_loop (pad_len + 8) c padding (pad_len + 8) 0
    let digest := (List.range 8).flatMap (fun i => store_be32 (c1.state.getD i 0))
    (SHA256_SUCCESS, some sha256_zero_ctx, some (digest ++ out.drop SHA256_DIGEST_SIZE))

/-- The function `sha256(data, len, hash)`. Its local `SHA256_CTX ctx` is not initialised by its
declaration, so the prior contents `stack` of that memory are an argument. Returns the code,
the final contents of the local context and the output buffer. -/
def sha256 (stack : SHA256_CTX) (data : Option (List Nat)) (len : Nat)
    (hash : Option (List Nat)) : Nat × SHA256_CTX × Option (List Nat) :=
  match sha256_init (some stack) with
  | (ret, none) => (ret, stack, hash)
  | (ret, some c0) =>
    if ret ≠ SHA256_SUCCESS then (ret, c0, hash)
    else
      match sha256_update (some c0) data len with
      | (ret, none) => (ret, c0, hash)
      | (ret, some c1) =>
        if ret ≠ SHA256_SUCCESS then (ret, sha256_zero_ctx, hash)
        else
          match sha256_final (some c1) hash with
          | (ret, none, out) => (ret, c1, out)
          | (ret, some c2, out) => (ret, c2, out)

/-- The function `sha256_to_hex(hash, hex)`. Returns the code and the character buffer. -/
def sha256_to_hex (hash : Option (List Nat)) (hex : Option (List Char)) :
    Nat × Option (List Char) :=
  match hash, hex with
  | none, _ => (SHA256_ERROR_NULL_POINTER, hex)
  | _, none => (SHA256_ERROR_NULL_POINTER, hex)
  | some h, some buf =>
    (SHA256_SUCCESS,
      some ((List.range SHA256_DIGEST_SIZE).flatMap (fun i =>
          [hex_chars.getD ((h.getD i 0 >>> 4) &&& 0xf) (Char.ofNat 0),
           hex_chars.getD (h.getD i 0 &&& 0xf) (Char.ofNat 0)])
        ++ [Char.ofNat 0] ++ buf.drop 65))

/-- The function `sha256_compare(hash1, hash2)`; `result` is a `uint8_t`. -/
def sha256_compare (hash1 hash2 : Option (List Nat)) : Nat :=
  match hash1, hash2 with
  | none, _ => SHA256_ERROR_NULL_POINTER
  | _, none => SHA256_ERROR_NULL_POINTER
  | some h1, some h2 =>
    (List.range SHA256_DIGEST_SIZE).foldl
      (fun result i => (result ||| (h1.getD i 0 ^^^ h2.getD i 0)) % 256) 0

/-! ## SHA-512 (`sha512.h`) -/

def SHA512_SUCCESS : Nat := 0
def SHA512_ERROR_NULL_POINTER : Nat := 1
def SHA512_ERROR_OVERFLOW : Nat := 2
def SHA512_BLOCK_SIZE : Nat := 128
def SHA512_DIGEST_SIZE : Nat := 64
def SHA512_LENGTH_SIZE : Nat := 16
def SHA512_PAD_THRESHOLD : Nat := SHA512_BLOCK_SIZE - SHA512_LENGTH_SIZE

/-- The context `SHA512_CTX`: `state[8]`, `count[2]` as the pair `(count[0], count[1])`
(low word, high word), `buffer[128]`, `buffer_len`. -/
structure SHA512_CTX where
  state : List Nat
  count : Nat × Nat
  buffer : List Nat
  buffer_len : Nat
deriving DecidableEq

def SHA512_ROTR (x n : Nat) : Nat := (x >>> n) ||| ((x <<< (64 - n)) % 2 ^ 64)
def SHA512_CH (x y z : Nat) : Nat := (x &&& y) ^^^ ((x ^^^ 0xFFFFFFFFFFFFFFFF) &&& z)
def SHA512_MAJ (x y z : Nat) : Nat := (x &&& y) ^^^ (x &&& z) ^^^ (y &&& z)
def SHA512_EP0 (x : Nat) : Nat := SHA512_ROTR x 28 ^^^ SHA512_ROTR x 34 ^^^ SHA512_ROTR x 39
def SHA512_EP1 (x : Nat) : Nat := SHA512_ROTR x 14 ^^^ SHA512_ROTR x 18 ^^^ SHA512_ROTR x 41
def SHA512_SIG0 (x : Nat) : Nat := SHA512_ROTR x 1 ^^^ SHA512_ROTR x 8 ^^^ (x >>> 7)
def SHA512_SIG1 (x : Nat) : Nat := SHA512_ROTR x 19 ^^^ SHA512_ROTR x 61 ^^^ (x >>> 6)

/-- The round constants `SHA512_K[80]`. -/
def SHA512_K : List Nat := [
  0x428A2F98D728AE22, 0x7137449123EF65CD, 0xB5C0FBCFEC4D3B2F, 0xE9B5DBA58189DBBC,
  0x3956C25BF348B538, 0x59F111F1B605D019, 0x923F82A4AF194F9B, 0xAB1C5ED5DA6D8118,
  0xD807AA98A3030242, 0x12835B0145706FBE, 0x243185BE4EE4B28C, 0x550C7DC3D5FFB4E2,
  0x72BE5D74F27B896F, 0x80DEB1FE3B1696B1, 0x9BDC06A725C71235, 0xC19BF174CF692694,
  0xE49B69C19EF14AD2, 0xEFBE4786384F25E3, 0x0FC19DC68B8CD5B5, 0x240CA1CC77AC9C65,
  0x2DE92C6F592B0275, 0x4A7484AA6EA6E483, 0x5CB0A9DCBD41FBD4, 0x76F988DA831153B5,
  0x983E5152EE66DFAB, 0xA831C66D2DB43210, 0xB00327C898FB213F, 0xBF597FC7BEEF0EE4,
  0xC6E00BF33DA88FC2, 0xD5A79147930AA725, 0x06CA6351E003826F, 0x142929670A0E6E70,
  0x27B70A8546D22FFC, 0x2E1B21385C26C926, 0x4D2C6DFC5AC42AED, 0x53380D139D95B3DF,
  0x650A73548BAF63DE, 0x766A0ABB3C77B2A8, 0x81C2C92E47EDAEE6, 0x92722C851482353B,
  0xA2BFE8A14CF10364, 0xA81A664BBC423001, 0xC24B8B70D0F89791, 0xC76C51A30654BE30,
  0xD192E819D6EF5218, 0xD69906245565A910, 0xF40E35855771202A, 0x106AA07032BBD1B8,
  0x19A4C116B8D2D0C8, 0x1E376C085141AB53, 0x2748774CDF8EEB99, 0x34B0BCB5E19B48A8,
  0x391C0CB3C5C95A63, 0x4ED8AA4AE3418ACB, 0x5B9CCA4F7763E373, 0x682E6FF3D6B2B8A3,
  0x748F82EE5DEFB2FC, 0x78A5636F43172F60, 0x84C87814A1F0AB72, 0x8CC702081A6439EC,
  0x90BEFFFA23631E28, 0xA4506CEBDE82BDE9, 0xBEF9A3F7B2C67915, 0xC67178F2E372532B,
  0xCA273ECEEA26619C, 0xD186B8C721C0C207, 0xEADA7DD6CDE0EB1E, 0xF57D4F7FEE6ED178,
  0x06F067AA72176FBA, 0x0A637DC5A2C898A6, 0x113F9804BEF90DAE, 0x1B710B35131C471B,
  0x28DB77F523047D84, 0x32CAAB7B40C72493, 0x3C9EBE0A15C9BEBC, 0x431D67C49C100D4C,
  0x4CC5D4BECB3E42B6, 0x597F299CFC657E2A, 0x5FCB6FAB3AD6FAEC, 0x6C44198C4A475817]

/-- First loop of `sha512_transform`: `m[i]` for `i < 16` is the big-endian word at
`data[8 i .. 8 i + 7]`. The result is the written prefix `m[0 .. 16)`. -/
def sha512_schedule_load (data : List Nat) : List Nat :=
  (List.range 16).map (fun i =>
    ((data.getD (i * 8 + 0) 0 <<< 56) % 2 ^ 64) |||
    ((data.getD (i * 8 + 1) 0 <<< 48) % 2 ^ 64) |||
    ((data.getD (i * 8 + 2) 0 <<< 40) % 2 ^ 64) |||
    ((data.getD (i * 8 + 3) 0 <<< 32) % 2 ^ 64) |||
    ((data.getD (i * 8 + 4) 0 <<< 24) % 2 ^ 64) |||
    ((data.getD (i * 8 + 5) 0 <<< 16) % 2 ^ 64) |||
    ((data.getD (i * 8 + 6) 0 <<< 8) % 2 ^ 64) |||
    (data.getD (i * 8 + 7) 0))

/-- Second loop of `sha512_transform`: the store `m[i] = ...` for `16 <= i < 80` extends the
written prefix `m[0 .. i)` by one word. -/
def sha512_schedule_expand (m : List Nat) : List Nat :=
  (List.range' 16 64).foldl (fun m i =>
    m ++ [(SHA512_SIG1 (m.getD (i - 2) 0) + m.getD (i - 7) 0 +
           SHA512_SIG0 (m.getD (i - 15) 0) + m.getD (i - 16) 0) % 2 ^ 64]) m

/-- One iteration of the main compression loop on the working variables
`(a, b, c, d, e, f, g, h)`. -/
def sha512_round (m : List Nat)
    (w : Nat × Nat × Nat × Nat × Nat × Nat × Nat × Nat) (i : Nat) :
    Nat × Nat × Nat × Nat × Nat × Nat × Nat × Nat :=
  match w with
  | (a, b, c, d, e, f, g, h) =>
    let t1 := (h + SHA512_EP1 e + SHA512_CH e f g + SHA512_K.getD i 0 + m.getD i 0) % 2 ^ 64
    let t2 := (SHA512_EP0 a + SHA512_MAJ a b c) % 2 ^ 64
    ((t1 + t2) % 2 ^ 64, a, b, c, (d + t1) % 2 ^ 64, e, f, g)

/-- The main loop and the final additions of `sha512_transform`: run the 80 rounds on the
working variables seeded from `state` and add them back into the state words. -/
def sha512_rounds (m : List Nat) (state : List Nat) : List Nat :=
  let s := fun i => state.getD i 0
  let w := (List.range 80).foldl (sha512_round m) (s 0, s 1, s 2, s 3, s 4, s 5, s 6, s 7)
  let a := w.1
  let b := w.2.1
  let c := w.2.2.1
  let d := w.2.2.2.1
  let e := w.2.2.2.2.1
  let f := w.2.2.2.2.2.1
  let g := w.2.2.2.2.2.2.1
  let h := w.2.2.2.2.2.2.2
  [(s 0 + a) % 2 ^ 64, (s 1 + b) % 2 ^ 64, (s 2 + c) % 2 ^ 64, (s 3 + d) % 2 ^ 64,
   (s 4 + e) % 2 ^ 64, (s 5 + f) % 2 ^ 64, (s 6 + g) % 2 ^ 64, (s 7 + h) % 2 ^ 64]

/-- The function `sha512_transform(ctx, data)`: compress one 128-byte block into
`ctx->state`. The closing `memset` of the local array `m` changes nothing that the function
returns and is not represented. -/
def sha512_transform (ctx : SHA512_CTX) (data : List Nat) : SHA512_CTX :=
  let m := sha512_schedule_expand (sha512_schedule_load data)
  { ctx with state := sha512_rounds m ctx.state }

/-- The eight initial hash values that `sha512_init` assigns to `state[0 .. 8)`. -/
def SHA512_H0 : List Nat :=
  [0x6A09E667F3BCC908, 0xBB67AE8584CAA73B, 0x3C6EF372FE94F82B, 0xA54FF53A5F1D36F1,
   0x510E527FADE682D1, 0x9B05688C2B3E6C1F, 0x1F83D9ABFB41BD6B, 0x5BE0CD19137E2179]

/-- The function `sha512_init(ctx)`. The buffer bytes are not written. -/
def sha512_init (ctx : Option SHA512_CTX) : Nat × Option SHA512_CTX :=
  match ctx with
  | none => (SHA512_ERROR_NULL_POINTER, none)
  | some c =>
    (SHA512_SUCCESS, some { c with state := SHA512_H0, count := (0, 0), buffer_len := 0 })

/-- The block `if (ctx->buffer_len > 0) { ... }` of `sha512_update`: top up a partly filled
buffer and compress it when it becomes full. Returns the context, the advanced input pointer
and the remaining length. -/
def sha512_update_fill (ctx : SHA512_CTX) (input : List Nat) (remaining : Nat) :
    SHA512_CTX × List Nat × Nat :=
  if ctx.buffer_len > 0 then
    let space_in_buffer := SHA512_BLOCK_SIZE - ctx.buffer_len
    let to_copy := if remaining < space_in_buffer then remaining else space_in_buffer
    let c1 := { ctx with
      buffer := memcpy ctx.buffer ctx.buffer_len input to_copy,
      buffer_len := ctx.buffer_len + to_copy }
    let c2 := if c1.buffer_len = SHA512_BLOCK_SIZE then
        { sha512_transform c1 c1.buffer with buffer_len := 0 }
      else c1
    (c2, input.drop to_copy, remaining - to_copy)
  else (ctx, input, remaining)

/-- The loop `while (remaining >= SHA512_BLOCK_SIZE) { ... }` of `sha512_update`. -/
def sha512_update_loop : Nat → SHA512_CTX → List Nat → Nat → SHA512_CTX × List Nat × Nat
  | 0, ctx, input, remaining => (ctx, input, remaining)
  | fuel + 1, ctx, input, remaining =>
    if remaining ≥ SHA512_BLOCK_SIZE then
      sha512_update_loop fuel (sha512_transform ctx (input.take SHA512_BLOCK_SIZE))
        (input.drop SHA512_BLOCK_SIZE) (remaining - SHA512_BLOCK_SIZE)
    else (ctx, input, remaining)

/-- The block `if (remaining > 0) { ... }` of `sha512_update`: keep the final partial block
in the buffer. -/
def sha512_update_store (ctx : SHA512_CTX) (input : List Nat) (remaining : Nat) : SHA512_CTX :=
  if remaining > 0 then
    { ctx with
      buffer := memcpy ctx.buffer ctx.buffer_len input remaining,
      buffer_len := ctx.buffer_len + remaining }
  else ctx

/-- The part of `sha512_update` that follows the counter update: fill the buffer, compress
the complete blocks of the input, store the rest. -/
def sha512_update_data (ctx : SHA512_CTX) (input : List Nat) (len : Nat) : SHA512_CTX :=
  let r2 := sha512_update_fill ctx input len
  let r3 := sha512_update_loop r2.2.2 r2.1 r2.2.1 r2.2.2
  sha512_update_store r3.1 r3.2.1 r3.2.2

/-- The function `sha512_update(ctx, data, len)`. The low counter word is stored before the
overflow check on the high word, so the context returned with `SHA512_ERROR_OVERFLOW` carries
the new `count[0]`. -/
def sha512_update (ctx : Option SHA512_CTX) (data : Option (List Nat)) (len : Nat) :
    Nat × Option SHA512_CTX :=
  match ctx with
  | none => (SHA512_ERROR_NULL_POINTER, none)
  | some c =>
    if len = 0 then (SHA512_SUCCESS, some c)
    else
      match data with
      | none => (SHA512_ERROR_NULL_POINTER, some c)
      | some input =>
        let old_count_low := c.count.1
        let c0 := { c with count := ((c.count.1 + (len <<< 3) % 2 ^ 64) % 2 ^ 64, c.count.2) }
        let high_bits := if len ≥ 1 <<< 61 then len >>> 61 else 0
        let carry := if c0.count.1 < old_count_low then 1 else 0
        let total_to_add := (carry + high_bits) % 2 ^ 64
        if total_to_add > 0 ∧ c0.count.2 > UINT64_MAX - total_to_add then
          (SHA512_ERROR_OVERFLOW, some c0)
        else
          let c1 := if total_to_add > 0 then
              { c0 with count := (c0.count.1, (c0.count.2 + total_to_add) % 2 ^ 64) }
            else c0
          (SHA512_SUCCESS, some (sha512_update_data c1 input len))

/-- The padding length `pad_len` computed by `sha512_final`. -/
def sha512_pad_len (buffer_len : Nat) : Nat :=
  if buffer_len < SHA512_PAD_THRESHOLD then SHA512_PAD_THRESHOLD - buffer_len
  else SHA512_BLOCK_SIZE + SHA512_PAD_THRESHOLD - buffer_len

/-- The written part `padding[0 .. pad_len + 16)` of the scratch array of `sha512_final`:
`0x80`, `pad_len - 1` zero bytes, then `count[1]` and `count[0]`, each big-endian. -/
def sha512_padding (pad_len : Nat) (count : Nat × Nat) : List Nat :=
  [0x80] ++ List.replicate (pad_len - 1) 0 ++ store_be64 count.2 ++ store_be64 count.1

/-- The loop `while (i < pad_len + SHA512_LENGTH_SIZE) { ... }` of `sha512_final`; `total` is
`pad_len + SHA512_LENGTH_SIZE`. -/
def sha512_final_loop : Nat → SHA512_CTX → List Nat → Nat → Nat → SHA512_CTX
  | 0, ctx, _, _, _ => ctx
  | fuel + 1, ctx, padding, total, i =>
    if i < total then
      let space_in_buffer := SHA512_BLOCK_SIZE - ctx.buffer_len
      let to_copy := if total - i < space_in_buffer then total - i else space_in_buffer
      let c1 := { ctx with
        buffer := memcpy ctx.buffer ctx.buffer_len (padding.drop i) to_copy,
        buffer_len := ctx.buffer_len + to_copy }
      let c2 := if c1.buffer_len = SHA512_BLOCK_SIZE then
          { sha512_transform c1 c1.buffer with buffer_len := 0 }
        else c1
      sha512_final_loop fuel c2 padding total (i + to_copy)
    else ctx

/-- The context after `memset(ctx, 0, sizeof(SHA512_CTX))`. -/
def sha512_zero_ctx : SHA512_CTX :=
  { state := List.replicate 8 0, count := (0, 0),
    buffer := List.replicate SHA512_BLOCK_SIZE 0, buffer_len := 0 }

/-- The function `sha512_final(ctx, hash)`. Returns the code, the context and the output
buffer. -/
def sha512_final (ctx : Option SHA512_CTX) (hash : Option (List Nat)) :
    Nat × Option SHA512_CTX × Option (List Nat) :=
  match ctx, hash with
  | none, _ => (SHA512_ERROR_NULL_POINTER, ctx, hash)
  | _, none => (SHA512_ERROR_NULL_POINTER, ctx, hash)
  | some c, some out =>
    let pad_len := sha512_pad_len c.buffer_len
    let padding := sha512_padding pad_len c.count
    let c1 := sha512_final_loop (pad_len + SHA512_LENGTH_SIZE) c padding
      (pad_len + SHA512_LENGTH_SIZE) 0
    let digest := (List.range 8).flatMap (fun i => store_be64 (c1.state.getD i 0))
    (SHA512_SUCCESS, some sha512_zero_ctx, some (digest ++ out.drop SHA512_DIGEST_SIZE))

/-- The function `sha512(data, len, hash)`. Its local `SHA512_CTX ctx` is not initialised by its
declaration, so the prior contents `stack` of that memory are an argument. Returns the code,
the final contents of the local context and the output buffer. -/
def sha512 (stack : SHA512_CTX) (data : Option (List Nat)) (len : Nat)
    (hash : Option (List Nat)) : Nat × SHA512_CTX × Option (List Nat) :=
  match sha512_init (some stack) with
  | (ret, none) => (ret, stack, hash)
  | (ret, some c0) =>
    if ret ≠ SHA512_SUCCESS then (ret, c0, hash)
    else
      match sha512_update (some c0) data len with
      | (ret, none) => (ret, c0, hash)
      | (ret, some c1) =>
        if ret ≠ SHA512_SUCCESS then (ret, sha512_zero_ctx, hash)
        else
          match sha512_final (some c1) hash with
          | (ret, none, out) => (ret, c1, out)
          | (ret, some c2, out) => (ret, c2, out)

/-- The function `sha512_to_hex(hash, hex)`. Returns the code and the character buffer. -/
def sha512_to_hex (hash : Option (List Nat)) (hex : Option (List Char)) :
    Nat × Option (List Char) :=
  match hash, hex with
  | none, _ => (SHA512_ERROR_NULL_POINTER, hex)
  | _, none => (SHA512_ERROR_NULL_POINTER, hex)
  | some h, some buf =>
    (SHA512_SUCCESS,
      some ((List.range SHA512_DIGEST_SIZE).flatMap (fun i =>
          [hex_chars.getD ((h.getD i 0 >>> 4) &&& 0xf) (Char.ofNat 0),
           hex_chars.getD (h.getD i 0 &&& 0xf) (Char.ofNat 0)])
        ++ [Char.ofNat 0] ++ buf.drop 129))

/-- The function `sha512_compare(hash1, hash2)`; `result` is a `uint8_t`, normalised to 0 or 1
on return. -/
def sha512_compare (hash1 hash2 : Option (List Nat)) : Nat :=
  match hash1, hash2 with
  | none, _ => SHA512_ERROR_NULL_POINTER
  | _, none => SHA512_ERROR_NULL_POINTER
  | some h1, some h2 =>
    if (List.range SHA512_DIGEST_SIZE).foldl
        (fun result i => (result ||| (h1.getD i 0 ^^^ h2.getD i 0)) % 256) 0 ≠ 0
    then 1 else 0

/-! ## Reference definitions used by the statements -/

/-- The `w` big-endian bytes of the number `x` (most significant byte first). -/
def be_bytes (w x : Nat) : List Nat :=
  (List.range w).map (fun i => x / 256 ^ (w - 1 - i) % 256)

/-- The first `n` consecutive `B`-byte blocks of a byte string. -/
def blocks (B : Nat) : Nat → List Nat → List (List Nat)
  | 0, _ => []
  | n + 1, l => l.take B :: blocks B n (l.drop B)

/-- The state reached from `st` by folding the compression function `f` over the complete
`B`-byte blocks of `l`. -/
def absorb (B : Nat) (f : List Nat → List Nat → List Nat) (st : List Nat) (l : List Nat) :
    List Nat :=
  (blocks B (l.length / B) l).foldl f st

/-- The bytes of `l` that follow its last complete `B`-byte block. -/
def tail_bytes (B : Nat) (l : List Nat) : List Nat :=
  l.drop (B * (l.length / B))

/-- The effect of `sha256_transform` on the state words alone. -/
def sha256_compress (st : List Nat) (data : List Nat) : List Nat :=
  (sha256_transform { state := st, count := 0, buffer := [], buffer_len := 0 } data).state

/-- The effect of `sha512_transform` on the state words alone. -/
def sha512_compress (st : List Nat) (data : List Nat) : List Nat :=
  (sha512_transform { state := st, count := (0, 0), buffer := [], buffer_len := 0 } data).state

/-- The bytes of a SHA-256 context that are waiting in its buffer. -/
def sha256_pending (c : SHA256_CTX) : List Nat := c.buffer.take c.buffer_len

/-- The bytes of a SHA-512 context that are waiting in its buffer. -/
def sha512_pending (c : SHA512_CTX) : List Nat := c.buffer.take c.buffer_len

/-- FIPS 180-4 padded message for the 64-byte-block family with `k` zero bytes:
`m || 0x80 || 0x00^k || be64(8 * n)`. -/
def sha256_fips_padded (m : List Nat) (k : Nat) : List Nat :=
  m ++ [0x80] ++ List.replicate k 0 ++ be_bytes 8 (8 * m.length)

/-- FIPS 180-4 SHA-256 of `m` with `k` zero bytes of padding: fold `sha256_transform` from the
initial constants over the 64-byte blocks of the padded message and serialise the eight state
words big-endian. -/
def sha256_fips (m : List Nat) (k : Nat) : List Nat :=
  ((blocks 64 ((sha256_fips_padded m k).length / 64) (sha256_fips_padded m k)).foldl
    sha256_transform { state := SHA256_H0, count := 0, buffer := [], buffer_len := 0 }).state.flatMap
    (be_bytes 4)

/-- FIPS 180-4 padded message for the 128-byte-block family with `k` zero bytes:
`m || 0x80 || 0x00^k || be128(8 * n)`. -/
def sha512_fips_padded (m : List Nat) (k : Nat) : List Nat :=
  m ++ [0x80] ++ List.replicate k 0 ++ be_bytes 16 (8 * m.length)

/-- FIPS 180-4 SHA-512 of `m` with `k` zero bytes of padding: fold `sha512_transform` from the
initial constants over the 128-byte blocks of the padded message and serialise the eight state
words big-endian. -/
def sha512_fips (m : List Nat) (k : Nat) : List Nat :=
  ((blocks 128 ((sha512_fips_padded m k).length / 128) (sha512_fips_padded m k)).foldl
    sha512_transform { state := SHA512_H0, count := (0, 0), buffer := [], buffer_len := 0 }).state.flatMap
    (be_bytes 8)

/-- Calling `sha256_update` once per chunk, in order. Returns the return codes of the calls and
the final context. -/
def sha256_update_chunks (ctx : Option SHA256_CTX) : List (List Nat) → List Nat × Option SHA256_CTX
  | [] => ([], ctx)
  | ch :: rest =>
    ((sha256_update ctx (some ch) ch.length).1 ::
        (sha256_update_chunks (sha256_update ctx (some ch) ch.length).2 rest).1,
      (sha256_update_chunks (sha256_update ctx (some ch) ch.length).2 rest).2)

/-- Calling `sha512_update` once per chunk, in order. Returns the return codes of the calls and
the final context. -/
def sha512_update_chunks (ctx : Option SHA512_CTX) : List (List Nat) → List Nat × Option SHA512_CTX
  | [] => ([], ctx)
  | ch :: rest =>
    ((sha512_update ctx (some ch) ch.length).1 ::
        (sha512_update_chunks (sha512_update ctx (some ch) ch.length).2 rest).1,
      (sha512_update_chunks (sha512_update ctx (some ch) ch.length).2 rest).2)

/-- The composed protocol of the header's usage comment on a context `ctx` of the caller:
`sha256_init`, one `sha256_update`, `sha256_final`, each call made only if the previous one
returned success. Returns the code of the last call made and the output buffer. -/
def sha256_protocol (ctx : SHA256_CTX) (data : Option (List Nat)) (len : Nat)
    (hash : Option (List Nat)) : Nat × Option (List Nat) :=
  if (sha256_init (some ctx)).1 ≠ SHA256_SUCCESS then ((sha256_init (some ctx)).1, hash)
  else if (sha256_update (sha256_init (some ctx)).2 data len).1 ≠ SHA256_SUCCESS then
    ((sha256_update (sha256_init (some ctx)).2 data len).1, hash)
  else
    ((sha256_final (sha256_update (sha256_init (some ctx)).2 data len).2 hash).1,
      (sha256_final (sha256_update (sha256_init (some ctx)).2 data len).2 hash).2.2)

/-- The composed protocol of the header's usage comment on a context `ctx` of the caller:
`sha512_init`, one `sha512_update`, `sha512_final`, each call made only if the previous one
returned success. Returns the code of the last call made and the output buffer. -/
def sha512_protocol (ctx : SHA512_CTX) (data : Option (List Nat)) (len : Nat)
    (hash : Option (List Nat)) : Nat × Option (List Nat) :=
  if (sha512_init (some ctx)).1 ≠ SHA512_SUCCESS then ((sha512_init (some ctx)).1, hash)
  else if (sha512_update (sha512_init (some ctx)).2 data len).1 ≠ SHA512_SUCCESS then
    ((sha512_update (sha512_init (some ctx)).2 data len).1, hash)
  else
    ((sha512_final (sha512_update (sha512_init (some ctx)).2 data len).2 hash).1,
      (sha512_final (sha512_update (sha512_init (some ctx)).2 data len).2 hash).2.2)

/-- The SHA-256 message schedule kept newest word first: from the reversed prefix
`m[15], ..., m[0]` to the reversed schedule `m[63], ..., m[0]`. -/
def sha256_schedule_rev (r : List Nat) : List Nat :=
  (List.range' 16 48).foldl (fun r _ =>
    ((SHA256_SIG1 (r.getD 1 0) + r.getD 6 0 + SHA256_SIG0 (r.getD 14 0) + r.getD 15 0)
      % 2 ^ 32) :: r) r

/-- The compression function `sha256_compress` with the schedule computed newest word first. -/
def sha256_compress_fast (st : List Nat) (data : List Nat) : List Nat :=
  sha256_rounds (sha256_schedule_rev (sha256_schedule_load data).reverse).reverse st

/-- The SHA-512 message schedule kept newest word first: from the reversed prefix
`m[15], ..., m[0]` to the reversed schedule `m[79], ..., m[0]`. -/
def sha512_schedule_rev (r : List Nat) : List Nat :=
  (List.range' 16 64).foldl (fun r _ =>
    ((SHA512_SIG1 (r.getD 1 0) + r.getD 6 0 + SHA512_SIG0 (r.getD 14 0) + r.getD 15 0)
      % 2 ^ 64) :: r) r

/-- The compression function `sha512_compress` with the schedule computed newest word first. -/
def sha512_compress_fast (st : List Nat) (data : List Nat) : List Nat :=
  sha512_rounds (sha512_schedule_rev (sha512_schedule_load data).reverse).reverse st

/-- The digest bytes that `sha256_final` extracts from the state `st`. -/
def sha256_digest_bytes (st : List Nat) : List Nat :=
  (List.range 8).flatMap (fun i => store_be32 (st.getD i 0))

/-- The digest bytes that `sha512_final` extracts from the state `st`. -/
def sha512_digest_bytes (st : List Nat) : List Nat :=
  (List.range 8).flatMap (fun i => store_be64 (st.getD i 0))

/-- The invariant of a SHA-256 context that has absorbed the byte string `m` since
`sha256_init`. -/
def sha256_tracks (c : SHA256_CTX) (m : List Nat) : Prop :=
  c.buffer.length = 64 ∧ c.buffer_len = m.length % 64 ∧ c.count = m.length ∧
  c.state = absorb 64 sha256_compress SHA256_H0 m ∧ sha256_pending c = tail_bytes 64 m

/-- Closed form of the SHA-256 digest of `m` computed by the streaming functions: the buffered
tail of `m` followed by the padding written by `sha256_final` is absorbed after the complete
blocks of `m`. -/
def sha256_ref (m : List Nat) : List Nat :=
  sha256_digest_bytes (absorb 64 sha256_compress SHA256_H0
    (m ++ sha256_padding (sha256_pad_len (m.length % 64)) (8 * m.length)))

/-- The invariant of a SHA-512 context that has absorbed the byte string `m` since
`sha512_init`. -/
def sha512_tracks (c : SHA512_CTX) (m : List Nat) : Prop :=
  c.buffer.length = 128 ∧ c.buffer_len = m.length % 128 ∧
  c.count = ((8 * m.length) % 2 ^ 64, (8 * m.length) / 2 ^ 64) ∧
  c.state = absorb 128 sha512_compress SHA512_H0 m ∧ sha512_pending c = tail_bytes 128 m

/-- Closed form of the SHA-512 digest of `m` computed by the streaming functions: the buffered
tail of `m` followed by the padding written by `sha512_final` is absorbed after the complete
blocks of `m`. -/
def sha512_ref (m : List Nat) : List Nat :=
  sha512_digest_bytes (absorb 128 sha512_compress SHA512_H0
    (m ++ sha512_padding (sha512_pad_len (m.length % 128))
      ((8 * m.length) % 2 ^ 64, (8 * m.length) / 2 ^ 64)))

/-- Two SHA-256 contexts that agree on everything but the unused part of the buffer. -/
def sha256_sim (c c' : SHA256_CTX) : Prop :=
  c.state = c'.state ∧ c.count = c'.count ∧ c.buffer_len = c'.buffer_len ∧
  sha256_pending c = sha256_pending c' ∧ c.buffer.length = 64 ∧ c'.buffer.length = 64 ∧
  c.buffer_len < 64

/-- Two SHA-512 contexts that agree on everything but the unused part of the buffer. -/
def sha512_sim (c c' : SHA512_CTX) : Prop :=
  c.state = c'.state ∧ c.count = c'.count ∧ c.buffer_len = c'.buffer_len ∧
  sha512_pending c = sha512_pending c' ∧ c.buffer.length = 128 ∧ c'.buffer.length = 128 ∧
  c.buffer_len < 128

/-- Closed form of the SHA-256 digest of `m`, absorbed with `sha256_compress_fast`. -/
def sha256_ref_fast (m : List Nat) : List Nat :=
  (List.range 8).flatMap (fun i => store_be32
    ((absorb 64 sha256_compress_fast SHA256_H0
      (m ++ sha256_padding (sha256_pad_len (m.length % 64)) (8 * m.length))).getD i 0))

/-- Closed form of the SHA-512 digest of `m`, absorbed with `sha512_compress_fast`. -/
def sha512_ref_fast (m : List Nat) : List Nat :=
  (List.range 8).flatMap (fun i => store_be64
    ((absorb 128 sha512_compress_fast SHA512_H0
      (m ++ sha512_padding (sha512_pad_len (m.length % 128))
        ((8 * m.length) % 2 ^ 64, (8 * m.length) / 2 ^ 64))).getD i 0))

/-- The characters that `sha256_to_hex` writes before the terminating NUL. -/
def sha256_hex_chars (h : List Nat) : List Char :=
  (List.range SHA256_DIGEST_SIZE).flatMap (fun i =>
    [hex_chars.getD ((h.getD i 0 >>> 4) &&& 0xf) (Char.ofNat 0),
     hex_chars.getD (h.getD i 0 &&& 0xf) (Char.ofNat 0)])

/-- The characters that `sha512_to_hex` writes before the terminating NUL. -/
def sha512_hex_chars (h : List Nat) : List Char :=
  (List.range SHA512_DIGEST_SIZE).flatMap (fun i =>
    [hex_chars.getD ((h.getD i 0 >>> 4) &&& 0xf) (Char.ofNat 0),
     hex_chars.getD (h.getD i 0 &&& 0xf) (Char.ofNat 0)])

/-- The bytes of a C string literal of ASCII characters. -/
def c_bytes (s : String) : List Nat := s.toList.map Char.toNat

/-- The table `nist_vectors` of `tests/test.c`: `input`, `input_len`, `expected_sha256`,
`expected_sha512`. -/
def nist_vectors : List (String × Nat × String × String) := [
  ("", 0,
   "e3b0c44298fc1c149afbf4c8996fb92427ae41e4649b934ca495991b7852b855",
   "cf83e1357eefb8bdf1542850d66d8007d620e4050b5715dc83f4a921d36ce9ce47d0d13c5d85f2b0ff8318d2877eec2f63b931bd47417a81a538327af927da3e"),
  ("a", 1,
   "ca978112ca1bbdcafac231b39a23dc4da786eff8147c4e72b9807785afee48bb",
   "1f40fc92da241694750979ee6cf582f2d5d7d28e18335de05abc54d0560e0f5302860c652bf08d560252aa5e74210546f369fbbbce8c12cfc7957b2652fe9a75"),
  ("abc", 3,
   "ba7816bf8f01cfea414140de5dae2223b00361a396177a9cb410ff61f20015ad",
   "ddaf35a193617abacc417349ae20413112e6fa4e89a97ea20a9eeee64b55d39a2192992a274fc1a836ba3c23a3feebbd454d4423643ce80e2a9ac94fa54ca49f"),
  ("message digest", 14,
   "f7846f55cf23e14eebeab5b4e1550cad5b509e3348fbc4efa3a1413d393cb650",
   "107dbf389d9e9f71a3a95f6c055b9251bc5268c2be16d6c13492ea45b0199f3309e16455ab1e96118e8a905d5597b72038ddb372a89826046de66687bb420e7c"),
  ("abcdefghijklmnopqrstuvwxyz", 26,
   "71c480df93d6ae2f1efad1447c66c9525e316218cf51fc8d9ed832f2daf18b73",
   "4dbff86cc2ca1bae1e16468a05cb9881c97f1753bce3619034898faa1aabe429955a1bf8ec483d7421fe3c1646613a59ed5441fb0f321389f77f48a879c7b1f1"),
  ("ABCDEFGHIJKLMNOPQRSTUVWXYZabcdefghijklmnopqrstuvwxyz0123456789", 62,
   "db4bfcbd4da0cd85a60c3c37d3fbd8805c77f15fc6b1fdfe614ee0a7c8fdb4c0",
   "1e07be23c26a86ea37ea810c8ec7809352515a970e9253c26f536cfc7a9996c45c8370583e0a78fa4a90041d71a4ceab7423f19c71b9d5a3e01249f0bebd5894"),
  ("12345678901234567890123456789012345678901234567890123456789012345678901234567890", 80,
   "f371bc4a311f2b009eef952dd83ca80e2b60026c8e935592d0f9c308453c813e",
   "72ec1ef1124a45b047e8b7c75a932195135bb61de24ec0d1914042246e0aec3a2354e093d76f3048b456764346900cb130d2a4fd5dd16abb5e30bcb850dee843")]

/-- The calls `sha256_transform(ctx, ctx->buffer)` made by the padding loop of `sha256_final`, in
order: the loop `sha256_final_loop`, returning the block handed to each call instead of the
context. -/
def sha256_final_blocks : Nat → SHA256_CTX → List Nat → Nat → Nat → List (List Nat)
  | 0, _, _, _, _ => []
  | fuel + 1, ctx, padding, total, i =>
    if i < total then
      let space_in_buffer := SHA256_BLOCK_SIZE - ctx.buffer_len
      let to_copy := if total - i < space_in_buffer then total - i else space_in_buffer
      let c1 := { ctx with
        buffer := memcpy ctx.buffer ctx.buffer_len (padding.drop i) to_copy,
        buffer_len := ctx.buffer_len + to_copy }
      if c1.buffer_len = SHA256_BLOCK_SIZE then
        c1.buffer ::
          sha256_final_blocks fuel { sha256_transform c1 c1.buffer with buffer_len := 0 }
            padding total (i + to_copy)
      else sha256_final_blocks fuel c1 padding total (i + to_copy)
    else []

/-- The calls `sha512_transform(ctx, ctx->buffer)` made by the padding loop of `sha512_final`, in
order: the loop `sha512_final_loop`, returning the block handed to each call instead of the
context. -/
def sha512_final_blocks : Nat → SHA512_CTX → List Nat → Nat → Nat → List (List Nat)
  | 0, _, _, _, _ => []
  | fuel + 1, ctx, padding, total, i =>
    if i < total then
      let space_in_buffer := SHA512_BLOCK_SIZE - ctx.buffer_len
      let to_copy := if total - i < space_in_buffer then total - i else space_in_buffer
      let c1 := { ctx with
        buffer := memcpy ctx.buffer ctx.buffer_len (padding.drop i) to_copy,
        buffer_len := ctx.buffer_len + to_copy }
      if c1.buffer_len = SHA512_BLOCK_SIZE then
        c1.buffer ::
          sha512_final_blocks fuel { sha512_transform c1 c1.buffer with buffer_len := 0 }
            padding total (i + to_copy)
      else sha512_final_blocks fuel c1 padding total (i + to_copy)
    else []

/-! ## Evaluation of SHA-256 in continuation-passing style

The definitions of this section compute the same values as `sha256_compress`; they are
written so that reduction meets the working variables as numerals at every block boundary.
-/

/-- The value `k x`, computed by first bringing `x` to a numeral. -/
def strict {β : Type} (x : Nat) (k : Nat → β) : β :=
  match x with
  | 0 => k 0
  | n + 1 => k (n + 1)

/-- One iteration of the main loop of `sha256_transform` on the working variables, passing
the new working variables to `k`; `kw` is `SHA256_K[i] + m[i]`. The rotations of a 32-bit word
`x` are read off the 64-bit word `x * (2^32 + 1)`, and the reductions modulo `2^32` of `t1` and
`t2` are made once, in the two sums that use them. -/
def sha256_round_cps {β : Type} (kw : Nat)
    (k : Nat → Nat → Nat → Nat → Nat → Nat → Nat → Nat → β) (a b c d e f g h : Nat) : β :=
  let e2 := Nat.mul e 4294967297
  let a2 := Nat.mul a 4294967297
  let t1 := Nat.add (Nat.add (Nat.add h
      (Nat.xor (Nat.xor (Nat.shiftRight e2 6) (Nat.shiftRight e2 11)) (Nat.shiftRight e2 25)))
      (Nat.xor g (Nat.land e (Nat.xor f g)))) kw
  let t2 := Nat.add
      (Nat.xor (Nat.xor (Nat.shiftRight a2 2) (Nat.shiftRight a2 13)) (Nat.shiftRight a2 22))
      (Nat.lor (Nat.land a b) (Nat.land c (Nat.lor a b)))
  k (Nat.mod (Nat.add t1 t2) 4294967296) a b c (Nat.mod (Nat.add d t1) 4294967296) e f g

/-- The closing additions of `sha256_transform`: the working variables are added to the state
words `a0 .. h0` the block started from, and the new state is passed to `k`. -/
def sha256_block_end {β : Type} (k : Nat → Nat → Nat → Nat → Nat → Nat → Nat → Nat → β)
    (a0 b0 c0 d0 e0 f0 g0 h0 a b c d e f g h : Nat) : β :=
  strict (Nat.mod (Nat.add a0 a) 4294967296) fun a1 =>
  strict (Nat.mod (Nat.add b0 b) 4294967296) fun b1 =>
  strict (Nat.mod (Nat.add c0 c) 4294967296) fun c1 =>
  strict (Nat.mod (Nat.add d0 d) 4294967296) fun d1 =>
  strict (Nat.mod (Nat.add e0 e) 4294967296) fun e1 =>
  strict (Nat.mod (Nat.add f0 f) 4294967296) fun f1 =>
  strict (Nat.mod (Nat.add g0 g) 4294967296) fun g1 =>
  strict (Nat.mod (Nat.add h0 h) 4294967296) fun h1 =>
  k a1 b1 c1 d1 e1 f1 g1 h1

/-- The compression of one block from the state `a .. h`, the new state passed to `k`; `kws`
lists `SHA256_K[i] + m[i]` for the 64 rounds. -/
def sha256_block_cps {β : Type} (kws : List Nat)
    (k : Nat → Nat → Nat → Nat → Nat → Nat → Nat → Nat → β) (a b c d e f g h : Nat) : β :=
  kws.foldr sha256_round_cps (sha256_block_end k a b c d e f g h) a b c d e f g h

/-- The numbers `SHA256_K[i] + m[i]` for a message schedule `m`. -/
def sha256_kws (m : List Nat) : List Nat :=
  (List.range 64).map (fun i => SHA256_K.getD i 0 + m.getD i 0)

/-- The compression of the blocks whose round numbers are listed in `kwss`, one after the
other, from the state `a .. h`; the result is the list of the eight state words. -/
def sha256_absorb_cps : List (List Nat) → Nat → Nat → Nat → Nat → Nat → Nat → Nat → Nat →
    List Nat
  | [] => fun a b c d e f g h => [a, b, c, d, e, f, g, h]
  | kws :: rest => sha256_block_cps kws (sha256_absorb_cps rest)

/-- The block of 64 bytes `'a'`. -/
def sha256_block_of_a : List Nat := List.replicate 64 0x61

/-- The compression of the block `sha256_block_of_a`, with the 64 rounds written out: round `i`
carries the numeral `SHA256_K[i] + m[i]` of that block. -/
def sha256_block_a {β : Type} (k : Nat → Nat → Nat → Nat → Nat → Nat → Nat → Nat → β)
    (a b c d e f g h : Nat) : β :=
  (
    sha256_round_cps 0xA3EB90F9 $ sha256_round_cps 0xD298A5F2 $ sha256_round_cps 0x117225D30 $ sha256_round_cps 0x14B173D06 $
    sha256_round_cps 0x9AB823BC $ sha256_round_cps 0xBB527352 $ sha256_round_cps 0xF3A0E405 $ sha256_round_cps 0x10C7DC036 $
    sha256_round_cps 0x139690BF9 $ sha256_round_cps 0x73E4BC62 $ sha256_round_cps 0x8592E71F $ sha256_round_cps 0xB66DDF24 $
    sha256_round_cps 0xD41FBED5 $ sha256_round_cps 0xE240135F $ sha256_round_cps 0xFD3D6808 $ sha256_round_cps 0x122FD52D5 $
    sha256_round_cps 0x1DA99A7FD $ sha256_round_cps 0x1E5BC85C2 $ sha256_round_cps 0x421FB30D $ sha256_round_cps 0x566AB713 $
    sha256_round_cps 0x4F6A8EC8 $ sha256_round_cps 0x6BF5E703 $ sha256_round_cps 0x15399F7FC $ sha256_round_cps 0x1027FB3D5 $
    sha256_round_cps 0x1153E879F $ sha256_round_cps 0x1A2A84904 $ sha256_round_cps 0xF869A653 $ sha256_round_cps 0x16A1A9A0C $
    sha256_round_cps 0xD1005B03 $ sha256_round_cps 0x172E9C7FC $ sha256_round_cps 0xB8D132AA $ sha256_round_cps 0x3910F55D $
    sha256_round_cps 0xBF72410C $ sha256_round_cps 0x968B7F31 $ sha256_round_cps 0x135812784 $ sha256_round_cps 0xA3F55D7A $
    sha256_round_cps 0xDE82EF5F $ sha256_round_cps 0x158D6706C $ sha256_round_cps 0x13C079CBB $ sha256_round_cps 0x10CD33E4E $
    sha256_round_cps 0x10BEA3C0F $ sha256_round_cps 0xB5E77DD7 $ sha256_round_cps 0x197CCD952 $ sha256_round_cps 0x1476F2801 $
    sha256_round_cps 0x142D792E8 $ sha256_round_cps 0x176D75A0E $ sha256_round_cps 0xFAC0DE17 $ sha256_round_cps 0x5296C0B3 $
    sha256_round_cps 0xA928AF66 $ sha256_round_cps 0x1131A5E95 $ sha256_round_cps 0xAB10C27F $ sha256_round_cps 0x124BC5563 $
    sha256_round_cps 0xE6974D1D $ sha256_round_cps 0x13055DAB6 $ sha256_round_cps 0xF9EBDA63 $ sha256_round_cps 0xF543A86A $
    sha256_round_cps 0x990D53C0 $ sha256_round_cps 0xD1B4D6DB $ sha256_round_cps 0xB567A7D0 $ sha256_round_cps 0xCC8CBDA7 $
    sha256_round_cps 0xAB63B3A1 $ sha256_round_cps 0xDC910C4C $ sha256_round_cps 0x1A93458ED $ sha256_round_cps 0xD4E96F0C $
    sha256_block_end k a b c d e f g h) a b c d e f g h

/-- The compression of `n` blocks `sha256_block_of_a` in a row. -/
def sha256_repeat_a : Nat → Nat → Nat → Nat → Nat → Nat → Nat → Nat → Nat → List Nat
  | 0 => fun a b c d e f g h => [a, b, c, d, e, f, g, h]
  | n + 1 => sha256_block_a (sha256_repeat_a n)

/-! ## Sequences of calls, access traces and hex decoding used by the statements -/

/-- Calling `sha256_update` once per call `(data, len)`, in order, each on the context left by
the call before. Returns the return codes of the calls and the final context. -/
def sha256_update_calls (ctx : Option SHA256_CTX) :
    List (Option (List Nat) × Nat) → List Nat × Option SHA256_CTX
  | [] => ([], ctx)
  | call :: rest =>
    ((sha256_update ctx call.1 call.2).1 ::
        (sha256_update_calls (sha256_update ctx call.1 call.2).2 rest).1,
      (sha256_update_calls (sha256_update ctx call.1 call.2).2 rest).2)

/-- The calls `memcpy(ctx->buffer + ctx->buffer_len, input, n)` that `sha256_update` makes after
its checks, in order, as pairs `(ctx->buffer_len, n)`: the copy that tops up the buffer and
the copy that stores the last partial block. -/
def sha256_update_copies (ctx : SHA256_CTX) (input : List Nat) (len : Nat) : List (Nat × Nat) :=
  let r2 := sha256_update_fill ctx input len
  let r3 := sha256_update_loop r2.2.2 r2.1 r2.2.1 r2.2.2
  (if ctx.buffer_len > 0 then
      [(ctx.buffer_len,
        if len < SHA256_BLOCK_SIZE - ctx.buffer_len then len
        else SHA256_BLOCK_SIZE - ctx.buffer_len)]
    else []) ++
  (if r3.2.2 > 0 then [(r3.1.buffer_len, r3.2.2)] else [])

/-- The reads of the caller's data made by the loop `while (remaining >= SHA256_BLOCK_SIZE)`
of `sha256_update`, with the pointer `input` kept as its offset from `data`: every iteration
hands the 64 bytes at `input` to `sha256_transform`. Returns the reads as pairs
`(offset, length)`, and the offset and the remaining length on exit. -/
def sha256_update_loop_reads : Nat → Nat → Nat → List (Nat × Nat) × Nat × Nat
  | 0, input, remaining => ([], input, remaining)
  | fuel + 1, input, remaining =>
    if remaining ≥ SHA256_BLOCK_SIZE then
      ((input, SHA256_BLOCK_SIZE) ::
          (sha256_update_loop_reads fuel (input + SHA256_BLOCK_SIZE)
            (remaining - SHA256_BLOCK_SIZE)).1,
        (sha256_update_loop_reads fuel (input + SHA256_BLOCK_SIZE)
            (remaining - SHA256_BLOCK_SIZE)).2)
    else ([], input, remaining)

/-- The reads of the caller's data that `sha256_update` makes after its checks, in order, as
pairs `(offset from data, length)`: the source of the copy that tops up the buffer, the
blocks compressed in place, the source of the copy that stores the last partial block. -/
def sha256_update_reads (ctx : SHA256_CTX) (len : Nat) : List (Nat × Nat) :=
  let space_in_buffer := SHA256_BLOCK_SIZE - ctx.buffer_len
  let to_copy := if len < space_in_buffer then len else space_in_buffer
  let input1 := if ctx.buffer_len > 0 then to_copy else 0
  let remaining1 := if ctx.buffer_len > 0 then len - to_copy else len
  let r := sha256_update_loop_reads remaining1 input1 remaining1
  (if ctx.buffer_len > 0 then [(0, to_copy)] else []) ++ r.1 ++
  (if r.2.2 > 0 then [(r.2.1, r.2.2)] else [])

/-- The calls `memcpy(ctx->buffer + ctx->buffer_len, padding + i, to_copy)` made by the padding
loop of `sha256_final`, in order: the loop `sha256_final_loop`, returning the triple
`(ctx->buffer_len, i, to_copy)` of each iteration instead of the context. -/
def sha256_final_copies : Nat → SHA256_CTX → List Nat → Nat → Nat → List (Nat × Nat × Nat)
  | 0, _, _, _, _ => []
  | fuel + 1, ctx, padding, total, i =>
    if i < total then
      let space_in_buffer := SHA256_BLOCK_SIZE - ctx.buffer_len
      let to_copy := if total - i < space_in_buffer then total - i else space_in_buffer
      let c1 := { ctx with
        buffer := memcpy ctx.buffer ctx.buffer_len (padding.drop i) to_copy,
        buffer_len := ctx.buffer_len + to_copy }
      let c2 := if c1.buffer_len = SHA256_BLOCK_SIZE then
          { sha256_transform c1 c1.buffer with buffer_len := 0 }
        else c1
      (ctx.buffer_len, i, to_copy) :: sha256_final_copies fuel c2 padding total (i + to_copy)
    else []

/-- Calling `sha512_update` once per call `(data, len)`, in order, each on the context left by
the call before. Returns the return codes of the calls and the final context. -/
def sha512_update_calls (ctx : Option SHA512_CTX) :
    List (Option (List Nat) × Nat) → List Nat × Option SHA512_CTX
  | [] => ([], ctx)
  | call :: rest =>
    ((sha512_update ctx call.1 call.2).1 ::
        (sha512_update_calls (sha512_update ctx call.1 call.2).2 rest).1,
      (sha512_update_calls (sha512_update ctx call.1 call.2).2 rest).2)

/-- The calls `memcpy(ctx->buffer + ctx->buffer_len, input, n)` that `sha512_update` makes after
its checks, in order, as pairs `(ctx->buffer_len, n)`: the copy that tops up the buffer and
the copy that stores the last partial block. -/
def sha512_update_copies (ctx : SHA512_CTX) (input : List Nat) (len : Nat) : List (Nat × Nat) :=
  let r2 := sha512_update_fill ctx input len
  let r3 := sha512_update_loop r2.2.2 r2.1 r2.2.1 r2.2.2
  (if ctx.buffer_len > 0 then
      [(ctx.buffer_len,
        if len < SHA512_BLOCK_SIZE - ctx.buffer_len then len
        else SHA512_BLOCK_SIZE - ctx.buffer_len)]
    else []) ++
  (if r3.2.2 > 0 then [(r3.1.buffer_len, r3.2.2)] else [])

/-- The reads of the caller's data made by the loop `while (remaining >= SHA512_BLOCK_SIZE)`
of `sha512_update`, with the pointer `input` kept as its offset from `data`: every iteration
hands the 128 bytes at `input` to `sha512_transform`. Returns the reads as pairs
`(offset, length)`, and the offset and the remaining length on exit. -/
def sha512_update_loop_reads : Nat → Nat → Nat → List (Nat × Nat) × Nat × Nat
  | 0, input, remaining => ([], input, remaining)
  | fuel + 1, input, remaining =>
    if remaining ≥ SHA512_BLOCK_SIZE then
      ((input, SHA512_BLOCK_SIZE) ::
          (sha512_update_loop_reads fuel (input + SHA512_BLOCK_SIZE)
            (remaining - SHA512_BLOCK_SIZE)).1,
        (sha512_update_loop_reads fuel (input + SHA512_BLOCK_SIZE)
            (remaining - SHA512_BLOCK_SIZE)).2)
    else ([], input, remaining)

/-- The reads of the caller's data that `sha512_update` makes after its checks, in order, as
pairs `(offset from data, length)`: the source of the copy that tops up the buffer, the
blocks compressed in place, the source of the copy that stores the last partial block. -/
def sha512_update_reads (ctx : SHA512_CTX) (len : Nat) : List (Nat × Nat) :=
  let space_in_buffer := SHA512_BLOCK_SIZE - ctx.buffer_len
  let to_copy := if len < space_in_buffer then len else space_in_buffer
  let input1 := if ctx.buffer_len > 0 then to_copy else 0
  let remaining1 := if ctx.buffer_len > 0 then len - to_copy else len
  let r := sha512_update_loop_reads remaining1 input1 remaining1
  (if ctx.buffer_len > 0 then [(0, to_copy)] else []) ++ r.1 ++
  (if r.2.2 > 0 then [(r.2.1, r.2.2)] else [])

/-- The calls `memcpy(ctx->buffer + ctx->buffer_len, padding + i, to_copy)` made by the padding
loop of `sha512_final`, in order: the loop `sha512_final_loop`, returning the triple
`(ctx->buffer_len, i, to_copy)` of each iteration instead of the context. -/
def sha512_final_copies : Nat → SHA512_CTX → List Nat → Nat → Nat → List (Nat × Nat × Nat)
  | 0, _, _, _, _ => []
  | fuel + 1, ctx, padding, total, i =>
    if i < total then
      let space_in_buffer := SHA512_BLOCK_SIZE - ctx.buffer_len
      let to_copy := if total - i < space_in_buffer then total - i else space_in_buffer
      let c1 := { ctx with
        buffer := memcpy ctx.buffer ctx.buffer_len (padding.drop i) to_copy,
        buffer_len := ctx.buffer_len + to_copy }
      let c2 := if c1.buffer_len = SHA512_BLOCK_SIZE then
          { sha512_transform c1 c1.buffer with buffer_len := 0 }
        else c1
      (ctx.buffer_len, i, to_copy) :: sha512_final_copies fuel c2 padding total (i + to_copy)
    else []

/-- The number of bytes passed by the calls of a sequence whose return code is 0 (success):
`codes` holds the return code of each call of `calls`. -/
def accepted_bytes : List (Option (List Nat) × Nat) → List Nat → Nat
  | call :: calls, code :: codes =>
    (if code = 0 then call.2 else 0) + accepted_bytes calls codes
  | _, _ => 0

/-- The value of a lowercase hexadecimal digit: its index in `hex_chars`. -/
def hex_digit_value (c : Char) : Nat := hex_chars.indexOf c

/-- The bytes spelled by a string of hexadecimal digits, two digits per byte, the high nibble
first. -/
def hex_decode : List Char → List Nat
  | hi :: lo :: rest => (hex_digit_value hi * 16 + hex_digit_value lo) :: hex_decode rest
  | _ => []

/-! ## SHA-256: what the compression step and the loops leave unchanged -/

theorem sha256_transform_count (c : SHA256_CTX) (d : List Nat) :
    (sha256_transform c d).count = c.count := rfl

theorem sha256_transform_buffer (c : SHA256_CTX) (d : List Nat) :
    (sha256_transform c d).buffer = c.buffer := rfl

theorem sha256_transform_buffer_len (c : SHA256_CTX) (d : List Nat) :
    (sha256_transform c d).buffer_len = c.buffer_len := rfl

theorem sha256_update_fill_count (c : SHA256_CTX) (input : List Nat) (n : Nat) :
    (sha256_update_fill c input n).1.count = c.count := by
  unfold sha256_update_fill
  split
  · dsimp only
    split <;> split <;> simp [sha256_transform_count]
  · rfl

theorem sha256_update_loop_count (fuel : Nat) (c : SHA256_CTX) (input : List Nat) (n : Nat) :
    (sha256_update_loop fuel c input n).1.count = c.count := by
  induction fuel generalizing c input n with
  | zero => rfl
  | succ k ih =>
    unfold sha256_update_loop
    split
    · rw [ih]; rfl
    · rfl

theorem sha256_update_store_count (c : SHA256_CTX) (input : List Nat) (n : Nat) :
    (sha256_update_store c input n).count = c.count := by
  unfold sha256_update_store
  split <;> rfl

theorem sha256_update_data_count (c : SHA256_CTX) (input : List Nat) (n : Nat) :
    (sha256_update_data c input n).count = c.count := by
  unfold sha256_update_data
  simp only [sha256_update_store_count, sha256_update_loop_count, sha256_update_fill_count]

/-! ## SHA-512: what the compression step and the loops leave unchanged -/

theorem sha512_transform_count (c : SHA512_CTX) (d : List Nat) :
    (sha512_transform c d).count = c.count := rfl

theorem sha512_transform_buffer (c : SHA512_CTX) (d : List Nat) :
    (sha512_transform c d).buffer = c.buffer := rfl

theorem sha512_transform_buffer_len (c : SHA512_CTX) (d : List Nat) :
    (sha512_transform c d).buffer_len = c.buffer_len := rfl

theorem sha512_update_fill_count (c : SHA512_CTX) (input : List Nat) (n : Nat) :
    (sha512_update_fill c input n).1.count = c.count := by
  unfold sha512_update_fill
  split
  · dsimp only
    split <;> split <;> simp [sha512_transform_count]
  · rfl

theorem sha512_update_loop_count (fuel : Nat) (c : SHA512_CTX) (input : List Nat) (n : Nat) :
    (sha512_update_loop fuel c input n).1.count = c.count := by
  induction fuel generalizing c input n with
  | zero => rfl
  | succ k ih =>
    unfold sha512_update_loop
    split
    · rw [ih]; rfl
    · rfl

theorem sha512_update_store_count (c : SHA512_CTX) (input : List Nat) (n : Nat) :
    (sha512_update_store c input n).count = c.count := by
  unfold sha512_update_store
  split <;> rfl

theorem sha512_update_data_count (c : SHA512_CTX) (input : List Nat) (n : Nat) :
    (sha512_update_data c input n).count = c.count := by
  unfold sha512_update_data
  simp only [sha512_update_store_count, sha512_update_loop_count, sha512_update_fill_count]

/-- The result of `sha256_update` on a present context and present data when neither
overflow test fires. -/
theorem sha256_update_accept (c : SHA256_CTX) (d : List Nat) (len : Nat)
    (hlen : 0 < len) (h : c.count + len ≤ 2 ^ 61 - 1) :
    sha256_update (some c) (some d) len =
      (SHA256_SUCCESS, some (sha256_update_data { c with count := c.count + len } d len)) := by
  have h1 : ¬ c.count > UINT64_MAX - len := by unfold UINT64_MAX; omega
  have hm : (c.count + len) % 2 ^ 64 = c.count + len := Nat.mod_eq_of_lt (by omega)
  have h2 : ¬ c.count + len > 0x1FFFFFFFFFFFFFFF := by omega
  unfold sha256_update
  simp only [Nat.pos_iff_ne_zero.mp hlen, if_false, h1, hm, h2]

/-- C9: for a present context and present data with `len > 0`, `sha256_update` returns the
overflow error exactly when `count + len` (unbounded) exceeds `2^61 - 1`; on overflow the context
is returned unchanged, and otherwise the call succeeds with the new `count` equal to
`count + len`. -/
theorem sha256_update_overflow_rule (c : SHA256_CTX) (d : List Nat) (len : Nat)
    (hlen : 0 < len) (hsz : len < 2 ^ 64) :
    ((sha256_update (some c) (some d) len).1 = SHA256_ERROR_OVERFLOW ↔
        c.count + len > 2 ^ 61 - 1) ∧
    ((sha256_update (some c) (some d) len).1 = SHA256_ERROR_OVERFLOW →
        (sha256_update (some c) (some d) len).2 = some c) ∧
    ((sha256_update (some c) (some d) len).1 ≠ SHA256_ERROR_OVERFLOW →
        (sha256_update (some c) (some d) len).1 = SHA256_SUCCESS ∧
        ∃ c', (sha256_update (some c) (some d) len).2 = some c' ∧
          c'.count = c.count + len) := by
  by_cases h : c.count + len ≤ 2 ^ 61 - 1
  · rw [sha256_update_accept c d len hlen h]
    have hne : ¬ SHA256_SUCCESS = SHA256_ERROR_OVERFLOW := by decide
    exact ⟨⟨fun e => absurd e hne, fun e => absurd h (by omega)⟩,
      fun e => absurd e hne, fun _ => ⟨rfl, _, rfl, sha256_update_data_count _ _ _⟩⟩
  · have hov : sha256_update (some c) (some d) len = (SHA256_ERROR_OVERFLOW, some c) := by
      unfold sha256_update
      simp only [Nat.pos_iff_ne_zero.mp hlen, if_false]
      by_cases h1 : c.count > UINT64_MAX - len
      · simp only [h1, if_true]
      · have hm : (c.count + len) % 2 ^ 64 = c.count + len :=
          Nat.mod_eq_of_lt (by unfold UINT64_MAX at h1; omega)
        have h2 : (c.count + len) % 2 ^ 64 > 0x1FFFFFFFFFFFFFFF := by rw [hm]; omega
        simp only [h1, h2, if_true, if_false]
    rw [hov]
    exact ⟨⟨fun _ => by omega, fun _ => rfl⟩, fun _ => rfl, fun e => absurd rfl e⟩

/-- Witness for C9: a context that has absorbed `2^61 - 1` bytes rejects one more byte. -/
theorem sha256_update_overflow_rule_witness :
    (0 < 1 ∧ 1 < 2 ^ 64) ∧
    (sha256_update (some (SHA256_CTX.mk SHA256_H0 (2 ^ 61 - 1) (List.replicate 64 0) 63))
        (some [0]) 1).1 = SHA256_ERROR_OVERFLOW :=
  ⟨⟨by decide, by decide⟩,
   (sha256_update_overflow_rule (SHA256_CTX.mk SHA256_H0 (2 ^ 61 - 1) (List.replicate 64 0) 63)
      [0] 1 (by decide) (by decide)).1.2 (by decide)⟩

/-- The result of `sha512_update` on a present context and present data when the 128-bit
counter does not overflow. -/
theorem sha512_update_accept (c : SHA512_CTX) (d : List Nat) (len : Nat)
    (hlen : 0 < len) (hsz : len < 2 ^ 64)
    (hlo : c.count.1 < 2 ^ 64) (hhi : c.count.2 < 2 ^ 64)
    (h : c.count.2 * 2 ^ 64 + c.count.1 + 8 * len < 2 ^ 128) :
    sha512_update (some c) (some d) len =
      (SHA512_SUCCESS, some (sha512_update_data
        { c with count := ((c.count.1 + 8 * len) % 2 ^ 64,
                           (c.count.2 * 2 ^ 64 + c.count.1 + 8 * len) / 2 ^ 64) } d len)) := by
  obtain ⟨st, ⟨lo, hi⟩, buf, bl⟩ := c
  simp only at hlo hhi h ⊢
  have e3 : len <<< 3 = len * 8 := by rw [Nat.shiftLeft_eq]
  have e61 : len >>> 61 = len / 2 ^ 61 := by rw [Nat.shiftRight_eq_div_pow]
  have e1 : 1 <<< 61 = 2 ^ 61 := by decide
  have hb : (if len ≥ 2 ^ 61 then len / 2 ^ 61 else 0) = len / 2 ^ 61 := by
    split_ifs <;> omega
  have hcar : (if (lo + len * 8 % 2 ^ 64) % 2 ^ 64 < lo then 1 else 0)
      = (lo + len * 8 % 2 ^ 64) / 2 ^ 64 := by
    split_ifs <;> omega
  unfold sha512_update
  simp only [Nat.pos_iff_ne_zero.mp hlen, if_false, e3, e61, e1, UINT64_MAX, hb, hcar]
  have htot : ((lo + len * 8 % 2 ^ 64) / 2 ^ 64 + len / 2 ^ 61) % 2 ^ 64
      = (lo + len * 8 % 2 ^ 64) / 2 ^ 64 + len / 2 ^ 61 := by omega
  rw [htot]
  have hov : ¬ ((lo + len * 8 % 2 ^ 64) / 2 ^ 64 + len / 2 ^ 61 > 0 ∧
      hi > 2 ^ 64 - 1 - ((lo + len * 8 % 2 ^ 64) / 2 ^ 64 + len / 2 ^ 61)) := by omega
  rw [if_neg hov]
  have hlo' : (lo + len * 8 % 2 ^ 64) % 2 ^ 64 = (lo + 8 * len) % 2 ^ 64 := by omega
  by_cases hz : (lo + len * 8 % 2 ^ 64) / 2 ^ 64 + len / 2 ^ 61 > 0
  · rw [if_pos hz]
    have hhi' : (hi + ((lo + len * 8 % 2 ^ 64) / 2 ^ 64 + len / 2 ^ 61)) % 2 ^ 64
        = (hi * 2 ^ 64 + lo + 8 * len) / 2 ^ 64 := by omega
    rw [hlo', hhi']
  · rw [if_neg hz]
    have hhi' : hi = (hi * 2 ^ 64 + lo + 8 * len) / 2 ^ 64 := by omega
    rw [hlo', ← hhi']

/-- C10: for a present context and present data with `0 < len < 2^64`, writing
`C = count[1] * 2^64 + count[0]`, `sha512_update` returns the overflow error exactly when
`C + 8 * len >= 2^128`; otherwise it returns success and the new
`count[1] * 2^64 + count[0]` equals `C + 8 * len`. -/
theorem sha512_update_counter_exact (c : SHA512_CTX) (d : List Nat) (len : Nat)
    (hlen : 0 < len) (hsz : len < 2 ^ 64)
    (hlo : c.count.1 < 2 ^ 64) (hhi : c.count.2 < 2 ^ 64) :
    ((sha512_update (some c) (some d) len).1 = SHA512_ERROR_OVERFLOW ↔
        c.count.2 * 2 ^ 64 + c.count.1 + 8 * len ≥ 2 ^ 128) ∧
    ((sha512_update (some c) (some d) len).1 ≠ SHA512_ERROR_OVERFLOW →
        (sha512_update (some c) (some d) len).1 = SHA512_SUCCESS ∧
        ∃ c', (sha512_update (some c) (some d) len).2 = some c' ∧
          c'.count.2 * 2 ^ 64 + c'.count.1 = c.count.2 * 2 ^ 64 + c.count.1 + 8 * len) := by
  obtain ⟨st, ⟨lo, hi⟩, buf, bl⟩ := c
  simp only at hlo hhi ⊢
  have hne : ¬ SHA512_SUCCESS = SHA512_ERROR_OVERFLOW := by decide
  have e3 : len <<< 3 = len * 8 := by rw [Nat.shiftLeft_eq]
  have e61 : len >>> 61 = len / 2 ^ 61 := by rw [Nat.shiftRight_eq_div_pow]
  have e1 : 1 <<< 61 = 2 ^ 61 := by decide
  have hb : (if len ≥ 2 ^ 61 then len / 2 ^ 61 else 0) = len / 2 ^ 61 := by
    split_ifs <;> omega
  have hcar : (if (lo + len * 8 % 2 ^ 64) % 2 ^ 64 < lo then 1 else 0)
      = (lo + len * 8 % 2 ^ 64) / 2 ^ 64 := by
    split_ifs <;> omega
  unfold sha512_update
  simp only [Nat.pos_iff_ne_zero.mp hlen, if_false, e3, e61, e1, UINT64_MAX, hb, hcar]
  have htot : ((lo + len * 8 % 2 ^ 64) / 2 ^ 64 + len / 2 ^ 61) % 2 ^ 64
      = (lo + len * 8 % 2 ^ 64) / 2 ^ 64 + len / 2 ^ 61 := by omega
  rw [htot]
  by_cases hov : (lo + len * 8 % 2 ^ 64) / 2 ^ 64 + len / 2 ^ 61 > 0 ∧
      hi > 2 ^ 64 - 1 - ((lo + len * 8 % 2 ^ 64) / 2 ^ 64 + len / 2 ^ 61)
  · rw [if_pos hov]
    exact ⟨⟨fun _ => by omega, fun _ => rfl⟩, fun e => absurd rfl e⟩
  · rw [if_neg hov]
    refine ⟨⟨fun e => absurd e hne, fun hge => absurd ?_ hov⟩, fun _ => ⟨rfl, _, rfl, ?_⟩⟩
    · omega
    · rw [sha512_update_data_count]
      split_ifs <;> simp only <;> omega

/-- Witness for C10: adding one byte to a counter of `2^128 - 8` bits overflows. -/
theorem sha512_update_counter_exact_witness :
    (0 < 1 ∧ 1 < 2 ^ 64 ∧ 2 ^ 64 - 8 < 2 ^ 64 ∧ 2 ^ 64 - 1 < 2 ^ 64) ∧
    (sha512_update (some (SHA512_CTX.mk SHA512_H0 (2 ^ 64 - 8, 2 ^ 64 - 1)
        (List.replicate 128 0) 0)) (some [0]) 1).1 = SHA512_ERROR_OVERFLOW :=
  ⟨⟨by decide, by decide, by decide, by decide⟩,
   (sha512_update_counter_exact (SHA512_CTX.mk SHA512_H0 (2 ^ 64 - 8, 2 ^ 64 - 1)
      (List.replicate 128 0) 0) [0] 1 (by decide) (by decide) (by decide) (by decide)).1.2
      (by decide)⟩

/-! ## Blocks of a byte string -/

theorem memcpy_length (dst src : List Nat) (off n : Nat)
    (h1 : off + n ≤ dst.length) (h2 : n ≤ src.length) :
    (memcpy dst off src n).length = dst.length := by
  unfold memcpy
  simp only [List.length_append, List.length_take, List.length_drop]
  omega

theorem memcpy_take (dst src : List Nat) (off n : Nat)
    (h1 : off ≤ dst.length) (h2 : n ≤ src.length) :
    (memcpy dst off src n).take (off + n) = dst.take off ++ src.take n := by
  unfold memcpy
  apply List.take_left'
  simp only [List.length_append, List.length_take]
  omega

theorem blocks_succ_append (B n : Nat) (a l : List Nat) (ha : a.length = B) :
    blocks B (n + 1) (a ++ l) = a :: blocks B n l := by
  simp only [blocks, List.take_left' ha, List.drop_left' ha]

theorem absorb_short (B : Nat) (f : List Nat → List Nat → List Nat) (st l : List Nat)
    (h : l.length < B) : absorb B f st l = st := by
  unfold absorb
  rw [Nat.div_eq_of_lt h]
  rfl

theorem tail_bytes_short (B : Nat) (l : List Nat) (h : l.length < B) : tail_bytes B l = l := by
  unfold tail_bytes
  rw [Nat.div_eq_of_lt h]
  rfl

theorem absorb_block (B : Nat) (f : List Nat → List Nat → List Nat) (st a l : List Nat)
    (hB : 0 < B) (ha : a.length = B) : absorb B f st (a ++ l) = absorb B f (f st a) l := by
  unfold absorb
  have h : (a ++ l).length / B = l.length / B + 1 := by
    rw [List.length_append, ha, Nat.add_comm, Nat.add_div_right _ hB]
  rw [h, blocks_succ_append B _ a l ha, List.foldl_cons]

theorem tail_bytes_block (B : Nat) (a l : List Nat) (hB : 0 < B) (ha : a.length = B) :
    tail_bytes B (a ++ l) = tail_bytes B l := by
  unfold tail_bytes
  have h : (a ++ l).length / B = l.length / B + 1 := by
    rw [List.length_append, ha, Nat.add_comm, Nat.add_div_right _ hB]
  rw [h, Nat.mul_add, Nat.mul_one, Nat.add_comm, ← List.drop_drop, List.drop_left' ha]

theorem tail_bytes_length (B : Nat) (l : List Nat) : (tail_bytes B l).length = l.length % B := by
  unfold tail_bytes
  rw [List.length_drop, Nat.mod_def]

theorem absorb_append_aux (B : Nat) (f : List Nat → List Nat → List Nat) (hB : 0 < B) (n : Nat) :
    ∀ (a : List Nat), a.length = n → ∀ (st b : List Nat),
      absorb B f st (a ++ b) = absorb B f (absorb B f st a) (tail_bytes B a ++ b) ∧
      tail_bytes B (a ++ b) = tail_bytes B (tail_bytes B a ++ b) := by
  induction n using Nat.strong_induction_on with
  | _ n ih =>
    intro a han st b
    by_cases hlt : a.length < B
    · rw [absorb_short B f st a hlt, tail_bytes_short B a hlt]
      exact ⟨rfl, rfl⟩
    · have hsplit : a = a.take B ++ a.drop B := (List.take_append_drop B a).symm
      have h1 : (a.take B).length = B := by rw [List.length_take]; omega
      have h2 : (a.drop B).length < n := by rw [List.length_drop]; omega
      obtain ⟨e1, e2⟩ := ih _ h2 (a.drop B) rfl (f st (a.take B)) b
      have ea : absorb B f st a = absorb B f (f st (a.take B)) (a.drop B) := by
        conv_lhs => rw [hsplit]
        exact absorb_block B f st _ _ hB h1
      have et : tail_bytes B a = tail_bytes B (a.drop B) := by
        conv_lhs => rw [hsplit]
        exact tail_bytes_block B _ _ hB h1
      have eab : a ++ b = a.take B ++ (a.drop B ++ b) := by
        rw [← List.append_assoc, List.take_append_drop]
      rw [ea, et, eab, absorb_block B f st _ _ hB h1, tail_bytes_block B _ _ hB h1]
      exact ⟨e1, e2⟩

theorem absorb_append (B : Nat) (f : List Nat → List Nat → List Nat) (hB : 0 < B)
    (st a b : List Nat) :
    absorb B f st (a ++ b) = absorb B f (absorb B f st a) (tail_bytes B a ++ b) :=
  (absorb_append_aux B f hB a.length a rfl st b).1

theorem tail_bytes_append (B : Nat) (hB : 0 < B) (a b : List Nat) :
    tail_bytes B (a ++ b) = tail_bytes B (tail_bytes B a ++ b) :=
  (absorb_append_aux B (fun s _ => s) hB a.length a rfl [] b).2

/-! ## SHA-256: the streaming functions against the block fold -/

theorem sha256_transform_eq (c : SHA256_CTX) (d : List Nat) :
    sha256_transform c d = { c with state := sha256_compress c.state d } := by
  unfold sha256_compress sha256_transform
  simp only

theorem sha256_foldl_transform (bs : List (List Nat)) :
    ∀ c : SHA256_CTX, bs.foldl sha256_transform c =
      { c with state := bs.foldl sha256_compress c.state } := by
  induction bs with
  | nil => intro c; rfl
  | cons b bs ih => intro c; rw [List.foldl_cons, ih, List.foldl_cons, sha256_transform_eq]

theorem sha256_update_loop_eq (fuel : Nat) :
    ∀ (c : SHA256_CTX) (input : List Nat) (n : Nat), n / 64 ≤ fuel →
      sha256_update_loop fuel c input n =
        ({ c with state := (blocks 64 (n / 64) input).foldl sha256_compress c.state },
          input.drop (64 * (n / 64)), n % 64) := by
  induction fuel with
  | zero =>
    intro c input n h
    have h0 : n / 64 = 0 := by omega
    have h1 : n % 64 = n := by omega
    rw [h0, h1]
    rfl
  | succ k ih =>
    intro c input n h
    unfold sha256_update_loop
    by_cases hn : n ≥ SHA256_BLOCK_SIZE
    · rw [if_pos hn]
      unfold SHA256_BLOCK_SIZE at hn ⊢
      rw [ih _ _ _ (by omega), sha256_transform_eq]
      have hd : n / 64 = (n - 64) / 64 + 1 := by omega
      have hm : (n - 64) % 64 = n % 64 := by omega
      rw [hd, hm, blocks, List.foldl_cons, List.drop_drop]
      have hmul : 64 + 64 * ((n - 64) / 64) = 64 * ((n - 64) / 64 + 1) := by omega
      rw [hmul]
    · rw [if_neg hn]
      unfold SHA256_BLOCK_SIZE at hn
      have h0 : n / 64 = 0 := by omega
      have h1 : n % 64 = n := by omega
      rw [h0, h1]
      rfl

theorem sha256_pending_length (c : SHA256_CTX) (hb : c.buffer.length = 64)
    (hl : c.buffer_len ≤ 64) : (sha256_pending c).length = c.buffer_len := by
  unfold sha256_pending
  rw [List.length_take, hb]
  omega

/-- From an empty buffer, the block loop followed by the final store absorbs the input. -/
theorem sha256_update_tail (c : SHA256_CTX) (input : List Nat)
    (hb : c.buffer.length = 64) (h0 : c.buffer_len = 0) :
    (sha256_update_store (sha256_update_loop input.length c input input.length).1
        (sha256_update_loop input.length c input input.length).2.1
        (sha256_update_loop input.length c input input.length).2.2).state
      = absorb 64 sha256_compress c.state input ∧
    (sha256_update_store (sha256_update_loop input.length c input input.length).1
        (sha256_update_loop input.length c input input.length).2.1
        (sha256_update_loop input.length c input input.length).2.2).buffer.length = 64 ∧
    (sha256_update_store (sha256_update_loop input.length c input input.length).1
        (sha256_update_loop input.length c input input.length).2.1
        (sha256_update_loop input.length c input input.length).2.2).buffer_len
      = input.length % 64 ∧
    sha256_pending (sha256_update_store (sha256_update_loop input.length c input input.length).1
        (sha256_update_loop input.length c input input.length).2.1
        (sha256_update_loop input.length c input input.length).2.2)
      = tail_bytes 64 input := by
  rw [sha256_update_loop_eq input.length c input input.length (Nat.div_le_self _ _)]
  have htl : (input.drop (64 * (input.length / 64))).length = input.length % 64 :=
    tail_bytes_length 64 input
  unfold sha256_update_store sha256_pending
  by_cases hr : input.length % 64 > 0
  · simp only [hr, if_true, h0]
    refine ⟨rfl, ?_, by omega, ?_⟩
    · rw [memcpy_length _ _ _ _ (by omega) (by omega), hb]
    · have hmod : input.length % 64 < 64 := Nat.mod_lt _ (by decide)
      have e := memcpy_take c.buffer (input.drop (64 * (input.length / 64))) 0
        (input.length % 64) (by omega) (by omega)
      rw [Nat.zero_add] at e ⊢
      rw [e, List.take_zero, List.nil_append, List.take_of_length_le (by omega)]
      rfl
  · simp only [hr, if_false, h0]
    refine ⟨rfl, hb, by omega, ?_⟩
    have hz : (tail_bytes 64 input).length = 0 := by rw [tail_bytes_length]; omega
    rw [List.take_zero, List.length_eq_zero.mp hz]

/-- Postcondition of the data part of `sha256_update` on a context whose buffer is not full. -/
theorem sha256_update_data_spec (c : SHA256_CTX) (d : List Nat)
    (hb : c.buffer.length = 64) (hl : c.buffer_len < 64) :
    (sha256_update_data c d d.length).state
      = absorb 64 sha256_compress c.state (sha256_pending c ++ d) ∧
    (sha256_update_data c d d.length).buffer.length = 64 ∧
    (sha256_update_data c d d.length).buffer_len = (c.buffer_len + d.length) % 64 ∧
    sha256_pending (sha256_update_data c d d.length)
      = tail_bytes 64 (sha256_pending c ++ d) := by
  have hp : (sha256_pending c).length = c.buffer_len := sha256_pending_length c hb (by omega)
  unfold sha256_update_data
  by_cases h0 : c.buffer_len = 0
  · have hf : sha256_update_fill c d d.length = (c, d, d.length) := by
      unfold sha256_update_fill
      simp only [h0, gt_iff_lt, Nat.lt_irrefl, if_false]
    have hnil : sha256_pending c = [] := List.length_eq_zero.mp (by rw [hp, h0])
    simp only [hf, hnil, List.nil_append, h0, Nat.zero_add]
    exact sha256_update_tail c d hb h0
  · by_cases hlt : d.length < 64 - c.buffer_len
    · have hf : sha256_update_fill c d d.length =
          ({ c with buffer := memcpy c.buffer c.buffer_len d d.length,
                    buffer_len := c.buffer_len + d.length }, [], 0) := by
        unfold sha256_update_fill
        have hne : c.buffer_len + d.length ≠ 64 := by omega
        simp only [SHA256_BLOCK_SIZE, gt_iff_lt, Nat.pos_of_ne_zero h0, if_true, hlt, hne,
          if_false, Nat.sub_self, List.drop_length]
      have hs : (sha256_pending c ++ d).length < 64 := by
        rw [List.length_append, hp]; omega
      simp only [hf, sha256_update_loop, sha256_update_store, gt_iff_lt, Nat.lt_irrefl, if_false]
      rw [absorb_short _ _ _ _ hs, tail_bytes_short _ _ hs]
      refine ⟨rfl, ?_, ?_, ?_⟩
      · rw [memcpy_length _ _ _ _ (by omega) (by omega), hb]
      · rw [Nat.mod_eq_of_lt (by omega)]
      · unfold sha256_pending
        simp only
        rw [memcpy_take _ _ _ _ (by omega) (by omega), List.take_length]
    · have hblk : memcpy c.buffer c.buffer_len d (64 - c.buffer_len)
          = sha256_pending c ++ d.take (64 - c.buffer_len) := by
        unfold memcpy sha256_pending
        have : c.buffer_len + (64 - c.buffer_len) = c.buffer.length := by omega
        rw [this, List.drop_length, List.append_nil]
      have hblen : (sha256_pending c ++ d.take (64 - c.buffer_len)).length = 64 := by
        rw [List.length_append, hp, List.length_take]; omega
      have hf : sha256_update_fill c d d.length =
          ({ c with state := sha256_compress c.state
                      (sha256_pending c ++ d.take (64 - c.buffer_len)),
                    buffer := sha256_pending c ++ d.take (64 - c.buffer_len),
                    buffer_len := 0 },
            d.drop (64 - c.buffer_len), (d.drop (64 - c.buffer_len)).length) := by
        unfold sha256_update_fill
        have he : c.buffer_len + (64 - c.buffer_len) = 64 := by omega
        rw [if_pos (Nat.pos_of_ne_zero h0)]
        simp only [SHA256_BLOCK_SIZE, hlt, if_false, he, hblk, if_true, List.length_drop]
        rw [sha256_transform_eq]
      have hsplit : sha256_pending c ++ d
          = (sha256_pending c ++ d.take (64 - c.buffer_len)) ++ d.drop (64 - c.buffer_len) := by
        rw [List.append_assoc, List.take_append_drop]
      have ht := sha256_update_tail
        { c with state := sha256_compress c.state
                    (sha256_pending c ++ d.take (64 - c.buffer_len)),
                 buffer := sha256_pending c ++ d.take (64 - c.buffer_len),
                 buffer_len := 0 }
        (d.drop (64 - c.buffer_len)) hblen rfl
      simp only [hf]
      rw [hsplit, absorb_block _ _ _ _ _ (by decide) hblen,
        tail_bytes_block _ _ _ (by decide) hblen]
      refine ⟨ht.1, ht.2.1, ?_, ht.2.2.2⟩
      rw [ht.2.2.1, List.length_drop]
      omega

theorem sha256_final_loop_done (fuel : Nat) (c : SHA256_CTX) (padding : List Nat) (total i : Nat)
    (h : ¬ i < total) : sha256_final_loop fuel c padding total i = c := by
  cases fuel with
  | zero => rfl
  | succ k => unfold sha256_final_loop; rw [if_neg h]

/-- One iteration of the padding loop that fills the buffer up to the block size. -/
theorem sha256_final_loop_step (fuel : Nat) (c : SHA256_CTX) (padding : List Nat) (total i : Nat)
    (hb : c.buffer.length = 64) (hl : c.buffer_len < 64) (hi : i < total)
    (hsp : 64 - c.buffer_len ≤ total - i) :
    sha256_final_loop (fuel + 1) c padding total i =
      sha256_final_loop fuel
        { c with state := sha256_compress c.state
                    (sha256_pending c ++ (padding.drop i).take (64 - c.buffer_len)),
                 buffer := sha256_pending c ++ (padding.drop i).take (64 - c.buffer_len),
                 buffer_len := 0 }
        padding total (i + (64 - c.buffer_len)) := by
  have hblk : memcpy c.buffer c.buffer_len (padding.drop i) (64 - c.buffer_len)
      = sha256_pending c ++ (padding.drop i).take (64 - c.buffer_len) := by
    unfold memcpy sha256_pending
    have : c.buffer_len + (64 - c.buffer_len) = c.buffer.length := by omega
    rw [this, List.drop_length, List.append_nil]
  have hnlt : ¬ total - i < 64 - c.buffer_len := by omega
  have he : c.buffer_len + (64 - c.buffer_len) = 64 := by omega
  rw [sha256_final_loop, if_pos hi]
  simp only [SHA256_BLOCK_SIZE, hnlt, if_false, he, hblk, if_true]
  rw [sha256_transform_eq]

/-- The padding loop of `sha256_final` absorbs the buffered bytes followed by the padding. -/
theorem sha256_final_loop_spec (fuel : Nat) (c : SHA256_CTX) (padding : List Nat)
    (hb : c.buffer.length = 64) (hl : c.buffer_len < 64)
    (hp : padding.length = sha256_pad_len c.buffer_len + 8) (hfuel : 2 ≤ fuel) :
    (sha256_final_loop fuel c padding padding.length 0).state
      = absorb 64 sha256_compress c.state (sha256_pending c ++ padding) ∧
    (sha256_final_loop fuel c padding padding.length 0).buffer_len = 0 ∧
    (sha256_final_loop fuel c padding padding.length 0).buffer.length = 64 := by
  have hpl : (sha256_pending c).length = c.buffer_len := sha256_pending_length c hb (by omega)
  obtain ⟨k, rfl⟩ : ∃ k, fuel = k + 2 := ⟨fuel - 2, by omega⟩
  unfold sha256_pad_len SHA256_BLOCK_SIZE at hp
  try unfold SHA256_PAD_THRESHOLD SHA256_BLOCK_SIZE SHA256_LENGTH_SIZE at hp
  by_cases hlt : c.buffer_len < 56
  · rw [if_pos hlt] at hp
    have htot : padding.length = 64 - c.buffer_len := by omega
    rw [sha256_final_loop_step (k + 1) c padding padding.length 0 hb hl (by omega) (by omega),
      sha256_final_loop_done _ _ _ _ _ (by omega)]
    simp only [List.drop_zero]
    rw [← htot, List.take_length]
    have hblen : (sha256_pending c ++ padding).length = 64 := by
      rw [List.length_append, hpl]; omega
    refine ⟨?_, trivial, hblen⟩
    have e := absorb_block 64 sha256_compress c.state (sha256_pending c ++ padding) []
      (by decide) hblen
    rw [List.append_nil] at e
    rw [e, absorb_short _ _ _ _ (by decide)]
  · rw [if_neg hlt] at hp
    have htot : padding.length = 2 * 64 - c.buffer_len := by omega
    have h1len : (sha256_pending c ++ (padding.drop 0).take (64 - c.buffer_len)).length = 64 := by
      rw [List.length_append, hpl, List.length_take, List.length_drop]; omega
    rw [sha256_final_loop_step (k + 1) c padding padding.length 0 hb hl (by omega) (by omega)]
    rw [sha256_final_loop_step k _ padding padding.length (0 + (64 - c.buffer_len)) h1len
      (Nat.zero_lt_succ _) (by omega) (by simp only; omega)]
    rw [sha256_final_loop_done _ _ _ _ _ (by simp only; omega)]
    simp only [List.drop_zero, Nat.zero_add, Nat.sub_zero, sha256_pending, List.take_zero,
      List.nil_append]
    have h2len : ((padding.drop (64 - c.buffer_len)).take 64).length = 64 := by
      rw [List.length_take, List.length_drop]; omega
    have h2 : (padding.drop (64 - c.buffer_len)).take 64 = padding.drop (64 - c.buffer_len) := by
      apply List.take_of_length_le
      rw [List.length_drop]; omega
    refine ⟨?_, trivial, h2len⟩
    have hsplit : c.buffer.take c.buffer_len ++ padding
        = (c.buffer.take c.buffer_len ++ padding.take (64 - c.buffer_len))
          ++ (padding.drop (64 - c.buffer_len) ++ []) := by
      rw [List.append_nil, List.append_assoc, List.take_append_drop]
    have h1len' : (c.buffer.take c.buffer_len ++ padding.take (64 - c.buffer_len)).length
        = 64 := by
      simpa only [List.drop_zero, sha256_pending] using h1len
    rw [hsplit, absorb_block _ _ _ _ _ (by decide) h1len', h2,
      absorb_block _ _ _ _ _ (by decide) (by rw [List.length_drop]; omega),
      absorb_short _ _ _ _ (by decide)]

/-! ## SHA-256: init, update and final against the FIPS reference -/

theorem store_be32_eq_be_bytes (x : Nat) : store_be32 x = be_bytes 4 x := by
  simp only [store_be32, be_bytes, Nat.shiftRight_eq_div_pow, List.range, List.range.loop,
    List.map]
  norm_num

theorem store_be64_eq_be_bytes (x : Nat) : store_be64 x = be_bytes 8 x := by
  simp only [store_be64, be_bytes, Nat.shiftRight_eq_div_pow, List.range, List.range.loop,
    List.map]
  norm_num

theorem sha256_compress_length (st d : List Nat) : (sha256_compress st d).length = 8 := by
  unfold sha256_compress sha256_transform
  rfl

theorem sha256_absorb_length (st l : List Nat) (h : st.length = 8) :
    (absorb 64 sha256_compress st l).length = 8 := by
  unfold absorb
  generalize blocks 64 (l.length / 64) l = bs
  induction bs generalizing st with
  | nil => exact h
  | cons b bs ih => rw [List.foldl_cons]; exact ih _ (sha256_compress_length st b)

theorem range8_flatMap_getD (f : Nat → List Nat) (st : List Nat) (h : st.length = 8) :
    (List.range 8).flatMap (fun i => f (st.getD i 0)) = st.flatMap f := by
  match st, h with
  | [a, b, c, d, e, f', g, h'], _ => rfl

theorem sha256_init_tracks (c : SHA256_CTX) (hb : c.buffer.length = 64) :
    ∃ c', sha256_init (some c) = (SHA256_SUCCESS, some c') ∧ sha256_tracks c' [] :=
  ⟨_, rfl, hb, rfl, rfl, rfl, rfl⟩

theorem sha256_update_tracks (c : SHA256_CTX) (m d : List Nat) (h : sha256_tracks c m)
    (hn : (m ++ d).length ≤ 2 ^ 61 - 1) :
    ∃ c', sha256_update (some c) (some d) d.length = (SHA256_SUCCESS, some c') ∧
      sha256_tracks c' (m ++ d) := by
  obtain ⟨hb, hl, hc, hs, hp⟩ := h
  rw [List.length_append] at hn
  by_cases hd : d.length = 0
  · have : d = [] := List.length_eq_zero.mp hd
    subst this
    refine ⟨c, ?_, ?_⟩
    · unfold sha256_update; simp only [List.length_nil, if_true]
    · rw [List.append_nil]; exact ⟨hb, hl, hc, hs, hp⟩
  · rw [sha256_update_accept c d d.length (Nat.pos_of_ne_zero hd) (by omega)]
    refine ⟨_, rfl, ?_⟩
    have hlt : c.buffer_len < 64 := by rw [hl]; exact Nat.mod_lt _ (by decide)
    obtain ⟨e1, e2, e3, e4⟩ :=
      sha256_update_data_spec { c with count := c.count + d.length } d hb hlt
    refine ⟨e2, ?_, ?_, ?_, ?_⟩
    · rw [e3, List.length_append]; simp only [hl]; omega
    · rw [sha256_update_data_count, List.length_append]; simp only [hc]
    · rw [e1, absorb_append 64 _ (by decide) SHA256_H0 m d]
      show absorb 64 sha256_compress c.state (sha256_pending c ++ d) = _
      rw [hs, hp]
    · rw [e4, tail_bytes_append 64 (by decide) m d]
      show tail_bytes 64 (sha256_pending c ++ d) = _
      rw [hp]

theorem sha256_update_chunks_tracks (chunks : List (List Nat)) :
    ∀ (c : SHA256_CTX) (m : List Nat), sha256_tracks c m →
      (m ++ chunks.flatten).length ≤ 2 ^ 61 - 1 →
      ∃ c', sha256_update_chunks (some c) chunks
          = (List.replicate chunks.length SHA256_SUCCESS, some c') ∧
        sha256_tracks c' (m ++ chunks.flatten) := by
  induction chunks with
  | nil =>
    intro c m h _
    exact ⟨c, rfl, by rw [List.flatten_nil, List.append_nil]; exact h⟩
  | cons ch rest ih =>
    intro c m h hn
    rw [List.flatten_cons, ← List.append_assoc] at hn ⊢
    obtain ⟨c1, e1, t1⟩ := sha256_update_tracks c m ch h (by
      rw [List.length_append] at hn; omega)
    obtain ⟨c2, e2, t2⟩ := ih c1 (m ++ ch) t1 hn
    refine ⟨c2, ?_, t2⟩
    unfold sha256_update_chunks
    rw [e1]
    simp only [e2, List.length_cons, List.replicate_succ]

theorem sha256_digest_bytes_length (st : List Nat) : (sha256_digest_bytes st).length = 32 := rfl

theorem sha256_final_spec (c : SHA256_CTX) (out : List Nat)
    (hb : c.buffer.length = 64) (hl : c.buffer_len < 64) :
    sha256_final (some c) (some out) =
      (SHA256_SUCCESS, some sha256_zero_ctx,
        some (sha256_digest_bytes (absorb 64 sha256_compress c.state
            (sha256_pending c ++
              sha256_padding (sha256_pad_len c.buffer_len) ((c.count * 8) % 2 ^ 64)))
          ++ out.drop 32)) := by
  have hplen : (sha256_padding (sha256_pad_len c.buffer_len) ((c.count * 8) % 2 ^ 64)).length
      = sha256_pad_len c.buffer_len + 8 := by
    unfold sha256_padding sha256_pad_len SHA256_BLOCK_SIZE
    simp only [List.length_append, List.length_replicate, List.length_singleton, store_be64,
      List.length_cons, List.length_nil]
    split_ifs <;> omega
  have hfuel : 2 ≤ sha256_pad_len c.buffer_len + 8 := by omega
  have hspec := sha256_final_loop_spec (sha256_pad_len c.buffer_len + 8) c _ hb hl hplen hfuel
  rw [hplen] at hspec
  unfold sha256_final
  simp only [SHA256_DIGEST_SIZE, hspec.1, sha256_digest_bytes]

theorem sha256_ref_length (m : List Nat) : (sha256_ref m).length = 32 := rfl

theorem sha256_final_tracks (c : SHA256_CTX) (m out : List Nat) (h : sha256_tracks c m)
    (hn : m.length ≤ 2 ^ 61 - 1) :
    sha256_final (some c) (some out) =
      (SHA256_SUCCESS, some sha256_zero_ctx, some (sha256_ref m ++ out.drop 32)) := by
  obtain ⟨hb, hl, hc, hs, hp⟩ := h
  have hlt : c.buffer_len < 64 := by rw [hl]; exact Nat.mod_lt _ (by decide)
  rw [sha256_final_spec c out hb hlt, hs, hp, hl, hc,
    ← absorb_append 64 _ (by decide) SHA256_H0 m]
  have hm : m.length * 8 % 2 ^ 64 = 8 * m.length := by omega
  rw [hm]
  rfl

theorem sha256_oneshot (stack : SHA256_CTX) (m out : List Nat)
    (hb : stack.buffer.length = 64) (hn : m.length ≤ 2 ^ 61 - 1) :
    sha256 stack (some m) m.length (some out) =
      (SHA256_SUCCESS, sha256_zero_ctx, some (sha256_ref m ++ out.drop 32)) := by
  obtain ⟨c1, e1, t1⟩ := sha256_init_tracks stack hb
  obtain ⟨c2, e2, t2⟩ := sha256_update_tracks c1 [] m t1 (by simpa using hn)
  rw [List.nil_append] at t2
  have e3 := sha256_final_tracks c2 m out t2 hn
  unfold sha256
  rw [e1]
  simp only [ne_eq, not_true_eq_false, if_false, e2, e3]

theorem sha256_fips_eq_ref (m : List Nat) (k : Nat)
    (hk : (m.length + 1 + k + 8) % 64 = 0)
    (hmin : ∀ j, j < k → (m.length + 1 + j + 8) % 64 ≠ 0) :
    sha256_fips m k = sha256_ref m := by
  have hk0 : k = sha256_pad_len (m.length % 64) - 1 := by
    have hm := hmin (sha256_pad_len (m.length % 64) - 1)
    unfold sha256_pad_len SHA256_BLOCK_SIZE at hm ⊢
    split_ifs at hm ⊢ <;> omega
  have hpad : sha256_fips_padded m k
      = m ++ sha256_padding (sha256_pad_len (m.length % 64)) (8 * m.length) := by
    unfold sha256_fips_padded sha256_padding
    rw [← store_be64_eq_be_bytes, ← hk0]
    simp only [List.append_assoc]
  unfold sha256_fips sha256_ref
  rw [sha256_foldl_transform, hpad]
  have hlen := sha256_absorb_length SHA256_H0
    (m ++ sha256_padding (sha256_pad_len (m.length % 64)) (8 * m.length)) rfl
  unfold sha256_digest_bytes
  rw [range8_flatMap_getD _ _ hlen]
  have hf : store_be32 = be_bytes 4 := funext store_be32_eq_be_bytes
  rw [hf]
  rfl

/-- C1: for every byte string `m` of at most `2^61 - 1` bytes, `sha256_init`, one
`sha256_update` with `m` and `sha256_final` all return success, and the 32 bytes written are
the big-endian serialisation of the state obtained by folding `sha256_transform` from the
initial constants over the 64-byte blocks of `m || 0x80 || 0x00^k || be64(8 n)`, `k` being the
least number of zero bytes that makes the padded length a multiple of 64. -/
theorem sha256_matches_fips (ctx : SHA256_CTX) (m out : List Nat) (k : Nat)
    (hbuf : ctx.buffer.length = 64) (hn : m.length ≤ 2 ^ 61 - 1)
    (hk : (m.length + 1 + k + 8) % 64 = 0)
    (hmin : ∀ j, j < k → (m.length + 1 + j + 8) % 64 ≠ 0) :
    (sha256_init (some ctx)).1 = SHA256_SUCCESS ∧
    (sha256_update (sha256_init (some ctx)).2 (some m) m.length).1 = SHA256_SUCCESS ∧
    (sha256_final (sha256_update (sha256_init (some ctx)).2 (some m) m.length).2
        (some out)).1 = SHA256_SUCCESS ∧
    (sha256_final (sha256_update (sha256_init (some ctx)).2 (some m) m.length).2
        (some out)).2.2.map (List.take 32) = some (sha256_fips m k) := by
  obtain ⟨c1, e1, t1⟩ := sha256_init_tracks ctx hbuf
  obtain ⟨c2, e2, t2⟩ := sha256_update_tracks c1 [] m t1 (by simpa using hn)
  rw [List.nil_append] at t2
  have e3 := sha256_final_tracks c2 m out t2 hn
  rw [e1]
  simp only [e2, e3, Option.map_some', sha256_fips_eq_ref m k hk hmin]
  refine ⟨trivial, trivial, trivial, ?_⟩
  rw [List.take_left' (sha256_ref_length m)]

/-- Witness for C1: the three-byte message `abc`, padded with 52 zero bytes. -/
theorem sha256_matches_fips_witness :
    (sha256_zero_ctx.buffer.length = 64 ∧ [0x61, 0x62, 0x63].length ≤ 2 ^ 61 - 1 ∧
      ([0x61, 0x62, 0x63].length + 1 + 52 + 8) % 64 = 0 ∧
      ∀ j, j < 52 → ([0x61, 0x62, 0x63].length + 1 + j + 8) % 64 ≠ 0) ∧
    (sha256_final (sha256_update (sha256_init (some sha256_zero_ctx)).2
        (some [0x61, 0x62, 0x63]) [0x61, 0x62, 0x63].length).2 (some [])).2.2.map (List.take 32)
      = some (sha256_fips [0x61, 0x62, 0x63] 52) :=
  ⟨⟨by decide, by decide, by decide, by decide⟩,
   (sha256_matches_fips sha256_zero_ctx [0x61, 0x62, 0x63] [] 52 (by decide) (by decide)
    (by decide) (by decide)).2.2.2⟩

/-- C3: for every list of chunks whose total length is at most `2^61 - 1`, `sha256_init`,
`sha256_update` on each chunk in order and `sha256_final` all succeed and write the same
32-byte digest as the one-shot `sha256` on the concatenation of the chunks. -/
theorem sha256_incremental_eq_oneshot (ctx stack : SHA256_CTX) (chunks : List (List Nat))
    (out out' : List Nat)
    (hbuf : ctx.buffer.length = 64) (hstack : stack.buffer.length = 64)
    (hn : chunks.flatten.length ≤ 2 ^ 61 - 1) :
    (sha256_init (some ctx)).1 = SHA256_SUCCESS ∧
    (sha256_update_chunks (sha256_init (some ctx)).2 chunks).1
      = List.replicate chunks.length SHA256_SUCCESS ∧
    (sha256_final (sha256_update_chunks (sha256_init (some ctx)).2 chunks).2
        (some out)).1 = SHA256_SUCCESS ∧
    (sha256 stack (some chunks.flatten) chunks.flatten.length (some out')).1 = SHA256_SUCCESS ∧
    (sha256_final (sha256_update_chunks (sha256_init (some ctx)).2 chunks).2
        (some out)).2.2.map (List.take 32)
      = (sha256 stack (some chunks.flatten) chunks.flatten.length
          (some out')).2.2.map (List.take 32) := by
  obtain ⟨c1, e1, t1⟩ := sha256_init_tracks ctx hbuf
  obtain ⟨c2, e2, t2⟩ := sha256_update_chunks_tracks chunks c1 [] t1 (by simpa using hn)
  rw [List.nil_append] at t2
  have e3 := sha256_final_tracks c2 chunks.flatten out t2 hn
  rw [e1, sha256_oneshot stack chunks.flatten out' hstack hn]
  simp only [e2, e3, Option.map_some', List.take_left' (sha256_ref_length chunks.flatten)]
  exact ⟨trivial, trivial, trivial, trivial, trivial⟩

/-- Witness for C3: `abc` fed as the chunks `a`, the empty chunk, `bc`. -/
theorem sha256_incremental_eq_oneshot_witness :
    (sha256_zero_ctx.buffer.length = 64 ∧
      [[0x61], [], [0x62, 0x63]].flatten.length ≤ 2 ^ 61 - 1) ∧
    (sha256_final (sha256_update_chunks (sha256_init (some sha256_zero_ctx)).2
        [[0x61], [], [0x62, 0x63]]).2 (some [])).2.2.map (List.take 32)
      = (sha256 sha256_zero_ctx (some [[0x61], [], [0x62, 0x63]].flatten)
          [[0x61], [], [0x62, 0x63]].flatten.length (some [])).2.2.map (List.take 32) :=
  ⟨⟨by decide, by decide⟩,
   (sha256_incremental_eq_oneshot sha256_zero_ctx sha256_zero_ctx [[0x61], [], [0x62, 0x63]]
    [] [] (by decide) (by decide) (by decide)).2.2.2.2⟩

/-! ## SHA-512: the streaming functions against the block fold -/

theorem sha512_transform_eq (c : SHA512_CTX) (d : List Nat) :
    sha512_transform c d = { c with state := sha512_compress c.state d } := by
  unfold sha512_compress sha512_transform
  simp only

theorem sha512_foldl_transform (bs : List (List Nat)) :
    ∀ c : SHA512_CTX, bs.foldl sha512_transform c =
      { c with state := bs.foldl sha512_compress c.state } := by
  induction bs with
  | nil => intro c; rfl
  | cons b bs ih => intro c; rw [List.foldl_cons, ih, List.foldl_cons, sha512_transform_eq]

theorem sha512_update_loop_eq (fuel : Nat) :
    ∀ (c : SHA512_CTX) (input : List Nat) (n : Nat), n / 128 ≤ fuel →
      sha512_update_loop fuel c input n =
        ({ c with state := (blocks 128 (n / 128) input).foldl sha512_compress c.state },
          input.drop (128 * (n / 128)), n % 128) := by
  induction fuel with
  | zero =>
    intro c input n h
    have h0 : n / 128 = 0 := by omega
    have h1 : n % 128 = n := by omega
    rw [h0, h1]
    rfl
  | succ k ih =>
    intro c input n h
    unfold sha512_update_loop
    by_cases hn : n ≥ SHA512_BLOCK_SIZE
    · rw [if_pos hn]
      unfold SHA512_BLOCK_SIZE at hn ⊢
      rw [ih _ _ _ (by omega), sha512_transform_eq]
      have hd : n / 128 = (n - 128) / 128 + 1 := by omega
      have hm : (n - 128) % 128 = n % 128 := by omega
      rw [hd, hm, blocks, List.foldl_cons, List.drop_drop]
      have hmul : 128 + 128 * ((n - 128) / 128) = 128 * ((n - 128) / 128 + 1) := by omega
      rw [hmul]
    · rw [if_neg hn]
      unfold SHA512_BLOCK_SIZE at hn
      have h0 : n / 128 = 0 := by omega
      have h1 : n % 128 = n := by omega
      rw [h0, h1]
      rfl

theorem sha512_pending_length (c : SHA512_CTX) (hb : c.buffer.length = 128)
    (hl : c.buffer_len ≤ 128) : (sha512_pending c).length = c.buffer_len := by
  unfold sha512_pending
  rw [List.length_take, hb]
  omega

/-- From an empty buffer, the block loop followed by the final store absorbs the input. -/
theorem sha512_update_tail (c : SHA512_CTX) (input : List Nat)
    (hb : c.buffer.length = 128) (h0 : c.buffer_len = 0) :
    (sha512_update_store (sha512_update_loop input.length c input input.length).1
        (sha512_update_loop input.length c input input.length).2.1
        (sha512_update_loop input.length c input input.length).2.2).state
      = absorb 128 sha512_compress c.state input ∧
    (sha512_update_store (sha512_update_loop input.length c input input.length).1
        (sha512_update_loop input.length c input input.length).2.1
        (sha512_update_loop input.length c input input.length).2.2).buffer.length = 128 ∧
    (sha512_update_store (sha512_update_loop input.length c input input.length).1
        (sha512_update_loop input.length c input input.length).2.1
        (sha512_update_loop input.length c input input.length).2.2).buffer_len
      = input.length % 128 ∧
    sha512_pending (sha512_update_store (sha512_update_loop input.length c input input.length).1
        (sha512_update_loop input.length c input input.length).2.1
        (sha512_update_loop input.length c input input.length).2.2)
      = tail_bytes 128 input := by
  rw [sha512_update_loop_eq input.length c input input.length (Nat.div_le_self _ _)]
  have htl : (input.drop (128 * (input.length / 128))).length = input.length % 128 :=
    tail_bytes_length 128 input
  unfold sha512_update_store sha512_pending
  by_cases hr : input.length % 128 > 0
  · simp only [hr, if_true, h0]
    refine ⟨rfl, ?_, by omega, ?_⟩
    · rw [memcpy_length _ _ _ _ (by omega) (by omega), hb]
    · have hmod : input.length % 128 < 128 := Nat.mod_lt _ (by decide)
      have e := memcpy_take c.buffer (input.drop (128 * (input.length / 128))) 0
        (input.length % 128) (by omega) (by omega)
      rw [Nat.zero_add] at e ⊢
      rw [e, List.take_zero, List.nil_append, List.take_of_length_le (by omega)]
      rfl
  · simp only [hr, if_false, h0]
    refine ⟨rfl, hb, by omega, ?_⟩
    have hz : (tail_bytes 128 input).length = 0 := by rw [tail_bytes_length]; omega
    rw [List.take_zero, List.length_eq_zero.mp hz]

/-- Postcondition of the data part of `sha512_update` on a context whose buffer is not full. -/
theorem sha512_update_data_spec (c : SHA512_CTX) (d : List Nat)
    (hb : c.buffer.length = 128) (hl : c.buffer_len < 128) :
    (sha512_update_data c d d.length).state
      = absorb 128 sha512_compress c.state (sha512_pending c ++ d) ∧
    (sha512_update_data c d d.length).buffer.length = 128 ∧
    (sha512_update_data c d d.length).buffer_len = (c.buffer_len + d.length) % 128 ∧
    sha512_pending (sha512_update_data c d d.length)
      = tail_bytes 128 (sha512_pending c ++ d) := by
  have hp : (sha512_pending c).length = c.buffer_len := sha512_pending_length c hb (by omega)
  unfold sha512_update_data
  by_cases h0 : c.buffer_len = 0
  · have hf : sha512_update_fill c d d.length = (c, d, d.length) := by
      unfold sha512_update_fill
      simp only [h0, gt_iff_lt, Nat.lt_irrefl, if_false]
    have hnil : sha512_pending c = [] := List.length_eq_zero.mp (by rw [hp, h0])
    simp only [hf, hnil, List.nil_append, h0, Nat.zero_add]
    exact sha512_update_tail c d hb h0
  · by_cases hlt : d.length < 128 - c.buffer_len
    · have hf : sha512_update_fill c d d.length =
          ({ c with buffer := memcpy c.buffer c.buffer_len d d.length,
                    buffer_len := c.buffer_len + d.length }, [], 0) := by
        unfold sha512_update_fill
        have hne : c.buffer_len + d.length ≠ 128 := by omega
        simp only [SHA512_BLOCK_SIZE, gt_iff_lt, Nat.pos_of_ne_zero h0, if_true, hlt, hne,
          if_false, Nat.sub_self, List.drop_length]
      have hs : (sha512_pending c ++ d).length < 128 := by
        rw [List.length_append, hp]; omega
      simp only [hf, sha512_update_loop, sha512_update_store, gt_iff_lt, Nat.lt_irrefl, if_false]
      rw [absorb_short _ _ _ _ hs, tail_bytes_short _ _ hs]
      refine ⟨rfl, ?_, ?_, ?_⟩
      · rw [memcpy_length _ _ _ _ (by omega) (by omega), hb]
      · rw [Nat.mod_eq_of_lt (by omega)]
      · unfold sha512_pending
        simp only
        rw [memcpy_take _ _ _ _ (by omega) (by omega), List.take_length]
    · have hblk : memcpy c.buffer c.buffer_len d (128 - c.buffer_len)
          = sha512_pending c ++ d.take (128 - c.buffer_len) := by
        unfold memcpy sha512_pending
        have : c.buffer_len + (128 - c.buffer_len) = c.buffer.length := by omega
        rw [this, List.drop_length, List.append_nil]
      have hblen : (sha512_pending c ++ d.take (128 - c.buffer_len)).length = 128 := by
        rw [List.length_append, hp, List.length_take]; omega
      have hf : sha512_update_fill c d d.length =
          ({ c with state := sha512_compress c.state
                      (sha512_pending c ++ d.take (128 - c.buffer_len)),
                    buffer := sha512_pending c ++ d.take (128 - c.buffer_len),
                    buffer_len := 0 },
            d.drop (128 - c.buffer_len), (d.drop (128 - c.buffer_len)).length) := by
        unfold sha512_update_fill
        have he : c.buffer_len + (128 - c.buffer_len) = 128 := by omega
        rw [if_pos (Nat.pos_of_ne_zero h0)]
        simp only [SHA512_BLOCK_SIZE, hlt, if_false, he, hblk, if_true, List.length_drop]
        rw [sha512_transform_eq]
      have hsplit : sha512_pending c ++ d
          = (sha512_pending c ++ d.take (128 - c.buffer_len)) ++ d.drop (128 - c.buffer_len) := by
        rw [List.append_assoc, List.take_append_drop]
      have ht := sha512_update_tail
        { c with state := sha512_compress c.state
                    (sha512_pending c ++ d.take (128 - c.buffer_len)),
                 buffer := sha512_pending c ++ d.take (128 - c.buffer_len),
                 buffer_len := 0 }
        (d.drop (128 - c.buffer_len)) hblen rfl
      simp only [hf]
      rw [hsplit, absorb_block _ _ _ _ _ (by decide) hblen,
        tail_bytes_block _ _ _ (by decide) hblen]
      refine ⟨ht.1, ht.2.1, ?_, ht.2.2.2⟩
      rw [ht.2.2.1, List.length_drop]
      omega

theorem sha512_final_loop_done (fuel : Nat) (c : SHA512_CTX) (padding : List Nat) (total i : Nat)
    (h : ¬ i < total) : sha512_final_loop fuel c padding total i = c := by
  cases fuel with
  | zero => rfl
  | succ k => unfold sha512_final_loop; rw [if_neg h]

/-- One iteration of the padding loop that fills the buffer up to the block size. -/
theorem sha512_final_loop_step (fuel : Nat) (c : SHA512_CTX) (padding : List Nat) (total i : Nat)
    (hb : c.buffer.length = 128) (hl : c.buffer_len < 128) (hi : i < total)
    (hsp : 128 - c.buffer_len ≤ total - i) :
    sha512_final_loop (fuel + 1) c padding total i =
      sha512_final_loop fuel
        { c with state := sha512_compress c.state
                    (sha512_pending c ++ (padding.drop i).take (128 - c.buffer_len)),
                 buffer := sha512_pending c ++ (padding.drop i).take (128 - c.buffer_len),
                 buffer_len := 0 }
        padding total (i + (128 - c.buffer_len)) := by
  have hblk : memcpy c.buffer c.buffer_len (padding.drop i) (128 - c.buffer_len)
      = sha512_pending c ++ (padding.drop i).take (128 - c.buffer_len) := by
    unfold memcpy sha512_pending
    have : c.buffer_len + (128 - c.buffer_len) = c.buffer.length := by omega
    rw [this, List.drop_length, List.append_nil]
  have hnlt : ¬ total - i < 128 - c.buffer_len := by omega
  have he : c.buffer_len + (128 - c.buffer_len) = 128 := by omega
  rw [sha512_final_loop, if_pos hi]
  simp only [SHA512_BLOCK_SIZE, hnlt, if_false, he, hblk, if_true]
  rw [sha512_transform_eq]

/-- The padding loop of `sha512_final` absorbs the buffered bytes followed by the padding. -/
theorem sha512_final_loop_spec (fuel : Nat) (c : SHA512_CTX) (padding : List Nat)
    (hb : c.buffer.length = 128) (hl : c.buffer_len < 128)
    (hp : padding.length = sha512_pad_len c.buffer_len + 16) (hfuel : 2 ≤ fuel) :
    (sha512_final_loop fuel c padding padding.length 0).state
      = absorb 128 sha512_compress c.state (sha512_pending c ++ padding) ∧
    (sha512_final_loop fuel c padding padding.length 0).buffer_len = 0 ∧
    (sha512_final_loop fuel c padding padding.length 0).buffer.length = 128 := by
  have hpl : (sha512_pending c).length = c.buffer_len := sha512_pending_length c hb (by omega)
  obtain ⟨k, rfl⟩ : ∃ k, fuel = k + 2 := ⟨fuel - 2, by omega⟩
  unfold sha512_pad_len SHA512_BLOCK_SIZE at hp
  try unfold SHA512_PAD_THRESHOLD SHA512_BLOCK_SIZE SHA512_LENGTH_SIZE at hp
  by_cases hlt : c.buffer_len < 112
  · rw [if_pos hlt] at hp
    have htot : padding.length = 128 - c.buffer_len := by omega
    rw [sha512_final_loop_step (k + 1) c padding padding.length 0 hb hl (by omega) (by omega),
      sha512_final_loop_done _ _ _ _ _ (by omega)]
    simp only [List.drop_zero]
    rw [← htot, List.take_length]
    have hblen : (sha512_pending c ++ padding).length = 128 := by
      rw [List.length_append, hpl]; omega
    refine ⟨?_, trivial, hblen⟩
    have e := absorb_block 128 sha512_compress c.state (sha512_pending c ++ padding) []
      (by decide) hblen
    rw [List.append_nil] at e
    rw [e, absorb_short _ _ _ _ (by decide)]
  · rw [if_neg hlt] at hp
    have htot : padding.length = 2 * 128 - c.buffer_len := by omega
    have h1len : (sha512_pending c ++ (padding.drop 0).take (128 - c.buffer_len)).length = 128 := by
      rw [List.length_append, hpl, List.length_take, List.length_drop]; omega
    rw [sha512_final_loop_step (k + 1) c padding padding.length 0 hb hl (by omega) (by omega)]
    rw [sha512_final_loop_step k _ padding padding.length (0 + (128 - c.buffer_len)) h1len
      (Nat.zero_lt_succ _) (by omega) (by simp only; omega)]
    rw [sha512_final_loop_done _ _ _ _ _ (by simp only; omega)]
    simp only [List.drop_zero, Nat.zero_add, Nat.sub_zero, sha512_pending, List.take_zero,
      List.nil_append]
    have h2len : ((padding.drop (128 - c.buffer_len)).take 128).length = 128 := by
      rw [List.length_take, List.length_drop]; omega
    have h2 : (padding.drop (128 - c.buffer_len)).take 128 = padding.drop (128 - c.buffer_len) := by
      apply List.take_of_length_le
      rw [List.length_drop]; omega
    refine ⟨?_, trivial, h2len⟩
    have hsplit : c.buffer.take c.buffer_len ++ padding
        = (c.buffer.take c.buffer_len ++ padding.take (128 - c.buffer_len))
          ++ (padding.drop (128 - c.buffer_len) ++ []) := by
      rw [List.append_nil, List.append_assoc, List.take_append_drop]
    have h1len' : (c.buffer.take c.buffer_len ++ padding.take (128 - c.buffer_len)).length
        = 128 := by
      simpa only [List.drop_zero, sha512_pending] using h1len
    rw [hsplit, absorb_block _ _ _ _ _ (by decide) h1len', h2,
      absorb_block _ _ _ _ _ (by decide) (by rw [List.length_drop]; omega),
      absorb_short _ _ _ _ (by decide)]

/-! ## SHA-512: init, update and final against the FIPS reference -/

theorem be_bytes16_split (x : Nat) :
    be_bytes 16 x = store_be64 (x / 2 ^ 64) ++ store_be64 (x % 2 ^ 64) := by
  simp only [store_be64, be_bytes, Nat.shiftRight_eq_div_pow, List.range, List.range.loop,
    List.map, List.cons_append, List.nil_append]
  norm_num
  repeat' apply And.intro
  all_goals omega

theorem sha512_compress_length (st d : List Nat) : (sha512_compress st d).length = 8 := by
  unfold sha512_compress sha512_transform
  rfl

theorem sha512_absorb_length (st l : List Nat) (h : st.length = 8) :
    (absorb 128 sha512_compress st l).length = 8 := by
  unfold absorb
  generalize blocks 128 (l.length / 128) l = bs
  induction bs generalizing st with
  | nil => exact h
  | cons b bs ih => rw [List.foldl_cons]; exact ih _ (sha512_compress_length st b)

theorem sha512_init_tracks (c : SHA512_CTX) (hb : c.buffer.length = 128) :
    ∃ c', sha512_init (some c) = (SHA512_SUCCESS, some c') ∧ sha512_tracks c' [] :=
  ⟨_, rfl, hb, rfl, rfl, rfl, rfl⟩

theorem sha512_update_tracks (c : SHA512_CTX) (m d : List Nat) (h : sha512_tracks c m)
    (hn : (m ++ d).length < 2 ^ 64) :
    ∃ c', sha512_update (some c) (some d) d.length = (SHA512_SUCCESS, some c') ∧
      sha512_tracks c' (m ++ d) := by
  obtain ⟨hb, hl, hc, hs, hp⟩ := h
  rw [List.length_append] at hn
  by_cases hd : d.length = 0
  · have : d = [] := List.length_eq_zero.mp hd
    subst this
    refine ⟨c, ?_, ?_⟩
    · unfold sha512_update; simp only [List.length_nil, if_true]
    · rw [List.append_nil]; exact ⟨hb, hl, hc, hs, hp⟩
  · have hc1 : c.count.1 = (8 * m.length) % 2 ^ 64 := by rw [hc]
    have hc2 : c.count.2 = (8 * m.length) / 2 ^ 64 := by rw [hc]
    rw [sha512_update_accept c d d.length (Nat.pos_of_ne_zero hd) (by omega) (by omega)
      (by omega) (by omega)]
    refine ⟨_, rfl, ?_⟩
    have hlt : c.buffer_len < 128 := by rw [hl]; exact Nat.mod_lt _ (by decide)
    obtain ⟨e1, e2, e3, e4⟩ :=
      sha512_update_data_spec
        { c with count := ((c.count.1 + 8 * d.length) % 2 ^ 64,
                           (c.count.2 * 2 ^ 64 + c.count.1 + 8 * d.length) / 2 ^ 64) } d hb hlt
    refine ⟨e2, ?_, ?_, ?_, ?_⟩
    · rw [e3, List.length_append]; simp only [hl]; omega
    · rw [sha512_update_data_count, List.length_append]
      simp only [hc1, hc2, Prod.mk.injEq]
      constructor <;> omega
    · rw [e1, absorb_append 128 _ (by decide) SHA512_H0 m d]
      show absorb 128 sha512_compress c.state (sha512_pending c ++ d) = _
      rw [hs, hp]
    · rw [e4, tail_bytes_append 128 (by decide) m d]
      show tail_bytes 128 (sha512_pending c ++ d) = _
      rw [hp]

theorem sha512_update_chunks_tracks (chunks : List (List Nat)) :
    ∀ (c : SHA512_CTX) (m : List Nat), sha512_tracks c m →
      (m ++ chunks.flatten).length < 2 ^ 64 →
      ∃ c', sha512_update_chunks (some c) chunks
          = (List.replicate chunks.length SHA512_SUCCESS, some c') ∧
        sha512_tracks c' (m ++ chunks.flatten) := by
  induction chunks with
  | nil =>
    intro c m h _
    exact ⟨c, rfl, by rw [List.flatten_nil, List.append_nil]; exact h⟩
  | cons ch rest ih =>
    intro c m h hn
    rw [List.flatten_cons, ← List.append_assoc] at hn ⊢
    obtain ⟨c1, e1, t1⟩ := sha512_update_tracks c m ch h (by
      rw [List.length_append] at hn; omega)
    obtain ⟨c2, e2, t2⟩ := ih c1 (m ++ ch) t1 hn
    refine ⟨c2, ?_, t2⟩
    unfold sha512_update_chunks
    rw [e1]
    simp only [e2, List.length_cons, List.replicate_succ]

theorem sha512_digest_bytes_length (st : List Nat) : (sha512_digest_bytes st).length = 64 := rfl

theorem sha512_final_spec (c : SHA512_CTX) (out : List Nat)
    (hb : c.buffer.length = 128) (hl : c.buffer_len < 128) :
    sha512_final (some c) (some out) =
      (SHA512_SUCCESS, some sha512_zero_ctx,
        some (sha512_digest_bytes (absorb 128 sha512_compress c.state
            (sha512_pending c ++ sha512_padding (sha512_pad_len c.buffer_len) c.count))
          ++ out.drop 64)) := by
  have hplen : (sha512_padding (sha512_pad_len c.buffer_len) c.count).length
      = sha512_pad_len c.buffer_len + 16 := by
    unfold sha512_padding sha512_pad_len SHA512_PAD_THRESHOLD SHA512_BLOCK_SIZE
      SHA512_LENGTH_SIZE
    simp only [List.length_append, List.length_replicate, List.length_singleton, store_be64,
      List.length_cons, List.length_nil]
    split_ifs <;> omega
  have hfuel : 2 ≤ sha512_pad_len c.buffer_len + 16 := by omega
  have hspec := sha512_final_loop_spec (sha512_pad_len c.buffer_len + 16) c _ hb hl hplen hfuel
  rw [hplen] at hspec
  unfold sha512_final
  simp only [SHA512_DIGEST_SIZE, SHA512_LENGTH_SIZE, hspec.1, sha512_digest_bytes]

theorem sha512_ref_length (m : List Nat) : (sha512_ref m).length = 64 := rfl

theorem sha512_final_tracks (c : SHA512_CTX) (m out : List Nat) (h : sha512_tracks c m) :
    sha512_final (some c) (some out) =
      (SHA512_SUCCESS, some sha512_zero_ctx, some (sha512_ref m ++ out.drop 64)) := by
  obtain ⟨hb, hl, hc, hs, hp⟩ := h
  have hlt : c.buffer_len < 128 := by rw [hl]; exact Nat.mod_lt _ (by decide)
  rw [sha512_final_spec c out hb hlt, hs, hp, hl, hc,
    ← absorb_append 128 _ (by decide) SHA512_H0 m]
  rfl

theorem sha512_oneshot (stack : SHA512_CTX) (m out : List Nat)
    (hb : stack.buffer.length = 128) (hn : m.length < 2 ^ 64) :
    sha512 stack (some m) m.length (some out) =
      (SHA512_SUCCESS, sha512_zero_ctx, some (sha512_ref m ++ out.drop 64)) := by
  obtain ⟨c1, e1, t1⟩ := sha512_init_tracks stack hb
  obtain ⟨c2, e2, t2⟩ := sha512_update_tracks c1 [] m t1 (by simpa using hn)
  rw [List.nil_append] at t2
  have e3 := sha512_final_tracks c2 m out t2
  unfold sha512
  rw [e1]
  simp only [ne_eq, not_true_eq_false, if_false, e2, e3]

theorem sha512_fips_eq_ref (m : List Nat) (k : Nat)
    (hk : (m.length + 1 + k + 16) % 128 = 0)
    (hmin : ∀ j, j < k → (m.length + 1 + j + 16) % 128 ≠ 0) :
    sha512_fips m k = sha512_ref m := by
  have hk0 : k = sha512_pad_len (m.length % 128) - 1 := by
    have hm := hmin (sha512_pad_len (m.length % 128) - 1)
    unfold sha512_pad_len SHA512_PAD_THRESHOLD SHA512_BLOCK_SIZE SHA512_LENGTH_SIZE at hm ⊢
    split_ifs at hm ⊢ <;> omega
  have hpad : sha512_fips_padded m k
      = m ++ sha512_padding (sha512_pad_len (m.length % 128))
          ((8 * m.length) % 2 ^ 64, (8 * m.length) / 2 ^ 64) := by
    unfold sha512_fips_padded sha512_padding
    rw [be_bytes16_split, ← hk0]
    simp only [List.append_assoc]
  unfold sha512_fips sha512_ref
  rw [sha512_foldl_transform, hpad]
  have hlen := sha512_absorb_length SHA512_H0
    (m ++ sha512_padding (sha512_pad_len (m.length % 128))
      ((8 * m.length) % 2 ^ 64, (8 * m.length) / 2 ^ 64)) rfl
  unfold sha512_digest_bytes
  rw [range8_flatMap_getD _ _ hlen]
  have hf : store_be64 = be_bytes 8 := funext store_be64_eq_be_bytes
  rw [hf]
  rfl

/-- C2: for every byte string `m` of fewer than `2^64` bytes, `sha512_init`, one
`sha512_update` with `m` and `sha512_final` all return success, and the 64 bytes written are
the big-endian serialisation of the state obtained by folding `sha512_transform` from the
initial constants over the 128-byte blocks of `m || 0x80 || 0x00^k || be128(8 n)`, `k` being
the least number of zero bytes that makes the padded length a multiple of 128. -/
theorem sha512_matches_fips (ctx : SHA512_CTX) (m out : List Nat) (k : Nat)
    (hbuf : ctx.buffer.length = 128) (hn : m.length < 2 ^ 64)
    (hk : (m.length + 1 + k + 16) % 128 = 0)
    (hmin : ∀ j, j < k → (m.length + 1 + j + 16) % 128 ≠ 0) :
    (sha512_init (some ctx)).1 = SHA512_SUCCESS ∧
    (sha512_update (sha512_init (some ctx)).2 (some m) m.length).1 = SHA512_SUCCESS ∧
    (sha512_final (sha512_update (sha512_init (some ctx)).2 (some m) m.length).2
        (some out)).1 = SHA512_SUCCESS ∧
    (sha512_final (sha512_update (sha512_init (some ctx)).2 (some m) m.length).2
        (some out)).2.2.map (List.take 64) = some (sha512_fips m k) := by
  obtain ⟨c1, e1, t1⟩ := sha512_init_tracks ctx hbuf
  obtain ⟨c2, e2, t2⟩ := sha512_update_tracks c1 [] m t1 (by simpa using hn)
  rw [List.nil_append] at t2
  have e3 := sha512_final_tracks c2 m out t2
  rw [e1]
  simp only [e2, e3, Option.map_some', sha512_fips_eq_ref m k hk hmin]
  refine ⟨trivial, trivial, trivial, ?_⟩
  rw [List.take_left' (sha512_ref_length m)]

set_option maxRecDepth 8000 in
/-- Witness for C2: the three-byte message `abc`, padded with 108 zero bytes. -/
theorem sha512_matches_fips_witness :
    (sha512_zero_ctx.buffer.length = 128 ∧ [0x61, 0x62, 0x63].length < 2 ^ 64 ∧
      ([0x61, 0x62, 0x63].length + 1 + 108 + 16) % 128 = 0 ∧
      ∀ j, j < 108 → ([0x61, 0x62, 0x63].length + 1 + j + 16) % 128 ≠ 0) ∧
    (sha512_final (sha512_update (sha512_init (some sha512_zero_ctx)).2
        (some [0x61, 0x62, 0x63]) [0x61, 0x62, 0x63].length).2 (some [])).2.2.map (List.take 64)
      = some (sha512_fips [0x61, 0x62, 0x63] 108) :=
  ⟨⟨by decide, by decide, by decide, by decide⟩,
   (sha512_matches_fips sha512_zero_ctx [0x61, 0x62, 0x63] [] 108 (by decide) (by decide)
    (by decide) (by decide)).2.2.2⟩

/-- C4: for every list of chunks whose concatenation is a valid one-shot input (fewer than
`2^64` bytes, the range of `size_t`), `sha512_init`, `sha512_update` on each chunk in order and
`sha512_final` all succeed and write the same 64-byte digest as the one-shot `sha512` on the
concatenation of the chunks. -/
theorem sha512_incremental_eq_oneshot (ctx stack : SHA512_CTX) (chunks : List (List Nat))
    (out out' : List Nat)
    (hbuf : ctx.buffer.length = 128) (hstack : stack.buffer.length = 128)
    (hn : chunks.flatten.length < 2 ^ 64) :
    (sha512_init (some ctx)).1 = SHA512_SUCCESS ∧
    (sha512_update_chunks (sha512_init (some ctx)).2 chunks).1
      = List.replicate chunks.length SHA512_SUCCESS ∧
    (sha512_final (sha512_update_chunks (sha512_init (some ctx)).2 chunks).2
        (some out)).1 = SHA512_SUCCESS ∧
    (sha512 stack (some chunks.flatten) chunks.flatten.length (some out')).1 = SHA512_SUCCESS ∧
    (sha512_final (sha512_update_chunks (sha512_init (some ctx)).2 chunks).2
        (some out)).2.2.map (List.take 64)
      = (sha512 stack (some chunks.flatten) chunks.flatten.length
          (some out')).2.2.map (List.take 64) := by
  obtain ⟨c1, e1, t1⟩ := sha512_init_tracks ctx hbuf
  obtain ⟨c2, e2, t2⟩ := sha512_update_chunks_tracks chunks c1 [] t1 (by simpa using hn)
  rw [List.nil_append] at t2
  have e3 := sha512_final_tracks c2 chunks.flatten out t2
  rw [e1, sha512_oneshot stack chunks.flatten out' hstack hn]
  simp only [e2, e3, Option.map_some', List.take_left' (sha512_ref_length chunks.flatten)]
  exact ⟨trivial, trivial, trivial, trivial, trivial⟩

set_option maxRecDepth 8000 in
/-- Witness for C4: `abc` fed as the chunks `a`, the empty chunk, `bc`. -/
theorem sha512_incremental_eq_oneshot_witness :
    (sha512_zero_ctx.buffer.length = 128 ∧
      [[0x61], [], [0x62, 0x63]].flatten.length < 2 ^ 64) ∧
    (sha512_final (sha512_update_chunks (sha512_init (some sha512_zero_ctx)).2
        [[0x61], [], [0x62, 0x63]]).2 (some [])).2.2.map (List.take 64)
      = (sha512 sha512_zero_ctx (some [[0x61], [], [0x62, 0x63]].flatten)
          [[0x61], [], [0x62, 0x63]].flatten.length (some [])).2.2.map (List.take 64) :=
  ⟨⟨by decide, by decide⟩,
   (sha512_incremental_eq_oneshot sha512_zero_ctx sha512_zero_ctx [[0x61], [], [0x62, 0x63]]
    [] [] (by decide) (by decide) (by decide)).2.2.2.2⟩

/-! ## SHA-256: the result does not depend on stale buffer bytes -/

theorem sha256_init_sim (c c' : SHA256_CTX) (hb : c.buffer.length = 64)
    (hb' : c'.buffer.length = 64) :
    ∃ r r', sha256_init (some c) = (SHA256_SUCCESS, some r) ∧
      sha256_init (some c') = (SHA256_SUCCESS, some r') ∧ sha256_sim r r' :=
  ⟨_, _, rfl, rfl, rfl, rfl, rfl, rfl, hb, hb', Nat.zero_lt_succ _⟩

theorem sha256_update_data_sim (c c' : SHA256_CTX) (d : List Nat) (h : sha256_sim c c') :
    sha256_sim (sha256_update_data c d d.length) (sha256_update_data c' d d.length) := by
  obtain ⟨hs, hc, hl, hp, hb, hb', hlt⟩ := h
  obtain ⟨e1, e2, e3, e4⟩ := sha256_update_data_spec c d hb hlt
  obtain ⟨e1', e2', e3', e4'⟩ := sha256_update_data_spec c' d hb' (hl ▸ hlt)
  refine ⟨?_, ?_, ?_, ?_, e2, e2', ?_⟩
  · rw [e1, e1', hs, hp]
  · rw [sha256_update_data_count, sha256_update_data_count, hc]
  · rw [e3, e3', hl]
  · rw [e4, e4', hp]
  · rw [e3]; exact Nat.mod_lt _ (by decide)

theorem sha256_final_sim (c c' : SHA256_CTX) (out : List Nat) (h : sha256_sim c c') :
    sha256_final (some c) (some out) = sha256_final (some c') (some out) := by
  obtain ⟨hs, hc, hl, hp, hb, hb', hlt⟩ := h
  rw [sha256_final_spec c out hb hlt, sha256_final_spec c' out hb' (hl ▸ hlt), hs, hc, hl, hp]

/-! ## SHA-512: the result does not depend on stale buffer bytes -/

theorem sha512_init_sim (c c' : SHA512_CTX) (hb : c.buffer.length = 128)
    (hb' : c'.buffer.length = 128) :
    ∃ r r', sha512_init (some c) = (SHA512_SUCCESS, some r) ∧
      sha512_init (some c') = (SHA512_SUCCESS, some r') ∧ sha512_sim r r' :=
  ⟨_, _, rfl, rfl, rfl, rfl, rfl, rfl, hb, hb', Nat.zero_lt_succ _⟩

theorem sha512_update_data_sim (c c' : SHA512_CTX) (d : List Nat) (h : sha512_sim c c') :
    sha512_sim (sha512_update_data c d d.length) (sha512_update_data c' d d.length) := by
  obtain ⟨hs, hc, hl, hp, hb, hb', hlt⟩ := h
  obtain ⟨e1, e2, e3, e4⟩ := sha512_update_data_spec c d hb hlt
  obtain ⟨e1', e2', e3', e4'⟩ := sha512_update_data_spec c' d hb' (hl ▸ hlt)
  refine ⟨?_, ?_, ?_, ?_, e2, e2', ?_⟩
  · rw [e1, e1', hs, hp]
  · rw [sha512_update_data_count, sha512_update_data_count, hc]
  · rw [e3, e3', hl]
  · rw [e4, e4', hp]
  · rw [e3]; exact Nat.mod_lt _ (by decide)

theorem sha512_final_sim (c c' : SHA512_CTX) (out : List Nat) (h : sha512_sim c c') :
    sha512_final (some c) (some out) = sha512_final (some c') (some out) := by
  obtain ⟨hs, hc, hl, hp, hb, hb', hlt⟩ := h
  rw [sha512_final_spec c out hb hlt, sha512_final_spec c' out hb' (hl ▸ hlt), hs, hc, hl, hp]

theorem sha256_update_sim (c c' : SHA256_CTX) (d : List Nat) (h : sha256_sim c c') :
    ∃ code r r', sha256_update (some c) (some d) d.length = (code, some r) ∧
      sha256_update (some c') (some d) d.length = (code, some r') ∧ sha256_sim r r' := by
  have hc : c.count = c'.count := h.2.1
  unfold sha256_update
  simp only [← hc]
  by_cases h0 : d.length = 0
  · simp only [h0, if_true]
    exact ⟨_, _, _, rfl, rfl, h⟩
  · simp only [h0, if_false]
    by_cases h1 : c.count > UINT64_MAX - d.length
    · simp only [h1, if_true]
      exact ⟨_, _, _, rfl, rfl, h⟩
    · simp only [h1, if_false]
      by_cases h2 : (c.count + d.length) % 2 ^ 64 > 0x1FFFFFFFFFFFFFFF
      · simp only [h2, if_true]
        exact ⟨_, _, _, rfl, rfl, h⟩
      · simp only [h2, if_false]
        refine ⟨_, _, _, rfl, rfl, sha256_update_data_sim _ _ d ?_⟩
        obtain ⟨hs, _, hl, hp, hb, hb', hlt⟩ := h
        exact ⟨hs, rfl, hl, hp, hb, hb', hlt⟩

theorem sha512_update_sim (c c' : SHA512_CTX) (d : List Nat) (h : sha512_sim c c') :
    ∃ code r r', sha512_update (some c) (some d) d.length = (code, some r) ∧
      sha512_update (some c') (some d) d.length = (code, some r') ∧ sha512_sim r r' := by
  have hc : c.count = c'.count := h.2.1
  obtain ⟨hs, _, hl, hp, hb, hb', hlt⟩ := h
  unfold sha512_update
  simp only [← hc]
  by_cases h0 : d.length = 0
  · simp only [h0, if_true]
    exact ⟨_, _, _, rfl, rfl, hs, hc, hl, hp, hb, hb', hlt⟩
  · simp only [h0, if_false]
    generalize ((if (c.count.1 + d.length <<< 3 % 2 ^ 64) % 2 ^ 64 < c.count.1 then 1 else 0)
      + if d.length ≥ 1 <<< 61 then d.length >>> 61 else 0) % 2 ^ 64 = tot
    by_cases hov : tot > 0 ∧ c.count.2 > UINT64_MAX - tot
    · simp only [hov, and_self, if_true]
      exact ⟨_, _, _, rfl, rfl, hs, rfl, hl, hp, hb, hb', hlt⟩
    · simp only [hov, if_false]
      refine ⟨_, _, _, rfl, rfl, sha512_update_data_sim _ _ d ?_⟩
      by_cases hz : tot > 0
      · simp only [hz, if_true]
        exact ⟨hs, rfl, hl, hp, hb, hb', hlt⟩
      · simp only [hz, if_false]
        exact ⟨hs, rfl, hl, hp, hb, hb', hlt⟩

/-- C5: the one-shot wrappers are the composed protocol. For every byte string `m`, every
present output and all prior contents of the wrapper's local context and of the caller's own
context, `sha256` returns the code and writes the output of `sha256_init`, one
`sha256_update` with `m`, `sha256_final`, each call made only when the previous one
succeeded; for `m` within the accepted length no call fails, so this is the plain composition
`Final(Update(Init(), m))`. Likewise `sha512`. -/
theorem oneshot_eq_protocol (stack ctx : SHA256_CTX) (stack' ctx' : SHA512_CTX)
    (m out : List Nat)
    (hs : stack.buffer.length = 64) (hc : ctx.buffer.length = 64)
    (hs' : stack'.buffer.length = 128) (hc' : ctx'.buffer.length = 128) :
    (((sha256 stack (some m) m.length (some out)).1,
        (sha256 stack (some m) m.length (some out)).2.2)
      = sha256_protocol ctx (some m) m.length (some out) ∧
     (m.length ≤ 2 ^ 61 - 1 →
      ((sha256 stack (some m) m.length (some out)).1,
        (sha256 stack (some m) m.length (some out)).2.2)
      = ((sha256_final (sha256_update (sha256_init (some ctx)).2 (some m) m.length).2
            (some out)).1,
         (sha256_final (sha256_update (sha256_init (some ctx)).2 (some m) m.length).2
            (some out)).2.2))) ∧
    (((sha512 stack' (some m) m.length (some out)).1,
        (sha512 stack' (some m) m.length (some out)).2.2)
      = sha512_protocol ctx' (some m) m.length (some out) ∧
     (m.length < 2 ^ 64 →
      ((sha512 stack' (some m) m.length (some out)).1,
        (sha512 stack' (some m) m.length (some out)).2.2)
      = ((sha512_final (sha512_update (sha512_init (some ctx')).2 (some m) m.length).2
            (some out)).1,
         (sha512_final (sha512_update (sha512_init (some ctx')).2 (some m) m.length).2
            (some out)).2.2))) := by
  refine ⟨⟨?_, fun hn => ?_⟩, ?_, fun hn => ?_⟩
  · obtain ⟨r, r', e1, e1', s1⟩ := sha256_init_sim stack ctx hs hc
    obtain ⟨code, u, u', e2, e2', s2⟩ := sha256_update_sim r r' m s1
    have e3 := sha256_final_sim u u' out s2
    unfold sha256 sha256_protocol
    rw [e1, e1']
    simp only [ne_eq, not_true_eq_false, if_false, e2, e2']
    by_cases hcode : code = SHA256_SUCCESS
    · simp only [hcode, not_true_eq_false, if_false, e3]
      rw [sha256_final_spec u' out s2.2.2.2.2.2.1 (s2.2.2.1 ▸ s2.2.2.2.2.2.2)]
    · simp only [hcode, not_false_eq_true, if_true]
  · obtain ⟨c1, e1, t1⟩ := sha256_init_tracks ctx hc
    obtain ⟨c2, e2, t2⟩ := sha256_update_tracks c1 [] m t1 (by simpa using hn)
    rw [List.nil_append] at t2
    rw [sha256_oneshot stack m out hs hn, e1]
    simp only [e2, sha256_final_tracks c2 m out t2 hn]
  · obtain ⟨r, r', e1, e1', s1⟩ := sha512_init_sim stack' ctx' hs' hc'
    obtain ⟨code, u, u', e2, e2', s2⟩ := sha512_update_sim r r' m s1
    have e3 := sha512_final_sim u u' out s2
    unfold sha512 sha512_protocol
    rw [e1, e1']
    simp only [ne_eq, not_true_eq_false, if_false, e2, e2']
    by_cases hcode : code = SHA512_SUCCESS
    · simp only [hcode, not_true_eq_false, if_false, e3]
      rw [sha512_final_spec u' out s2.2.2.2.2.2.1 (s2.2.2.1 ▸ s2.2.2.2.2.2.2)]
    · simp only [hcode, not_false_eq_true, if_true]
  · obtain ⟨c1, e1, t1⟩ := sha512_init_tracks ctx' hc'
    obtain ⟨c2, e2, t2⟩ := sha512_update_tracks c1 [] m t1 (by simpa using hn)
    rw [List.nil_append] at t2
    rw [sha512_oneshot stack' m out hs' hn, e1]
    simp only [e2, sha512_final_tracks c2 m out t2]

set_option maxRecDepth 8000 in
/-- Witness for C5: `abc` hashed by the wrappers on zeroed local contexts and by the protocol
on contexts whose buffers hold other bytes. -/
theorem oneshot_eq_protocol_witness :
    (sha256_zero_ctx.buffer.length = 64 ∧
      (SHA256_CTX.mk [] 7 (List.replicate 64 0xAB) 9).buffer.length = 64 ∧
      sha512_zero_ctx.buffer.length = 128 ∧
      (SHA512_CTX.mk [] (7, 7) (List.replicate 128 0xAB) 9).buffer.length = 128) ∧
    ((sha256 sha256_zero_ctx (some [0x61, 0x62, 0x63]) [0x61, 0x62, 0x63].length (some [])).1,
        (sha256 sha256_zero_ctx (some [0x61, 0x62, 0x63]) [0x61, 0x62, 0x63].length
          (some [])).2.2)
      = sha256_protocol (SHA256_CTX.mk [] 7 (List.replicate 64 0xAB) 9)
          (some [0x61, 0x62, 0x63]) [0x61, 0x62, 0x63].length (some []) :=
  ⟨⟨by decide, by decide, by decide, by decide⟩,
   (oneshot_eq_protocol sha256_zero_ctx (SHA256_CTX.mk [] 7 (List.replicate 64 0xAB) 9)
    sha512_zero_ctx (SHA512_CTX.mk [] (7, 7) (List.replicate 128 0xAB) 9)
    [0x61, 0x62, 0x63] [] (by decide) (by decide) (by decide) (by decide)).1.1⟩

/-! ## SHA-256: the schedule computed newest word first -/

theorem sha256_getD_reverse (m : List Nat) (j : Nat) (h : j < m.length) :
    m.reverse.getD j 0 = m.getD (m.length - 1 - j) 0 := by
  rw [List.getD_eq_getElem?_getD, List.getD_eq_getElem?_getD, List.getElem?_reverse h]

theorem sha256_schedule_rev_aux (n : Nat) :
    ∀ (s : Nat) (m : List Nat), m.length = s → 16 ≤ s →
      (List.range' s n).foldl (fun m i =>
          m ++ [(SHA256_SIG1 (m.getD (i - 2) 0) + m.getD (i - 7) 0 +
                 SHA256_SIG0 (m.getD (i - 15) 0) + m.getD (i - 16) 0) % 2 ^ 32]) m
        = ((List.range' s n).foldl (fun r _ =>
            ((SHA256_SIG1 (r.getD 1 0) + r.getD 6 0 + SHA256_SIG0 (r.getD 14 0) + r.getD 15 0)
              % 2 ^ 32) :: r) m.reverse).reverse := by
  induction n with
  | zero => intro s m _ _; simp only [List.range'_zero, List.foldl_nil, List.reverse_reverse]
  | succ k ih =>
    intro s m hm hs
    rw [List.range'_succ, List.foldl_cons, List.foldl_cons]
    rw [ih (s + 1) _ (by rw [List.length_append, hm]; rfl) (by omega)]
    rw [List.reverse_append, List.reverse_singleton, List.singleton_append]
    rw [sha256_getD_reverse m 1 (by omega), sha256_getD_reverse m 6 (by omega),
      sha256_getD_reverse m 14 (by omega), sha256_getD_reverse m 15 (by omega), hm]
    have e1 : s - 1 - 1 = s - 2 := by omega
    have e2 : s - 1 - 6 = s - 7 := by omega
    have e3 : s - 1 - 14 = s - 15 := by omega
    have e4 : s - 1 - 15 = s - 16 := by omega
    rw [e1, e2, e3, e4]

theorem sha256_compress_eq_fast : sha256_compress = sha256_compress_fast := by
  funext st d
  have hl : (sha256_schedule_load d).length = 16 := by
    unfold sha256_schedule_load
    rw [List.length_map, List.length_range]
  unfold sha256_compress sha256_compress_fast sha256_transform sha256_schedule_rev
  simp only
  rw [← sha256_schedule_rev_aux 48 16 _ hl (Nat.le_refl _)]
  rfl

/-! ## SHA-512: the schedule computed newest word first -/

theorem sha512_getD_reverse (m : List Nat) (j : Nat) (h : j < m.length) :
    m.reverse.getD j 0 = m.getD (m.length - 1 - j) 0 := by
  rw [List.getD_eq_getElem?_getD, List.getD_eq_getElem?_getD, List.getElem?_reverse h]

theorem sha512_schedule_rev_aux (n : Nat) :
    ∀ (s : Nat) (m : List Nat), m.length = s → 16 ≤ s →
      (List.range' s n).foldl (fun m i =>
          m ++ [(SHA512_SIG1 (m.getD (i - 2) 0) + m.getD (i - 7) 0 +
                 SHA512_SIG0 (m.getD (i - 15) 0) + m.getD (i - 16) 0) % 2 ^ 64]) m
        = ((List.range' s n).foldl (fun r _ =>
            ((SHA512_SIG1 (r.getD 1 0) + r.getD 6 0 + SHA512_SIG0 (r.getD 14 0) + r.getD 15 0)
              % 2 ^ 64) :: r) m.reverse).reverse := by
  induction n with
  | zero => intro s m _ _; simp only [List.range'_zero, List.foldl_nil, List.reverse_reverse]
  | succ k ih =>
    intro s m hm hs
    rw [List.range'_succ, List.foldl_cons, List.foldl_cons]
    rw [ih (s + 1) _ (by rw [List.length_append, hm]; rfl) (by omega)]
    rw [List.reverse_append, List.reverse_singleton, List.singleton_append]
    rw [sha512_getD_reverse m 1 (by omega), sha512_getD_reverse m 6 (by omega),
      sha512_getD_reverse m 14 (by omega), sha512_getD_reverse m 15 (by omega), hm]
    have e1 : s - 1 - 1 = s - 2 := by omega
    have e2 : s - 1 - 6 = s - 7 := by omega
    have e3 : s - 1 - 14 = s - 15 := by omega
    have e4 : s - 1 - 15 = s - 16 := by omega
    rw [e1, e2, e3, e4]

theorem sha512_compress_eq_fast : sha512_compress = sha512_compress_fast := by
  funext st d
  have hl : (sha512_schedule_load d).length = 16 := by
    unfold sha512_schedule_load
    rw [List.length_map, List.length_range]
  unfold sha512_compress sha512_compress_fast sha512_transform sha512_schedule_rev
  simp only
  rw [← sha512_schedule_rev_aux 64 16 _ hl (Nat.le_refl _)]
  rfl

/-! ## SHA-256: hex rendering of the one-shot digest -/

theorem sha256_ref_eq_fast (m : List Nat) : sha256_ref m = sha256_ref_fast m := by
  unfold sha256_ref sha256_ref_fast sha256_digest_bytes
  rw [sha256_compress_eq_fast]

theorem sha256_to_hex_eq (h : List Nat) (buf : List Char) :
    sha256_to_hex (some h) (some buf) =
      (SHA256_SUCCESS, some (sha256_hex_chars h ++ [Char.ofNat 0] ++ buf.drop 65)) := rfl

theorem sha256_hex_chars_append (h rest : List Nat) (hl : h.length = 32) :
    sha256_hex_chars (h ++ rest) = sha256_hex_chars h := by
  unfold sha256_hex_chars SHA256_DIGEST_SIZE
  apply List.flatMap_congr
  intro i hi
  rw [List.mem_range] at hi
  rw [List.getD_append _ _ _ _ (by omega)]

theorem cstr_terminated (s : String) (rest : List Char)
    (h : ∀ c ∈ s.toList, c ≠ Char.ofNat 0) :
    cstr (s.toList ++ [Char.ofNat 0] ++ rest) = s := by
  unfold cstr
  rw [List.append_assoc, List.takeWhile_append_of_pos (by simpa using h)]
  simp [String.toList]

/-- The one-shot function followed by the hex conversion, from the closed form of the
digest. -/
theorem sha256_hex_oneshot (stack : SHA256_CTX) (m out : List Nat) (hexbuf : List Char)
    (len : Nat) (s : String)
    (hb : stack.buffer.length = 64) (hlen : len = m.length) (hn : m.length < 2 ^ 61)
    (hs : sha256_hex_chars (sha256_ref_fast m) = s.toList)
    (hnul : ∀ c ∈ s.toList, c ≠ Char.ofNat 0) :
    (sha256 stack (some m) len (some out)).1 = SHA256_SUCCESS ∧
    (sha256_to_hex (sha256 stack (some m) len (some out)).2.2 (some hexbuf)).1
      = SHA256_SUCCESS ∧
    (sha256_to_hex (sha256 stack (some m) len (some out)).2.2 (some hexbuf)).2.map cstr
      = some s := by
  subst hlen
  rw [sha256_oneshot stack m out hb (by omega)]
  simp only [sha256_to_hex_eq, Option.map_some']
  rw [sha256_hex_chars_append _ _ (sha256_ref_length m), sha256_ref_eq_fast, hs,
    cstr_terminated s _ hnul]
  exact ⟨trivial, trivial, rfl⟩

/-! ## SHA-512: hex rendering of the one-shot digest -/

theorem sha512_ref_eq_fast (m : List Nat) : sha512_ref m = sha512_ref_fast m := by
  unfold sha512_ref sha512_ref_fast sha512_digest_bytes
  rw [sha512_compress_eq_fast]

theorem sha512_to_hex_eq (h : List Nat) (buf : List Char) :
    sha512_to_hex (some h) (some buf) =
      (SHA512_SUCCESS, some (sha512_hex_chars h ++ [Char.ofNat 0] ++ buf.drop 129)) := rfl

theorem sha512_hex_chars_append (h rest : List Nat) (hl : h.length = 64) :
    sha512_hex_chars (h ++ rest) = sha512_hex_chars h := by
  unfold sha512_hex_chars SHA512_DIGEST_SIZE
  apply List.flatMap_congr
  intro i hi
  rw [List.mem_range] at hi
  rw [List.getD_append _ _ _ _ (by omega)]

/-- The one-shot function followed by the hex conversion, from the closed form of the
digest. -/
theorem sha512_hex_oneshot (stack : SHA512_CTX) (m out : List Nat) (hexbuf : List Char)
    (len : Nat) (s : String)
    (hb : stack.buffer.length = 128) (hlen : len = m.length) (hn : m.length < 2 ^ 61)
    (hs : sha512_hex_chars (sha512_ref_fast m) = s.toList)
    (hnul : ∀ c ∈ s.toList, c ≠ Char.ofNat 0) :
    (sha512 stack (some m) len (some out)).1 = SHA512_SUCCESS ∧
    (sha512_to_hex (sha512 stack (some m) len (some out)).2.2 (some hexbuf)).1
      = SHA512_SUCCESS ∧
    (sha512_to_hex (sha512 stack (some m) len (some out)).2.2 (some hexbuf)).2.map cstr
      = some s := by
  subst hlen
  rw [sha512_oneshot stack m out hb (by omega)]
  simp only [sha512_to_hex_eq, Option.map_some']
  rw [sha512_hex_chars_append _ _ (sha512_ref_length m), sha512_ref_eq_fast, hs,
    cstr_terminated s _ hnul]
  exact ⟨trivial, trivial, rfl⟩

/-! ## The NIST vectors of `tests/test.c` -/

set_option maxRecDepth 100000 in
theorem sha256_vector_empty :
    sha256_hex_chars (sha256_ref_fast (c_bytes "")) =
      String.toList "e3b0c44298fc1c149afbf4c8996fb92427ae41e4649b934ca495991b7852b855" := by
  decide!

set_option maxRecDepth 100000 in
theorem sha256_vector_a :
    sha256_hex_chars (sha256_ref_fast (c_bytes "a")) =
      String.toList "ca978112ca1bbdcafac231b39a23dc4da786eff8147c4e72b9807785afee48bb" := by
  decide!

set_option maxRecDepth 100000 in
theorem sha256_vector_abc :
    sha256_hex_chars (sha256_ref_fast (c_bytes "abc")) =
      String.toList "ba7816bf8f01cfea414140de5dae2223b00361a396177a9cb410ff61f20015ad" := by
  decide!

set_option maxRecDepth 100000 in
theorem sha256_vector_message_digest :
    sha256_hex_chars (sha256_ref_fast (c_bytes "message digest")) =
      String.toList "f7846f55cf23e14eebeab5b4e1550cad5b509e3348fbc4efa3a1413d393cb650" := by
  decide!

set_option maxRecDepth 100000 in
theorem sha256_vector_alphabet :
    sha256_hex_chars (sha256_ref_fast (c_bytes "abcdefghijklmnopqrstuvwxyz")) =
      String.toList "71c480df93d6ae2f1efad1447c66c9525e316218cf51fc8d9ed832f2daf18b73" := by
  decide!

set_option maxRecDepth 100000 in
theorem sha256_vector_alphanumeric :
    sha256_hex_chars (sha256_ref_fast (c_bytes "ABCDEFGHIJKLMNOPQRSTUVWXYZabcdefghijklmnopqrstuvwxyz0123456789")) =
      String.toList "db4bfcbd4da0cd85a60c3c37d3fbd8805c77f15fc6b1fdfe614ee0a7c8fdb4c0" := by
  decide!

set_option maxRecDepth 100000 in
theorem sha256_vector_digits :
    sha256_hex_chars (sha256_ref_fast (c_bytes "12345678901234567890123456789012345678901234567890123456789012345678901234567890")) =
      String.toList "f371bc4a311f2b009eef952dd83ca80e2b60026c8e935592d0f9c308453c813e" := by
  decide!

set_option maxRecDepth 100000 in
theorem sha512_vector_empty :
    sha512_hex_chars (sha512_ref_fast (c_bytes "")) =
      String.toList "cf83e1357eefb8bdf1542850d66d8007d620e4050b5715dc83f4a921d36ce9ce47d0d13c5d85f2b0ff8318d2877eec2f63b931bd47417a81a538327af927da3e" := by
  decide!

set_option maxRecDepth 100000 in
theorem sha512_vector_a :
    sha512_hex_chars (sha512_ref_fast (c_bytes "a")) =
      String.toList "1f40fc92da241694750979ee6cf582f2d5d7d28e18335de05abc54d0560e0f5302860c652bf08d560252aa5e74210546f369fbbbce8c12cfc7957b2652fe9a75" := by
  decide!

set_option maxRecDepth 100000 in
theorem sha512_vector_abc :
    sha512_hex_chars (sha512_ref_fast (c_bytes "abc")) =
      String.toList "ddaf35a193617abacc417349ae20413112e6fa4e89a97ea20a9eeee64b55d39a2192992a274fc1a836ba3c23a3feebbd454d4423643ce80e2a9ac94fa54ca49f" := by
  decide!

set_option maxRecDepth 100000 in
theorem sha512_vector_message_digest :
    sha512_hex_chars (sha512_ref_fast (c_bytes "message digest")) =
      String.toList "107dbf389d9e9f71a3a95f6c055b9251bc5268c2be16d6c13492ea45b0199f3309e16455ab1e96118e8a905d5597b72038ddb372a89826046de66687bb420e7c" := by
  decide!

set_option maxRecDepth 100000 in
theorem sha512_vector_alphabet :
    sha512_hex_chars (sha512_ref_fast (c_bytes "abcdefghijklmnopqrstuvwxyz")) =
      String.toList "4dbff86cc2ca1bae1e16468a05cb9881c97f1753bce3619034898faa1aabe429955a1bf8ec483d7421fe3c1646613a59ed5441fb0f321389f77f48a879c7b1f1" := by
  decide!

set_option maxRecDepth 100000 in
theorem sha512_vector_alphanumeric :
    sha512_hex_chars (sha512_ref_fast (c_bytes "ABCDEFGHIJKLMNOPQRSTUVWXYZabcdefghijklmnopqrstuvwxyz0123456789")) =
      String.toList "1e07be23c26a86ea37ea810c8ec7809352515a970e9253c26f536cfc7a9996c45c8370583e0a78fa4a90041d71a4ceab7423f19c71b9d5a3e01249f0bebd5894" := by
  decide!

set_option maxRecDepth 100000 in
theorem sha512_vector_digits :
    sha512_hex_chars (sha512_ref_fast (c_bytes "12345678901234567890123456789012345678901234567890123456789012345678901234567890")) =
      String.toList "72ec1ef1124a45b047e8b7c75a932195135bb61de24ec0d1914042246e0aec3a2354e093d76f3048b456764346900cb130d2a4fd5dd16abb5e30bcb850dee843" := by
  decide!

theorem hex_string_no_nul (s : String)
    (h : s.toList.all (fun c => c.isDigit || c.isLower) = true) :
    ∀ c ∈ s.toList, c ≠ Char.ofNat 0 := by
  intro c hc hz
  rw [List.all_eq_true] at h
  have := h c hc
  rw [hz] at this
  exact absurd this (by decide)

set_option maxRecDepth 100000 in
/-- C6: for each of the seven inputs of the table `nist_vectors` and every prior contents of
the buffers involved, one-shot `sha256` returns success and `sha256_to_hex` of the digest
returns success and yields the expected SHA-256 string of the table; in particular this holds
for the empty input and for `abc` with the strings quoted in the claim. -/
theorem sha256_nist_vectors (stack : SHA256_CTX) (out : List Nat) (hexbuf : List Char)
    (hb : stack.buffer.length = 64) :
    (∀ v ∈ nist_vectors,
      (sha256 stack (some (c_bytes v.1)) v.2.1 (some out)).1 = SHA256_SUCCESS ∧
      (sha256_to_hex (sha256 stack (some (c_bytes v.1)) v.2.1 (some out)).2.2
          (some hexbuf)).1 = SHA256_SUCCESS ∧
      (sha256_to_hex (sha256 stack (some (c_bytes v.1)) v.2.1 (some out)).2.2
          (some hexbuf)).2.map cstr = some v.2.2.1) ∧
    (sha256_to_hex (sha256 stack (some (c_bytes "")) 0 (some out)).2.2
        (some hexbuf)).2.map cstr
      = some "e3b0c44298fc1c149afbf4c8996fb92427ae41e4649b934ca495991b7852b855" ∧
    (sha256_to_hex (sha256 stack (some (c_bytes "abc")) 3 (some out)).2.2
        (some hexbuf)).2.map cstr
      = some "ba7816bf8f01cfea414140de5dae2223b00361a396177a9cb410ff61f20015ad" := by
  have key : ∀ v ∈ nist_vectors,
      (sha256 stack (some (c_bytes v.1)) v.2.1 (some out)).1 = SHA256_SUCCESS ∧
      (sha256_to_hex (sha256 stack (some (c_bytes v.1)) v.2.1 (some out)).2.2
          (some hexbuf)).1 = SHA256_SUCCESS ∧
      (sha256_to_hex (sha256 stack (some (c_bytes v.1)) v.2.1 (some out)).2.2
          (some hexbuf)).2.map cstr = some v.2.2.1 := by
    intro v hv
    simp only [nist_vectors, List.mem_cons, List.mem_singleton, List.not_mem_nil, or_false] at hv
    rcases hv with rfl | rfl | rfl | rfl | rfl | rfl | rfl
    · exact sha256_hex_oneshot stack (c_bytes "") out hexbuf
        0 _ hb (by decide) (by decide) sha256_vector_empty
        (hex_string_no_nul _ (by decide))
    · exact sha256_hex_oneshot stack (c_bytes "a") out hexbuf
        1 _ hb (by decide) (by decide) sha256_vector_a
        (hex_string_no_nul _ (by decide))
    · exact sha256_hex_oneshot stack (c_bytes "abc") out hexbuf
        3 _ hb (by decide) (by decide) sha256_vector_abc
        (hex_string_no_nul _ (by decide))
    · exact sha256_hex_oneshot stack (c_bytes "message digest") out hexbuf
        14 _ hb (by decide) (by decide) sha256_vector_message_digest
        (hex_string_no_nul _ (by decide))
    · exact sha256_hex_oneshot stack (c_bytes "abcdefghijklmnopqrstuvwxyz") out hexbuf
        26 _ hb (by decide) (by decide) sha256_vector_alphabet
        (hex_string_no_nul _ (by decide))
    · exact sha256_hex_oneshot stack (c_bytes "ABCDEFGHIJKLMNOPQRSTUVWXYZabcdefghijklmnopqrstuvwxyz0123456789") out hexbuf
        62 _ hb (by decide) (by decide) sha256_vector_alphanumeric
        (hex_string_no_nul _ (by decide))
    · exact sha256_hex_oneshot stack (c_bytes "12345678901234567890123456789012345678901234567890123456789012345678901234567890") out hexbuf
        80 _ hb (by decide) (by decide) sha256_vector_digits
        (hex_string_no_nul _ (by decide))
  exact ⟨key, (key _ (List.mem_cons_self _ _)).2.2,
    (key _ (List.mem_cons_of_mem _ (List.mem_cons_of_mem _ (List.mem_cons_self _ _)))).2.2⟩

set_option maxRecDepth 100000 in
/-- Witness for C6: a zeroed local context, a zeroed output and an empty hex buffer. -/
theorem sha256_nist_vectors_witness :
    sha256_zero_ctx.buffer.length = 64 ∧
    (sha256_to_hex (sha256 sha256_zero_ctx (some (c_bytes "abc")) 3
        (some (List.replicate 32 0))).2.2 (some [])).2.map cstr
      = some "ba7816bf8f01cfea414140de5dae2223b00361a396177a9cb410ff61f20015ad" :=
  ⟨by decide, (sha256_nist_vectors sha256_zero_ctx (List.replicate 32 0) []
    (by decide)).2.2⟩

set_option maxRecDepth 100000 in
/-- C7: for each of the seven inputs of the table `nist_vectors` and every prior contents of
the buffers involved, one-shot `sha512` returns success and `sha512_to_hex` of the digest
returns success and yields the expected SHA-512 string of the table; in particular this holds
for the empty input and for `abc` with the strings quoted in the claim. -/
theorem sha512_nist_vectors (stack : SHA512_CTX) (out : List Nat) (hexbuf : List Char)
    (hb : stack.buffer.length = 128) :
    (∀ v ∈ nist_vectors,
      (sha512 stack (some (c_bytes v.1)) v.2.1 (some out)).1 = SHA512_SUCCESS ∧
      (sha512_to_hex (sha512 stack (some (c_bytes v.1)) v.2.1 (some out)).2.2
          (some hexbuf)).1 = SHA512_SUCCESS ∧
      (sha512_to_hex (sha512 stack (some (c_bytes v.1)) v.2.1 (some out)).2.2
          (some hexbuf)).2.map cstr = some v.2.2.2) ∧
    (sha512_to_hex (sha512 stack (some (c_bytes "")) 0 (some out)).2.2
        (some hexbuf)).2.map cstr
      = some "cf83e1357eefb8bdf1542850d66d8007d620e4050b5715dc83f4a921d36ce9ce47d0d13c5d85f2b0ff8318d2877eec2f63b931bd47417a81a538327af927da3e" ∧
    (sha512_to_hex (sha512 stack (some (c_bytes "abc")) 3 (some out)).2.2
        (some hexbuf)).2.map cstr
      = some "ddaf35a193617abacc417349ae20413112e6fa4e89a97ea20a9eeee64b55d39a2192992a274fc1a836ba3c23a3feebbd454d4423643ce80e2a9ac94fa54ca49f" := by
  have key : ∀ v ∈ nist_vectors,
      (sha512 stack (some (c_bytes v.1)) v.2.1 (some out)).1 = SHA512_SUCCESS ∧
      (sha512_to_hex (sha512 stack (some (c_bytes v.1)) v.2.1 (some out)).2.2
          (some hexbuf)).1 = SHA512_SUCCESS ∧
      (sha512_to_hex (sha512 stack (some (c_bytes v.1)) v.2.1 (some out)).2.2
          (some hexbuf)).2.map cstr = some v.2.2.2 := by
    intro v hv
    simp only [nist_vectors, List.mem_cons, List.mem_singleton, List.not_mem_nil, or_false] at hv
    rcases hv with rfl | rfl | rfl | rfl | rfl | rfl | rfl
    · exact sha512_hex_oneshot stack (c_bytes "") out hexbuf
        0 _ hb (by decide) (by decide) sha512_vector_empty
        (hex_string_no_nul _ (by decide))
    · exact sha512_hex_oneshot stack (c_bytes "a") out hexbuf
        1 _ hb (by decide) (by decide) sha512_vector_a
        (hex_string_no_nul _ (by decide))
    · exact sha512_hex_oneshot stack (c_bytes "abc") out hexbuf
        3 _ hb (by decide) (by decide) sha512_vector_abc
        (hex_string_no_nul _ (by decide))
    · exact sha512_hex_oneshot stack (c_bytes "message digest") out hexbuf
        14 _ hb (by decide) (by decide) sha512_vector_message_digest
        (hex_string_no_nul _ (by decide))
    · exact sha512_hex_oneshot stack (c_bytes "abcdefghijklmnopqrstuvwxyz") out hexbuf
        26 _ hb (by decide) (by decide) sha512_vector_alphabet
        (hex_string_no_nul _ (by decide))
    · exact sha512_hex_oneshot stack (c_bytes "ABCDEFGHIJKLMNOPQRSTUVWXYZabcdefghijklmnopqrstuvwxyz0123456789") out hexbuf
        62 _ hb (by decide) (by decide) sha512_vector_alphanumeric
        (hex_string_no_nul _ (by decide))
    · exact sha512_hex_oneshot stack (c_bytes "12345678901234567890123456789012345678901234567890123456789012345678901234567890") out hexbuf
        80 _ hb (by decide) (by decide) sha512_vector_digits
        (hex_string_no_nul _ (by decide))
  exact ⟨key, (key _ (List.mem_cons_self _ _)).2.2,
    (key _ (List.mem_cons_of_mem _ (List.mem_cons_of_mem _ (List.mem_cons_self _ _)))).2.2⟩

set_option maxRecDepth 100000 in
/-- Witness for C7: a zeroed local context, a zeroed output and an empty hex buffer. -/
theorem sha512_nist_vectors_witness :
    sha512_zero_ctx.buffer.length = 128 ∧
    (sha512_to_hex (sha512 sha512_zero_ctx (some (c_bytes "abc")) 3
        (some (List.replicate 64 0))).2.2 (some [])).2.map cstr
      = some "ddaf35a193617abacc417349ae20413112e6fa4e89a97ea20a9eeee64b55d39a2192992a274fc1a836ba3c23a3feebbd454d4423643ce80e2a9ac94fa54ca49f" :=
  ⟨by decide, (sha512_nist_vectors sha512_zero_ctx (List.replicate 64 0) []
    (by decide)).2.2⟩

/-- C8, as stated in the spec, fails: on a zeroed local context, one-shot SHA-256 of the empty
byte string succeeds but the hex rendering of its digest is not the 63-character string
`e3b0...b85` that the spec prints. -/
theorem sha256_empty_vector_spec_string_refuted :
    ¬ ((sha256 sha256_zero_ctx (some []) 0 (some (List.replicate 32 0))).1 = SHA256_SUCCESS ∧
       (sha256_to_hex (sha256 sha256_zero_ctx (some []) 0 (some (List.replicate 32 0))).2.2
          (some (List.replicate 65 (Char.ofNat 0)))).2.map cstr
        = some "e3b0c44298fc1c149afbf4c8996fb92427ae41e4649b934ca495991b7852b85") := by
  intro h
  have e := (sha256_hex_oneshot sha256_zero_ctx [] (List.replicate 32 0)
    (List.replicate 65 (Char.ofNat 0)) 0 _ (by decide) (by decide) (by decide)
    sha256_vector_empty (hex_string_no_nul _ (by decide))).2.2
  rw [e] at h
  exact absurd h.2 (by decide)

/-- C8, amended: for every prior contents of the buffers involved, one-shot SHA-256 of the
empty byte string succeeds and the lowercase-hex rendering (`sha256_to_hex`) of its 32-byte
digest is exactly the 64-character string
`e3b0c44298fc1c149afbf4c8996fb92427ae41e4649b934ca495991b7852b855`. -/
theorem sha256_empty_vector (stack : SHA256_CTX) (out : List Nat) (hexbuf : List Char)
    (hb : stack.buffer.length = 64) :
    (sha256 stack (some []) 0 (some out)).1 = SHA256_SUCCESS ∧
    (sha256_to_hex (sha256 stack (some []) 0 (some out)).2.2 (some hexbuf)).1
      = SHA256_SUCCESS ∧
    (sha256_to_hex (sha256 stack (some []) 0 (some out)).2.2 (some hexbuf)).2.map cstr
      = some "e3b0c44298fc1c149afbf4c8996fb92427ae41e4649b934ca495991b7852b855" ∧
    ("e3b0c44298fc1c149afbf4c8996fb92427ae41e4649b934ca495991b7852b855" : String).length
      = 64 := by
  have e := sha256_hex_oneshot stack [] out hexbuf 0 _ hb (by decide) (by decide)
    sha256_vector_empty (hex_string_no_nul _ (by decide))
  exact ⟨e.1, e.2.1, e.2.2, by decide⟩

/-- Witness for the amended C8: a zeroed local context and zeroed buffers. -/
theorem sha256_empty_vector_witness :
    sha256_zero_ctx.buffer.length = 64 ∧
    (sha256_to_hex (sha256 sha256_zero_ctx (some []) 0 (some (List.replicate 32 0))).2.2
        (some (List.replicate 65 (Char.ofNat 0)))).2.map cstr
      = some "e3b0c44298fc1c149afbf4c8996fb92427ae41e4649b934ca495991b7852b855" :=
  ⟨by decide, (sha256_empty_vector sha256_zero_ctx (List.replicate 32 0)
    (List.replicate 65 (Char.ofNat 0)) (by decide)).2.2.1⟩

/-! ## Handle checks, zero-length updates and the initial context -/

/-- C11: for every present context and every `len > 0`, `sha256_update` and `sha512_update`
called with absent (NULL) data return the null-pointer error and return the context with
every field unchanged. -/
theorem update_rejects_absent_data (c : SHA256_CTX) (c' : SHA512_CTX) (len : Nat)
    (hlen : 0 < len) :
    sha256_update (some c) none len = (SHA256_ERROR_NULL_POINTER, some c) ∧
    sha512_update (some c') none len = (SHA512_ERROR_NULL_POINTER, some c') := by
  unfold sha256_update sha512_update
  simp only [Nat.pos_iff_ne_zero.mp hlen, if_false, and_self]

/-- Witness for C11: the call `sha256_update(&ctx, NULL, 10)` of the test, on contexts that
hold pending bytes. -/
theorem update_rejects_absent_data_witness :
    0 < 10 ∧
    sha256_update (some (SHA256_CTX.mk SHA256_H0 3 (List.replicate 64 0x61) 3)) none 10
      = (SHA256_ERROR_NULL_POINTER, some (SHA256_CTX.mk SHA256_H0 3 (List.replicate 64 0x61) 3)) :=
  ⟨by decide, (update_rejects_absent_data (SHA256_CTX.mk SHA256_H0 3 (List.replicate 64 0x61) 3)
    (SHA512_CTX.mk SHA512_H0 (24, 0) (List.replicate 128 0x61) 3) 10 (by decide)).1⟩

/-- C12: for every present context, `sha256_update` and `sha512_update` with `len = 0` return
success whether the data pointer is present or absent, and return the context with state,
counter, buffer and `buffer_len` unchanged. -/
theorem update_zero_length_noop (c : SHA256_CTX) (c' : SHA512_CTX)
    (data : Option (List Nat)) :
    sha256_update (some c) data 0 = (SHA256_SUCCESS, some c) ∧
    sha512_update (some c') data 0 = (SHA512_SUCCESS, some c') := by
  unfold sha256_update sha512_update
  simp only [if_true, and_self]

/-- C13: for every present context, whatever its prior contents, `sha256_init` /
`sha512_init` returns success and leaves `state` equal to the eight fixed initial constants,
the counter equal to 0 and `buffer_len` equal to 0 (the buffer bytes are left as they were);
for an absent context it returns the null-pointer error. -/
theorem init_postcondition (c : SHA256_CTX) (c' : SHA512_CTX) :
    (sha256_init (some c) =
      (SHA256_SUCCESS, some
        { state := [0x6A09E667, 0xBB67AE85, 0x3C6EF372, 0xA54FF53A,
                    0x510E527F, 0x9B05688C, 0x1F83D9AB, 0x5BE0CD19],
          count := 0, buffer := c.buffer, buffer_len := 0 }) ∧
     (sha256_init none).1 = SHA256_ERROR_NULL_POINTER) ∧
    (sha512_init (some c') =
      (SHA512_SUCCESS, some
        { state := [0x6A09E667F3BCC908, 0xBB67AE8584CAA73B, 0x3C6EF372FE94F82B,
                    0xA54FF53A5F1D36F1, 0x510E527FADE682D1, 0x9B05688C2B3E6C1F,
                    0x1F83D9ABFB41BD6B, 0x5BE0CD19137E2179],
          count := (0, 0), buffer := c'.buffer, buffer_len := 0 }) ∧
     (sha512_init none).1 = SHA512_ERROR_NULL_POINTER) :=
  ⟨⟨rfl, rfl⟩, rfl, rfl⟩

/-- C19: `sha256_to_hex` and `sha512_to_hex` return the null-pointer error when the digest or
the output buffer is absent, and in that case the output buffer is returned as it was. -/
theorem to_hex_rejects_absent (hash : Option (List Nat)) (hex : Option (List Char)) :
    (sha256_to_hex none hex = (SHA256_ERROR_NULL_POINTER, hex) ∧
     sha256_to_hex hash none = (SHA256_ERROR_NULL_POINTER, none)) ∧
    (sha512_to_hex none hex = (SHA512_ERROR_NULL_POINTER, hex) ∧
     sha512_to_hex hash none = (SHA512_ERROR_NULL_POINTER, none)) := by
  unfold sha256_to_hex sha512_to_hex
  cases hash <;> simp

/-! ## SHA-256: the padding loop of Final ends within two iterations -/

/-- One iteration of the padding loop when the padding left fills the buffer: the buffer is
topped up to the block size, compressed and emptied. -/
theorem sha256_final_loop_fill (fuel : Nat) (c : SHA256_CTX) (padding : List Nat) (total i : Nat)
    (hl : c.buffer_len < 64) (hi : i < total) (hsp : 64 - c.buffer_len ≤ total - i) :
    sha256_final_loop (fuel + 1) c padding total i =
      sha256_final_loop fuel
        { c with state := sha256_compress c.state
                    (memcpy c.buffer c.buffer_len (padding.drop i) (64 - c.buffer_len)),
                 buffer := memcpy c.buffer c.buffer_len (padding.drop i) (64 - c.buffer_len),
                 buffer_len := 0 }
        padding total (i + (64 - c.buffer_len)) := by
  have hnlt : ¬ total - i < 64 - c.buffer_len := by omega
  have he : c.buffer_len + (64 - c.buffer_len) = 64 := by omega
  rw [sha256_final_loop, if_pos hi]
  simp only [SHA256_BLOCK_SIZE, hnlt, if_false, he, if_true]
  rw [sha256_transform_eq]

/-- With any fuel of at least 2 the padding loop of `sha256_final` returns what it returns
with fuel 2: on a context with `buffer_len` below the block size the loop condition ends it
after one or two iterations. -/
theorem sha256_final_loop_fuel (fuel : Nat) (c : SHA256_CTX) (padding : List Nat)
    (hl : c.buffer_len < 64) (hfuel : 2 ≤ fuel) :
    sha256_final_loop fuel c padding (sha256_pad_len c.buffer_len + 8) 0
      = sha256_final_loop 2 c padding (sha256_pad_len c.buffer_len + 8) 0 := by
  obtain ⟨k, rfl⟩ : ∃ k, fuel = k + 2 := ⟨fuel - 2, by omega⟩
  have hp : sha256_pad_len c.buffer_len + 8
      = if c.buffer_len < 56 then 64 - c.buffer_len else 2 * 64 - c.buffer_len := by
    unfold sha256_pad_len SHA256_BLOCK_SIZE
    try unfold SHA256_PAD_THRESHOLD SHA256_BLOCK_SIZE SHA256_LENGTH_SIZE
    split_ifs <;> omega
  rw [hp]
  by_cases hlt : c.buffer_len < 56
  · rw [if_pos hlt]
    rw [sha256_final_loop_fill (k + 1) c padding _ 0 hl (by omega) (by omega),
      sha256_final_loop_done _ _ _ _ _ (by omega),
      sha256_final_loop_fill 1 c padding _ 0 hl (by omega) (by omega),
      sha256_final_loop_done _ _ _ _ _ (by omega)]
  · rw [if_neg hlt]
    rw [sha256_final_loop_fill (k + 1) c padding _ 0 hl (by omega) (by omega),
      sha256_final_loop_fill k _ padding _ _ (Nat.zero_lt_succ _) (by omega)
        (by simp only; omega),
      sha256_final_loop_done _ _ _ _ _ (by simp only; omega),
      sha256_final_loop_fill 1 c padding _ 0 hl (by omega) (by omega),
      sha256_final_loop_fill 0 _ padding _ _ (Nat.zero_lt_succ _) (by omega)
        (by simp only; omega),
      sha256_final_loop_done _ _ _ _ _ (by simp only; omega)]

/-! ## SHA-512: the padding loop of Final ends within two iterations -/

/-- One iteration of the padding loop when the padding left fills the buffer: the buffer is
topped up to the block size, compressed and emptied. -/
theorem sha512_final_loop_fill (fuel : Nat) (c : SHA512_CTX) (padding : List Nat) (total i : Nat)
    (hl : c.buffer_len < 128) (hi : i < total) (hsp : 128 - c.buffer_len ≤ total - i) :
    sha512_final_loop (fuel + 1) c padding total i =
      sha512_final_loop fuel
        { c with state := sha512_compress c.state
                    (memcpy c.buffer c.buffer_len (padding.drop i) (128 - c.buffer_len)),
                 buffer := memcpy c.buffer c.buffer_len (padding.drop i) (128 - c.buffer_len),
                 buffer_len := 0 }
        padding total (i + (128 - c.buffer_len)) := by
  have hnlt : ¬ total - i < 128 - c.buffer_len := by omega
  have he : c.buffer_len + (128 - c.buffer_len) = 128 := by omega
  rw [sha512_final_loop, if_pos hi]
  simp only [SHA512_BLOCK_SIZE, hnlt, if_false, he, if_true]
  rw [sha512_transform_eq]

/-- With any fuel of at least 2 the padding loop of `sha512_final` returns what it returns
with fuel 2: on a context with `buffer_len` below the block size the loop condition ends it
after one or two iterations. -/
theorem sha512_final_loop_fuel (fuel : Nat) (c : SHA512_CTX) (padding : List Nat)
    (hl : c.buffer_len < 128) (hfuel : 2 ≤ fuel) :
    sha512_final_loop fuel c padding (sha512_pad_len c.buffer_len + 16) 0
      = sha512_final_loop 2 c padding (sha512_pad_len c.buffer_len + 16) 0 := by
  obtain ⟨k, rfl⟩ : ∃ k, fuel = k + 2 := ⟨fuel - 2, by omega⟩
  have hp : sha512_pad_len c.buffer_len + 16
      = if c.buffer_len < 112 then 128 - c.buffer_len else 2 * 128 - c.buffer_len := by
    unfold sha512_pad_len SHA512_BLOCK_SIZE
    try unfold SHA512_PAD_THRESHOLD SHA512_BLOCK_SIZE SHA512_LENGTH_SIZE
    split_ifs <;> omega
  rw [hp]
  by_cases hlt : c.buffer_len < 112
  · rw [if_pos hlt]
    rw [sha512_final_loop_fill (k + 1) c padding _ 0 hl (by omega) (by omega),
      sha512_final_loop_done _ _ _ _ _ (by omega),
      sha512_final_loop_fill 1 c padding _ 0 hl (by omega) (by omega),
      sha512_final_loop_done _ _ _ _ _ (by omega)]
  · rw [if_neg hlt]
    rw [sha512_final_loop_fill (k + 1) c padding _ 0 hl (by omega) (by omega),
      sha512_final_loop_fill k _ padding _ _ (Nat.zero_lt_succ _) (by omega)
        (by simp only; omega),
      sha512_final_loop_done _ _ _ _ _ (by simp only; omega),
      sha512_final_loop_fill 1 c padding _ 0 hl (by omega) (by omega),
      sha512_final_loop_fill 0 _ padding _ _ (Nat.zero_lt_succ _) (by omega)
        (by simp only; omega),
      sha512_final_loop_done _ _ _ _ _ (by simp only; omega)]

/-! ## Final: handle checks and the wipe of the context -/

/-- C14: `sha256_final` and `sha512_final` return the null-pointer error when the context is
absent or when the output is absent, and return success whenever both are present and
`buffer_len` is below the block size; in that case the padding loop has ended within the fuel
the model gives it, since any fuel of at least 2 yields the same context. -/
theorem final_handle_checks (c : SHA256_CTX) (c' : SHA512_CTX) (out : List Nat)
    (hl : c.buffer_len < 64) (hl' : c'.buffer_len < 128) :
    ((∀ hash, (sha256_final none hash).1 = SHA256_ERROR_NULL_POINTER) ∧
     (∀ ctx, (sha256_final ctx none).1 = SHA256_ERROR_NULL_POINTER) ∧
     (sha256_final (some c) (some out)).1 = SHA256_SUCCESS ∧
     (∀ fuel, 2 ≤ fuel →
        sha256_final_loop fuel c
            (sha256_padding (sha256_pad_len c.buffer_len) ((c.count * 8) % 2 ^ 64))
            (sha256_pad_len c.buffer_len + 8) 0
          = sha256_final_loop (sha256_pad_len c.buffer_len + 8) c
            (sha256_padding (sha256_pad_len c.buffer_len) ((c.count * 8) % 2 ^ 64))
            (sha256_pad_len c.buffer_len + 8) 0)) ∧
    ((∀ hash, (sha512_final none hash).1 = SHA512_ERROR_NULL_POINTER) ∧
     (∀ ctx, (sha512_final ctx none).1 = SHA512_ERROR_NULL_POINTER) ∧
     (sha512_final (some c') (some out)).1 = SHA512_SUCCESS ∧
     (∀ fuel, 2 ≤ fuel →
        sha512_final_loop fuel c'
            (sha512_padding (sha512_pad_len c'.buffer_len) c'.count)
            (sha512_pad_len c'.buffer_len + SHA512_LENGTH_SIZE) 0
          = sha512_final_loop (sha512_pad_len c'.buffer_len + SHA512_LENGTH_SIZE) c'
            (sha512_padding (sha512_pad_len c'.buffer_len) c'.count)
            (sha512_pad_len c'.buffer_len + SHA512_LENGTH_SIZE) 0)) := by
  refine ⟨⟨fun hash => ?_, fun ctx => ?_, rfl, fun fuel hf => ?_⟩,
    fun hash => ?_, fun ctx => ?_, rfl, fun fuel hf => ?_⟩
  · cases hash <;> rfl
  · cases ctx <;> rfl
  · rw [sha256_final_loop_fuel fuel c _ hl hf,
      sha256_final_loop_fuel (sha256_pad_len c.buffer_len + 8) c _ hl (by omega)]
  · cases hash <;> rfl
  · cases ctx <;> rfl
  · unfold SHA512_LENGTH_SIZE
    rw [sha512_final_loop_fuel fuel c' _ hl' hf,
      sha512_final_loop_fuel (sha512_pad_len c'.buffer_len + 16) c' _ hl' (by omega)]

set_option maxRecDepth 8000 in
/-- Witness for C14: contexts holding three pending bytes. -/
theorem final_handle_checks_witness :
    ((SHA256_CTX.mk SHA256_H0 3 (List.replicate 64 0x61) 3).buffer_len < 64 ∧
     (SHA512_CTX.mk SHA512_H0 (24, 0) (List.replicate 128 0x61) 3).buffer_len < 128) ∧
    (sha256_final (some (SHA256_CTX.mk SHA256_H0 3 (List.replicate 64 0x61) 3))
      (some (List.replicate 32 0))).1 = SHA256_SUCCESS :=
  ⟨⟨by decide, by decide⟩,
   (final_handle_checks (SHA256_CTX.mk SHA256_H0 3 (List.replicate 64 0x61) 3)
    (SHA512_CTX.mk SHA512_H0 (24, 0) (List.replicate 128 0x61) 3) (List.replicate 32 0)
    (by decide) (by decide)).1.2.2.1⟩

/-- C15: whenever `sha256_final` / `sha512_final` returns success, the context it leaves has
every field zero: the 8 state words, the counter, every buffer byte and `buffer_len`. -/
theorem final_success_wipes (ctx : Option SHA256_CTX) (ctx' : Option SHA512_CTX)
    (hash : Option (List Nat)) :
    ((sha256_final ctx hash).1 = SHA256_SUCCESS →
      (sha256_final ctx hash).2.1 = some
        { state := [0, 0, 0, 0, 0, 0, 0, 0], count := 0,
          buffer := List.replicate 64 0, buffer_len := 0 }) ∧
    ((sha512_final ctx' hash).1 = SHA512_SUCCESS →
      (sha512_final ctx' hash).2.1 = some
        { state := [0, 0, 0, 0, 0, 0, 0, 0], count := (0, 0),
          buffer := List.replicate 128 0, buffer_len := 0 }) := by
  have hne : ¬ SHA256_ERROR_NULL_POINTER = SHA256_SUCCESS := by decide
  have hne' : ¬ SHA512_ERROR_NULL_POINTER = SHA512_SUCCESS := by decide
  constructor
  · intro h
    cases ctx with
    | none =>
      have e : (sha256_final none hash).1 = SHA256_ERROR_NULL_POINTER := by cases hash <;> rfl
      exact absurd (e ▸ h) hne
    | some c =>
      cases hash with
      | none => exact absurd h hne
      | some out => rfl
  · intro h
    cases ctx' with
    | none =>
      have e : (sha512_final none hash).1 = SHA512_ERROR_NULL_POINTER := by cases hash <;> rfl
      exact absurd (e ▸ h) hne'
    | some c =>
      cases hash with
      | none => exact absurd h hne'
      | some out => rfl

set_option maxRecDepth 8000 in
/-- Witness for C15: finalising a context that holds three pending bytes. -/
theorem final_success_wipes_witness :
    (sha256_final (some (SHA256_CTX.mk SHA256_H0 3 (List.replicate 64 0x61) 3))
      (some (List.replicate 32 0))).1 = SHA256_SUCCESS ∧
    (sha256_final (some (SHA256_CTX.mk SHA256_H0 3 (List.replicate 64 0x61) 3))
      (some (List.replicate 32 0))).2.1 = some
        { state := [0, 0, 0, 0, 0, 0, 0, 0], count := 0,
          buffer := List.replicate 64 0, buffer_len := 0 } :=
  ⟨rfl, (final_success_wipes (some (SHA256_CTX.mk SHA256_H0 3 (List.replicate 64 0x61) 3))
    none (some (List.replicate 32 0))).1 rfl⟩

/-- The `sha256_update` step of the one-shot function, which runs on a freshly initialised
context: its code, and the code and outputs of `sha256` in each case. -/
theorem sha256_oneshot_cases (stack : SHA256_CTX) (data : Option (List Nat)) (len : Nat)
    (hash : Option (List Nat)) (hsz : len < 2 ^ 64) :
    (0 < len → data = none →
      (sha256_update (sha256_init (some stack)).2 data len).1 = SHA256_ERROR_NULL_POINTER ∧
      sha256 stack data len hash = (SHA256_ERROR_NULL_POINTER, sha256_zero_ctx, hash)) ∧
    (data ≠ none → len > 2 ^ 61 - 1 →
      (sha256_update (sha256_init (some stack)).2 data len).1 = SHA256_ERROR_OVERFLOW ∧
      sha256 stack data len hash = (SHA256_ERROR_OVERFLOW, sha256_zero_ctx, hash)) ∧
    ((len = 0 ∨ data ≠ none) → len ≤ 2 ^ 61 - 1 →
      (sha256_update (sha256_init (some stack)).2 data len).1 = SHA256_SUCCESS ∧
      (hash = none → (sha256 stack data len hash).1 = SHA256_ERROR_NULL_POINTER) ∧
      (hash ≠ none → (sha256 stack data len hash).1 = SHA256_SUCCESS)) := by
  have hmax : ¬ (0 > UINT64_MAX - len) := by omega
  have hmod : (0 + len) % 2 ^ 64 = len := by rw [Nat.zero_add]; exact Nat.mod_eq_of_lt hsz
  refine ⟨fun hlen hd => ?_, fun hd hlen => ?_, fun hd hlen => ?_⟩
  · subst hd
    have h0 : len ≠ 0 := by omega
    unfold sha256 sha256_init sha256_update
    simp only [h0, if_false, ne_eq, not_true_eq_false, and_self]
    exact ⟨trivial, if_pos (by decide)⟩
  · obtain ⟨d, rfl⟩ := Option.ne_none_iff_exists'.mp hd
    have h0 : len ≠ 0 := by omega
    have hov : len > 0x1FFFFFFFFFFFFFFF := by omega
    unfold sha256 sha256_init sha256_update
    simp only [h0, if_false, hmax, hmod, hov, if_true, ne_eq, not_true_eq_false]
    exact ⟨trivial, if_pos (by decide)⟩
  · by_cases h0 : len = 0
    · subst h0
      unfold sha256 sha256_init sha256_update
      simp only [if_true, ne_eq, not_true_eq_false, if_false]
      refine ⟨trivial, fun hh => ?_, fun hh => ?_⟩
      · subst hh; rfl
      · obtain ⟨out, rfl⟩ := Option.ne_none_iff_exists'.mp hh
        rfl
    · have hd' : data ≠ none := by
        rcases hd with h | h
        · exact absurd h h0
        · exact h
      obtain ⟨d, rfl⟩ := Option.ne_none_iff_exists'.mp hd'
      have hov : ¬ len > 0x1FFFFFFFFFFFFFFF := by omega
      unfold sha256 sha256_init sha256_update
      simp only [h0, if_false, hmax, hmod, hov, ne_eq, not_true_eq_false]
      refine ⟨trivial, fun hh => ?_, fun hh => ?_⟩
      · subst hh; rfl
      · obtain ⟨out, rfl⟩ := Option.ne_none_iff_exists'.mp hh
        rfl

/-- C17: for every data, every `len` (a `size_t`) and every output, `sha256` returns success
if and only if (`len = 0` or the data is present) and `len <= 2^61 - 1` and the output is
present; when the Update step fails, `sha256` returns that step's code (the null-pointer
error for absent data with `len > 0`, the overflow error for present data with
`len > 2^61 - 1`), returns the output as it was and leaves its own context all-zero. -/
theorem sha256_oneshot_code (stack : SHA256_CTX) (data : Option (List Nat)) (len : Nat)
    (hash : Option (List Nat)) (hsz : len < 2 ^ 64) :
    ((sha256 stack data len hash).1 = SHA256_SUCCESS ↔
      (len = 0 ∨ data ≠ none) ∧ len ≤ 2 ^ 61 - 1 ∧ hash ≠ none) ∧
    ((sha256_update (sha256_init (some stack)).2 data len).1 ≠ SHA256_SUCCESS →
      sha256 stack data len hash =
        ((sha256_update (sha256_init (some stack)).2 data len).1,
         { state := [0, 0, 0, 0, 0, 0, 0, 0], count := 0,
           buffer := List.replicate 64 0, buffer_len := 0 },
         hash)) ∧
    (0 < len → data = none →
      (sha256_update (sha256_init (some stack)).2 data len).1 = SHA256_ERROR_NULL_POINTER) ∧
    (data ≠ none → len > 2 ^ 61 - 1 →
      (sha256_update (sha256_init (some stack)).2 data len).1 = SHA256_ERROR_OVERFLOW) := by
  obtain ⟨h1, h2, h3⟩ := sha256_oneshot_cases stack data len hash hsz
  have hz : sha256_zero_ctx
      = SHA256_CTX.mk [0, 0, 0, 0, 0, 0, 0, 0] 0 (List.replicate 64 0) 0 := rfl
  have hn1 : ¬ SHA256_ERROR_NULL_POINTER = SHA256_SUCCESS := by decide
  have hn2 : ¬ SHA256_ERROR_OVERFLOW = SHA256_SUCCESS := by decide
  rw [← hz]
  by_cases ha : 0 < len ∧ data = none
  · obtain ⟨e1, e2⟩ := h1 ha.1 ha.2
    refine ⟨⟨fun h => ?_, fun h => ?_⟩, fun _ => ?_, fun _ _ => e1, fun hd _ => absurd ha.2 hd⟩
    · rw [e2] at h; exact absurd h hn1
    · rcases h.1 with h0 | hd
      · omega
      · exact absurd ha.2 hd
    · rw [e1, e2]
  · by_cases hb : data ≠ none ∧ len > 2 ^ 61 - 1
    · obtain ⟨e1, e2⟩ := h2 hb.1 hb.2
      refine ⟨⟨fun h => ?_, fun h => ?_⟩, fun _ => ?_, fun _ hd => absurd hd hb.1,
        fun _ _ => e1⟩
      · rw [e2] at h; exact absurd h hn2
      · omega
      · rw [e1, e2]
    · have hc1 : len = 0 ∨ data ≠ none := by
        by_cases h0 : len = 0
        · exact Or.inl h0
        · exact Or.inr (fun hd => ha ⟨Nat.pos_of_ne_zero h0, hd⟩)
      have hc2 : len ≤ 2 ^ 61 - 1 := by
        rcases hc1 with h0 | hd
        · omega
        · exact Nat.le_of_not_gt (fun hg => hb ⟨hd, hg⟩)
      obtain ⟨e1, e2, e3⟩ := h3 hc1 hc2
      refine ⟨⟨fun h => ⟨hc1, hc2, fun hh => ?_⟩, fun h => e3 h.2.2⟩,
        fun hne => absurd e1 hne, fun hl hd => absurd ⟨hl, hd⟩ ha,
        fun hd hl => absurd ⟨hd, hl⟩ hb⟩
      rw [e2 hh] at h
      exact absurd h hn1

/-- Witness for C17: the one-shot call with absent data and `len = 10`. -/
theorem sha256_oneshot_code_witness :
    10 < 2 ^ 64 ∧
    sha256 sha256_zero_ctx none 10 (some [])
      = ((sha256_update (sha256_init (some sha256_zero_ctx)).2 none 10).1,
         { state := [0, 0, 0, 0, 0, 0, 0, 0], count := 0,
           buffer := List.replicate 64 0, buffer_len := 0 },
         some []) :=
  ⟨by decide, (sha256_oneshot_code sha256_zero_ctx none 10 (some []) (by decide)).2.1
    (by decide)⟩

/-! ## Hex rendering, position by position -/

theorem flatMap_pair_length {α : Type} (f g : Nat → α) (n : Nat) :
    ((List.range n).flatMap (fun i => [f i, g i])).length = 2 * n := by
  induction n with
  | zero => rfl
  | succ k ih =>
    rw [List.range_succ, List.flatMap_append, List.length_append, ih, List.flatMap_singleton]
    simp only [List.length_cons, List.length_nil]
    omega

theorem flatMap_pair_get {α : Type} (f g : Nat → α) (n i : Nat) (hi : i < n) :
    ((List.range n).flatMap (fun i => [f i, g i]))[2 * i]? = some (f i) ∧
    ((List.range n).flatMap (fun i => [f i, g i]))[2 * i + 1]? = some (g i) := by
  induction n with
  | zero => omega
  | succ k ih =>
    rw [List.range_succ, List.flatMap_append, List.flatMap_singleton]
    have hlen := flatMap_pair_length f g k
    by_cases hk : i < k
    · rw [List.getElem?_append_left (by omega), List.getElem?_append_left (by omega)]
      exact ih hk
    · have hik : i = k := by omega
      subst hik
      rw [List.getElem?_append_right (by omega), List.getElem?_append_right (by omega), hlen]
      simp

theorem hex_chars_digit (idx : Nat) (h : idx < 16) :
    hex_chars.getD idx (Char.ofNat 0) ∈ "0123456789abcdef".toList ∧
    hex_chars.getD idx (Char.ofNat 0) ≠ Char.ofNat 0 := by
  revert idx
  decide

theorem high_nibble (x : Nat) (h : x < 256) : (x >>> 4) &&& 0xf = x >>> 4 := by
  have e : (0xf : Nat) = 2 ^ 4 - 1 := rfl
  rw [e, Nat.and_pow_two_sub_one_eq_mod, Nat.shiftRight_eq_div_pow]
  omega

theorem nibble_lt (x : Nat) : x &&& 0xf < 16 :=
  Nat.lt_succ_of_le Nat.and_le_right

theorem getD_byte (l : List Nat) (i : Nat) (h : ∀ x ∈ l, x < 256) : l.getD i 0 < 256 := by
  by_cases hi : i < l.length
  · rw [List.getD_eq_getElem _ _ hi]
    exact h _ (List.getElem_mem hi)
  · rw [List.getD_eq_default _ _ (by omega)]
    decide

theorem hex_pairs_no_nul (h : List Nat) (n : Nat) :
    ∀ c ∈ (List.range n).flatMap (fun i =>
        [hex_chars.getD ((h.getD i 0 >>> 4) &&& 0xf) (Char.ofNat 0),
         hex_chars.getD (h.getD i 0 &&& 0xf) (Char.ofNat 0)]),
      c ∈ "0123456789abcdef".toList ∧ c ≠ Char.ofNat 0 := by
  intro c hc
  rw [List.mem_flatMap] at hc
  obtain ⟨i, _, hci⟩ := hc
  simp only [List.mem_cons, List.mem_singleton, List.not_mem_nil, or_false] at hci
  rcases hci with rfl | rfl
  · exact hex_chars_digit _ (nibble_lt _)
  · exact hex_chars_digit _ (nibble_lt _)

theorem cstr_of_terminated (cs rest : List Char) (h : ∀ c ∈ cs, c ≠ Char.ofNat 0) :
    cstr (cs ++ [Char.ofNat 0] ++ rest) = String.mk cs :=
  cstr_terminated (String.mk cs) rest h

/-- What `sha256_to_hex` writes: the two hex digits of byte `i` at positions `2 i` and
`2 i + 1`, a NUL at position 64, and a C string of exactly 64 characters. -/
theorem sha256_to_hex_positions (h : List Nat) (buf : List Char) (hb : ∀ x ∈ h, x < 256) :
    ∃ out, sha256_to_hex (some h) (some buf) = (SHA256_SUCCESS, some out) ∧
      (∀ i, i < 32 →
        out[2 * i]? = some ("0123456789abcdef".toList.getD (h.getD i 0 >>> 4) (Char.ofNat 0)) ∧
        out[2 * i + 1]?
          = some ("0123456789abcdef".toList.getD (h.getD i 0 &&& 15) (Char.ofNat 0))) ∧
      (∀ j, j < 64 → ∃ c, out[j]? = some c ∧ c ∈ "0123456789abcdef".toList) ∧
      out[64]? = some (Char.ofNat 0) ∧
      (cstr out).length = 64 := by
  refine ⟨_, sha256_to_hex_eq h buf, ?_, ?_, ?_, ?_⟩
  · intro i hi
    have hg := flatMap_pair_get
      (fun i => hex_chars.getD ((h.getD i 0 >>> 4) &&& 0xf) (Char.ofNat 0))
      (fun i => hex_chars.getD (h.getD i 0 &&& 0xf) (Char.ofNat 0)) 32 i hi
    have hlen := flatMap_pair_length
      (fun i => hex_chars.getD ((h.getD i 0 >>> 4) &&& 0xf) (Char.ofNat 0))
      (fun i => hex_chars.getD (h.getD i 0 &&& 0xf) (Char.ofNat 0)) 32
    unfold sha256_hex_chars SHA256_DIGEST_SIZE
    rw [List.append_assoc, List.getElem?_append_left (by omega),
      List.getElem?_append_left (by omega), hg.1, hg.2]
    refine ⟨?_, rfl⟩
    show some (hex_chars.getD ((h.getD i 0 >>> 4) &&& 0xf) (Char.ofNat 0)) = _
    rw [high_nibble _ (getD_byte h i hb)]
    rfl
  · intro j hj
    have hlen := flatMap_pair_length
      (fun i => hex_chars.getD ((h.getD i 0 >>> 4) &&& 0xf) (Char.ofNat 0))
      (fun i => hex_chars.getD (h.getD i 0 &&& 0xf) (Char.ofNat 0)) 32
    have hj' : j < (sha256_hex_chars h).length := by
      unfold sha256_hex_chars SHA256_DIGEST_SIZE; omega
    rw [List.append_assoc, List.getElem?_append_left hj']
    refine ⟨(sha256_hex_chars h)[j], List.getElem?_eq_getElem hj', ?_⟩
    exact (hex_pairs_no_nul h 32 _ (List.getElem_mem hj')).1
  · have hlen : (sha256_hex_chars h).length = 64 := flatMap_pair_length _ _ 32
    rw [List.append_assoc, List.getElem?_append_right (by omega), hlen]
    simp
  · have hlen : (sha256_hex_chars h).length = 64 := flatMap_pair_length _ _ 32
    rw [cstr_of_terminated (sha256_hex_chars h) _
      (fun c hc => (hex_pairs_no_nul h 32 c hc).2), String.length_mk, hlen]

/-- What `sha512_to_hex` writes: the two hex digits of byte `i` at positions `2 i` and
`2 i + 1`, a NUL at position 128, and a C string of exactly 128 characters. -/
theorem sha512_to_hex_positions (h : List Nat) (buf : List Char) (hb : ∀ x ∈ h, x < 256) :
    ∃ out, sha512_to_hex (some h) (some buf) = (SHA512_SUCCESS, some out) ∧
      (∀ i, i < 64 →
        out[2 * i]? = some ("0123456789abcdef".toList.getD (h.getD i 0 >>> 4) (Char.ofNat 0)) ∧
        out[2 * i + 1]?
          = some ("0123456789abcdef".toList.getD (h.getD i 0 &&& 15) (Char.ofNat 0))) ∧
      (∀ j, j < 128 → ∃ c, out[j]? = some c ∧ c ∈ "0123456789abcdef".toList) ∧
      out[128]? = some (Char.ofNat 0) ∧
      (cstr out).length = 128 := by
  refine ⟨_, sha512_to_hex_eq h buf, ?_, ?_, ?_, ?_⟩
  · intro i hi
    have hg := flatMap_pair_get
      (fun i => hex_chars.getD ((h.getD i 0 >>> 4) &&& 0xf) (Char.ofNat 0))
      (fun i => hex_chars.getD (h.getD i 0 &&& 0xf) (Char.ofNat 0)) 64 i hi
    have hlen := flatMap_pair_length
      (fun i => hex_chars.getD ((h.getD i 0 >>> 4) &&& 0xf) (Char.ofNat 0))
      (fun i => hex_chars.getD (h.getD i 0 &&& 0xf) (Char.ofNat 0)) 64
    unfold sha512_hex_chars SHA512_DIGEST_SIZE
    rw [List.append_assoc, List.getElem?_append_left (by omega),
      List.getElem?_append_left (by omega), hg.1, hg.2]
    refine ⟨?_, rfl⟩
    show some (hex_chars.getD ((h.getD i 0 >>> 4) &&& 0xf) (Char.ofNat 0)) = _
    rw [high_nibble _ (getD_byte h i hb)]
    rfl
  · intro j hj
    have hlen := flatMap_pair_length
      (fun i => hex_chars.getD ((h.getD i 0 >>> 4) &&& 0xf) (Char.ofNat 0))
      (fun i => hex_chars.getD (h.getD i 0 &&& 0xf) (Char.ofNat 0)) 64
    have hj' : j < (sha512_hex_chars h).length := by
      unfold sha512_hex_chars SHA512_DIGEST_SIZE; omega
    rw [List.append_assoc, List.getElem?_append_left hj']
    refine ⟨(sha512_hex_chars h)[j], List.getElem?_eq_getElem hj', ?_⟩
    exact (hex_pairs_no_nul h 64 _ (List.getElem_mem hj')).1
  · have hlen : (sha512_hex_chars h).length = 128 := flatMap_pair_length _ _ 64
    rw [List.append_assoc, List.getElem?_append_right (by omega), hlen]
    simp
  · have hlen : (sha512_hex_chars h).length = 128 := flatMap_pair_length _ _ 64
    rw [cstr_of_terminated (sha512_hex_chars h) _
      (fun c hc => (hex_pairs_no_nul h 64 c hc).2), String.length_mk, hlen]

/-- C18: for every digest `h` of bytes, `sha256_to_hex` returns success and, for every
`i < 32`, the output characters at `2 i` and `2 i + 1` are `"0123456789abcdef"[h[i] >> 4]` and
`"0123456789abcdef"[h[i] & 15]`; every one of the first 64 characters is a lowercase hex digit,
a NUL follows at index 64, so the C string has exactly 64 characters. `sha512_to_hex` does the
same for 64 bytes with exactly 128 characters and the NUL at index 128. -/
theorem to_hex_two_digits (h h' : List Nat) (buf buf' : List Char)
    (hb : ∀ x ∈ h, x < 256) (hb' : ∀ x ∈ h', x < 256) :
    (∃ out, sha256_to_hex (some h) (some buf) = (SHA256_SUCCESS, some out) ∧
      (∀ i, i < 32 →
        out[2 * i]? = some ("0123456789abcdef".toList.getD (h.getD i 0 >>> 4) (Char.ofNat 0)) ∧
        out[2 * i + 1]?
          = some ("0123456789abcdef".toList.getD (h.getD i 0 &&& 15) (Char.ofNat 0))) ∧
      (∀ j, j < 64 → ∃ c, out[j]? = some c ∧ c ∈ "0123456789abcdef".toList) ∧
      out[64]? = some (Char.ofNat 0) ∧
      (cstr out).length = 64) ∧
    (∃ out, sha512_to_hex (some h') (some buf') = (SHA512_SUCCESS, some out) ∧
      (∀ i, i < 64 →
        out[2 * i]? = some ("0123456789abcdef".toList.getD (h'.getD i 0 >>> 4) (Char.ofNat 0)) ∧
        out[2 * i + 1]?
          = some ("0123456789abcdef".toList.getD (h'.getD i 0 &&& 15) (Char.ofNat 0))) ∧
      (∀ j, j < 128 → ∃ c, out[j]? = some c ∧ c ∈ "0123456789abcdef".toList) ∧
      out[128]? = some (Char.ofNat 0) ∧
      (cstr out).length = 128) :=
  ⟨sha256_to_hex_positions h buf hb, sha512_to_hex_positions h' buf' hb'⟩

set_option maxRecDepth 8000 in
/-- Witness for C18: digests whose bytes are all `0xAB`, rendered into empty buffers. -/
theorem to_hex_two_digits_witness :
    ((∀ x ∈ List.replicate 32 0xAB, x < 256) ∧ (∀ x ∈ List.replicate 64 0xAB, x < 256)) ∧
    ∃ out, sha256_to_hex (some (List.replicate 32 0xAB)) (some []) = (SHA256_SUCCESS, some out) ∧
      (cstr out).length = 64 :=
  ⟨⟨by decide, by decide⟩,
   (to_hex_two_digits (List.replicate 32 0xAB) (List.replicate 64 0xAB) [] []
      (by decide) (by decide)).1.imp (fun _ ho => ⟨ho.1, ho.2.2.2.2⟩)⟩

/-! ## Constant-time comparison -/

theorem or_eq_zero_iff (x y : Nat) : x ||| y = 0 ↔ x = 0 ∧ y = 0 := by
  constructor
  · intro h
    constructor
    · apply Nat.eq_of_testBit_eq
      intro i
      have := congrArg (fun n => Nat.testBit n i) h
      simp only [Nat.testBit_or, Nat.zero_testBit, Bool.or_eq_false_iff] at this
      rw [this.1, Nat.zero_testBit]
    · apply Nat.eq_of_testBit_eq
      intro i
      have := congrArg (fun n => Nat.testBit n i) h
      simp only [Nat.testBit_or, Nat.zero_testBit, Bool.or_eq_false_iff] at this
      rw [this.2, Nat.zero_testBit]
  · rintro ⟨rfl, rfl⟩
    rfl

/-- The accumulator of the comparison loop after `n` positions, on digests of bytes: the
reduction to `uint8_t` never changes it, so it is the plain OR of the XORs. -/
theorem compare_fold_eq (a b : List Nat) (ha : ∀ x ∈ a, x < 256) (hb : ∀ x ∈ b, x < 256)
    (n : Nat) :
    (List.range n).foldl (fun result i => (result ||| (a.getD i 0 ^^^ b.getD i 0)) % 256) 0
      = (List.range n).foldl (fun result i => result ||| (a.getD i 0 ^^^ b.getD i 0)) 0 ∧
    (List.range n).foldl (fun result i => result ||| (a.getD i 0 ^^^ b.getD i 0)) 0 < 256 := by
  induction n with
  | zero => exact ⟨rfl, Nat.zero_lt_succ _⟩
  | succ k ih =>
    rw [List.range_succ, List.foldl_append, List.foldl_append, ih.1]
    simp only [List.foldl_cons, List.foldl_nil]
    have hx : a.getD k 0 ^^^ b.getD k 0 < 2 ^ 8 :=
      Nat.xor_lt_two_pow (getD_byte a k ha) (getD_byte b k hb)
    have hlt : (List.range k).foldl (fun result i => result ||| (a.getD i 0 ^^^ b.getD i 0)) 0
        ||| (a.getD k 0 ^^^ b.getD k 0) < 2 ^ 8 := Nat.or_lt_two_pow ih.2 hx
    exact ⟨Nat.mod_eq_of_lt hlt, hlt⟩

theorem compare_fold_zero (a b : List Nat) (n : Nat) :
    (List.range n).foldl (fun result i => result ||| (a.getD i 0 ^^^ b.getD i 0)) 0 = 0
      ↔ ∀ i, i < n → a.getD i 0 = b.getD i 0 := by
  induction n with
  | zero => exact ⟨fun _ i hi => absurd hi (Nat.not_lt_zero i), fun _ => rfl⟩
  | succ k ih =>
    rw [List.range_succ, List.foldl_append]
    simp only [List.foldl_cons, List.foldl_nil]
    rw [or_eq_zero_iff, ih, Nat.xor_eq_zero]
    constructor
    · rintro ⟨h1, h2⟩ i hi
      by_cases hk : i < k
      · exact h1 i hk
      · have : i = k := by omega
        subst this
        exact h2
    · intro h
      exact ⟨fun i hi => h i (by omega), h k (by omega)⟩

/-- C20: for every two present digests `a` and `b` of bytes, `sha256_compare` returns 0 if and
only if `a[i] = b[i]` for every `i < 32`, and `sha512_compare` returns 0 if `a[i] = b[i]` for
every `i < 64` and 1 otherwise. -/
theorem compare_decides_equality (a b a' b' : List Nat)
    (ha : ∀ x ∈ a, x < 256) (hb : ∀ x ∈ b, x < 256)
    (ha' : ∀ x ∈ a', x < 256) (hb' : ∀ x ∈ b', x < 256) :
    (sha256_compare (some a) (some b) = 0 ↔ ∀ i, i < 32 → a.getD i 0 = b.getD i 0) ∧
    ((∀ i, i < 64 → a'.getD i 0 = b'.getD i 0) → sha512_compare (some a') (some b') = 0) ∧
    (¬ (∀ i, i < 64 → a'.getD i 0 = b'.getD i 0) → sha512_compare (some a') (some b') = 1) := by
  have e := (compare_fold_eq a b ha hb 32).1
  have e' := (compare_fold_eq a' b' ha' hb' 64).1
  refine ⟨?_, fun h => ?_, fun h => ?_⟩
  · unfold sha256_compare SHA256_DIGEST_SIZE
    simp only
    rw [e, compare_fold_zero]
  · unfold sha512_compare SHA512_DIGEST_SIZE
    simp only
    rw [e', if_neg (not_not.mpr ((compare_fold_zero a' b' 64).mpr h))]
  · unfold sha512_compare SHA512_DIGEST_SIZE
    simp only
    rw [e', if_pos (fun hz => h ((compare_fold_zero a' b' 64).mp hz))]

set_option maxRecDepth 8000 in
/-- Witness for C20: two digests that differ in their last byte only. -/
theorem compare_decides_equality_witness :
    ((∀ x ∈ List.replicate 32 0xAB, x < 256) ∧
      (∀ x ∈ List.replicate 31 0xAB ++ [0xAA], x < 256) ∧
      (∀ x ∈ List.replicate 64 0xAB, x < 256) ∧
      (∀ x ∈ List.replicate 63 0xAB ++ [0xAA], x < 256)) ∧
    sha256_compare (some (List.replicate 32 0xAB)) (some (List.replicate 31 0xAB ++ [0xAA])) ≠ 0 ∧
    sha512_compare (some (List.replicate 64 0xAB)) (some (List.replicate 63 0xAB ++ [0xAA])) = 1 :=
  ⟨⟨by decide, by decide, by decide, by decide⟩,
   fun h => absurd
     ((compare_decides_equality (List.replicate 32 0xAB) (List.replicate 31 0xAB ++ [0xAA])
        (List.replicate 64 0xAB) (List.replicate 63 0xAB ++ [0xAA])
        (by decide) (by decide) (by decide) (by decide)).1.mp h 31 (by decide)) (by decide),
   (compare_decides_equality (List.replicate 32 0xAB) (List.replicate 31 0xAB ++ [0xAA])
      (List.replicate 64 0xAB) (List.replicate 63 0xAB ++ [0xAA])
      (by decide) (by decide) (by decide) (by decide)).2.2
     (fun h => absurd (h 63 (by decide)) (by decide))⟩

/-! ## Comparison: the accumulated value and the null-input code -/

/-- Bit `k` of the OR of `f 0, ..., f (n - 1)` is set exactly when it is set in one of them. -/
theorem or_fold_testBit (f : Nat → Nat) (n k : Nat) :
    ((List.range n).foldl (fun r i => r ||| f i) 0).testBit k = true
      ↔ ∃ i, i < n ∧ (f i).testBit k = true := by
  induction n with
  | zero => simp
  | succ m ih =>
    rw [List.range_succ, List.foldl_append]
    simp only [List.foldl_cons, List.foldl_nil, Nat.testBit_or, Bool.or_eq_true, ih]
    constructor
    · rintro (⟨i, hi, h⟩ | h)
      · exact ⟨i, by omega, h⟩
      · exact ⟨m, by omega, h⟩
    · rintro ⟨i, hi, h⟩
      by_cases hm : i < m
      · exact Or.inl ⟨i, hm, h⟩
      · have : i = m := by omega
        subst this
        exact Or.inr h

/-- C21: for every two present digests of bytes, `sha256_compare` returns exactly the bitwise
OR over all 32 positions `i` of `a[i] XOR b[i]` (bit `k` of the result is set exactly when it
is set in the XOR at some position `i < 32`, wherever that position lies), and `sha512_compare`
returns 1 exactly when the bitwise OR over all 64 positions of `a[i] XOR b[i]` is non-zero,
that is exactly when the digests differ at some position `i < 64`. -/
theorem compare_accumulates (a b a' b' : List Nat)
    (ha : ∀ x ∈ a, x < 256) (hb : ∀ x ∈ b, x < 256)
    (ha' : ∀ x ∈ a', x < 256) (hb' : ∀ x ∈ b', x < 256) :
    (sha256_compare (some a) (some b)
        = (List.range 32).foldl (fun r i => r ||| (a.getD i 0 ^^^ b.getD i 0)) 0 ∧
     ∀ k, (sha256_compare (some a) (some b)).testBit k = true
        ↔ ∃ i, i < 32 ∧ (a.getD i 0 ^^^ b.getD i 0).testBit k = true) ∧
    ((sha512_compare (some a') (some b') = 1
        ↔ (List.range 64).foldl (fun r i => r ||| (a'.getD i 0 ^^^ b'.getD i 0)) 0 ≠ 0) ∧
     (sha512_compare (some a') (some b') = 1
        ↔ ∃ i, i < 64 ∧ a'.getD i 0 ≠ b'.getD i 0)) := by
  have e : sha256_compare (some a) (some b)
      = (List.range 32).foldl (fun r i => r ||| (a.getD i 0 ^^^ b.getD i 0)) 0 :=
    (compare_fold_eq a b ha hb 32).1
  have e' := (compare_fold_eq a' b' ha' hb' 64).1
  have h512 : sha512_compare (some a') (some b') = 1
      ↔ (List.range 64).foldl (fun r i => r ||| (a'.getD i 0 ^^^ b'.getD i 0)) 0 ≠ 0 := by
    unfold sha512_compare SHA512_DIGEST_SIZE
    simp only
    rw [e']
    by_cases hz : (List.range 64).foldl (fun r i => r ||| (a'.getD i 0 ^^^ b'.getD i 0)) 0 = 0
    · rw [if_neg (not_not.mpr hz)]
      exact ⟨fun h => absurd h (by decide), fun h => absurd hz h⟩
    · rw [if_pos hz]
      exact ⟨fun _ => hz, fun _ => rfl⟩
  refine ⟨⟨e, fun k => ?_⟩, h512, ?_⟩
  · rw [e]
    exact or_fold_testBit (fun i => a.getD i 0 ^^^ b.getD i 0) 32 k
  · rw [h512, Ne, compare_fold_zero]
    push_neg
    exact Iff.rfl

set_option maxRecDepth 8000 in
/-- Witness for C21: two digests that differ in their last byte only, by the bits `0x03`. -/
theorem compare_accumulates_witness :
    ((∀ x ∈ List.replicate 32 0xAB, x < 256) ∧
      (∀ x ∈ List.replicate 31 0xAB ++ [0xA8], x < 256) ∧
      (∀ x ∈ List.replicate 64 0xAB, x < 256) ∧
      (∀ x ∈ List.replicate 63 0xAB ++ [0xA8], x < 256)) ∧
    sha256_compare (some (List.replicate 32 0xAB)) (some (List.replicate 31 0xAB ++ [0xA8])) = 3 ∧
    sha512_compare (some (List.replicate 64 0xAB)) (some (List.replicate 63 0xAB ++ [0xA8])) = 1 :=
  ⟨⟨by decide, by decide, by decide, by decide⟩,
   (compare_accumulates (List.replicate 32 0xAB) (List.replicate 31 0xAB ++ [0xA8])
      (List.replicate 64 0xAB) (List.replicate 63 0xAB ++ [0xA8])
      (by decide) (by decide) (by decide) (by decide)).1.1.trans (by decide),
   (compare_accumulates (List.replicate 32 0xAB) (List.replicate 31 0xAB ++ [0xA8])
      (List.replicate 64 0xAB) (List.replicate 63 0xAB ++ [0xA8])
      (by decide) (by decide) (by decide) (by decide)).2.2.mpr ⟨63, by decide, by decide⟩⟩

/-- C22, as stated, fails: on two present digests that differ only in the lowest bit of their
first byte, `sha256_compare` and `sha512_compare` return 1, which is the null-pointer error
code. -/
theorem compare_error_code_collides :
    ¬ (sha256_compare (some (List.replicate 32 0)) (some (1 :: List.replicate 31 0))
          ≠ SHA256_ERROR_NULL_POINTER) ∧
    ¬ (sha512_compare (some (List.replicate 64 0)) (some (1 :: List.replicate 63 0))
          ≠ SHA512_ERROR_NULL_POINTER) := by
  decide

/-- C22, amended: `sha256_compare` / `sha512_compare` return the null-pointer error code when
either operand is absent. For two present digests of bytes the returned value differs from
that code when the digests agree at every position (it is 0); when they differ it can be that
code: `sha512_compare` returns it for every two digests that differ at some position `i < 64`,
and `sha256_compare` returns it exactly when the OR of the XORs over the 32 positions is 1. -/
theorem compare_null_code (h : Option (List Nat)) (a b a' b' : List Nat)
    (ha : ∀ x ∈ a, x < 256) (hb : ∀ x ∈ b, x < 256)
    (ha' : ∀ x ∈ a', x < 256) (hb' : ∀ x ∈ b', x < 256) :
    (sha256_compare none h = SHA256_ERROR_NULL_POINTER ∧
     sha256_compare h none = SHA256_ERROR_NULL_POINTER ∧
     sha512_compare none h = SHA512_ERROR_NULL_POINTER ∧
     sha512_compare h none = SHA512_ERROR_NULL_POINTER) ∧
    (((∀ i, i < 32 → a.getD i 0 = b.getD i 0) →
        sha256_compare (some a) (some b) = 0 ∧
        sha256_compare (some a) (some b) ≠ SHA256_ERROR_NULL_POINTER) ∧
     (sha256_compare (some a) (some b) = SHA256_ERROR_NULL_POINTER ↔
        (List.range 32).foldl (fun r i => r ||| (a.getD i 0 ^^^ b.getD i 0)) 0 = 1)) ∧
    (((∀ i, i < 64 → a'.getD i 0 = b'.getD i 0) →
        sha512_compare (some a') (some b') = 0 ∧
        sha512_compare (some a') (some b') ≠ SHA512_ERROR_NULL_POINTER) ∧
     (sha512_compare (some a') (some b') = SHA512_ERROR_NULL_POINTER ↔
        ∃ i, i < 64 ∧ a'.getD i 0 ≠ b'.getD i 0)) := by
  have e : sha256_compare (some a) (some b)
      = (List.range 32).foldl (fun r i => r ||| (a.getD i 0 ^^^ b.getD i 0)) 0 :=
    (compare_fold_eq a b ha hb 32).1
  have e' := (compare_fold_eq a' b' ha' hb' 64).1
  have hne : ¬ (0 : Nat) = 1 := by decide
  refine ⟨⟨?_, ?_, ?_, ?_⟩, ⟨fun heq => ?_, ?_⟩, fun heq => ?_, ?_⟩
  · cases h <;> rfl
  · cases h <;> rfl
  · cases h <;> rfl
  · cases h <;> rfl
  · have z : sha256_compare (some a) (some b) = 0 := by
      rw [e]
      exact (compare_fold_zero a b 32).mpr heq
    exact ⟨z, fun h1 => hne (z.symm.trans h1)⟩
  · rw [e]
    exact Iff.rfl
  · have z : sha512_compare (some a') (some b') = 0 := by
      unfold sha512_compare SHA512_DIGEST_SIZE
      simp only
      rw [e', if_neg (not_not.mpr ((compare_fold_zero a' b' 64).mpr heq))]
    exact ⟨z, fun h1 => hne (z.symm.trans h1)⟩
  · unfold sha512_compare SHA512_DIGEST_SIZE SHA512_ERROR_NULL_POINTER
    simp only
    rw [e']
    by_cases hz : (List.range 64).foldl (fun r i => r ||| (a'.getD i 0 ^^^ b'.getD i 0)) 0 = 0
    · rw [if_neg (not_not.mpr hz)]
      refine ⟨fun h1 => absurd h1 hne, fun ⟨i, hi, hd⟩ => ?_⟩
      exact absurd ((compare_fold_zero a' b' 64).mp hz i hi) hd
    · rw [if_pos hz]
      refine ⟨fun _ => ?_, fun _ => rfl⟩
      have := mt (compare_fold_zero a' b' 64).mpr hz
      push_neg at this
      exact this

set_option maxRecDepth 8000 in
/-- Witness for C22: the comparison of a digest with itself returns 0, not the error code. -/
theorem compare_null_code_witness :
    ((∀ x ∈ List.replicate 32 0xAB, x < 256) ∧ (∀ x ∈ List.replicate 64 0xAB, x < 256)) ∧
    sha256_compare (some (List.replicate 32 0xAB)) (some (List.replicate 32 0xAB)) = 0 ∧
    sha512_compare (some (List.replicate 64 0xAB)) (some (List.replicate 64 0xAB)) = 0 :=
  ⟨⟨by decide, by decide⟩,
   ((compare_null_code none (List.replicate 32 0xAB) (List.replicate 32 0xAB)
      (List.replicate 64 0xAB) (List.replicate 64 0xAB)
      (by decide) (by decide) (by decide) (by decide)).2.1.1 (fun _ _ => rfl)).1,
   ((compare_null_code none (List.replicate 32 0xAB) (List.replicate 32 0xAB)
      (List.replicate 64 0xAB) (List.replicate 64 0xAB)
      (by decide) (by decide) (by decide) (by decide)).2.2.1 (fun _ _ => rfl)).1⟩

/-! ## SHA-256: the blocks compressed by the padding loop of Final -/

/-- The state left by the padding loop is the fold of the compression function over the
blocks that the loop hands to `sha256_transform`. -/
theorem sha256_final_loop_blocks (fuel : Nat) :
    ∀ (c : SHA256_CTX) (padding : List Nat) (total i : Nat),
      (sha256_final_loop fuel c padding total i).state
        = (sha256_final_blocks fuel c padding total i).foldl sha256_compress c.state := by
  induction fuel with
  | zero => intro c padding total i; rfl
  | succ k ih =>
    intro c padding total i
    rw [sha256_final_loop, sha256_final_blocks]
    by_cases hi : i < total
    · rw [if_pos hi, if_pos hi]
      simp only
      generalize (if total - i < SHA256_BLOCK_SIZE - c.buffer_len then total - i
        else SHA256_BLOCK_SIZE - c.buffer_len) = tc
      by_cases hfull : c.buffer_len + tc = SHA256_BLOCK_SIZE
      · rw [if_pos hfull, if_pos hfull, ih, List.foldl_cons, sha256_transform_eq]
      · rw [if_neg hfull, if_neg hfull, ih]
    · rw [if_neg hi, if_neg hi]
      rfl

theorem sha256_final_blocks_done (fuel : Nat) (c : SHA256_CTX) (padding : List Nat)
    (total i : Nat) (h : ¬ i < total) : sha256_final_blocks fuel c padding total i = [] := by
  cases fuel with
  | zero => rfl
  | succ k => rw [sha256_final_blocks, if_neg h]

/-- One iteration of the padding loop when the padding left fills the buffer: the topped-up
buffer is the block compressed. -/
theorem sha256_final_blocks_fill (fuel : Nat) (c : SHA256_CTX) (padding : List Nat)
    (total i : Nat)
    (hl : c.buffer_len < 64) (hi : i < total) (hsp : 64 - c.buffer_len ≤ total - i) :
    sha256_final_blocks (fuel + 1) c padding total i =
      memcpy c.buffer c.buffer_len (padding.drop i) (64 - c.buffer_len) ::
      sha256_final_blocks fuel
        { c with state := sha256_compress c.state
                    (memcpy c.buffer c.buffer_len (padding.drop i) (64 - c.buffer_len)),
                 buffer := memcpy c.buffer c.buffer_len (padding.drop i) (64 - c.buffer_len),
                 buffer_len := 0 }
        padding total (i + (64 - c.buffer_len)) := by
  have hnlt : ¬ total - i < 64 - c.buffer_len := by omega
  have he : c.buffer_len + (64 - c.buffer_len) = 64 := by omega
  rw [sha256_final_blocks, if_pos hi]
  simp only [SHA256_BLOCK_SIZE, hnlt, if_false, he, if_true]
  rw [sha256_transform_eq]

/-- The blocks compressed by the padding loop of `sha256_final` on a context whose buffer is
the `64`-byte array and holds fewer than `64` pending bytes: one block when the padding fits,
two otherwise; together they are the pending bytes followed by the padding. -/
theorem sha256_final_blocks_spec (fuel : Nat) (c : SHA256_CTX) (padding : List Nat)
    (hb : c.buffer.length = 64) (hl : c.buffer_len < 64)
    (hp : padding.length = sha256_pad_len c.buffer_len + 8) (hfuel : 2 ≤ fuel) :
    (c.buffer_len < 56 →
      sha256_final_blocks fuel c padding (sha256_pad_len c.buffer_len + 8) 0
        = [sha256_pending c ++ padding]) ∧
    (56 ≤ c.buffer_len →
      sha256_final_blocks fuel c padding (sha256_pad_len c.buffer_len + 8) 0
        = [sha256_pending c ++ padding.take (64 - c.buffer_len),
           padding.drop (64 - c.buffer_len)]) := by
  obtain ⟨k, rfl⟩ : ∃ k, fuel = k + 2 := ⟨fuel - 2, by omega⟩
  have hplen : sha256_pad_len c.buffer_len + 8
      = if c.buffer_len < 56 then 64 - c.buffer_len else 2 * 64 - c.buffer_len := by
    unfold sha256_pad_len SHA256_BLOCK_SIZE
    try unfold SHA256_PAD_THRESHOLD SHA256_BLOCK_SIZE SHA256_LENGTH_SIZE
    split_ifs <;> omega
  rw [hplen] at hp ⊢
  have hB1 : ∀ n, n ≤ padding.length → c.buffer_len + n = 64 →
      memcpy c.buffer c.buffer_len (padding.drop 0) n = sha256_pending c ++ padding.take n := by
    intro n _ hn
    unfold memcpy sha256_pending
    rw [List.drop_zero, List.drop_eq_nil_of_le (by omega), List.append_nil]
  constructor
  · intro hlt
    rw [if_pos hlt] at hp ⊢
    rw [sha256_final_blocks_fill (k + 1) c padding _ 0 hl (by omega) (by omega),
      sha256_final_blocks_done _ _ _ _ _ (by omega),
      hB1 _ (by omega) (by omega), List.take_of_length_le (by omega)]
  · intro hge
    have hnlt : ¬ c.buffer_len < 56 := by omega
    rw [if_neg hnlt] at hp ⊢
    rw [sha256_final_blocks_fill (k + 1) c padding _ 0 hl (by omega) (by omega),
      sha256_final_blocks_fill k _ padding _ _ (Nat.zero_lt_succ _) (by omega)
        (by simp only; omega),
      sha256_final_blocks_done _ _ _ _ _ (by simp only; omega),
      hB1 _ (by omega) (by omega)]
    simp only [Nat.zero_add, Nat.sub_zero]
    have hlen1 : (sha256_pending c ++ padding.take (64 - c.buffer_len)).length = 64 := by
      rw [List.length_append, sha256_pending_length c hb (by omega), List.length_take]
      omega
    have hB2 : memcpy (sha256_pending c ++ padding.take (64 - c.buffer_len)) 0
        (padding.drop (64 - c.buffer_len)) 64 = padding.drop (64 - c.buffer_len) := by
      unfold memcpy
      rw [List.take_zero, List.nil_append, Nat.zero_add,
        List.drop_eq_nil_of_le (Nat.le_of_eq hlen1), List.append_nil,
        List.take_of_length_le (by rw [List.length_drop]; omega)]
    rw [hB2]

/-! ## SHA-512: the blocks compressed by the padding loop of Final -/

/-- The state left by the padding loop is the fold of the compression function over the
blocks that the loop hands to `sha512_transform`. -/
theorem sha512_final_loop_blocks (fuel : Nat) :
    ∀ (c : SHA512_CTX) (padding : List Nat) (total i : Nat),
      (sha512_final_loop fuel c padding total i).state
        = (sha512_final_blocks fuel c padding total i).foldl sha512_compress c.state := by
  induction fuel with
  | zero => intro c padding total i; rfl
  | succ k ih =>
    intro c padding total i
    rw [sha512_final_loop, sha512_final_blocks]
    by_cases hi : i < total
    · rw [if_pos hi, if_pos hi]
      simp only
      generalize (if total - i < SHA512_BLOCK_SIZE - c.buffer_len then total - i
        else SHA512_BLOCK_SIZE - c.buffer_len) = tc
      by_cases hfull : c.buffer_len + tc = SHA512_BLOCK_SIZE
      · rw [if_pos hfull, if_pos hfull, ih, List.foldl_cons, sha512_transform_eq]
      · rw [if_neg hfull, if_neg hfull, ih]
    · rw [if_neg hi, if_neg hi]
      rfl

theorem sha512_final_blocks_done (fuel : Nat) (c : SHA512_CTX) (padding : List Nat)
    (total i : Nat) (h : ¬ i < total) : sha512_final_blocks fuel c padding total i = [] := by
  cases fuel with
  | zero => rfl
  | succ k => rw [sha512_final_blocks, if_neg h]

/-- One iteration of the padding loop when the padding left fills the buffer: the topped-up
buffer is the block compressed. -/
theorem sha512_final_blocks_fill (fuel : Nat) (c : SHA512_CTX) (padding : List Nat)
    (total i : Nat)
    (hl : c.buffer_len < 128) (hi : i < total) (hsp : 128 - c.buffer_len ≤ total - i) :
    sha512_final_blocks (fuel + 1) c padding total i =
      memcpy c.buffer c.buffer_len (padding.drop i) (128 - c.buffer_len) ::
      sha512_final_blocks fuel
        { c with state := sha512_compress c.state
                    (memcpy c.buffer c.buffer_len (padding.drop i) (128 - c.buffer_len)),
                 buffer := memcpy c.buffer c.buffer_len (padding.drop i) (128 - c.buffer_len),
                 buffer_len := 0 }
        padding total (i + (128 - c.buffer_len)) := by
  have hnlt : ¬ total - i < 128 - c.buffer_len := by omega
  have he : c.buffer_len + (128 - c.buffer_len) = 128 := by omega
  rw [sha512_final_blocks, if_pos hi]
  simp only [SHA512_BLOCK_SIZE, hnlt, if_false, he, if_true]
  rw [sha512_transform_eq]

/-- The blocks compressed by the padding loop of `sha512_final` on a context whose buffer is
the `128`-byte array and holds fewer than `128` pending bytes: one block when the padding fits,
two otherwise; together they are the pending bytes followed by the padding. -/
theorem sha512_final_blocks_spec (fuel : Nat) (c : SHA512_CTX) (padding : List Nat)
    (hb : c.buffer.length = 128) (hl : c.buffer_len < 128)
    (hp : padding.length = sha512_pad_len c.buffer_len + 16) (hfuel : 2 ≤ fuel) :
    (c.buffer_len < 112 →
      sha512_final_blocks fuel c padding (sha512_pad_len c.buffer_len + 16) 0
        = [sha512_pending c ++ padding]) ∧
    (112 ≤ c.buffer_len →
      sha512_final_blocks fuel c padding (sha512_pad_len c.buffer_len + 16) 0
        = [sha512_pending c ++ padding.take (128 - c.buffer_len),
           padding.drop (128 - c.buffer_len)]) := by
  obtain ⟨k, rfl⟩ : ∃ k, fuel = k + 2 := ⟨fuel - 2, by omega⟩
  have hplen : sha512_pad_len c.buffer_len + 16
      = if c.buffer_len < 112 then 128 - c.buffer_len else 2 * 128 - c.buffer_len := by
    unfold sha512_pad_len SHA512_BLOCK_SIZE
    try unfold SHA512_PAD_THRESHOLD SHA512_BLOCK_SIZE SHA512_LENGTH_SIZE
    split_ifs <;> omega
  rw [hplen] at hp ⊢
  have hB1 : ∀ n, n ≤ padding.length → c.buffer_len + n = 128 →
      memcpy c.buffer c.buffer_len (padding.drop 0) n = sha512_pending c ++ padding.take n := by
    intro n _ hn
    unfold memcpy sha512_pending
    rw [List.drop_zero, List.drop_eq_nil_of_le (by omega), List.append_nil]
  constructor
  · intro hlt
    rw [if_pos hlt] at hp ⊢
    rw [sha512_final_blocks_fill (k + 1) c padding _ 0 hl (by omega) (by omega),
      sha512_final_blocks_done _ _ _ _ _ (by omega),
      hB1 _ (by omega) (by omega), List.take_of_length_le (by omega)]
  · intro hge
    have hnlt : ¬ c.buffer_len < 112 := by omega
    rw [if_neg hnlt] at hp ⊢
    rw [sha512_final_blocks_fill (k + 1) c padding _ 0 hl (by omega) (by omega),
      sha512_final_blocks_fill k _ padding _ _ (Nat.zero_lt_succ _) (by omega)
        (by simp only; omega),
      sha512_final_blocks_done _ _ _ _ _ (by simp only; omega),
      hB1 _ (by omega) (by omega)]
    simp only [Nat.zero_add, Nat.sub_zero]
    have hlen1 : (sha512_pending c ++ padding.take (128 - c.buffer_len)).length = 128 := by
      rw [List.length_append, sha512_pending_length c hb (by omega), List.length_take]
      omega
    have hB2 : memcpy (sha512_pending c ++ padding.take (128 - c.buffer_len)) 0
        (padding.drop (128 - c.buffer_len)) 128 = padding.drop (128 - c.buffer_len) := by
      unfold memcpy
      rw [List.take_zero, List.nil_append, Nat.zero_add,
        List.drop_eq_nil_of_le (Nat.le_of_eq hlen1), List.append_nil,
        List.take_of_length_le (by rw [List.length_drop]; omega)]
    rw [hB2]

/-! ## The padding lands on a block boundary -/

/-- Shape of the blocks compressed by a padding loop, for a block size `B = T + L`: `pending`
are the `bl` buffered bytes, the padding is `head ++ field` with `head` of `pl` bytes. -/
theorem final_blocks_shape (B T L bl pl : Nat) (pending head field : List Nat)
    (blks : List (List Nat))
    (hpend : pending.length = bl) (hhead : head.length = pl) (hfield : field.length = L)
    (hTB : T + L = B) (hlB : bl < B)
    (h1 : bl < T → pl = T - bl ∧ blks = [pending ++ (head ++ field)])
    (h2 : T ≤ bl → pl = B + T - bl ∧
      blks = [pending ++ (head ++ field).take (B - bl), (head ++ field).drop (B - bl)]) :
    (bl < T → blks.length = 1) ∧ (T ≤ bl → blks.length = 2) ∧
    (∀ b ∈ blks, b.length = B) ∧ blks.flatten = pending ++ (head ++ field) ∧
    ∃ last, blks.getLast? = some last ∧ last.drop T = field := by
  by_cases h : bl < T
  · obtain ⟨hpl, rfl⟩ := h1 h
    refine ⟨fun _ => rfl, fun h' => absurd h (by omega), ?_, ?_,
      pending ++ (head ++ field), rfl, ?_⟩
    · intro b hbm
      rw [List.mem_singleton] at hbm
      subst hbm
      simp only [List.length_append]
      omega
    · simp only [List.flatten_cons, List.flatten_nil, List.append_nil]
    · rw [← List.append_assoc]
      exact List.drop_left' (by rw [List.length_append]; omega)
  · obtain ⟨hpl, rfl⟩ := h2 (by omega)
    refine ⟨fun h' => absurd h' h, fun _ => rfl, ?_, ?_,
      (head ++ field).drop (B - bl), rfl, ?_⟩
    · intro b hbm
      rw [List.mem_cons, List.mem_singleton] at hbm
      rcases hbm with hbm | hbm
      · subst hbm
        simp only [List.length_append, List.length_take]
        omega
      · subst hbm
        simp only [List.length_append, List.length_drop]
        omega
    · simp only [List.flatten_cons, List.flatten_nil, List.append_nil, List.append_assoc,
        List.take_append_drop]
    · rw [List.drop_drop]
      exact List.drop_left' (by omega)

/-- C23: for every context with `buffer_len < 64` (its buffer being the 64-byte array),
`sha256_final`'s `pad_len` satisfies `1 <= pad_len <= 64`, and `buffer_len + pad_len + 8` is
64 when `buffer_len < 56` and 128 when `56 <= buffer_len`. The padding loop then hands
exactly one block to `sha256_transform` in the first case and exactly two in the second; the
digest written is the serialised fold of the compression function over these blocks; each
block has 64 bytes, together they are the pending bytes followed by the padding, and the
last 8 bytes of the last block are the big-endian 64-bit length field `count * 8`. -/
theorem sha256_padding_block_boundary (c : SHA256_CTX) (out : List Nat)
    (hb : c.buffer.length = 64) (hl : c.buffer_len < 64) :
    (1 ≤ sha256_pad_len c.buffer_len ∧ sha256_pad_len c.buffer_len ≤ 64) ∧
    (c.buffer_len < 56 → c.buffer_len + sha256_pad_len c.buffer_len + 8 = 64) ∧
    (56 ≤ c.buffer_len → c.buffer_len + sha256_pad_len c.buffer_len + 8 = 128) ∧
    ∀ blks, blks = sha256_final_blocks (sha256_pad_len c.buffer_len + 8) c
        (sha256_padding (sha256_pad_len c.buffer_len) ((c.count * 8) % 2 ^ 64))
        (sha256_pad_len c.buffer_len + 8) 0 →
      sha256_final (some c) (some out) = (SHA256_SUCCESS, some sha256_zero_ctx,
        some (sha256_digest_bytes (blks.foldl sha256_compress c.state) ++ out.drop 32)) ∧
      (c.buffer_len < 56 → blks.length = 1) ∧
      (56 ≤ c.buffer_len → blks.length = 2) ∧
      (∀ b ∈ blks, b.length = 64) ∧
      blks.flatten = sha256_pending c
        ++ sha256_padding (sha256_pad_len c.buffer_len) ((c.count * 8) % 2 ^ 64) ∧
      ∃ last, blks.getLast? = some last ∧
        last.drop 56 = store_be64 ((c.count * 8) % 2 ^ 64) := by
  have hpl : sha256_pad_len c.buffer_len
      = if c.buffer_len < 56 then 56 - c.buffer_len else 64 + 56 - c.buffer_len := rfl
  have h1 : c.buffer_len < 56 → sha256_pad_len c.buffer_len = 56 - c.buffer_len :=
    fun h => by rw [hpl, if_pos h]
  have h2 : 56 ≤ c.buffer_len → sha256_pad_len c.buffer_len = 64 + 56 - c.buffer_len :=
    fun h => by rw [hpl, if_neg (by omega)]
  have hrange : 1 ≤ sha256_pad_len c.buffer_len ∧ sha256_pad_len c.buffer_len ≤ 64 := by
    rw [hpl]
    split_ifs <;> omega
  refine ⟨hrange, fun h => by rw [h1 h]; omega, fun h => by rw [h2 h]; omega, ?_⟩
  intro blks hblks
  have hhead : ([0x80] ++ List.replicate (sha256_pad_len c.buffer_len - 1) 0).length
      = sha256_pad_len c.buffer_len := by
    rw [List.length_append, List.length_replicate, List.length_singleton]
    omega
  have hpadlen : (sha256_padding (sha256_pad_len c.buffer_len) ((c.count * 8) % 2 ^ 64)).length
      = sha256_pad_len c.buffer_len + 8 := by
    unfold sha256_padding
    rw [List.length_append, hhead]
    rfl
  have hspec := sha256_final_blocks_spec (sha256_pad_len c.buffer_len + 8) c _ hb hl hpadlen
    (by omega)
  rw [← hblks] at hspec
  refine ⟨?_, final_blocks_shape 64 56 8 c.buffer_len (sha256_pad_len c.buffer_len)
    (sha256_pending c) ([0x80] ++ List.replicate (sha256_pad_len c.buffer_len - 1) 0)
    (store_be64 ((c.count * 8) % 2 ^ 64)) blks (sha256_pending_length c hb (by omega))
    hhead rfl rfl hl (fun h => ⟨h1 h, hspec.1 h⟩)
    (fun h => ⟨by rw [h2 h], hspec.2 h⟩)⟩
  rw [hblks, ← sha256_final_loop_blocks]
  rfl

/-- Witness for C23: a context holding 60 pending bytes after 60 bytes of input. -/
theorem sha256_padding_block_boundary_witness :
    ((SHA256_CTX.mk SHA256_H0 60 (List.replicate 64 0x61) 60).buffer.length = 64 ∧
      (SHA256_CTX.mk SHA256_H0 60 (List.replicate 64 0x61) 60).buffer_len < 64) ∧
    (1 ≤ sha256_pad_len 60 ∧ sha256_pad_len 60 ≤ 64) ∧ 60 + sha256_pad_len 60 + 8 = 128 :=
  ⟨⟨rfl, by decide⟩,
   (sha256_padding_block_boundary (SHA256_CTX.mk SHA256_H0 60 (List.replicate 64 0x61) 60) []
      rfl (by decide)).1,
   (sha256_padding_block_boundary (SHA256_CTX.mk SHA256_H0 60 (List.replicate 64 0x61) 60) []
      rfl (by decide)).2.2.1 (by decide)⟩

/-- C24: for every context with `buffer_len < 128` (its buffer being the 128-byte array),
`sha512_final`'s `pad_len` satisfies `1 <= pad_len <= 128`, and `buffer_len + pad_len + 16` is
128 when `buffer_len < 112` and 256 when `112 <= buffer_len`. The padding loop then hands
exactly one block to `sha512_transform` in the first case and exactly two in the second; the
digest written is the serialised fold of the compression function over these blocks; each
block has 128 bytes, together they are the pending bytes followed by the padding, and the
last 16 bytes of the last block are the length field: `count[1]` then `count[0]`, each
big-endian. -/
theorem sha512_padding_block_boundary (c : SHA512_CTX) (out : List Nat)
    (hb : c.buffer.length = 128) (hl : c.buffer_len < 128) :
    (1 ≤ sha512_pad_len c.buffer_len ∧ sha512_pad_len c.buffer_len ≤ 128) ∧
    (c.buffer_len < 112 → c.buffer_len + sha512_pad_len c.buffer_len + 16 = 128) ∧
    (112 ≤ c.buffer_len → c.buffer_len + sha512_pad_len c.buffer_len + 16 = 256) ∧
    ∀ blks, blks = sha512_final_blocks (sha512_pad_len c.buffer_len + 16) c
        (sha512_padding (sha512_pad_len c.buffer_len) c.count)
        (sha512_pad_len c.buffer_len + 16) 0 →
      sha512_final (some c) (some out) = (SHA512_SUCCESS, some sha512_zero_ctx,
        some (sha512_digest_bytes (blks.foldl sha512_compress c.state) ++ out.drop 64)) ∧
      (c.buffer_len < 112 → blks.length = 1) ∧
      (112 ≤ c.buffer_len → blks.length = 2) ∧
      (∀ b ∈ blks, b.length = 128) ∧
      blks.flatten = sha512_pending c ++ sha512_padding (sha512_pad_len c.buffer_len) c.count ∧
      ∃ last, blks.getLast? = some last ∧
        last.drop 112 = store_be64 c.count.2 ++ store_be64 c.count.1 := by
  have hpl : sha512_pad_len c.buffer_len
      = if c.buffer_len < 112 then 112 - c.buffer_len else 128 + 112 - c.buffer_len := rfl
  have h1 : c.buffer_len < 112 → sha512_pad_len c.buffer_len = 112 - c.buffer_len :=
    fun h => by rw [hpl, if_pos h]
  have h2 : 112 ≤ c.buffer_len → sha512_pad_len c.buffer_len = 128 + 112 - c.buffer_len :=
    fun h => by rw [hpl, if_neg (by omega)]
  have hrange : 1 ≤ sha512_pad_len c.buffer_len ∧ sha512_pad_len c.buffer_len ≤ 128 := by
    rw [hpl]
    split_ifs <;> omega
  refine ⟨hrange, fun h => by rw [h1 h]; omega, fun h => by rw [h2 h]; omega, ?_⟩
  intro blks hblks
  have hhead : ([0x80] ++ List.replicate (sha512_pad_len c.buffer_len - 1) 0).length
      = sha512_pad_len c.buffer_len := by
    rw [List.length_append, List.length_replicate, List.length_singleton]
    omega
  have hpad : sha512_padding (sha512_pad_len c.buffer_len) c.count
      = ([0x80] ++ List.replicate (sha512_pad_len c.buffer_len - 1) 0)
        ++ (store_be64 c.count.2 ++ store_be64 c.count.1) := by
    unfold sha512_padding
    rw [List.append_assoc ([0x80] ++ List.replicate (sha512_pad_len c.buffer_len - 1) 0)]
  have hpadlen : (sha512_padding (sha512_pad_len c.buffer_len) c.count).length
      = sha512_pad_len c.buffer_len + 16 := by
    rw [hpad, List.length_append, hhead]
    rfl
  have hspec := sha512_final_blocks_spec (sha512_pad_len c.buffer_len + 16) c _ hb hl hpadlen
    (by omega)
  rw [← hblks, hpad] at hspec
  refine ⟨?_, ?_⟩
  · rw [hblks, ← sha512_final_loop_blocks]
    rfl
  · rw [hpad]
    exact final_blocks_shape 128 112 16 c.buffer_len (sha512_pad_len c.buffer_len)
      (sha512_pending c) ([0x80] ++ List.replicate (sha512_pad_len c.buffer_len - 1) 0)
      (store_be64 c.count.2 ++ store_be64 c.count.1) blks
      (sha512_pending_length c hb (by omega)) hhead rfl rfl hl
      (fun h => ⟨h1 h, hspec.1 h⟩) (fun h => ⟨by rw [h2 h], hspec.2 h⟩)

/-- Witness for C24: a context holding 120 pending bytes after 120 bytes of input. -/
theorem sha512_padding_block_boundary_witness :
    ((SHA512_CTX.mk SHA512_H0 (960, 0) (List.replicate 128 0x61) 120).buffer.length = 128 ∧
      (SHA512_CTX.mk SHA512_H0 (960, 0) (List.replicate 128 0x61) 120).buffer_len < 128) ∧
    (1 ≤ sha512_pad_len 120 ∧ sha512_pad_len 120 ≤ 128) ∧ 120 + sha512_pad_len 120 + 16 = 256 :=
  ⟨⟨rfl, by decide⟩,
   (sha512_padding_block_boundary (SHA512_CTX.mk SHA512_H0 (960, 0) (List.replicate 128 0x61) 120)
      [] rfl (by decide)).1,
   (sha512_padding_block_boundary (SHA512_CTX.mk SHA512_H0 (960, 0) (List.replicate 128 0x61) 120)
      [] rfl (by decide)).2.2.1 (by decide)⟩

/-! ## Digests of the padding-boundary inputs -/

/-- The comparison `sha256_compare` reads the first 32 bytes of its operands only. -/
theorem sha256_compare_first_bytes (d d' r r' : List Nat) (hd : d.length = 32)
    (hd' : d'.length = 32) :
    sha256_compare (some (d ++ r)) (some (d' ++ r')) = sha256_compare (some d) (some d') := by
  unfold sha256_compare SHA256_DIGEST_SIZE
  simp only
  apply List.foldl_ext
  intro acc i hi
  rw [List.mem_range] at hi
  rw [List.getD_append _ _ _ _ (by omega), List.getD_append _ _ _ _ (by omega)]

set_option maxRecDepth 100000 in
/-- The SHA-256 digests of 55 and of 56 bytes `'A'` differ. -/
theorem sha256_boundary_digests_differ :
    sha256_compare (some (sha256_ref_fast (List.replicate 55 0x41)))
      (some (sha256_ref_fast (List.replicate 56 0x41))) ≠ 0 := by
  decide!

/-- C25: for every prior content of the local context and of the output buffers, one-shot
`sha256` of the 55-byte input and of the 56-byte input made of the byte `'A'` both return
success, and `sha256_compare` on the two digests written is non-zero. -/
theorem sha256_padding_boundary_inputs (stack stack' : SHA256_CTX) (out out' : List Nat)
    (hb : stack.buffer.length = 64) (hb' : stack'.buffer.length = 64) :
    (sha256 stack (some (List.replicate 55 0x41)) 55 (some out)).1 = SHA256_SUCCESS ∧
    (sha256 stack' (some (List.replicate 56 0x41)) 56 (some out')).1 = SHA256_SUCCESS ∧
    sha256_compare (sha256 stack (some (List.replicate 55 0x41)) 55 (some out)).2.2
      (sha256 stack' (some (List.replicate 56 0x41)) 56 (some out')).2.2 ≠ 0 := by
  have h55 := sha256_oneshot stack (List.replicate 55 0x41) out hb
    (by rw [List.length_replicate]; decide)
  have h56 := sha256_oneshot stack' (List.replicate 56 0x41) out' hb'
    (by rw [List.length_replicate]; decide)
  rw [List.length_replicate] at h55 h56
  rw [h55, h56]
  refine ⟨rfl, rfl, ?_⟩
  show sha256_compare (some (sha256_ref (List.replicate 55 0x41) ++ out.drop 32))
    (some (sha256_ref (List.replicate 56 0x41) ++ out'.drop 32)) ≠ 0
  rw [sha256_compare_first_bytes _ _ _ _ (sha256_ref_length _) (sha256_ref_length _),
    sha256_ref_eq_fast, sha256_ref_eq_fast]
  exact sha256_boundary_digests_differ

/-- Witness for C25: both calls on a zeroed local context and 32-byte output buffers. -/
theorem sha256_padding_boundary_inputs_witness :
    (sha256_zero_ctx.buffer.length = 64 ∧ sha256_zero_ctx.buffer.length = 64) ∧
    sha256_compare
      (sha256 sha256_zero_ctx (some (List.replicate 55 0x41)) 55
        (some (List.replicate 32 0))).2.2
      (sha256 sha256_zero_ctx (some (List.replicate 56 0x41)) 56
        (some (List.replicate 32 0))).2.2 ≠ 0 :=
  ⟨⟨rfl, rfl⟩,
   (sha256_padding_boundary_inputs sha256_zero_ctx sha256_zero_ctx (List.replicate 32 0)
      (List.replicate 32 0) rfl rfl).2.2⟩

/-- Final on two contexts that agree on everything but the unused part of the buffer writes
the same digest into any two output buffers. -/
theorem sha256_final_same_digest (c c' : SHA256_CTX) (out out' : List Nat)
    (h : sha256_sim c c') :
    ∃ d, d.length = 32 ∧
      sha256_final (some c) (some out)
        = (SHA256_SUCCESS, some sha256_zero_ctx, some (d ++ out.drop 32)) ∧
      sha256_final (some c') (some out')
        = (SHA256_SUCCESS, some sha256_zero_ctx, some (d ++ out'.drop 32)) := by
  obtain ⟨hs, hc, hl, hp, hb, hb', hlt⟩ := h
  refine ⟨_, sha256_digest_bytes_length _, sha256_final_spec c out hb hlt, ?_⟩
  rw [sha256_final_spec c' out' hb' (hl ▸ hlt), hs, hc, hl, hp]

/-- Init, one Update with `m` and Final, and the one-shot function, on two contexts with
arbitrary prior contents and two output buffers: same codes, same digest. -/
theorem sha256_same_digest (c1 c2 : SHA256_CTX) (m out1 out2 : List Nat)
    (h1 : c1.buffer.length = 64) (h2 : c2.buffer.length = 64) :
    (sha256_init (some c1)).1 = (sha256_init (some c2)).1 ∧
    (sha256_update (sha256_init (some c1)).2 (some m) m.length).1
      = (sha256_update (sha256_init (some c2)).2 (some m) m.length).1 ∧
    (sha256_final (sha256_update (sha256_init (some c1)).2 (some m) m.length).2 (some out1)).1
      = (sha256_final (sha256_update (sha256_init (some c2)).2 (some m) m.length).2
          (some out2)).1 ∧
    (sha256_final (sha256_update (sha256_init (some c1)).2 (some m) m.length).2
        (some out1)).2.2.map (List.take 32)
      = (sha256_final (sha256_update (sha256_init (some c2)).2 (some m) m.length).2
          (some out2)).2.2.map (List.take 32) ∧
    (sha256 c1 (some m) m.length (some out1)).1 = (sha256 c2 (some m) m.length (some out2)).1 ∧
    ((sha256 c1 (some m) m.length (some out1)).1 = SHA256_SUCCESS →
      (sha256 c1 (some m) m.length (some out1)).2.2.map (List.take 32)
        = (sha256 c2 (some m) m.length (some out2)).2.2.map (List.take 32)) := by
  obtain ⟨r, r', e1, e1', s1⟩ := sha256_init_sim c1 c2 h1 h2
  obtain ⟨code, u, u', e2, e2', s2⟩ := sha256_update_sim r r' m s1
  obtain ⟨d, hd, e3, e3'⟩ := sha256_final_same_digest u u' out1 out2 s2
  have htake : ∀ rest : List Nat, List.take 32 (d ++ rest) = d := fun rest =>
    List.take_left' hd
  refine ⟨by rw [e1, e1'], by rw [e1, e1', e2, e2'], by rw [e1, e1', e2, e2', e3, e3'],
    by rw [e1, e1', e2, e2', e3, e3']; simp only [Option.map_some', htake], ?_, ?_⟩
  · unfold sha256
    rw [e1, e1']
    simp only [ne_eq, not_true_eq_false, if_false, e2, e2']
    by_cases hcode : code = SHA256_SUCCESS
    · simp only [hcode, not_true_eq_false, if_false, e3, e3']
    · simp only [hcode, not_false_eq_true, if_true]
  · unfold sha256
    rw [e1, e1']
    simp only [ne_eq, not_true_eq_false, if_false, e2, e2']
    by_cases hcode : code = SHA256_SUCCESS
    · simp only [hcode, not_true_eq_false, if_false, e3, e3', Option.map_some', htake,
        implies_true]
    · simp only [hcode, not_false_eq_true, if_true, false_implies, implies_true]

/-- Final on two contexts that agree on everything but the unused part of the buffer writes
the same digest into any two output buffers. -/
theorem sha512_final_same_digest (c c' : SHA512_CTX) (out out' : List Nat)
    (h : sha512_sim c c') :
    ∃ d, d.length = 64 ∧
      sha512_final (some c) (some out)
        = (SHA512_SUCCESS, some sha512_zero_ctx, some (d ++ out.drop 64)) ∧
      sha512_final (some c') (some out')
        = (SHA512_SUCCESS, some sha512_zero_ctx, some (d ++ out'.drop 64)) := by
  obtain ⟨hs, hc, hl, hp, hb, hb', hlt⟩ := h
  refine ⟨_, sha512_digest_bytes_length _, sha512_final_spec c out hb hlt, ?_⟩
  rw [sha512_final_spec c' out' hb' (hl ▸ hlt), hs, hc, hl, hp]

/-- Init, one Update with `m` and Final, and the one-shot function, on two contexts with
arbitrary prior contents and two output buffers: same codes, same digest. -/
theorem sha512_same_digest (c1 c2 : SHA512_CTX) (m out1 out2 : List Nat)
    (h1 : c1.buffer.length = 128) (h2 : c2.buffer.length = 128) :
    (sha512_init (some c1)).1 = (sha512_init (some c2)).1 ∧
    (sha512_update (sha512_init (some c1)).2 (some m) m.length).1
      = (sha512_update (sha512_init (some c2)).2 (some m) m.length).1 ∧
    (sha512_final (sha512_update (sha512_init (some c1)).2 (some m) m.length).2 (some out1)).1
      = (sha512_final (sha512_update (sha512_init (some c2)).2 (some m) m.length).2
          (some out2)).1 ∧
    (sha512_final (sha512_update (sha512_init (some c1)).2 (some m) m.length).2
        (some out1)).2.2.map (List.take 64)
      = (sha512_final (sha512_update (sha512_init (some c2)).2 (some m) m.length).2
          (some out2)).2.2.map (List.take 64) ∧
    (sha512 c1 (some m) m.length (some out1)).1 = (sha512 c2 (some m) m.length (some out2)).1 ∧
    ((sha512 c1 (some m) m.length (some out1)).1 = SHA512_SUCCESS →
      (sha512 c1 (some m) m.length (some out1)).2.2.map (List.take 64)
        = (sha512 c2 (some m) m.length (some out2)).2.2.map (List.take 64)) := by
  obtain ⟨r, r', e1, e1', s1⟩ := sha512_init_sim c1 c2 h1 h2
  obtain ⟨code, u, u', e2, e2', s2⟩ := sha512_update_sim r r' m s1
  obtain ⟨d, hd, e3, e3'⟩ := sha512_final_same_digest u u' out1 out2 s2
  have htake : ∀ rest : List Nat, List.take 64 (d ++ rest) = d := fun rest =>
    List.take_left' hd
  refine ⟨by rw [e1, e1'], by rw [e1, e1', e2, e2'], by rw [e1, e1', e2, e2', e3, e3'],
    by rw [e1, e1', e2, e2', e3, e3']; simp only [Option.map_some', htake], ?_, ?_⟩
  · unfold sha512
    rw [e1, e1']
    simp only [ne_eq, not_true_eq_false, if_false, e2, e2']
    by_cases hcode : code = SHA512_SUCCESS
    · simp only [hcode, not_true_eq_false, if_false, e3, e3']
    · simp only [hcode, not_false_eq_true, if_true]
  · unfold sha512
    rw [e1, e1']
    simp only [ne_eq, not_true_eq_false, if_false, e2, e2']
    by_cases hcode : code = SHA512_SUCCESS
    · simp only [hcode, not_true_eq_false, if_false, e3, e3', Option.map_some', htake,
        implies_true]
    · simp only [hcode, not_false_eq_true, if_true, false_implies, implies_true]

/-- C26: for any two contexts with arbitrary prior contents (their buffers being the 64-byte
resp. 128-byte arrays), every byte string `m` and any two output buffers, Init then
Update(`m`) then Final returns the same codes and writes the same digest on both; the
one-shot functions `sha256` and `sha512`, whose local context holds whatever the stack held,
return the same code on both and, when that code is success, write the same digest. -/
theorem digest_depends_on_input_only (c1 c2 : SHA256_CTX) (c1' c2' : SHA512_CTX)
    (m out1 out2 : List Nat)
    (h1 : c1.buffer.length = 64) (h2 : c2.buffer.length = 64)
    (h1' : c1'.buffer.length = 128) (h2' : c2'.buffer.length = 128) :
    ((sha256_init (some c1)).1 = (sha256_init (some c2)).1 ∧
     (sha256_update (sha256_init (some c1)).2 (some m) m.length).1
       = (sha256_update (sha256_init (some c2)).2 (some m) m.length).1 ∧
     (sha256_final (sha256_update (sha256_init (some c1)).2 (some m) m.length).2 (some out1)).1
       = (sha256_final (sha256_update (sha256_init (some c2)).2 (some m) m.length).2
           (some out2)).1 ∧
     (sha256_final (sha256_update (sha256_init (some c1)).2 (some m) m.length).2
         (some out1)).2.2.map (List.take 32)
       = (sha256_final (sha256_update (sha256_init (some c2)).2 (some m) m.length).2
           (some out2)).2.2.map (List.take 32) ∧
     (sha256 c1 (some m) m.length (some out1)).1 = (sha256 c2 (some m) m.length (some out2)).1 ∧
     ((sha256 c1 (some m) m.length (some out1)).1 = SHA256_SUCCESS →
       (sha256 c1 (some m) m.length (some out1)).2.2.map (List.take 32)
         = (sha256 c2 (some m) m.length (some out2)).2.2.map (List.take 32))) ∧
    ((sha512_init (some c1')).1 = (sha512_init (some c2')).1 ∧
     (sha512_update (sha512_init (some c1')).2 (some m) m.length).1
       = (sha512_update (sha512_init (some c2')).2 (some m) m.length).1 ∧
     (sha512_final (sha512_update (sha512_init (some c1')).2 (some m) m.length).2
         (some out1)).1
       = (sha512_final (sha512_update (sha512_init (some c2')).2 (some m) m.length).2
           (some out2)).1 ∧
     (sha512_final (sha512_update (sha512_init (some c1')).2 (some m) m.length).2
         (some out1)).2.2.map (List.take 64)
       = (sha512_final (sha512_update (sha512_init (some c2')).2 (some m) m.length).2
           (some out2)).2.2.map (List.take 64) ∧
     (sha512 c1' (some m) m.length (some out1)).1
       = (sha512 c2' (some m) m.length (some out2)).1 ∧
     ((sha512 c1' (some m) m.length (some out1)).1 = SHA512_SUCCESS →
       (sha512 c1' (some m) m.length (some out1)).2.2.map (List.take 64)
         = (sha512 c2' (some m) m.length (some out2)).2.2.map (List.take 64))) :=
  ⟨sha256_same_digest c1 c2 m out1 out2 h1 h2, sha512_same_digest c1' c2' m out1 out2 h1' h2'⟩

set_option maxRecDepth 8000 in
/-- Witness for C26: `abc` hashed on a context left zeroed by an earlier Final and on a
context whose fields hold other values. -/
theorem digest_depends_on_input_only_witness :
    (sha256_zero_ctx.buffer.length = 64 ∧
      (SHA256_CTX.mk [] 7 (List.replicate 64 0xAB) 9).buffer.length = 64 ∧
      sha512_zero_ctx.buffer.length = 128 ∧
      (SHA512_CTX.mk [] (7, 7) (List.replicate 128 0xAB) 9).buffer.length = 128) ∧
    (sha256_final (sha256_update (sha256_init (some sha256_zero_ctx)).2
        (some [0x61, 0x62, 0x63]) [0x61, 0x62, 0x63].length).2
        (some [])).2.2.map (List.take 32)
      = (sha256_final (sha256_update
          (sha256_init (some (SHA256_CTX.mk [] 7 (List.replicate 64 0xAB) 9))).2
          (some [0x61, 0x62, 0x63]) [0x61, 0x62, 0x63].length).2
          (some (List.replicate 32 0xFF))).2.2.map (List.take 32) :=
  ⟨⟨by decide, by decide, by decide, by decide⟩,
   (digest_depends_on_input_only sha256_zero_ctx (SHA256_CTX.mk [] 7 (List.replicate 64 0xAB) 9)
    sha512_zero_ctx (SHA512_CTX.mk [] (7, 7) (List.replicate 128 0xAB) 9)
    [0x61, 0x62, 0x63] [] (List.replicate 32 0xFF)
    (by decide) (by decide) (by decide) (by decide)).1.2.2.2.1⟩

/-! ## SHA-256: the buffer never stays full -/

theorem sha256_update_loop_buffer_len (c : SHA256_CTX) (input : List Nat) (n : Nat) :
    (sha256_update_loop n c input n).1.buffer_len = c.buffer_len ∧
    (sha256_update_loop n c input n).2.2 = n % 64 := by
  rw [sha256_update_loop_eq n c input n (Nat.div_le_self n 64)]
  exact ⟨rfl, rfl⟩

theorem sha256_update_store_buffer_len (c : SHA256_CTX) (input : List Nat) (r : Nat) :
    (sha256_update_store c input r).buffer_len = c.buffer_len + r := by
  unfold sha256_update_store
  by_cases h : r > 0
  · rw [if_pos h]
  · rw [if_neg h]
    have : r = 0 := by omega
    rw [this, Nat.add_zero]

/-- The copy at the head of `sha256_update`: when it brings `buffer_len` to the block size the
block is compressed and `buffer_len` is reset to 0, so `buffer_len` stays below the block
size. -/
theorem sha256_update_fill_full (c : SHA256_CTX) (input : List Nat) (remaining : Nat)
    (hl : c.buffer_len < 64) :
    (sha256_update_fill c input remaining).1.buffer_len < 64 ∧
    (sha256_update_fill c input remaining).1.buffer_len
      + (sha256_update_fill c input remaining).2.2 % 64 = (c.buffer_len + remaining) % 64 ∧
    ((sha256_update_fill c input remaining).1.buffer_len ≠ 0 →
      (sha256_update_fill c input remaining).2.2 = 0) ∧
    (0 < c.buffer_len → 64 - c.buffer_len ≤ remaining →
      (sha256_update_fill c input remaining).1 =
        { c with state := sha256_compress c.state
                    (memcpy c.buffer c.buffer_len input (64 - c.buffer_len)),
                 buffer := memcpy c.buffer c.buffer_len input (64 - c.buffer_len),
                 buffer_len := 0 }) := by
  unfold sha256_update_fill
  by_cases h0 : c.buffer_len > 0
  · rw [if_pos h0]
    by_cases hlt : remaining < 64 - c.buffer_len
    · have hne : c.buffer_len + remaining ≠ 64 := by omega
      simp only [SHA256_BLOCK_SIZE, hlt, if_true, hne, if_false, Nat.sub_self]
      refine ⟨by omega, by omega, fun _ => trivial, fun _ h => absurd hlt (by omega)⟩
    · have he : c.buffer_len + (64 - c.buffer_len) = 64 := by omega
      simp only [SHA256_BLOCK_SIZE, hlt, if_false, he, if_true]
      rw [sha256_transform_eq]
      refine ⟨?_, ?_, fun h => absurd rfl h, fun _ _ => ?_⟩
      · show (0 : Nat) < 64
        decide
      · show 0 + (remaining - (64 - c.buffer_len)) % 64 = (c.buffer_len + remaining) % 64
        omega
      · simp only
  · rw [if_neg h0]
    have hz : c.buffer_len = 0 := by omega
    refine ⟨hl, ?_, fun h => absurd hz h, fun h => absurd h h0⟩
    show c.buffer_len + remaining % 64 = (c.buffer_len + remaining) % 64
    omega

/-- After the data part of `sha256_update`, for any input pointer and length, `buffer_len` is
the old one plus the length, modulo the block size. -/
theorem sha256_update_data_buffer_len (c : SHA256_CTX) (input : List Nat) (len : Nat)
    (hl : c.buffer_len < 64) :
    (sha256_update_data c input len).buffer_len = (c.buffer_len + len) % 64 := by
  obtain ⟨h1, h2, h3, _⟩ := sha256_update_fill_full c input len hl
  unfold sha256_update_data
  simp only
  rw [sha256_update_store_buffer_len,
    (sha256_update_loop_buffer_len _ _ _).1, (sha256_update_loop_buffer_len _ _ _).2]
  exact h2

/-- The call `sha256_update` with any data and length, successful or not, keeps `buffer_len`
below the block size. -/
theorem sha256_update_buffer_len (c : SHA256_CTX) (data : Option (List Nat)) (len : Nat)
    (hl : c.buffer_len < 64) :
    ∃ c', (sha256_update (some c) data len).2 = some c' ∧ c'.buffer_len < 64 := by
  unfold sha256_update
  simp only
  by_cases h0 : len = 0
  · rw [if_pos h0]
    exact ⟨_, rfl, hl⟩
  · rw [if_neg h0]
    cases data with
    | none => exact ⟨_, rfl, hl⟩
    | some input =>
      simp only
      split_ifs
      all_goals first
        | exact ⟨_, rfl, hl⟩
        | (refine ⟨_, rfl, ?_⟩
           rw [sha256_update_data_buffer_len]
           · exact Nat.mod_lt _ (by decide)
           · exact hl)

/-- After `sha256_init` and any sequence of `sha256_update` calls on the context, `buffer_len`
is below the block size. -/
theorem sha256_calls_buffer_len (calls : List (Option (List Nat) × Nat)) :
    ∀ c : SHA256_CTX, c.buffer_len < 64 →
      ∃ c', calls.foldl (fun ctx call => (sha256_update ctx call.1 call.2).2) (some c) = some c' ∧
        c'.buffer_len < 64 := by
  induction calls with
  | nil => exact fun c hl => ⟨c, rfl, hl⟩
  | cons call rest ih =>
    intro c hl
    obtain ⟨c1, e1, h1⟩ := sha256_update_buffer_len c call.1 call.2 hl
    rw [List.foldl_cons, e1]
    exact ih c1 h1

/-- One iteration of the padding loop of `sha256_final` when the padding left does not fill
the buffer: the rest of the padding is copied and `buffer_len` stays below the block size. -/
theorem sha256_final_loop_partial (fuel : Nat) (c : SHA256_CTX) (padding : List Nat)
    (total i : Nat) (hi : i < total) (hsp : total - i < 64 - c.buffer_len) :
    sha256_final_loop (fuel + 1) c padding total i =
      sha256_final_loop fuel
        { c with buffer := memcpy c.buffer c.buffer_len (padding.drop i) (total - i),
                 buffer_len := c.buffer_len + (total - i) }
        padding total (i + (total - i)) := by
  have hne : c.buffer_len + (total - i) ≠ 64 := by omega
  rw [sha256_final_loop, if_pos hi]
  simp only [SHA256_BLOCK_SIZE, hsp, if_true, hne, if_false]

/-! ## SHA-512: the buffer never stays full -/

theorem sha512_update_loop_buffer_len (c : SHA512_CTX) (input : List Nat) (n : Nat) :
    (sha512_update_loop n c input n).1.buffer_len = c.buffer_len ∧
    (sha512_update_loop n c input n).2.2 = n % 128 := by
  rw [sha512_update_loop_eq n c input n (Nat.div_le_self n 128)]
  exact ⟨rfl, rfl⟩

theorem sha512_update_store_buffer_len (c : SHA512_CTX) (input : List Nat) (r : Nat) :
    (sha512_update_store c input r).buffer_len = c.buffer_len + r := by
  unfold sha512_update_store
  by_cases h : r > 0
  · rw [if_pos h]
  · rw [if_neg h]
    have : r = 0 := by omega
    rw [this, Nat.add_zero]

/-- The copy at the head of `sha512_update`: when it brings `buffer_len` to the block size the
block is compressed and `buffer_len` is reset to 0, so `buffer_len` stays below the block
size. -/
theorem sha512_update_fill_full (c : SHA512_CTX) (input : List Nat) (remaining : Nat)
    (hl : c.buffer_len < 128) :
    (sha512_update_fill c input remaining).1.buffer_len < 128 ∧
    (sha512_update_fill c input remaining).1.buffer_len
      + (sha512_update_fill c input remaining).2.2 % 128 = (c.buffer_len + remaining) % 128 ∧
    ((sha512_update_fill c input remaining).1.buffer_len ≠ 0 →
      (sha512_update_fill c input remaining).2.2 = 0) ∧
    (0 < c.buffer_len → 128 - c.buffer_len ≤ remaining →
      (sha512_update_fill c input remaining).1 =
        { c with state := sha512_compress c.state
                    (memcpy c.buffer c.buffer_len input (128 - c.buffer_len)),
                 buffer := memcpy c.buffer c.buffer_len input (128 - c.buffer_len),
                 buffer_len := 0 }) := by
  unfold sha512_update_fill
  by_cases h0 : c.buffer_len > 0
  · rw [if_pos h0]
    by_cases hlt : remaining < 128 - c.buffer_len
    · have hne : c.buffer_len + remaining ≠ 128 := by omega
      simp only [SHA512_BLOCK_SIZE, hlt, if_true, hne, if_false, Nat.sub_self]
      refine ⟨by omega, by omega, fun _ => trivial, fun _ h => absurd hlt (by omega)⟩
    · have he : c.buffer_len + (128 - c.buffer_len) = 128 := by omega
      simp only [SHA512_BLOCK_SIZE, hlt, if_false, he, if_true]
      rw [sha512_transform_eq]
      refine ⟨?_, ?_, fun h => absurd rfl h, fun _ _ => ?_⟩
      · show (0 : Nat) < 128
        decide
      · show 0 + (remaining - (128 - c.buffer_len)) % 128 = (c.buffer_len + remaining) % 128
        omega
      · simp only
  · rw [if_neg h0]
    have hz : c.buffer_len = 0 := by omega
    refine ⟨hl, ?_, fun h => absurd hz h, fun h => absurd h h0⟩
    show c.buffer_len + remaining % 128 = (c.buffer_len + remaining) % 128
    omega

/-- After the data part of `sha512_update`, for any input pointer and length, `buffer_len` is
the old one plus the length, modulo the block size. -/
theorem sha512_update_data_buffer_len (c : SHA512_CTX) (input : List Nat) (len : Nat)
    (hl : c.buffer_len < 128) :
    (sha512_update_data c input len).buffer_len = (c.buffer_len + len) % 128 := by
  obtain ⟨h1, h2, h3, _⟩ := sha512_update_fill_full c input len hl
  unfold sha512_update_data
  simp only
  rw [sha512_update_store_buffer_len,
    (sha512_update_loop_buffer_len _ _ _).1, (sha512_update_loop_buffer_len _ _ _).2]
  exact h2

/-- The call `sha512_update` with any data and length, successful or not, keeps `buffer_len`
below the block size. -/
theorem sha512_update_buffer_len (c : SHA512_CTX) (data : Option (List Nat)) (len : Nat)
    (hl : c.buffer_len < 128) :
    ∃ c', (sha512_update (some c) data len).2 = some c' ∧ c'.buffer_len < 128 := by
  unfold sha512_update
  simp only
  by_cases h0 : len = 0
  · rw [if_pos h0]
    exact ⟨_, rfl, hl⟩
  · rw [if_neg h0]
    cases data with
    | none => exact ⟨_, rfl, hl⟩
    | some input =>
      simp only
      split_ifs
      all_goals first
        | exact ⟨_, rfl, hl⟩
        | (refine ⟨_, rfl, ?_⟩
           rw [sha512_update_data_buffer_len]
           · exact Nat.mod_lt _ (by decide)
           · exact hl)

/-- After `sha512_init` and any sequence of `sha512_update` calls on the context, `buffer_len`
is below the block size. -/
theorem sha512_calls_buffer_len (calls : List (Option (List Nat) × Nat)) :
    ∀ c : SHA512_CTX, c.buffer_len < 128 →
      ∃ c', calls.foldl (fun ctx call => (sha512_update ctx call.1 call.2).2) (some c) = some c' ∧
        c'.buffer_len < 128 := by
  induction calls with
  | nil => exact fun c hl => ⟨c, rfl, hl⟩
  | cons call rest ih =>
    intro c hl
    obtain ⟨c1, e1, h1⟩ := sha512_update_buffer_len c call.1 call.2 hl
    rw [List.foldl_cons, e1]
    exact ih c1 h1

/-- One iteration of the padding loop of `sha512_final` when the padding left does not fill
the buffer: the rest of the padding is copied and `buffer_len` stays below the block size. -/
theorem sha512_final_loop_partial (fuel : Nat) (c : SHA512_CTX) (padding : List Nat)
    (total i : Nat) (hi : i < total) (hsp : total - i < 128 - c.buffer_len) :
    sha512_final_loop (fuel + 1) c padding total i =
      sha512_final_loop fuel
        { c with buffer := memcpy c.buffer c.buffer_len (padding.drop i) (total - i),
                 buffer_len := c.buffer_len + (total - i) }
        padding total (i + (total - i)) := by
  have hne : c.buffer_len + (total - i) ≠ 128 := by omega
  rw [sha512_final_loop, if_pos hi]
  simp only [SHA512_BLOCK_SIZE, hsp, if_true, hne, if_false]

/-- C27: for each family, after Init and after every call of any sequence of Update calls on
the context (any data, present or absent, any length, successful or failing), `buffer_len` is
below the block size. The copy at the head of Update leaves `buffer_len` below the block size,
and when it brings it to the block size the block is compressed and `buffer_len` is reset to
0 before Update goes on; the same holds for each copy of the padding loop of Final. -/
theorem buffer_never_stays_full (c : SHA256_CTX) (c' : SHA512_CTX)
    (calls : List (Option (List Nat) × Nat)) :
    ((∃ r, calls.foldl (fun ctx call => (sha256_update ctx call.1 call.2).2)
          (sha256_init (some c)).2 = some r ∧ r.buffer_len < 64) ∧
     (∃ r, calls.foldl (fun ctx call => (sha512_update ctx call.1 call.2).2)
          (sha512_init (some c')).2 = some r ∧ r.buffer_len < 128)) ∧
    ((∀ (x : SHA256_CTX) (input : List Nat) (remaining : Nat), x.buffer_len < 64 →
        (sha256_update_fill x input remaining).1.buffer_len < 64 ∧
        (0 < x.buffer_len → 64 - x.buffer_len ≤ remaining →
          (sha256_update_fill x input remaining).1 =
            { x with state := sha256_compress x.state
                        (memcpy x.buffer x.buffer_len input (64 - x.buffer_len)),
                     buffer := memcpy x.buffer x.buffer_len input (64 - x.buffer_len),
                     buffer_len := 0 })) ∧
     (∀ (x : SHA512_CTX) (input : List Nat) (remaining : Nat), x.buffer_len < 128 →
        (sha512_update_fill x input remaining).1.buffer_len < 128 ∧
        (0 < x.buffer_len → 128 - x.buffer_len ≤ remaining →
          (sha512_update_fill x input remaining).1 =
            { x with state := sha512_compress x.state
                        (memcpy x.buffer x.buffer_len input (128 - x.buffer_len)),
                     buffer := memcpy x.buffer x.buffer_len input (128 - x.buffer_len),
                     buffer_len := 0 }))) ∧
    ((∀ (x : SHA256_CTX) (fuel : Nat) (padding : List Nat) (total i : Nat),
        x.buffer_len < 64 → i < total →
        (64 - x.buffer_len ≤ total - i →
          sha256_final_loop (fuel + 1) x padding total i =
            sha256_final_loop fuel
              { x with state := sha256_compress x.state
                          (memcpy x.buffer x.buffer_len (padding.drop i) (64 - x.buffer_len)),
                       buffer := memcpy x.buffer x.buffer_len (padding.drop i)
                          (64 - x.buffer_len),
                       buffer_len := 0 }
              padding total (i + (64 - x.buffer_len))) ∧
        (total - i < 64 - x.buffer_len →
          x.buffer_len + (total - i) < 64 ∧
          sha256_final_loop (fuel + 1) x padding total i =
            sha256_final_loop fuel
              { x with buffer := memcpy x.buffer x.buffer_len (padding.drop i) (total - i),
                       buffer_len := x.buffer_len + (total - i) }
              padding total (i + (total - i)))) ∧
     (∀ (x : SHA512_CTX) (fuel : Nat) (padding : List Nat) (total i : Nat),
        x.buffer_len < 128 → i < total →
        (128 - x.buffer_len ≤ total - i →
          sha512_final_loop (fuel + 1) x padding total i =
            sha512_final_loop fuel
              { x with state := sha512_compress x.state
                          (memcpy x.buffer x.buffer_len (padding.drop i) (128 - x.buffer_len)),
                       buffer := memcpy x.buffer x.buffer_len (padding.drop i)
                          (128 - x.buffer_len),
                       buffer_len := 0 }
              padding total (i + (128 - x.buffer_len))) ∧
        (total - i < 128 - x.buffer_len →
          x.buffer_len + (total - i) < 128 ∧
          sha512_final_loop (fuel + 1) x padding total i =
            sha512_final_loop fuel
              { x with buffer := memcpy x.buffer x.buffer_len (padding.drop i) (total - i),
                       buffer_len := x.buffer_len + (total - i) }
              padding total (i + (total - i))))) := by
  refine ⟨⟨?_, ?_⟩, ⟨fun x input remaining hl => ?_, fun x input remaining hl => ?_⟩,
    fun x fuel padding total i hl hi => ⟨fun h => ?_, fun h => ⟨by omega, ?_⟩⟩,
    fun x fuel padding total i hl hi => ⟨fun h => ?_, fun h => ⟨by omega, ?_⟩⟩⟩
  · exact sha256_calls_buffer_len calls _ (Nat.zero_lt_succ _)
  · exact sha512_calls_buffer_len calls _ (Nat.zero_lt_succ _)
  · exact ⟨(sha256_update_fill_full x input remaining hl).1,
      (sha256_update_fill_full x input remaining hl).2.2.2⟩
  · exact ⟨(sha512_update_fill_full x input remaining hl).1,
      (sha512_update_fill_full x input remaining hl).2.2.2⟩
  · exact sha256_final_loop_fill fuel x padding total i hl hi h
  · exact sha256_final_loop_partial fuel x padding total i hi h
  · exact sha512_final_loop_fill fuel x padding total i hl hi h
  · exact sha512_final_loop_partial fuel x padding total i hi h

set_option maxRecDepth 8000 in
/-- Witness for C27: a context holding 3 pending bytes receives 61 more, which fill the
buffer. -/
theorem buffer_never_stays_full_witness :
    ((SHA256_CTX.mk SHA256_H0 3 (List.replicate 64 0x61) 3).buffer_len < 64 ∧
      0 < (SHA256_CTX.mk SHA256_H0 3 (List.replicate 64 0x61) 3).buffer_len ∧
      64 - (SHA256_CTX.mk SHA256_H0 3 (List.replicate 64 0x61) 3).buffer_len ≤ 61) ∧
    (sha256_update_fill (SHA256_CTX.mk SHA256_H0 3 (List.replicate 64 0x61) 3)
        (List.replicate 61 0x62) 61).1.buffer_len = 0 :=
  ⟨⟨by decide, by decide, by decide⟩,
   congrArg SHA256_CTX.buffer_len
     (((buffer_never_stays_full sha256_zero_ctx sha512_zero_ctx []).2.1.1
        (SHA256_CTX.mk SHA256_H0 3 (List.replicate 64 0x61) 3) (List.replicate 61 0x62) 61
        (by decide)).2 (by decide) (by decide))⟩

/-! ## The avalanche witness of the test -/

set_option maxRecDepth 100000 in
/-- The SHA-256 digests of the 1024 bytes `0, 1, ..., 255, 0, 1, ...` and of the same bytes
with byte 500 changed from `0xF4` to `0xF5` differ. -/
theorem sha256_avalanche_digests_differ :
    sha256_compare (some (sha256_ref_fast ((List.range 1024).map (fun i => i % 256))))
      (some (sha256_ref_fast (((List.range 1024).map (fun i => i % 256)).set 500 0xF5))) ≠ 0 := by
  decide!

set_option maxRecDepth 100000 in
/-- C28: for the 1024-byte input whose byte `i` is `i mod 256` and the input that differs from
it only in byte 500, incremented from `0xF4` to `0xF5` (one bit), and for every prior content
of the local context and of the output buffers, both one-shot `sha256` calls return success
and `sha256_compare` on the two digests written is non-zero. -/
theorem sha256_avalanche (stack stack' : SHA256_CTX) (out out' : List Nat)
    (hb : stack.buffer.length = 64) (hb' : stack'.buffer.length = 64) :
    ((List.range 1024).map (fun i => i % 256)).getD 500 0 = 0xF4 ∧
    (((List.range 1024).map (fun i => i % 256)).getD 500 0 + 1) % 256 = 0xF5 ∧
    0xF4 ^^^ 0xF5 = 1 ∧
    (sha256 stack (some ((List.range 1024).map (fun i => i % 256))) 1024 (some out)).1
      = SHA256_SUCCESS ∧
    (sha256 stack' (some (((List.range 1024).map (fun i => i % 256)).set 500 0xF5)) 1024
        (some out')).1 = SHA256_SUCCESS ∧
    sha256_compare
      (sha256 stack (some ((List.range 1024).map (fun i => i % 256))) 1024 (some out)).2.2
      (sha256 stack' (some (((List.range 1024).map (fun i => i % 256)).set 500 0xF5)) 1024
        (some out')).2.2 ≠ 0 := by
  have hl1 : ((List.range 1024).map (fun i => i % 256)).length = 1024 := by
    rw [List.length_map, List.length_range]
  have hl2 : (((List.range 1024).map (fun i => i % 256)).set 500 0xF5).length = 1024 := by
    rw [List.length_set, hl1]
  have h1 := sha256_oneshot stack _ out hb (by rw [hl1]; decide)
  have h2 := sha256_oneshot stack' _ out' hb' (by rw [hl2]; decide)
  rw [hl1] at h1
  rw [hl2] at h2
  rw [h1, h2]
  refine ⟨by decide!, by decide!, by decide, rfl, rfl, ?_⟩
  show sha256_compare (some (sha256_ref _ ++ out.drop 32))
    (some (sha256_ref _ ++ out'.drop 32)) ≠ 0
  rw [sha256_compare_first_bytes _ _ _ _ (sha256_ref_length _) (sha256_ref_length _),
    sha256_ref_eq_fast, sha256_ref_eq_fast]
  exact sha256_avalanche_digests_differ

/-- Witness for C28: both calls on a zeroed local context and 32-byte output buffers. -/
theorem sha256_avalanche_witness :
    (sha256_zero_ctx.buffer.length = 64 ∧ sha256_zero_ctx.buffer.length = 64) ∧
    sha256_compare
      (sha256 sha256_zero_ctx (some ((List.range 1024).map (fun i => i % 256))) 1024
        (some (List.replicate 32 0))).2.2
      (sha256 sha256_zero_ctx (some (((List.range 1024).map (fun i => i % 256)).set 500 0xF5))
        1024 (some (List.replicate 32 0))).2.2 ≠ 0 :=
  ⟨⟨rfl, rfl⟩,
   (sha256_avalanche sha256_zero_ctx sha256_zero_ctx (List.replicate 32 0)
      (List.replicate 32 0) rfl rfl).2.2.2.2.2⟩

/-! ## The initial hash values -/

/-- C29: for the primes `p = 2, 3, 5, 7, 11, 13, 17, 19` in order, the state words set by
`sha256_init` are `floor(sqrt(p * 2^64)) mod 2^32`, the first 32 bits of the fractional part of
`sqrt p`, and the state words set by `sha512_init` are `floor(sqrt(p * 2^128)) mod 2^64`, the
first 64 bits of that fractional part. -/
theorem init_words_are_sqrt_constants (c : SHA256_CTX) (c' : SHA512_CTX) :
    (sha256_init (some c)).2.map SHA256_CTX.state
      = some ([2, 3, 5, 7, 11, 13, 17, 19].map (fun p => Nat.sqrt (p * 2 ^ 64) % 2 ^ 32)) ∧
    (sha512_init (some c')).2.map SHA512_CTX.state
      = some ([2, 3, 5, 7, 11, 13, 17, 19].map (fun p => Nat.sqrt (p * 2 ^ 128) % 2 ^ 64)) := by
  have a0 : Nat.sqrt (2 * 2 ^ 64) = 6074000999 :=
    (Nat.eq_sqrt.mpr ⟨by norm_num, by norm_num⟩).symm
  have a1 : Nat.sqrt (3 * 2 ^ 64) = 7439101573 :=
    (Nat.eq_sqrt.mpr ⟨by norm_num, by norm_num⟩).symm
  have a2 : Nat.sqrt (5 * 2 ^ 64) = 9603838834 :=
    (Nat.eq_sqrt.mpr ⟨by norm_num, by norm_num⟩).symm
  have a3 : Nat.sqrt (7 * 2 ^ 64) = 11363415354 :=
    (Nat.eq_sqrt.mpr ⟨by norm_num, by norm_num⟩).symm
  have a4 : Nat.sqrt (11 * 2 ^ 64) = 14244795007 :=
    (Nat.eq_sqrt.mpr ⟨by norm_num, by norm_num⟩).symm
  have a5 : Nat.sqrt (13 * 2 ^ 64) = 15485724812 :=
    (Nat.eq_sqrt.mpr ⟨by norm_num, by norm_num⟩).symm
  have a6 : Nat.sqrt (17 * 2 ^ 64) = 17708603819 :=
    (Nat.eq_sqrt.mpr ⟨by norm_num, by norm_num⟩).symm
  have a7 : Nat.sqrt (19 * 2 ^ 64) = 18721328409 :=
    (Nat.eq_sqrt.mpr ⟨by norm_num, by norm_num⟩).symm
  have b0 : Nat.sqrt (2 * 2 ^ 128) = 26087635650665564424 :=
    (Nat.eq_sqrt.mpr ⟨by norm_num, by norm_num⟩).symm
  have b1 : Nat.sqrt (3 * 2 ^ 128) = 31950697969885030203 :=
    (Nat.eq_sqrt.mpr ⟨by norm_num, by norm_num⟩).symm
  have b2 : Nat.sqrt (5 * 2 ^ 128) = 41248173712355948587 :=
    (Nat.eq_sqrt.mpr ⟨by norm_num, by norm_num⟩).symm
  have b3 : Nat.sqrt (7 * 2 ^ 128) = 48805497317890012913 :=
    (Nat.eq_sqrt.mpr ⟨by norm_num, by norm_num⟩).symm
  have b4 : Nat.sqrt (11 * 2 ^ 128) = 61180928696206656209 :=
    (Nat.eq_sqrt.mpr ⟨by norm_num, by norm_num⟩).symm
  have b5 : Nat.sqrt (13 * 2 ^ 128) = 66510681623121259551 :=
    (Nat.eq_sqrt.mpr ⟨by norm_num, by norm_num⟩).symm
  have b6 : Nat.sqrt (17 * 2 ^ 128) = 76057874264641092971 :=
    (Nat.eq_sqrt.mpr ⟨by norm_num, by norm_num⟩).symm
  have b7 : Nat.sqrt (19 * 2 ^ 128) = 80407493254657745273 :=
    (Nat.eq_sqrt.mpr ⟨by norm_num, by norm_num⟩).symm
  refine ⟨?_, ?_⟩
  · show some SHA256_H0 = _
    simp only [List.map_cons, List.map_nil, a0, a1, a2, a3, a4, a5, a6, a7]
    rfl
  · show some SHA512_H0 = _
    simp only [List.map_cons, List.map_nil, b0, b1, b2, b3, b4, b5, b6, b7]
    rfl

/-! ## SHA-256 in continuation-passing style computes `sha256_compress` -/

theorem strict_eq {β : Type} (x : Nat) (k : Nat → β) : strict x k = k x := by
  cases x <;> rfl

theorem xor_mod_two_pow (a b n : Nat) : (a ^^^ b) % 2 ^ n = (a % 2 ^ n) ^^^ (b % 2 ^ n) := by
  apply Nat.eq_of_testBit_eq
  intro i
  simp only [Nat.testBit_mod_two_pow, Nat.testBit_xor]
  cases decide (i < n) <;> simp

/-- A rotation of the 32-bit word `x` is a window of the 64-bit word `x * (2^32 + 1)`. -/
theorem sha256_rotr_mul (x n : Nat) (hx : x < 2 ^ 32) (hn : n ≤ 32) :
    SHA256_ROTR x n = (x * 4294967297) >>> n % 2 ^ 32 := by
  obtain ⟨k, hk⟩ : ∃ k, 32 = n + k := ⟨32 - n, by omega⟩
  have h32 : 2 ^ 32 = 2 ^ n * 2 ^ k := by rw [← pow_add, ← hk]
  have hsub : 32 - n = k := by omega
  have hpos : 0 < 2 ^ n := Nat.two_pow_pos n
  have hlo : x / 2 ^ n < 2 ^ k := Nat.div_lt_of_lt_mul (by rw [← h32]; exact hx)
  have hhi : x * 2 ^ k % 2 ^ 32 = 2 ^ k * (x % 2 ^ n) := by
    rw [h32, Nat.mul_comm x, Nat.mul_comm (2 ^ n)]
    exact Nat.mul_mod_mul_left _ _ _
  have hx2 : x * 4294967297 = 2 ^ n * (x * 2 ^ k) + x := by
    have : (4294967297 : Nat) = 2 ^ 32 + 1 := by norm_num
    rw [this, h32]
    ring
  have hR : x * 4294967297 / 2 ^ n = x * 2 ^ k + x / 2 ^ n := by
    rw [hx2, Nat.mul_add_div hpos]
  have hsplit : x * 2 ^ k = 2 ^ 32 * (x / 2 ^ n) + 2 ^ k * (x % 2 ^ n) := by
    conv_lhs => rw [← Nat.div_add_mod x (2 ^ n)]
    rw [h32]
    ring
  have hlt : 2 ^ k * (x % 2 ^ n) + x / 2 ^ n < 2 ^ 32 := by
    have h1 : x % 2 ^ n + 1 ≤ 2 ^ n := Nat.mod_lt _ hpos
    calc 2 ^ k * (x % 2 ^ n) + x / 2 ^ n < 2 ^ k * (x % 2 ^ n) + 2 ^ k := by omega
      _ = 2 ^ k * (x % 2 ^ n + 1) := by ring
      _ ≤ 2 ^ k * 2 ^ n := Nat.mul_le_mul_left _ h1
      _ = 2 ^ 32 := by rw [h32, Nat.mul_comm]
  unfold SHA256_ROTR
  rw [hsub, Nat.shiftRight_eq_div_pow, Nat.shiftRight_eq_div_pow, Nat.shiftLeft_eq, hhi, hR,
    Nat.lor_comm, ← Nat.mul_add_lt_is_or hlo, hsplit, Nat.add_assoc, Nat.mul_add_mod,
    Nat.mod_eq_of_lt hlt]

theorem sha256_ep0_mul (a : Nat) (ha : a < 2 ^ 32) :
    ((a * 4294967297) >>> 2 ^^^ (a * 4294967297) >>> 13 ^^^ (a * 4294967297) >>> 22) % 2 ^ 32
      = SHA256_EP0 a := by
  unfold SHA256_EP0
  rw [xor_mod_two_pow, xor_mod_two_pow, sha256_rotr_mul a 2 ha (by decide),
    sha256_rotr_mul a 13 ha (by decide), sha256_rotr_mul a 22 ha (by decide)]

theorem sha256_ep1_mul (e : Nat) (he : e < 2 ^ 32) :
    ((e * 4294967297) >>> 6 ^^^ (e * 4294967297) >>> 11 ^^^ (e * 4294967297) >>> 25) % 2 ^ 32
      = SHA256_EP1 e := by
  unfold SHA256_EP1
  rw [xor_mod_two_pow, xor_mod_two_pow, sha256_rotr_mul e 6 he (by decide),
    sha256_rotr_mul e 11 he (by decide), sha256_rotr_mul e 25 he (by decide)]

theorem sha256_ch_alt (e f g : Nat) (he : e < 2 ^ 32) (hg : g < 2 ^ 32) :
    g ^^^ (e &&& (f ^^^ g)) = SHA256_CH e f g := by
  unfold SHA256_CH
  apply Nat.eq_of_testBit_eq
  intro i
  have hm : (0xFFFFFFFF : Nat) = 2 ^ 32 - 1 := by norm_num
  rw [hm]
  simp only [Nat.testBit_xor, Nat.testBit_and, Nat.testBit_two_pow_sub_one]
  by_cases hi : i < 32
  · simp only [hi, decide_True]
    cases e.testBit i <;> cases f.testBit i <;> cases g.testBit i <;> rfl
  · have h2 : (2 : Nat) ^ 32 ≤ 2 ^ i := Nat.pow_le_pow_right (by decide) (by omega)
    rw [Nat.testBit_lt_two_pow (Nat.lt_of_lt_of_le he h2),
      Nat.testBit_lt_two_pow (Nat.lt_of_lt_of_le hg h2)]
    simp only [hi, decide_False]
    cases f.testBit i <;> rfl

theorem sha256_maj_alt (a b c : Nat) :
    (a &&& b) ||| (c &&& (a ||| b)) = SHA256_MAJ a b c := by
  unfold SHA256_MAJ
  apply Nat.eq_of_testBit_eq
  intro i
  simp only [Nat.testBit_xor, Nat.testBit_and, Nat.testBit_or]
  cases a.testBit i <;> cases b.testBit i <;> cases c.testBit i <;> rfl

/-- One round in continuation-passing style hands to `k` the working variables that
`sha256_round` returns, on 32-bit working variables. -/
theorem sha256_round_cps_eq {β : Type} (m : List Nat) (i : Nat)
    (k : Nat → Nat → Nat → Nat → Nat → Nat → Nat → Nat → β) (a b c d e f g h : Nat)
    (ha : a < 2 ^ 32) (he : e < 2 ^ 32) (hg : g < 2 ^ 32) :
    sha256_round_cps (SHA256_K.getD i 0 + m.getD i 0) k a b c d e f g h
      = k (sha256_round m (a, b, c, d, e, f, g, h) i).1
          (sha256_round m (a, b, c, d, e, f, g, h) i).2.1
          (sha256_round m (a, b, c, d, e, f, g, h) i).2.2.1
          (sha256_round m (a, b, c, d, e, f, g, h) i).2.2.2.1
          (sha256_round m (a, b, c, d, e, f, g, h) i).2.2.2.2.1
          (sha256_round m (a, b, c, d, e, f, g, h) i).2.2.2.2.2.1
          (sha256_round m (a, b, c, d, e, f, g, h) i).2.2.2.2.2.2.1
          (sha256_round m (a, b, c, d, e, f, g, h) i).2.2.2.2.2.2.2 := by
  have h0 := sha256_ep0_mul a ha
  have h1 := sha256_ep1_mul e he
  have hc := sha256_ch_alt e f g he hg
  have hm := sha256_maj_alt a b c
  have e1 : (h + ((e * 4294967297) >>> 6 ^^^ (e * 4294967297) >>> 11
        ^^^ (e * 4294967297) >>> 25) + (g ^^^ (e &&& (f ^^^ g)))
        + (SHA256_K.getD i 0 + m.getD i 0)
      + (((a * 4294967297) >>> 2 ^^^ (a * 4294967297) >>> 13 ^^^ (a * 4294967297) >>> 22)
        + ((a &&& b) ||| (c &&& (a ||| b))))) % 4294967296
      = ((h + SHA256_EP1 e + SHA256_CH e f g + SHA256_K.getD i 0 + m.getD i 0) % 2 ^ 32
        + (SHA256_EP0 a + SHA256_MAJ a b c) % 2 ^ 32) % 2 ^ 32 := by
    rw [hc, hm, ← h0, ← h1]
    omega
  have e2 : (d + (h + ((e * 4294967297) >>> 6 ^^^ (e * 4294967297) >>> 11
        ^^^ (e * 4294967297) >>> 25) + (g ^^^ (e &&& (f ^^^ g)))
        + (SHA256_K.getD i 0 + m.getD i 0))) % 4294967296
      = (d + (h + SHA256_EP1 e + SHA256_CH e f g + SHA256_K.getD i 0 + m.getD i 0) % 2 ^ 32)
        % 2 ^ 32 := by
    rw [hc, ← h1]
    omega
  show k _ a b c _ e f g = k _ a b c _ e f g
  exact congrArg₂ (fun x y => k x a b c y e f g) e1 e2

/-- A round of `sha256_round` returns 32-bit working variables when given such. -/
theorem sha256_round_words (m : List Nat) (i : Nat) (a b c d e f g h : Nat)
    (ha : a < 2 ^ 32) (hb : b < 2 ^ 32) (hc : c < 2 ^ 32) (he : e < 2 ^ 32)
    (hf : f < 2 ^ 32) (hg : g < 2 ^ 32) :
    (sha256_round m (a, b, c, d, e, f, g, h) i).1 < 2 ^ 32 ∧
    (sha256_round m (a, b, c, d, e, f, g, h) i).2.1 < 2 ^ 32 ∧
    (sha256_round m (a, b, c, d, e, f, g, h) i).2.2.1 < 2 ^ 32 ∧
    (sha256_round m (a, b, c, d, e, f, g, h) i).2.2.2.1 < 2 ^ 32 ∧
    (sha256_round m (a, b, c, d, e, f, g, h) i).2.2.2.2.1 < 2 ^ 32 ∧
    (sha256_round m (a, b, c, d, e, f, g, h) i).2.2.2.2.2.1 < 2 ^ 32 ∧
    (sha256_round m (a, b, c, d, e, f, g, h) i).2.2.2.2.2.2.1 < 2 ^ 32 ∧
    (sha256_round m (a, b, c, d, e, f, g, h) i).2.2.2.2.2.2.2 < 2 ^ 32 :=
  ⟨Nat.mod_lt _ (Nat.two_pow_pos 32), ha, hb, hc, Nat.mod_lt _ (Nat.two_pow_pos 32), he, hf, hg⟩

/-- The rounds listed in `is`, in continuation-passing style, hand to `k` the working
variables that the loop over `sha256_round` returns. -/
theorem sha256_rounds_cps_eq {β : Type} (m : List Nat) (is : List Nat) :
    ∀ (k : Nat → Nat → Nat → Nat → Nat → Nat → Nat → Nat → β) (a b c d e f g h : Nat),
      a < 2 ^ 32 → b < 2 ^ 32 → c < 2 ^ 32 → e < 2 ^ 32 → f < 2 ^ 32 → g < 2 ^ 32 →
      (is.map (fun i => SHA256_K.getD i 0 + m.getD i 0)).foldr sha256_round_cps k
          a b c d e f g h
        = k (is.foldl (sha256_round m) (a, b, c, d, e, f, g, h)).1
            (is.foldl (sha256_round m) (a, b, c, d, e, f, g, h)).2.1
            (is.foldl (sha256_round m) (a, b, c, d, e, f, g, h)).2.2.1
            (is.foldl (sha256_round m) (a, b, c, d, e, f, g, h)).2.2.2.1
            (is.foldl (sha256_round m) (a, b, c, d, e, f, g, h)).2.2.2.2.1
            (is.foldl (sha256_round m) (a, b, c, d, e, f, g, h)).2.2.2.2.2.1
            (is.foldl (sha256_round m) (a, b, c, d, e, f, g, h)).2.2.2.2.2.2.1
            (is.foldl (sha256_round m) (a, b, c, d, e, f, g, h)).2.2.2.2.2.2.2 := by
  induction is with
  | nil => intro k a b c d e f g h _ _ _ _ _ _; rfl
  | cons i rest ih =>
    intro k a b c d e f g h ha hb hc he hf hg
    obtain ⟨w1, w2, w3, _, w5, w6, w7, _⟩ := sha256_round_words m i a b c d e f g h ha hb hc he hf hg
    rw [List.map_cons, List.foldr_cons, sha256_round_cps_eq m i _ a b c d e f g h ha he hg,
      ih k _ _ _ _ _ _ _ _ w1 w2 w3 w5 w6 w7, List.foldl_cons]

/-- The compression of a block in continuation-passing style hands to `k` the state words
that `sha256_rounds` returns. -/
theorem sha256_block_cps_eq {β : Type} (m : List Nat)
    (k : Nat → Nat → Nat → Nat → Nat → Nat → Nat → Nat → β) (a b c d e f g h : Nat)
    (ha : a < 2 ^ 32) (hb : b < 2 ^ 32) (hc : c < 2 ^ 32) (he : e < 2 ^ 32)
    (hf : f < 2 ^ 32) (hg : g < 2 ^ 32) :
    sha256_block_cps (sha256_kws m) k a b c d e f g h
      = k ((sha256_rounds m [a, b, c, d, e, f, g, h]).getD 0 0)
          ((sha256_rounds m [a, b, c, d, e, f, g, h]).getD 1 0)
          ((sha256_rounds m [a, b, c, d, e, f, g, h]).getD 2 0)
          ((sha256_rounds m [a, b, c, d, e, f, g, h]).getD 3 0)
          ((sha256_rounds m [a, b, c, d, e, f, g, h]).getD 4 0)
          ((sha256_rounds m [a, b, c, d, e, f, g, h]).getD 5 0)
          ((sha256_rounds m [a, b, c, d, e, f, g, h]).getD 6 0)
          ((sha256_rounds m [a, b, c, d, e, f, g, h]).getD 7 0) := by
  unfold sha256_block_cps sha256_kws
  rw [sha256_rounds_cps_eq m (List.range 64) _ a b c d e f g h ha hb hc he hf hg]
  have h32 : (4294967296 : Nat) = 2 ^ 32 := by norm_num
  unfold sha256_block_end sha256_rounds
  simp only [strict_eq, h32, List.getD_cons_zero, List.getD_cons_succ]
  rfl

/-- The state words returned by `sha256_rounds` are 32-bit words. -/
theorem sha256_rounds_words (m st : List Nat) (i : Nat) :
    (sha256_rounds m st).getD i 0 < 2 ^ 32 := by
  unfold sha256_rounds
  simp only
  match i with
  | 0 | 1 | 2 | 3 | 4 | 5 | 6 | 7 => exact Nat.mod_lt _ (Nat.two_pow_pos 32)
  | _ + 8 => exact Nat.two_pow_pos 32

theorem sha256_rounds_eta (m st : List Nat) :
    [(sha256_rounds m st).getD 0 0, (sha256_rounds m st).getD 1 0,
     (sha256_rounds m st).getD 2 0, (sha256_rounds m st).getD 3 0,
     (sha256_rounds m st).getD 4 0, (sha256_rounds m st).getD 5 0,
     (sha256_rounds m st).getD 6 0, (sha256_rounds m st).getD 7 0] = sha256_rounds m st := rfl

theorem sha256_compress_eq_rounds (st data : List Nat) :
    sha256_compress st data
      = sha256_rounds (sha256_schedule_rev (sha256_schedule_load data).reverse).reverse st := by
  rw [sha256_compress_eq_fast]
  rfl

/-- The blocks `bs` compressed one after the other in continuation-passing style give the
fold of `sha256_compress` over `bs`. -/
theorem sha256_absorb_cps_eq (bs : List (List Nat)) :
    ∀ (a b c d e f g h : Nat),
      a < 2 ^ 32 → b < 2 ^ 32 → c < 2 ^ 32 → e < 2 ^ 32 → f < 2 ^ 32 → g < 2 ^ 32 →
      sha256_absorb_cps (bs.map (fun data =>
          sha256_kws (sha256_schedule_rev (sha256_schedule_load data).reverse).reverse))
          a b c d e f g h
        = bs.foldl sha256_compress [a, b, c, d, e, f, g, h] := by
  induction bs with
  | nil => intro a b c d e f g h _ _ _ _ _ _; rfl
  | cons data rest ih =>
    intro a b c d e f g h ha hb hc he hf hg
    rw [List.map_cons, sha256_absorb_cps, sha256_block_cps_eq _ _ a b c d e f g h ha hb hc he hf hg,
      ih _ _ _ _ _ _ _ _ (sha256_rounds_words _ _ 0) (sha256_rounds_words _ _ 1)
        (sha256_rounds_words _ _ 2) (sha256_rounds_words _ _ 4) (sha256_rounds_words _ _ 5)
        (sha256_rounds_words _ _ 6),
      sha256_rounds_eta, List.foldl_cons, sha256_compress_eq_rounds]

/-! ## SHA-256 of a run of blocks of the byte `'a'` -/

set_option maxRecDepth 100000 in
/-- The numbers `SHA256_K[i] + m[i]` of the block of 64 bytes `'a'`. -/
theorem sha256_kws_block_of_a :
    sha256_kws (sha256_schedule_rev (sha256_schedule_load sha256_block_of_a).reverse).reverse
      = [
      0xA3EB90F9, 0xD298A5F2, 0x117225D30, 0x14B173D06, 0x9AB823BC, 0xBB527352,
      0xF3A0E405, 0x10C7DC036, 0x139690BF9, 0x73E4BC62, 0x8592E71F, 0xB66DDF24,
      0xD41FBED5, 0xE240135F, 0xFD3D6808, 0x122FD52D5, 0x1DA99A7FD, 0x1E5BC85C2,
      0x421FB30D, 0x566AB713, 0x4F6A8EC8, 0x6BF5E703, 0x15399F7FC, 0x1027FB3D5,
      0x1153E879F, 0x1A2A84904, 0xF869A653, 0x16A1A9A0C, 0xD1005B03, 0x172E9C7FC,
      0xB8D132AA, 0x3910F55D, 0xBF72410C, 0x968B7F31, 0x135812784, 0xA3F55D7A,
      0xDE82EF5F, 0x158D6706C, 0x13C079CBB, 0x10CD33E4E, 0x10BEA3C0F, 0xB5E77DD7,
      0x197CCD952, 0x1476F2801, 0x142D792E8, 0x176D75A0E, 0xFAC0DE17, 0x5296C0B3,
      0xA928AF66, 0x1131A5E95, 0xAB10C27F, 0x124BC5563, 0xE6974D1D, 0x13055DAB6,
      0xF9EBDA63, 0xF543A86A, 0x990D53C0, 0xD1B4D6DB, 0xB567A7D0, 0xCC8CBDA7,
      0xAB63B3A1, 0xDC910C4C, 0x1A93458ED, 0xD4E96F0C] := by
  decide!

/-- The written-out compression `sha256_block_a` is the compression of the block
`sha256_block_of_a`. -/
theorem sha256_block_a_eq {β : Type}
    (k : Nat → Nat → Nat → Nat → Nat → Nat → Nat → Nat → β) (a b c d e f g h : Nat) :
    sha256_block_a k a b c d e f g h
      = sha256_block_cps
          (sha256_kws (sha256_schedule_rev (sha256_schedule_load sha256_block_of_a).reverse).reverse)
          k a b c d e f g h := by
  rw [sha256_kws_block_of_a]
  unfold sha256_block_a sha256_block_cps
  simp only [List.foldr_cons, List.foldr_nil]

/-- The function `sha256_repeat_a n` absorbs `n` blocks of the byte `'a'`. -/
theorem sha256_repeat_a_eq (n : Nat) :
    ∀ (a b c d e f g h : Nat),
      a < 2 ^ 32 → b < 2 ^ 32 → c < 2 ^ 32 → e < 2 ^ 32 → f < 2 ^ 32 → g < 2 ^ 32 →
      sha256_repeat_a n a b c d e f g h
        = absorb 64 sha256_compress [a, b, c, d, e, f, g, h] (List.replicate (64 * n) 0x61) := by
  induction n with
  | zero => intro a b c d e f g h _ _ _ _ _ _; rfl
  | succ n ih =>
    intro a b c d e f g h ha hb hc he hf hg
    have hrep : List.replicate (64 * (n + 1)) 0x61
        = sha256_block_of_a ++ List.replicate (64 * n) 0x61 := by
      unfold sha256_block_of_a
      rw [← List.replicate_add]
      congr 1
      omega
    rw [hrep, absorb_block 64 _ _ _ _ (by decide) (show sha256_block_of_a.length = 64 from rfl),
      sha256_repeat_a,
      sha256_block_a_eq, sha256_block_cps_eq _ _ a b c d e f g h ha hb hc he hf hg,
      ih _ _ _ _ _ _ _ _ (sha256_rounds_words _ _ 0) (sha256_rounds_words _ _ 1)
        (sha256_rounds_words _ _ 2) (sha256_rounds_words _ _ 4) (sha256_rounds_words _ _ 5)
        (sha256_rounds_words _ _ 6),
      sha256_rounds_eta, sha256_compress_eq_rounds]

/-! ## SHA-256 of one million bytes `'a'` -/

/-- Absorbing a longer run of blocks of the byte `'a'` continues from the state reached after
the first `m` blocks. -/
theorem absorb_run_of_a (m n : Nat) (st S : List Nat)
    (h : absorb 64 sha256_compress st (List.replicate (64 * m) 0x61) = S) :
    absorb 64 sha256_compress st (List.replicate (64 * (m + n)) 0x61)
      = absorb 64 sha256_compress S (List.replicate (64 * n) 0x61) := by
  have htail : tail_bytes 64 (List.replicate (64 * m) 0x61) = [] :=
    List.length_eq_zero.mp (by
      rw [tail_bytes_length, List.length_replicate, Nat.mul_mod_right])
  rw [Nat.mul_add, List.replicate_add, absorb_append 64 _ (by decide), h, htail,
    List.nil_append]

set_option maxRecDepth 1000000 in
/-- Checkpoint 1: from the state after 0 blocks of the byte `'a'`, 625 more blocks. -/
theorem sha256_a_checkpoint_1 :
    absorb 64 sha256_compress
        [0x6A09E667, 0xBB67AE85, 0x3C6EF372, 0xA54FF53A, 0x510E527F, 0x9B05688C, 0x1F83D9AB, 0x5BE0CD19]
        (List.replicate (64 * 625) 0x61)
      = [0xB1A2003C, 0xF1B63EF3, 0x16AEDBF6, 0xE56A5560, 0x24F33053, 0xDE064804, 0x49F97606, 0xA69F45D2] := by
  rw [← sha256_repeat_a_eq 625 _ _ _ _ _ _ _ _ (by decide) (by decide) (by decide) (by decide)
    (by decide) (by decide)]
  decide!

set_option maxRecDepth 1000000 in
/-- Checkpoint 2: from the state after 625 blocks of the byte `'a'`, 625 more blocks. -/
theorem sha256_a_checkpoint_2 :
    absorb 64 sha256_compress
        [0xB1A2003C, 0xF1B63EF3, 0x16AEDBF6, 0xE56A5560, 0x24F33053, 0xDE064804, 0x49F97606, 0xA69F45D2]
        (List.replicate (64 * 625) 0x61)
      = [0xCF743342, 0x4F776EEE, 0x34B6C566, 0x82B56CA0, 0x8B769A9C, 0x90092A27, 0x88FD3603, 0x911D1891] := by
  rw [← sha256_repeat_a_eq 625 _ _ _ _ _ _ _ _ (by decide) (by decide) (by decide) (by decide)
    (by decide) (by decide)]
  decide!

set_option maxRecDepth 1000000 in
/-- Checkpoint 3: from the state after 1250 blocks of the byte `'a'`, 625 more blocks. -/
theorem sha256_a_checkpoint_3 :
    absorb 64 sha256_compress
        [0xCF743342, 0x4F776EEE, 0x34B6C566, 0x82B56CA0, 0x8B769A9C, 0x90092A27, 0x88FD3603, 0x911D1891]
        (List.replicate (64 * 625) 0x61)
      = [0xE3890EC1, 0x07BD55D6, 0xF7BE3F8E, 0x2C2501F9, 0x1AC7B63A, 0xAA6EBC52, 0x996854A6, 0xF3EEC507] := by
  rw [← sha256_repeat_a_eq 625 _ _ _ _ _ _ _ _ (by decide) (by decide) (by decide) (by decide)
    (by decide) (by decide)]
  decide!

set_option maxRecDepth 1000000 in
/-- Checkpoint 4: from the state after 1875 blocks of the byte `'a'`, 625 more blocks. -/
theorem sha256_a_checkpoint_4 :
    absorb 64 sha256_compress
        [0xE3890EC1, 0x07BD55D6, 0xF7BE3F8E, 0x2C2501F9, 0x1AC7B63A, 0xAA6EBC52, 0x996854A6, 0xF3EEC507]
        (List.replicate (64 * 625) 0x61)
      = [0x93D8A61E, 0x34DF5A2A, 0xDEAE1536, 0x96CC3BED, 0x98275FAF, 0x7F1FE596, 0x85F9B310, 0x5DD31783] := by
  rw [← sha256_repeat_a_eq 625 _ _ _ _ _ _ _ _ (by decide) (by decide) (by decide) (by decide)
    (by decide) (by decide)]
  decide!

set_option maxRecDepth 1000000 in
/-- Checkpoint 5: from the state after 2500 blocks of the byte `'a'`, 625 more blocks. -/
theorem sha256_a_checkpoint_5 :
    absorb 64 sha256_compress
        [0x93D8A61E, 0x34DF5A2A, 0xDEAE1536, 0x96CC3BED, 0x98275FAF, 0x7F1FE596, 0x85F9B310, 0x5DD31783]
        (List.replicate (64 * 625) 0x61)
      = [0x12E49657, 0xFB99A686, 0x128EF21F, 0x03D22AB7, 0x4563F135, 0x6BC1BCCE, 0x993E6B6A, 0x87B4FC39] := by
  rw [← sha256_repeat_a_eq 625 _ _ _ _ _ _ _ _ (by decide) (by decide) (by decide) (by decide)
    (by decide) (by decide)]
  decide!

set_option maxRecDepth 1000000 in
/-- Checkpoint 6: from the state after 3125 blocks of the byte `'a'`, 625 more blocks. -/
theorem sha256_a_checkpoint_6 :
    absorb 64 sha256_compress
        [0x12E49657, 0xFB99A686, 0x128EF21F, 0x03D22AB7, 0x4563F135, 0x6BC1BCCE, 0x993E6B6A, 0x87B4FC39]
        (List.replicate (64 * 625) 0x61)
      = [0xCDBD4C85, 0x76C2D85C, 0xF53C6801, 0xFAC39EB0, 0x4D991B32, 0x89F57FFB, 0xAAB2D0B2, 0x18A31FA1] := by
  rw [← sha256_repeat_a_eq 625 _ _ _ _ _ _ _ _ (by decide) (by decide) (by decide) (by decide)
    (by decide) (by decide)]
  decide!

set_option maxRecDepth 1000000 in
/-- Checkpoint 7: from the state after 3750 blocks of the byte `'a'`, 625 more blocks. -/
theorem sha256_a_checkpoint_7 :
    absorb 64 sha256_compress
        [0xCDBD4C85, 0x76C2D85C, 0xF53C6801, 0xFAC39EB0, 0x4D991B32, 0x89F57FFB, 0xAAB2D0B2, 0x18A31FA1]
        (List.replicate (64 * 625) 0x61)
      = [0x0182192E, 0x563358D8, 0x015A0789, 0xB165F85F, 0x1B92DD85, 0xE00B75BB, 0x5DE9B2BE, 0xF3424D8F] := by
  rw [← sha256_repeat_a_eq 625 _ _ _ _ _ _ _ _ (by decide) (by decide) (by decide) (by decide)
    (by decide) (by decide)]
  decide!

set_option maxRecDepth 1000000 in
/-- Checkpoint 8: from the state after 4375 blocks of the byte `'a'`, 625 more blocks. -/
theorem sha256_a_checkpoint_8 :
    absorb 64 sha256_compress
        [0x0182192E, 0x563358D8, 0x015A0789, 0xB165F85F, 0x1B92DD85, 0xE00B75BB, 0x5DE9B2BE, 0xF3424D8F]
        (List.replicate (64 * 625) 0x61)
      = [0xF47170D2, 0x07B92295, 0x2D2FDDC7, 0xA76F6B5F, 0xAF9B0B31, 0xF5E26529, 0xD6098C19, 0xA09A6B99] := by
  rw [← sha256_repeat_a_eq 625 _ _ _ _ _ _ _ _ (by decide) (by decide) (by decide) (by decide)
    (by decide) (by decide)]
  decide!

set_option maxRecDepth 1000000 in
/-- Checkpoint 9: from the state after 5000 blocks of the byte `'a'`, 625 more blocks. -/
theorem sha256_a_checkpoint_9 :
    absorb 64 sha256_compress
        [0xF47170D2, 0x07B92295, 0x2D2FDDC7, 0xA76F6B5F, 0xAF9B0B31, 0xF5E26529, 0xD6098C19, 0xA09A6B99]
        (List.replicate (64 * 625) 0x61)
      = [0x0EDBA237, 0x05CC53EF, 0x9C794153, 0x32D2BD3A, 0xAEA8E536, 0xCBF4F242, 0x1ADD31BF, 0xAC5515F8] := by
  rw [← sha256_repeat_a_eq 625 _ _ _ _ _ _ _ _ (by decide) (by decide) (by decide) (by decide)
    (by decide) (by decide)]
  decide!

set_option maxRecDepth 1000000 in
/-- Checkpoint 10: from the state after 5625 blocks of the byte `'a'`, 625 more blocks. -/
theorem sha256_a_checkpoint_10 :
    absorb 64 sha256_compress
        [0x0EDBA237, 0x05CC53EF, 0x9C794153, 0x32D2BD3A, 0xAEA8E536, 0xCBF4F242, 0x1ADD31BF, 0xAC5515F8]
        (List.replicate (64 * 625) 0x61)
      = [0xEB7ABD5F, 0x468D7843, 0x1F385E18, 0x4054A165, 0xD2771833, 0x7540373C, 0xF5296B39, 0x685127EC] := by
  rw [← sha256_repeat_a_eq 625 _ _ _ _ _ _ _ _ (by decide) (by decide) (by decide) (by decide)
    (by decide) (by decide)]
  decide!

set_option maxRecDepth 1000000 in
/-- Checkpoint 11: from the state after 6250 blocks of the byte `'a'`, 625 more blocks. -/
theorem sha256_a_checkpoint_11 :
    absorb 64 sha256_compress
        [0xEB7ABD5F, 0x468D7843, 0x1F385E18, 0x4054A165, 0xD2771833, 0x7540373C, 0xF5296B39, 0x685127EC]
        (List.replicate (64 * 625) 0x61)
      = [0x0585EAEF, 0x798D238A, 0xA7A15758, 0x5360A3A4, 0x160C1004, 0xCB9F4CCF, 0x0BBA0EBE, 0xF169EB05] := by
  rw [← sha256_repeat_a_eq 625 _ _ _ _ _ _ _ _ (by decide) (by decide) (by decide) (by decide)
    (by decide) (by decide)]
  decide!

set_option maxRecDepth 1000000 in
/-- Checkpoint 12: from the state after 6875 blocks of the byte `'a'`, 625 more blocks. -/
theorem sha256_a_checkpoint_12 :
    absorb 64 sha256_compress
        [0x0585EAEF, 0x798D238A, 0xA7A15758, 0x5360A3A4, 0x160C1004, 0xCB9F4CCF, 0x0BBA0EBE, 0xF169EB05]
        (List.replicate (64 * 625) 0x61)
      = [0xD9335A29, 0xC5C783A1, 0xD8B59B1F, 0xC1C396CE, 0x50A47E31, 0x21E69D78, 0xE84DD790, 0x7C4538F0] := by
  rw [← sha256_repeat_a_eq 625 _ _ _ _ _ _ _ _ (by decide) (by decide) (by decide) (by decide)
    (by decide) (by decide)]
  decide!

set_option maxRecDepth 1000000 in
/-- Checkpoint 13: from the state after 7500 blocks of the byte `'a'`, 625 more blocks. -/
theorem sha256_a_checkpoint_13 :
    absorb 64 sha256_compress
        [0xD9335A29, 0xC5C783A1, 0xD8B59B1F, 0xC1C396CE, 0x50A47E31, 0x21E69D78, 0xE84DD790, 0x7C4538F0]
        (List.replicate (64 * 625) 0x61)
      = [0xA524745C, 0xDD9FE98C, 0x5502D26E, 0x588505D4, 0x8EA8D2F8, 0xA2BABD19, 0x7B4ABF01, 0x38F91BF6] := by
  rw [← sha256_repeat_a_eq 625 _ _ _ _ _ _ _ _ (by decide) (by decide) (by decide) (by decide)
    (by decide) (by decide)]
  decide!

set_option maxRecDepth 1000000 in
/-- Checkpoint 14: from the state after 8125 blocks of the byte `'a'`, 625 more blocks. -/
theorem sha256_a_checkpoint_14 :
    absorb 64 sha256_compress
        [0xA524745C, 0xDD9FE98C, 0x5502D26E, 0x588505D4, 0x8EA8D2F8, 0xA2BABD19, 0x7B4ABF01, 0x38F91BF6]
        (List.replicate (64 * 625) 0x61)
      = [0x76B1678E, 0x89A47061, 0xEE0D5F0F, 0x5A05A4E7, 0x3A1F51F5, 0x75377D9C, 0xA070C9B2, 0x20C7274E] := by
  rw [← sha256_repeat_a_eq 625 _ _ _ _ _ _ _ _ (by decide) (by decide) (by decide) (by decide)
    (by decide) (by decide)]
  decide!

set_option maxRecDepth 1000000 in
/-- Checkpoint 15: from the state after 8750 blocks of the byte `'a'`, 625 more blocks. -/
theorem sha256_a_checkpoint_15 :
    absorb 64 sha256_compress
        [0x76B1678E, 0x89A47061, 0xEE0D5F0F, 0x5A05A4E7, 0x3A1F51F5, 0x75377D9C, 0xA070C9B2, 0x20C7274E]
        (List.replicate (64 * 625) 0x61)
      = [0x84DD3CFE, 0x4A616CAE, 0xBA883981, 0x2FBE58B4, 0xDA6A1199, 0x7F4FEA84, 0x62AF7121, 0xF105DB1E] := by
  rw [← sha256_repeat_a_eq 625 _ _ _ _ _ _ _ _ (by decide) (by decide) (by decide) (by decide)
    (by decide) (by decide)]
  decide!

set_option maxRecDepth 1000000 in
/-- Checkpoint 16: from the state after 9375 blocks of the byte `'a'`, 625 more blocks. -/
theorem sha256_a_checkpoint_16 :
    absorb 64 sha256_compress
        [0x84DD3CFE, 0x4A616CAE, 0xBA883981, 0x2FBE58B4, 0xDA6A1199, 0x7F4FEA84, 0x62AF7121, 0xF105DB1E]
        (List.replicate (64 * 625) 0x61)
      = [0x585B0343, 0xB607204C, 0x843CDD1C, 0x39095B23, 0xC3CACA1C, 0x5B51E1F8, 0xF4D096E4, 0xAEB47314] := by
  rw [← sha256_repeat_a_eq 625 _ _ _ _ _ _ _ _ (by decide) (by decide) (by decide) (by decide)
    (by decide) (by decide)]
  decide!

set_option maxRecDepth 1000000 in
/-- Checkpoint 17: from the state after 10000 blocks of the byte `'a'`, 625 more blocks. -/
theorem sha256_a_checkpoint_17 :
    absorb 64 sha256_compress
        [0x585B0343, 0xB607204C, 0x843CDD1C, 0x39095B23, 0xC3CACA1C, 0x5B51E1F8, 0xF4D096E4, 0xAEB47314]
        (List.replicate (64 * 625) 0x61)
      = [0x9F41892F, 0xD04D7449, 0x0EF34552, 0x1D91D4B0, 0xD1F71EF0, 0xE9073500, 0x158E537F, 0x32099672] := by
  rw [← sha256_repeat_a_eq 625 _ _ _ _ _ _ _ _ (by decide) (by decide) (by decide) (by decide)
    (by decide) (by decide)]
  decide!

set_option maxRecDepth 1000000 in
/-- Checkpoint 18: from the state after 10625 blocks of the byte `'a'`, 625 more blocks. -/
theorem sha256_a_checkpoint_18 :
    absorb 64 sha256_compress
        [0x9F41892F, 0xD04D7449, 0x0EF34552, 0x1D91D4B0, 0xD1F71EF0, 0xE9073500, 0x158E537F, 0x32099672]
        (List.replicate (64 * 625) 0x61)
      = [0x0B130B07, 0x665A6CBD, 0x46EB4316, 0x0D123D5D, 0x40F32141, 0xBB8E1FCC, 0x27BE50BE, 0xA48E31A9] := by
  rw [← sha256_repeat_a_eq 625 _ _ _ _ _ _ _ _ (by decide) (by decide) (by decide) (by decide)
    (by decide) (by decide)]
  decide!

set_option maxRecDepth 1000000 in
/-- Checkpoint 19: from the state after 11250 blocks of the byte `'a'`, 625 more blocks. -/
theorem sha256_a_checkpoint_19 :
    absorb 64 sha256_compress
        [0x0B130B07, 0x665A6CBD, 0x46EB4316, 0x0D123D5D, 0x40F32141, 0xBB8E1FCC, 0x27BE50BE, 0xA48E31A9]
        (List.replicate (64 * 625) 0x61)
      = [0xCBE1EBFB, 0xDFB71786, 0xAD762EEA, 0xC10167A3, 0x86CA3110, 0xAEA18CA8, 0xBE60B6A3, 0x88DFC519] := by
  rw [← sha256_repeat_a_eq 625 _ _ _ _ _ _ _ _ (by decide) (by decide) (by decide) (by decide)
    (by decide) (by decide)]
  decide!

set_option maxRecDepth 1000000 in
/-- Checkpoint 20: from the state after 11875 blocks of the byte `'a'`, 625 more blocks. -/
theorem sha256_a_checkpoint_20 :
    absorb 64 sha256_compress
        [0xCBE1EBFB, 0xDFB71786, 0xAD762EEA, 0xC10167A3, 0x86CA3110, 0xAEA18CA8, 0xBE60B6A3, 0x88DFC519]
        (List.replicate (64 * 625) 0x61)
      = [0x5B11F557, 0x266263BA, 0x0838A610, 0x7157225C, 0x57968C1F, 0x0C97E195, 0x9B84C6B1, 0xDA69C93E] := by
  rw [← sha256_repeat_a_eq 625 _ _ _ _ _ _ _ _ (by decide) (by decide) (by decide) (by decide)
    (by decide) (by decide)]
  decide!

set_option maxRecDepth 1000000 in
/-- Checkpoint 21: from the state after 12500 blocks of the byte `'a'`, 625 more blocks. -/
theorem sha256_a_checkpoint_21 :
    absorb 64 sha256_compress
        [0x5B11F557, 0x266263BA, 0x0838A610, 0x7157225C, 0x57968C1F, 0x0C97E195, 0x9B84C6B1, 0xDA69C93E]
        (List.replicate (64 * 625) 0x61)
      = [0x6A3D1CAF, 0x863576F7, 0x2898A8AF, 0x9DE6CAF2, 0x714F250B, 0x9148699A, 0x00F70730, 0xCDA293B8] := by
  rw [← sha256_repeat_a_eq 625 _ _ _ _ _ _ _ _ (by decide) (by decide) (by decide) (by decide)
    (by decide) (by decide)]
  decide!

set_option maxRecDepth 1000000 in
/-- Checkpoint 22: from the state after 13125 blocks of the byte `'a'`, 625 more blocks. -/
theorem sha256_a_checkpoint_22 :
    absorb 64 sha256_compress
        [0x6A3D1CAF, 0x863576F7, 0x2898A8AF, 0x9DE6CAF2, 0x714F250B, 0x9148699A, 0x00F70730, 0xCDA293B8]
        (List.replicate (64 * 625) 0x61)
      = [0x5D8D7CCC, 0x26FDF9ED, 0xE636AE1F, 0x665E9234, 0x0875C69B, 0x8CE0E38F, 0x785342A8, 0xCA880611] := by
  rw [← sha256_repeat_a_eq 625 _ _ _ _ _ _ _ _ (by decide) (by decide) (by decide) (by decide)
    (by decide) (by decide)]
  decide!

set_option maxRecDepth 1000000 in
/-- Checkpoint 23: from the state after 13750 blocks of the byte `'a'`, 625 more blocks. -/
theorem sha256_a_checkpoint_23 :
    absorb 64 sha256_compress
        [0x5D8D7CCC, 0x26FDF9ED, 0xE636AE1F, 0x665E9234, 0x0875C69B, 0x8CE0E38F, 0x785342A8, 0xCA880611]
        (List.replicate (64 * 625) 0x61)
      = [0x751FC351, 0x8A51FDA8, 0xEEE2ABEA, 0xEDEC4489, 0x4D3097D0, 0x7F136D25, 0x6C2DDAEA, 0xE0BCFA4B] := by
  rw [← sha256_repeat_a_eq 625 _ _ _ _ _ _ _ _ (by decide) (by decide) (by decide) (by decide)
    (by decide) (by decide)]
  decide!

set_option maxRecDepth 1000000 in
/-- Checkpoint 24: from the state after 14375 blocks of the byte `'a'`, 625 more blocks. -/
theorem sha256_a_checkpoint_24 :
    absorb 64 sha256_compress
        [0x751FC351, 0x8A51FDA8, 0xEEE2ABEA, 0xEDEC4489, 0x4D3097D0, 0x7F136D25, 0x6C2DDAEA, 0xE0BCFA4B]
        (List.replicate (64 * 625) 0x61)
      = [0xC3EA7E7F, 0x6E9CF791, 0x9B7C7F6C, 0x0A833173, 0x2A148AAE, 0x583B3C97, 0xB2762854, 0x38B57846] := by
  rw [← sha256_repeat_a_eq 625 _ _ _ _ _ _ _ _ (by decide) (by decide) (by decide) (by decide)
    (by decide) (by decide)]
  decide!

set_option maxRecDepth 1000000 in
/-- Checkpoint 25: from the state after 15000 blocks of the byte `'a'`, 625 more blocks. -/
theorem sha256_a_checkpoint_25 :
    absorb 64 sha256_compress
        [0xC3EA7E7F, 0x6E9CF791, 0x9B7C7F6C, 0x0A833173, 0x2A148AAE, 0x583B3C97, 0xB2762854, 0x38B57846]
        (List.replicate (64 * 625) 0x61)
      = [0x7ADA70EB, 0x68068A22, 0x2F2F02C7, 0x7F9376C2, 0x70501A1F, 0xD25BEAC6, 0x280325FC, 0x2950AB39] := by
  rw [← sha256_repeat_a_eq 625 _ _ _ _ _ _ _ _ (by decide) (by decide) (by decide) (by decide)
    (by decide) (by decide)]
  decide!

/-- The state after the 15625 complete blocks of the million-`a` message. -/
theorem sha256_a_blocks_state :
    absorb 64 sha256_compress SHA256_H0 (List.replicate (64 * (625 * 25)) 0x61)
      = [0x7ADA70EB, 0x68068A22, 0x2F2F02C7, 0x7F9376C2, 0x70501A1F, 0xD25BEAC6, 0x280325FC, 0x2950AB39] := by
  have h1 := sha256_a_checkpoint_1
  have h2 := (absorb_run_of_a (625 * 1) 625 _ _ h1).trans sha256_a_checkpoint_2
  have h3 := (absorb_run_of_a (625 * 2) 625 _ _ h2).trans sha256_a_checkpoint_3
  have h4 := (absorb_run_of_a (625 * 3) 625 _ _ h3).trans sha256_a_checkpoint_4
  have h5 := (absorb_run_of_a (625 * 4) 625 _ _ h4).trans sha256_a_checkpoint_5
  have h6 := (absorb_run_of_a (625 * 5) 625 _ _ h5).trans sha256_a_checkpoint_6
  have h7 := (absorb_run_of_a (625 * 6) 625 _ _ h6).trans sha256_a_checkpoint_7
  have h8 := (absorb_run_of_a (625 * 7) 625 _ _ h7).trans sha256_a_checkpoint_8
  have h9 := (absorb_run_of_a (625 * 8) 625 _ _ h8).trans sha256_a_checkpoint_9
  have h10 := (absorb_run_of_a (625 * 9) 625 _ _ h9).trans sha256_a_checkpoint_10
  have h11 := (absorb_run_of_a (625 * 10) 625 _ _ h10).trans sha256_a_checkpoint_11
  have h12 := (absorb_run_of_a (625 * 11) 625 _ _ h11).trans sha256_a_checkpoint_12
  have h13 := (absorb_run_of_a (625 * 12) 625 _ _ h12).trans sha256_a_checkpoint_13
  have h14 := (absorb_run_of_a (625 * 13) 625 _ _ h13).trans sha256_a_checkpoint_14
  have h15 := (absorb_run_of_a (625 * 14) 625 _ _ h14).trans sha256_a_checkpoint_15
  have h16 := (absorb_run_of_a (625 * 15) 625 _ _ h15).trans sha256_a_checkpoint_16
  have h17 := (absorb_run_of_a (625 * 16) 625 _ _ h16).trans sha256_a_checkpoint_17
  have h18 := (absorb_run_of_a (625 * 17) 625 _ _ h17).trans sha256_a_checkpoint_18
  have h19 := (absorb_run_of_a (625 * 18) 625 _ _ h18).trans sha256_a_checkpoint_19
  have h20 := (absorb_run_of_a (625 * 19) 625 _ _ h19).trans sha256_a_checkpoint_20
  have h21 := (absorb_run_of_a (625 * 20) 625 _ _ h20).trans sha256_a_checkpoint_21
  have h22 := (absorb_run_of_a (625 * 21) 625 _ _ h21).trans sha256_a_checkpoint_22
  have h23 := (absorb_run_of_a (625 * 22) 625 _ _ h22).trans sha256_a_checkpoint_23
  have h24 := (absorb_run_of_a (625 * 23) 625 _ _ h23).trans sha256_a_checkpoint_24
  have h25 := (absorb_run_of_a (625 * 24) 625 _ _ h24).trans sha256_a_checkpoint_25
  exact h25

/-- The digest of a run of `n` blocks of the byte `'a'`, from the state `S` after the run:
Final compresses one more block, the padding `0x80`, 55 zero bytes and the bit length. -/
theorem sha256_ref_of_blocks_a (n : Nat) (S : List Nat)
    (hS : absorb 64 sha256_compress SHA256_H0 (List.replicate (64 * n) 0x61) = S) :
    sha256_ref (List.replicate (64 * n) 0x61)
      = sha256_digest_bytes (sha256_compress S (sha256_padding 56 (8 * (64 * n)))) := by
  have htail : tail_bytes 64 (List.replicate (64 * n) 0x61) = [] :=
    List.length_eq_zero.mp (by
      rw [tail_bytes_length, List.length_replicate, Nat.mul_mod_right])
  have hpad : sha256_pad_len 0 = 56 := rfl
  have hlen : (sha256_padding 56 (8 * (64 * n))).length = 64 := rfl
  have hblk : absorb 64 sha256_compress S (sha256_padding 56 (8 * (64 * n)))
      = sha256_compress S (sha256_padding 56 (8 * (64 * n))) := by
    have hb := absorb_block 64 sha256_compress S (sha256_padding 56 (8 * (64 * n))) []
      (by decide) hlen
    rw [List.append_nil] at hb
    rw [hb, absorb_short 64 _ _ _ (by decide)]
  unfold sha256_ref
  rw [List.length_replicate, Nat.mul_mod_right, hpad, absorb_append 64 _ (by decide), hS, htail,
    List.nil_append, hblk]

set_option maxRecDepth 100000 in
/-- The last block of the million-`a` message, compressed from the state after the complete
blocks, gives the digest of the test table. -/
theorem sha256_million_a_last_block :
    sha256_hex_chars (sha256_digest_bytes (sha256_compress_fast
        [0x7ADA70EB, 0x68068A22, 0x2F2F02C7, 0x7F9376C2, 0x70501A1F, 0xD25BEAC6, 0x280325FC, 0x2950AB39]
        (sha256_padding 56 (8 * (64 * (625 * 25))))))
      = String.toList "cdc76e5c9914fb9281a1c7e284d73e67f1809a48a497200e046d39ccc7112cd0" := by
  decide!

/-- C30: for every prior content of the local context and of the two output buffers, one-shot
`sha256` of the 1,000,000-byte input made of the byte `'a'` returns success and
`sha256_to_hex` renders the digest as
`cdc76e5c9914fb9281a1c7e284d73e67f1809a48a497200e046d39ccc7112cd0`. -/
theorem sha256_million_a (stack : SHA256_CTX) (out : List Nat) (hexbuf : List Char)
    (hb : stack.buffer.length = 64) :
    (sha256 stack (some (List.replicate 1000000 0x61)) 1000000 (some out)).1 = SHA256_SUCCESS ∧
    (sha256_to_hex (sha256 stack (some (List.replicate 1000000 0x61)) 1000000 (some out)).2.2
        (some hexbuf)).1 = SHA256_SUCCESS ∧
    (sha256_to_hex (sha256 stack (some (List.replicate 1000000 0x61)) 1000000 (some out)).2.2
        (some hexbuf)).2.map cstr
      = some "cdc76e5c9914fb9281a1c7e284d73e67f1809a48a497200e046d39ccc7112cd0" := by
  have hn : (1000000 : Nat) = 64 * (625 * 25) := by norm_num
  have href := sha256_ref_of_blocks_a (625 * 25) _ sha256_a_blocks_state
  rw [← hn] at href
  refine sha256_hex_oneshot stack (List.replicate 1000000 0x61) out hexbuf 1000000 _ hb
    (List.length_replicate _ _).symm (by rw [List.length_replicate]; norm_num) ?_
    (hex_string_no_nul _ (by decide))
  rw [← sha256_ref_eq_fast, href, hn, sha256_compress_eq_fast]
  exact sha256_million_a_last_block

/-- Witness for C30: the call on a zeroed local context and zeroed output buffers. -/
theorem sha256_million_a_witness :
    sha256_zero_ctx.buffer.length = 64 ∧
    (sha256_to_hex (sha256 sha256_zero_ctx (some (List.replicate 1000000 0x61)) 1000000
        (some (List.replicate 32 0))).2.2 (some (List.replicate 65 (Char.ofNat 0)))).2.map cstr
      = some "cdc76e5c9914fb9281a1c7e284d73e67f1809a48a497200e046d39ccc7112cd0" :=
  ⟨rfl, (sha256_million_a sha256_zero_ctx (List.replicate 32 0)
    (List.replicate 65 (Char.ofNat 0)) rfl).2.2⟩

/-! ## Update's buffering postcondition -/

/-- The buffering of `sha256_update` on a call that passes the checks, in terms of the pending
bytes `buffer[0 .. buffer_len)` and the data. -/
theorem sha256_update_buffering (c : SHA256_CTX) (d : List Nat)
    (hb : c.buffer.length = 64) (hl : c.buffer_len < 64) (hd : 0 < d.length)
    (hno : (sha256_update (some c) (some d) d.length).1 ≠ SHA256_ERROR_OVERFLOW) :
    ∃ r, sha256_update (some c) (some d) d.length = (SHA256_SUCCESS, some r) ∧
      r.state = (blocks 64 ((c.buffer_len + d.length) / 64)
          (c.buffer.take c.buffer_len ++ d)).foldl sha256_compress c.state ∧
      r.buffer_len = (c.buffer_len + d.length) % 64 ∧
      r.buffer.take r.buffer_len
        = (c.buffer.take c.buffer_len ++ d).drop (64 * ((c.buffer_len + d.length) / 64)) := by
  have hlen : (c.buffer.take c.buffer_len ++ d).length = c.buffer_len + d.length := by
    rw [List.length_append, List.length_take, hb]
    omega
  have key : ∀ x : SHA256_CTX, x.state = c.state → x.buffer = c.buffer →
      x.buffer_len = c.buffer_len →
      (sha256_update_data x d d.length).state
          = (blocks 64 ((c.buffer_len + d.length) / 64)
              (c.buffer.take c.buffer_len ++ d)).foldl sha256_compress c.state ∧
      (sha256_update_data x d d.length).buffer_len = (c.buffer_len + d.length) % 64 ∧
      (sha256_update_data x d d.length).buffer.take (sha256_update_data x d d.length).buffer_len
        = (c.buffer.take c.buffer_len ++ d).drop
            (64 * ((c.buffer_len + d.length) / 64)) := by
    intro x hs hbuf hbl
    obtain ⟨h1, _, h3, h4⟩ := sha256_update_data_spec x d (by rw [hbuf]; exact hb)
      (by rw [hbl]; exact hl)
    have hp : sha256_pending x = c.buffer.take c.buffer_len := by
      unfold sha256_pending; rw [hbuf, hbl]
    rw [hp] at h1 h4
    refine ⟨?_, ?_, ?_⟩
    · rw [h1, hs]; unfold absorb; rw [hlen]
    · rw [h3, hbl]
    · have h4' : (sha256_update_data x d d.length).buffer.take
          (sha256_update_data x d d.length).buffer_len
          = tail_bytes 64 (c.buffer.take c.buffer_len ++ d) := h4
      rw [h4']; unfold tail_bytes; rw [hlen]
  have h0 : d.length ≠ 0 := by omega
  revert hno
  unfold sha256_update
  simp only [h0, if_false]
  split_ifs <;> intro hno <;>
    first
    | exact absurd rfl hno
    | exact ⟨_, rfl, key _ rfl rfl rfl⟩

/-- The buffering of `sha512_update` on a call that passes the checks, in terms of the pending
bytes `buffer[0 .. buffer_len)` and the data. -/
theorem sha512_update_buffering (c : SHA512_CTX) (d : List Nat)
    (hb : c.buffer.length = 128) (hl : c.buffer_len < 128) (hd : 0 < d.length)
    (hno : (sha512_update (some c) (some d) d.length).1 ≠ SHA512_ERROR_OVERFLOW) :
    ∃ r, sha512_update (some c) (some d) d.length = (SHA512_SUCCESS, some r) ∧
      r.state = (blocks 128 ((c.buffer_len + d.length) / 128)
          (c.buffer.take c.buffer_len ++ d)).foldl sha512_compress c.state ∧
      r.buffer_len = (c.buffer_len + d.length) % 128 ∧
      r.buffer.take r.buffer_len
        = (c.buffer.take c.buffer_len ++ d).drop (128 * ((c.buffer_len + d.length) / 128)) := by
  have hlen : (c.buffer.take c.buffer_len ++ d).length = c.buffer_len + d.length := by
    rw [List.length_append, List.length_take, hb]
    omega
  have key : ∀ x : SHA512_CTX, x.state = c.state → x.buffer = c.buffer →
      x.buffer_len = c.buffer_len →
      (sha512_update_data x d d.length).state
          = (blocks 128 ((c.buffer_len + d.length) / 128)
              (c.buffer.take c.buffer_len ++ d)).foldl sha512_compress c.state ∧
      (sha512_update_data x d d.length).buffer_len = (c.buffer_len + d.length) % 128 ∧
      (sha512_update_data x d d.length).buffer.take (sha512_update_data x d d.length).buffer_len
        = (c.buffer.take c.buffer_len ++ d).drop
            (128 * ((c.buffer_len + d.length) / 128)) := by
    intro x hs hbuf hbl
    obtain ⟨h1, _, h3, h4⟩ := sha512_update_data_spec x d (by rw [hbuf]; exact hb)
      (by rw [hbl]; exact hl)
    have hp : sha512_pending x = c.buffer.take c.buffer_len := by
      unfold sha512_pending; rw [hbuf, hbl]
    rw [hp] at h1 h4
    refine ⟨?_, ?_, ?_⟩
    · rw [h1, hs]; unfold absorb; rw [hlen]
    · rw [h3, hbl]
    · have h4' : (sha512_update_data x d d.length).buffer.take
          (sha512_update_data x d d.length).buffer_len
          = tail_bytes 128 (c.buffer.take c.buffer_len ++ d) := h4
      rw [h4']; unfold tail_bytes; rw [hlen]
  have h0 : d.length ≠ 0 := by omega
  revert hno
  unfold sha512_update
  simp only [h0, if_false]
  split_ifs <;> intro hno <;>
    first
    | exact absurd rfl hno
    | exact ⟨_, rfl, key _ rfl rfl rfl⟩

/-- C31: for every context with `buffer_len < B` and every present data `d` of length
`len > 0` for which Update does not return the overflow error, Update succeeds; with
`p = buffer[0 .. buffer_len)`, the new state is the fold of the compression function, from the
old state, over the first `(buffer_len + len) / B` consecutive `B`-byte blocks of `p ++ d`, the
new `buffer_len` is `(buffer_len + len) mod B`, and the new `buffer[0 .. buffer_len)` is what
follows those blocks in `p ++ d`. `B` is 64 for SHA-256 and 128 for SHA-512. -/
theorem update_buffering_postcondition (c : SHA256_CTX) (c' : SHA512_CTX) (d : List Nat)
    (hb : c.buffer.length = 64) (hl : c.buffer_len < 64)
    (hb' : c'.buffer.length = 128) (hl' : c'.buffer_len < 128) (hd : 0 < d.length) :
    ((sha256_update (some c) (some d) d.length).1 ≠ SHA256_ERROR_OVERFLOW →
      ∃ r, sha256_update (some c) (some d) d.length = (SHA256_SUCCESS, some r) ∧
        r.state = (blocks 64 ((c.buffer_len + d.length) / 64)
            (c.buffer.take c.buffer_len ++ d)).foldl sha256_compress c.state ∧
        r.buffer_len = (c.buffer_len + d.length) % 64 ∧
        r.buffer.take r.buffer_len
          = (c.buffer.take c.buffer_len ++ d).drop (64 * ((c.buffer_len + d.length) / 64))) ∧
    ((sha512_update (some c') (some d) d.length).1 ≠ SHA512_ERROR_OVERFLOW →
      ∃ r, sha512_update (some c') (some d) d.length = (SHA512_SUCCESS, some r) ∧
        r.state = (blocks 128 ((c'.buffer_len + d.length) / 128)
            (c'.buffer.take c'.buffer_len ++ d)).foldl sha512_compress c'.state ∧
        r.buffer_len = (c'.buffer_len + d.length) % 128 ∧
        r.buffer.take r.buffer_len
          = (c'.buffer.take c'.buffer_len ++ d).drop
              (128 * ((c'.buffer_len + d.length) / 128))) :=
  ⟨sha256_update_buffering c d hb hl hd, sha512_update_buffering c' d hb' hl' hd⟩

set_option maxRecDepth 100000 in
/-- Witness for C31: contexts with three pending bytes and a two-byte input. -/
theorem update_buffering_postcondition_witness :
    ((List.replicate 64 7).length = 64 ∧ 3 < 64 ∧ (List.replicate 128 7).length = 128 ∧
      3 < 128 ∧ 0 < [1, 2].length ∧
      (sha256_update (some (SHA256_CTX.mk SHA256_H0 3 (List.replicate 64 7) 3))
        (some [1, 2]) [1, 2].length).1 ≠ SHA256_ERROR_OVERFLOW ∧
      (sha512_update (some (SHA512_CTX.mk SHA512_H0 (24, 0) (List.replicate 128 7) 3))
        (some [1, 2]) [1, 2].length).1 ≠ SHA512_ERROR_OVERFLOW) ∧
    (∃ r, sha256_update (some (SHA256_CTX.mk SHA256_H0 3 (List.replicate 64 7) 3))
          (some [1, 2]) [1, 2].length = (SHA256_SUCCESS, some r) ∧
        r.state = (blocks 64 ((3 + [1, 2].length) / 64)
            ((List.replicate 64 7).take 3 ++ [1, 2])).foldl sha256_compress SHA256_H0 ∧
        r.buffer_len = (3 + [1, 2].length) % 64 ∧
        r.buffer.take r.buffer_len
          = ((List.replicate 64 7).take 3 ++ [1, 2]).drop (64 * ((3 + [1, 2].length) / 64))) ∧
    (∃ r, sha512_update (some (SHA512_CTX.mk SHA512_H0 (24, 0) (List.replicate 128 7) 3))
          (some [1, 2]) [1, 2].length = (SHA512_SUCCESS, some r) ∧
        r.state = (blocks 128 ((3 + [1, 2].length) / 128)
            ((List.replicate 128 7).take 3 ++ [1, 2])).foldl sha512_compress SHA512_H0 ∧
        r.buffer_len = (3 + [1, 2].length) % 128 ∧
        r.buffer.take r.buffer_len
          = ((List.replicate 128 7).take 3 ++ [1, 2]).drop
              (128 * ((3 + [1, 2].length) / 128))) :=
  have h1 : (sha256_update (some (SHA256_CTX.mk SHA256_H0 3 (List.replicate 64 7) 3))
        (some [1, 2]) [1, 2].length).1 ≠ SHA256_ERROR_OVERFLOW := by decide!
  have h2 : (sha512_update (some (SHA512_CTX.mk SHA512_H0 (24, 0) (List.replicate 128 7) 3))
        (some [1, 2]) [1, 2].length).1 ≠ SHA512_ERROR_OVERFLOW := by decide!
  ⟨⟨by decide, by decide, by decide, by decide, by decide, h1, h2⟩,
   (update_buffering_postcondition (SHA256_CTX.mk SHA256_H0 3 (List.replicate 64 7) 3)
      (SHA512_CTX.mk SHA512_H0 (24, 0) (List.replicate 128 7) 3) [1, 2]
      (by decide) (by decide) (by decide) (by decide) (by decide)).1 h1,
   (update_buffering_postcondition (SHA256_CTX.mk SHA256_H0 3 (List.replicate 64 7) 3)
      (SHA512_CTX.mk SHA512_H0 (24, 0) (List.replicate 128 7) 3) [1, 2]
      (by decide) (by decide) (by decide) (by decide) (by decide)).2 h2⟩

/-! ## The compression step as a function of state and block -/

/-- The first loop of `sha256_transform` reads the first 64 bytes of the block only. -/
theorem sha256_schedule_load_congr (d e : List Nat)
    (h : ∀ j, j < 64 → e.getD j 0 = d.getD j 0) :
    sha256_schedule_load e = sha256_schedule_load d := by
  unfold sha256_schedule_load
  apply List.map_congr_left
  intro i hi
  have hi' : i < 16 := List.mem_range.mp hi
  simp only [h (i * 4 + 0) (by omega), h (i * 4 + 1) (by omega), h (i * 4 + 2) (by omega),
    h (i * 4 + 3) (by omega)]

/-- The rounds of `sha256_transform` read the first eight state words only. -/
theorem sha256_rounds_congr (m s t : List Nat)
    (h : ∀ i, i < 8 → t.getD i 0 = s.getD i 0) :
    sha256_rounds m t = sha256_rounds m s := by
  unfold sha256_rounds
  simp only [h 0 (by decide), h 1 (by decide), h 2 (by decide), h 3 (by decide),
    h 4 (by decide), h 5 (by decide), h 6 (by decide), h 7 (by decide)]

/-- What `sha256_transform` does: only the state changes, the new state is determined by the
eight old state words and the 64 bytes of the block, and each new word is the old word plus
the working variable left by the rounds, modulo `2^32`. -/
theorem sha256_transform_pure (c : SHA256_CTX) (d : List Nat) :
    (sha256_transform c d).count = c.count ∧
    (sha256_transform c d).buffer = c.buffer ∧
    (sha256_transform c d).buffer_len = c.buffer_len ∧
    (∀ (x : SHA256_CTX) (e : List Nat),
      (∀ i, i < 8 → x.state.getD i 0 = c.state.getD i 0) →
      (∀ j, j < 64 → e.getD j 0 = d.getD j 0) →
      (sha256_transform x e).state = (sha256_transform c d).state) ∧
    ∃ a b c' d' e f g h,
      (List.range 64).foldl
          (sha256_round (sha256_schedule_expand (sha256_schedule_load d)))
          (c.state.getD 0 0, c.state.getD 1 0, c.state.getD 2 0, c.state.getD 3 0,
           c.state.getD 4 0, c.state.getD 5 0, c.state.getD 6 0, c.state.getD 7 0)
        = (a, b, c', d', e, f, g, h) ∧
      (sha256_transform c d).state =
        [(c.state.getD 0 0 + a) % 2 ^ 32, (c.state.getD 1 0 + b) % 2 ^ 32,
         (c.state.getD 2 0 + c') % 2 ^ 32, (c.state.getD 3 0 + d') % 2 ^ 32,
         (c.state.getD 4 0 + e) % 2 ^ 32, (c.state.getD 5 0 + f) % 2 ^ 32,
         (c.state.getD 6 0 + g) % 2 ^ 32, (c.state.getD 7 0 + h) % 2 ^ 32] := by
  refine ⟨rfl, rfl, rfl, fun x e hs hd => ?_, ?_⟩
  · show sha256_rounds (sha256_schedule_expand (sha256_schedule_load e)) x.state
        = sha256_rounds (sha256_schedule_expand (sha256_schedule_load d)) c.state
    rw [sha256_schedule_load_congr d e hd, sha256_rounds_congr _ c.state x.state hs]
  · have key : ∀ w : Nat × Nat × Nat × Nat × Nat × Nat × Nat × Nat,
        (List.range 64).foldl
            (sha256_round (sha256_schedule_expand (sha256_schedule_load d)))
            (c.state.getD 0 0, c.state.getD 1 0, c.state.getD 2 0, c.state.getD 3 0,
             c.state.getD 4 0, c.state.getD 5 0, c.state.getD 6 0, c.state.getD 7 0) = w →
        ∃ a b c' d' e f g h,
          (List.range 64).foldl
              (sha256_round (sha256_schedule_expand (sha256_schedule_load d)))
              (c.state.getD 0 0, c.state.getD 1 0, c.state.getD 2 0, c.state.getD 3 0,
               c.state.getD 4 0, c.state.getD 5 0, c.state.getD 6 0, c.state.getD 7 0)
            = (a, b, c', d', e, f, g, h) ∧
          (sha256_transform c d).state =
            [(c.state.getD 0 0 + a) % 2 ^ 32, (c.state.getD 1 0 + b) % 2 ^ 32,
             (c.state.getD 2 0 + c') % 2 ^ 32, (c.state.getD 3 0 + d') % 2 ^ 32,
             (c.state.getD 4 0 + e) % 2 ^ 32, (c.state.getD 5 0 + f) % 2 ^ 32,
             (c.state.getD 6 0 + g) % 2 ^ 32, (c.state.getD 7 0 + h) % 2 ^ 32] := by
      intro w hw
      obtain ⟨a, b, c', d', e, f, g, h⟩ := w
      refine ⟨a, b, c', d', e, f, g, h, hw, ?_⟩
      show sha256_rounds (sha256_schedule_expand (sha256_schedule_load d)) c.state = _
      unfold sha256_rounds
      simp only [hw]
    exact key _ rfl

/-- The first loop of `sha512_transform` reads the first 128 bytes of the block only. -/
theorem sha512_schedule_load_congr (d e : List Nat)
    (h : ∀ j, j < 128 → e.getD j 0 = d.getD j 0) :
    sha512_schedule_load e = sha512_schedule_load d := by
  unfold sha512_schedule_load
  apply List.map_congr_left
  intro i hi
  have hi' : i < 16 := List.mem_range.mp hi
  simp only [h (i * 8 + 0) (by omega), h (i * 8 + 1) (by omega), h (i * 8 + 2) (by omega),
    h (i * 8 + 3) (by omega),
    h (i * 8 + 4) (by omega), h (i * 8 + 5) (by omega), h (i * 8 + 6) (by omega),
    h (i * 8 + 7) (by omega)]

/-- The rounds of `sha512_transform` read the first eight state words only. -/
theorem sha512_rounds_congr (m s t : List Nat)
    (h : ∀ i, i < 8 → t.getD i 0 = s.getD i 0) :
    sha512_rounds m t = sha512_rounds m s := by
  unfold sha512_rounds
  simp only [h 0 (by decide), h 1 (by decide), h 2 (by decide), h 3 (by decide),
    h 4 (by decide), h 5 (by decide), h 6 (by decide), h 7 (by decide)]

/-- What `sha512_transform` does: only the state changes, the new state is determined by the
eight old state words and the 128 bytes of the block, and each new word is the old word plus
the working variable left by the rounds, modulo `2^64`. -/
theorem sha512_transform_pure (c : SHA512_CTX) (d : List Nat) :
    (sha512_transform c d).count = c.count ∧
    (sha512_transform c d).buffer = c.buffer ∧
    (sha512_transform c d).buffer_len = c.buffer_len ∧
    (∀ (x : SHA512_CTX) (e : List Nat),
      (∀ i, i < 8 → x.state.getD i 0 = c.state.getD i 0) →
      (∀ j, j < 128 → e.getD j 0 = d.getD j 0) →
      (sha512_transform x e).state = (sha512_transform c d).state) ∧
    ∃ a b c' d' e f g h,
      (List.range 80).foldl
          (sha512_round (sha512_schedule_expand (sha512_schedule_load d)))
          (c.state.getD 0 0, c.state.getD 1 0, c.state.getD 2 0, c.state.getD 3 0,
           c.state.getD 4 0, c.state.getD 5 0, c.state.getD 6 0, c.state.getD 7 0)
        = (a, b, c', d', e, f, g, h) ∧
      (sha512_transform c d).state =
        [(c.state.getD 0 0 + a) % 2 ^ 64, (c.state.getD 1 0 + b) % 2 ^ 64,
         (c.state.getD 2 0 + c') % 2 ^ 64, (c.state.getD 3 0 + d') % 2 ^ 64,
         (c.state.getD 4 0 + e) % 2 ^ 64, (c.state.getD 5 0 + f) % 2 ^ 64,
         (c.state.getD 6 0 + g) % 2 ^ 64, (c.state.getD 7 0 + h) % 2 ^ 64] := by
  refine ⟨rfl, rfl, rfl, fun x e hs hd => ?_, ?_⟩
  · show sha512_rounds (sha512_schedule_expand (sha512_schedule_load e)) x.state
        = sha512_rounds (sha512_schedule_expand (sha512_schedule_load d)) c.state
    rw [sha512_schedule_load_congr d e hd, sha512_rounds_congr _ c.state x.state hs]
  · have key : ∀ w : Nat × Nat × Nat × Nat × Nat × Nat × Nat × Nat,
        (List.range 80).foldl
            (sha512_round (sha512_schedule_expand (sha512_schedule_load d)))
            (c.state.getD 0 0, c.state.getD 1 0, c.state.getD 2 0, c.state.getD 3 0,
             c.state.getD 4 0, c.state.getD 5 0, c.state.getD 6 0, c.state.getD 7 0) = w →
        ∃ a b c' d' e f g h,
          (List.range 80).foldl
              (sha512_round (sha512_schedule_expand (sha512_schedule_load d)))
              (c.state.getD 0 0, c.state.getD 1 0, c.state.getD 2 0, c.state.getD 3 0,
               c.state.getD 4 0, c.state.getD 5 0, c.state.getD 6 0, c.state.getD 7 0)
            = (a, b, c', d', e, f, g, h) ∧
          (sha512_transform c d).state =
            [(c.state.getD 0 0 + a) % 2 ^ 64, (c.state.getD 1 0 + b) % 2 ^ 64,
             (c.state.getD 2 0 + c') % 2 ^ 64, (c.state.getD 3 0 + d') % 2 ^ 64,
             (c.state.getD 4 0 + e) % 2 ^ 64, (c.state.getD 5 0 + f) % 2 ^ 64,
             (c.state.getD 6 0 + g) % 2 ^ 64, (c.state.getD 7 0 + h) % 2 ^ 64] := by
      intro w hw
      obtain ⟨a, b, c', d', e, f, g, h⟩ := w
      refine ⟨a, b, c', d', e, f, g, h, hw, ?_⟩
      show sha512_rounds (sha512_schedule_expand (sha512_schedule_load d)) c.state = _
      unfold sha512_rounds
      simp only [hw]
    exact key _ rfl

/-- C32: `sha256_transform` and `sha512_transform` leave the counter, the buffer bytes and
`buffer_len` unchanged; the resulting state is the same for every context with the same 8
state words and every block with the same 64 (128) bytes; and each resulting state word is
the input word plus, modulo `2^32` (`2^64`), the corresponding working variable after the
64 (80) rounds. -/
theorem transform_is_pure (c : SHA256_CTX) (c' : SHA512_CTX) (d : List Nat) :
    ((sha256_transform c d).count = c.count ∧
     (sha256_transform c d).buffer = c.buffer ∧
     (sha256_transform c d).buffer_len = c.buffer_len ∧
     (∀ (x : SHA256_CTX) (e : List Nat),
       (∀ i, i < 8 → x.state.getD i 0 = c.state.getD i 0) →
       (∀ j, j < 64 → e.getD j 0 = d.getD j 0) →
       (sha256_transform x e).state = (sha256_transform c d).state) ∧
     ∃ w0 w1 w2 w3 w4 w5 w6 w7,
       (List.range 64).foldl
           (sha256_round (sha256_schedule_expand (sha256_schedule_load d)))
           (c.state.getD 0 0, c.state.getD 1 0, c.state.getD 2 0, c.state.getD 3 0,
            c.state.getD 4 0, c.state.getD 5 0, c.state.getD 6 0, c.state.getD 7 0)
         = (w0, w1, w2, w3, w4, w5, w6, w7) ∧
       (sha256_transform c d).state =
         [(c.state.getD 0 0 + w0) % 2 ^ 32, (c.state.getD 1 0 + w1) % 2 ^ 32,
          (c.state.getD 2 0 + w2) % 2 ^ 32, (c.state.getD 3 0 + w3) % 2 ^ 32,
          (c.state.getD 4 0 + w4) % 2 ^ 32, (c.state.getD 5 0 + w5) % 2 ^ 32,
          (c.state.getD 6 0 + w6) % 2 ^ 32, (c.state.getD 7 0 + w7) % 2 ^ 32]) ∧
    ((sha512_transform c' d).count = c'.count ∧
     (sha512_transform c' d).buffer = c'.buffer ∧
     (sha512_transform c' d).buffer_len = c'.buffer_len ∧
     (∀ (x : SHA512_CTX) (e : List Nat),
       (∀ i, i < 8 → x.state.getD i 0 = c'.state.getD i 0) →
       (∀ j, j < 128 → e.getD j 0 = d.getD j 0) →
       (sha512_transform x e).state = (sha512_transform c' d).state) ∧
     ∃ w0 w1 w2 w3 w4 w5 w6 w7,
       (List.range 80).foldl
           (sha512_round (sha512_schedule_expand (sha512_schedule_load d)))
           (c'.state.getD 0 0, c'.state.getD 1 0, c'.state.getD 2 0, c'.state.getD 3 0,
            c'.state.getD 4 0, c'.state.getD 5 0, c'.state.getD 6 0, c'.state.getD 7 0)
         = (w0, w1, w2, w3, w4, w5, w6, w7) ∧
       (sha512_transform c' d).state =
         [(c'.state.getD 0 0 + w0) % 2 ^ 64, (c'.state.getD 1 0 + w1) % 2 ^ 64,
          (c'.state.getD 2 0 + w2) % 2 ^ 64, (c'.state.getD 3 0 + w3) % 2 ^ 64,
          (c'.state.getD 4 0 + w4) % 2 ^ 64, (c'.state.getD 5 0 + w5) % 2 ^ 64,
          (c'.state.getD 6 0 + w6) % 2 ^ 64, (c'.state.getD 7 0 + w7) % 2 ^ 64]) :=
  ⟨sha256_transform_pure c d, sha512_transform_pure c' d⟩

/-- Witness for C32: a context that differs from the all-zero one in its counter, buffer and
a ninth state word, and a block that differs from the empty one past its first 64 (128) bytes,
give the same state. -/
theorem transform_is_pure_witness :
    (sha256_transform
        (SHA256_CTX.mk [0, 0, 0, 0, 0, 0, 0, 0, 9] 7 [1, 2, 3] 3)
        (List.replicate 64 0 ++ [5])).state
      = (sha256_transform sha256_zero_ctx []).state ∧
    (sha512_transform
        (SHA512_CTX.mk [0, 0, 0, 0, 0, 0, 0, 0, 9] (7, 0) [1, 2, 3] 3)
        (List.replicate 128 0 ++ [5])).state
      = (sha512_transform sha512_zero_ctx []).state :=
  ⟨(transform_is_pure sha256_zero_ctx sha512_zero_ctx []).1.2.2.2.1
      (SHA256_CTX.mk [0, 0, 0, 0, 0, 0, 0, 0, 9] 7 [1, 2, 3] 3) (List.replicate 64 0 ++ [5])
      (by decide) (by decide),
   (transform_is_pure sha256_zero_ctx sha512_zero_ctx []).2.2.2.2.1
      (SHA512_CTX.mk [0, 0, 0, 0, 0, 0, 0, 0, 9] (7, 0) [1, 2, 3] 3) (List.replicate 128 0 ++ [5])
      (by decide) (by decide)⟩

/-! ## SHA-256: the copies and reads made by Update and Final -/

theorem sha256_pad_len_pos (buffer_len : Nat) (h : buffer_len < 64) :
    1 ≤ sha256_pad_len buffer_len ∧ sha256_pad_len buffer_len + 8 ≤ 2 * 64 ∧
    sha256_pad_len buffer_len + 8
      = (if buffer_len < 56 then 64 - buffer_len else 2 * 64 - buffer_len) := by
  unfold sha256_pad_len SHA256_BLOCK_SIZE
  try unfold SHA512_PAD_THRESHOLD SHA512_BLOCK_SIZE SHA512_LENGTH_SIZE
  split_ifs <;> omega

/-- Every read of the in-place loop of `sha256_update` ends at or before
`input + remaining`, which the loop keeps constant. -/
theorem sha256_update_loop_reads_bound (fuel : Nat) :
    ∀ input remaining : Nat,
      (∀ x ∈ (sha256_update_loop_reads fuel input remaining).1,
        x.1 + x.2 ≤ input + remaining) ∧
      (sha256_update_loop_reads fuel input remaining).2.1
        + (sha256_update_loop_reads fuel input remaining).2.2 = input + remaining := by
  induction fuel with
  | zero => intro input remaining; exact ⟨fun x hx => absurd hx (List.not_mem_nil x), rfl⟩
  | succ k ih =>
    intro input remaining
    rw [sha256_update_loop_reads]
    by_cases h : remaining ≥ SHA256_BLOCK_SIZE
    · rw [if_pos h]
      have hB : SHA256_BLOCK_SIZE = 64 := rfl
      rw [hB] at h ⊢
      obtain ⟨h1, h2⟩ := ih (input + 64) (remaining - 64)
      refine ⟨fun x hx => ?_, ?_⟩
      · rcases List.mem_cons.mp hx with rfl | hx'
        · show input + 64 ≤ input + remaining
          omega
        · have := h1 x hx'
          omega
      · show (sha256_update_loop_reads k (input + 64) (remaining - 64)).2.1
          + (sha256_update_loop_reads k (input + 64) (remaining - 64)).2.2 = _
        omega
    · rw [if_neg h]
      exact ⟨fun x hx => absurd hx (List.not_mem_nil x), rfl⟩

/-- The offsets of `sha256_update_loop_reads` are the positions of the pointer `input` of
`sha256_update_loop`, and the remaining lengths agree. -/
theorem sha256_update_loop_reads_follow (fuel : Nat) :
    ∀ (c : SHA256_CTX) (d : List Nat) (input remaining : Nat),
      (sha256_update_loop fuel c (d.drop input) remaining).2.1
        = d.drop (sha256_update_loop_reads fuel input remaining).2.1 ∧
      (sha256_update_loop fuel c (d.drop input) remaining).2.2
        = (sha256_update_loop_reads fuel input remaining).2.2 := by
  induction fuel with
  | zero => intro c d input remaining; exact ⟨rfl, rfl⟩
  | succ k ih =>
    intro c d input remaining
    rw [sha256_update_loop, sha256_update_loop_reads]
    by_cases h : remaining ≥ SHA256_BLOCK_SIZE
    · rw [if_pos h, if_pos h, List.drop_drop]
      exact ih _ d _ _
    · rw [if_neg h, if_neg h]
      exact ⟨rfl, rfl⟩

/-- Every copy of `sha256_update` into the buffer stays inside its 64 bytes. -/
theorem sha256_update_copies_bound (c : SHA256_CTX) (input : List Nat) (len : Nat)
    (hl : c.buffer_len < 64) :
    ∀ x ∈ sha256_update_copies c input len, x.1 + x.2 ≤ 64 := by
  obtain ⟨h1, h2, _, _⟩ := sha256_update_fill_full c input len hl
  obtain ⟨h3, h4⟩ := sha256_update_loop_buffer_len (sha256_update_fill c input len).1
    (sha256_update_fill c input len).2.1 (sha256_update_fill c input len).2.2
  have hmod : (c.buffer_len + len) % 64 < 64 := Nat.mod_lt _ (by decide)
  intro x hx
  unfold sha256_update_copies at hx
  simp only [SHA256_BLOCK_SIZE] at hx
  rcases List.mem_append.mp hx with hx | hx
  · split_ifs at hx
    all_goals first
      | exact absurd hx (List.not_mem_nil x)
      | (rw [List.mem_singleton] at hx; subst hx; simp only; omega)
  · split_ifs at hx
    all_goals first
      | exact absurd hx (List.not_mem_nil x)
      | (rw [List.mem_singleton] at hx; subst hx; simp only; omega)

/-- Every read of `sha256_update` from the caller's data lies within its first `len` bytes. -/
theorem sha256_update_reads_bound (c : SHA256_CTX) (len : Nat) :
    ∀ x ∈ sha256_update_reads c len, x.1 + x.2 ≤ len := by
  intro x hx
  unfold sha256_update_reads at hx
  simp only [SHA256_BLOCK_SIZE] at hx
  generalize htc : (if len < 64 - c.buffer_len then len else 64 - c.buffer_len) = tc at hx
  have htc' : tc ≤ len := by rw [← htc]; split_ifs <;> omega
  generalize hin : (if c.buffer_len > 0 then tc else 0) = input1 at hx
  generalize hrem : (if c.buffer_len > 0 then len - tc else len) = remaining1 at hx
  have hsum : input1 + remaining1 = len := by
    rw [← hin, ← hrem]; split_ifs <;> omega
  obtain ⟨h1, h2⟩ := sha256_update_loop_reads_bound remaining1 input1 remaining1
  rcases List.mem_append.mp hx with hx | hx
  · rcases List.mem_append.mp hx with hx | hx
    · split_ifs at hx
      all_goals first
        | exact absurd hx (List.not_mem_nil x)
        | (rw [List.mem_singleton] at hx; subst hx; simp only; omega)
    · have := h1 x hx
      omega
  · split_ifs at hx
    all_goals first
      | exact absurd hx (List.not_mem_nil x)
      | (rw [List.mem_singleton] at hx; subst hx; simp only; omega)

/-- Every iteration of the padding loop of `sha256_final` copies at least one byte, into the
64 bytes of the buffer, from the first `total` bytes of the padding. -/
theorem sha256_final_copies_bound (fuel : Nat) :
    ∀ (c : SHA256_CTX) (padding : List Nat) (total i : Nat), c.buffer_len < 64 →
      ∀ x ∈ sha256_final_copies fuel c padding total i,
        x.1 + x.2.2 ≤ 64 ∧ x.2.1 + x.2.2 ≤ total ∧ 1 ≤ x.2.2 := by
  induction fuel with
  | zero => intro c padding total i _ x hx; exact absurd hx (List.not_mem_nil x)
  | succ k ih =>
    intro c padding total i hl x hx
    rw [sha256_final_copies] at hx
    by_cases hi : i < total
    · rw [if_pos hi] at hx
      simp only [SHA256_BLOCK_SIZE] at hx
      generalize htc : (if total - i < 64 - c.buffer_len then total - i
        else 64 - c.buffer_len) = tc at hx
      have htc' : tc ≤ total - i ∧ tc ≤ 64 - c.buffer_len ∧ 1 ≤ tc := by
        rw [← htc]; split_ifs <;> omega
      rcases List.mem_cons.mp hx with rfl | hx'
      · simp only; omega
      · refine ih _ padding total (i + tc) ?_ x hx'
        split_ifs with hfull
        · show (0 : Nat) < 64
          decide
        · show c.buffer_len + tc < 64
          omega
    · rw [if_neg hi] at hx
      exact absurd hx (List.not_mem_nil x)

theorem sha256_final_copies_done (fuel : Nat) (c : SHA256_CTX) (padding : List Nat)
    (total i : Nat) (h : ¬ i < total) : sha256_final_copies fuel c padding total i = [] := by
  cases fuel with
  | zero => rfl
  | succ k => rw [sha256_final_copies, if_neg h]

/-- One iteration of the padding loop when the padding left fills the buffer. -/
theorem sha256_final_copies_fill (fuel : Nat) (c : SHA256_CTX) (padding : List Nat)
    (total i : Nat)
    (hl : c.buffer_len < 64) (hi : i < total) (hsp : 64 - c.buffer_len ≤ total - i) :
    sha256_final_copies (fuel + 1) c padding total i =
      (c.buffer_len, i, 64 - c.buffer_len) ::
      sha256_final_copies fuel
        { c with state := sha256_compress c.state
                    (memcpy c.buffer c.buffer_len (padding.drop i) (64 - c.buffer_len)),
                 buffer := memcpy c.buffer c.buffer_len (padding.drop i) (64 - c.buffer_len),
                 buffer_len := 0 }
        padding total (i + (64 - c.buffer_len)) := by
  have hnlt : ¬ total - i < 64 - c.buffer_len := by omega
  have he : c.buffer_len + (64 - c.buffer_len) = 64 := by omega
  rw [sha256_final_copies, if_pos hi]
  simp only [SHA256_BLOCK_SIZE, hnlt, if_false, he, if_true]
  rw [sha256_transform_eq]

/-- The iterations of the padding loop of `sha256_final` on a context with fewer than 64
pending bytes, for any fuel of at least 2: one iteration when the padding fits the block, two
otherwise; the last one ends at `i = pad_len + 8`, where the loop condition fails. -/
theorem sha256_final_copies_spec (fuel : Nat) (c : SHA256_CTX) (padding : List Nat)
    (hl : c.buffer_len < 64) (hfuel : 2 ≤ fuel) :
    (c.buffer_len < 56 →
      sha256_final_copies fuel c padding (sha256_pad_len c.buffer_len + 8) 0
        = [(c.buffer_len, 0, sha256_pad_len c.buffer_len + 8)]) ∧
    (56 ≤ c.buffer_len →
      sha256_final_copies fuel c padding (sha256_pad_len c.buffer_len + 8) 0
        = [(c.buffer_len, 0, 64 - c.buffer_len), (0, 64 - c.buffer_len, 64)] ∧
      64 - c.buffer_len + 64 = sha256_pad_len c.buffer_len + 8) := by
  obtain ⟨k, rfl⟩ : ∃ k, fuel = k + 2 := ⟨fuel - 2, by omega⟩
  rw [(sha256_pad_len_pos c.buffer_len hl).2.2]
  constructor
  · intro hlt
    rw [if_pos hlt]
    rw [sha256_final_copies_fill (k + 1) c padding _ 0 hl (by omega) (by omega),
      sha256_final_copies_done _ _ _ _ _ (by omega)]
  · intro hge
    have hnlt : ¬ c.buffer_len < 56 := by omega
    rw [if_neg hnlt]
    rw [sha256_final_copies_fill (k + 1) c padding _ 0 hl (by omega) (by omega),
      sha256_final_copies_fill k _ padding _ _ (Nat.zero_lt_succ _) (by omega)
        (by simp only; omega),
      sha256_final_copies_done _ _ _ _ _ (by simp only; omega)]
    simp only [Nat.zero_add, Nat.sub_zero]
    exact ⟨trivial, by omega⟩

/-- The scratch array of `sha256_final` is written up to index `pad_len + 8`. -/
theorem sha256_padding_length (pad_len : Nat) (count : Nat) (h : 1 ≤ pad_len) :
    (sha256_padding pad_len count).length = pad_len + 8 := by
  unfold sha256_padding
  simp only [List.length_append, List.length_replicate, List.length_singleton, store_be64,
    List.length_cons, List.length_nil]
  omega

/-! ## SHA-512: the copies and reads made by Update and Final -/

theorem sha512_pad_len_pos (buffer_len : Nat) (h : buffer_len < 128) :
    1 ≤ sha512_pad_len buffer_len ∧ sha512_pad_len buffer_len + 16 ≤ 2 * 128 ∧
    sha512_pad_len buffer_len + 16
      = (if buffer_len < 112 then 128 - buffer_len else 2 * 128 - buffer_len) := by
  unfold sha512_pad_len SHA512_BLOCK_SIZE
  try unfold SHA512_PAD_THRESHOLD SHA512_BLOCK_SIZE SHA512_LENGTH_SIZE
  split_ifs <;> omega

/-- Every read of the in-place loop of `sha512_update` ends at or before
`input + remaining`, which the loop keeps constant. -/
theorem sha512_update_loop_reads_bound (fuel : Nat) :
    ∀ input remaining : Nat,
      (∀ x ∈ (sha512_update_loop_reads fuel input remaining).1,
        x.1 + x.2 ≤ input + remaining) ∧
      (sha512_update_loop_reads fuel input remaining).2.1
        + (sha512_update_loop_reads fuel input remaining).2.2 = input + remaining := by
  induction fuel with
  | zero => intro input remaining; exact ⟨fun x hx => absurd hx (List.not_mem_nil x), rfl⟩
  | succ k ih =>
    intro input remaining
    rw [sha512_update_loop_reads]
    by_cases h : remaining ≥ SHA512_BLOCK_SIZE
    · rw [if_pos h]
      have hB : SHA512_BLOCK_SIZE = 128 := rfl
      rw [hB] at h ⊢
      obtain ⟨h1, h2⟩ := ih (input + 128) (remaining - 128)
      refine ⟨fun x hx => ?_, ?_⟩
      · rcases List.mem_cons.mp hx with rfl | hx'
        · show input + 128 ≤ input + remaining
          omega
        · have := h1 x hx'
          omega
      · show (sha512_update_loop_reads k (input + 128) (remaining - 128)).2.1
          + (sha512_update_loop_reads k (input + 128) (remaining - 128)).2.2 = _
        omega
    · rw [if_neg h]
      exact ⟨fun x hx => absurd hx (List.not_mem_nil x), rfl⟩

/-- The offsets of `sha512_update_loop_reads` are the positions of the pointer `input` of
`sha512_update_loop`, and the remaining lengths agree. -/
theorem sha512_update_loop_reads_follow (fuel : Nat) :
    ∀ (c : SHA512_CTX) (d : List Nat) (input remaining : Nat),
      (sha512_update_loop fuel c (d.drop input) remaining).2.1
        = d.drop (sha512_update_loop_reads fuel input remaining).2.1 ∧
      (sha512_update_loop fuel c (d.drop input) remaining).2.2
        = (sha512_update_loop_reads fuel input remaining).2.2 := by
  induction fuel with
  | zero => intro c d input remaining; exact ⟨rfl, rfl⟩
  | succ k ih =>
    intro c d input remaining
    rw [sha512_update_loop, sha512_update_loop_reads]
    by_cases h : remaining ≥ SHA512_BLOCK_SIZE
    · rw [if_pos h, if_pos h, List.drop_drop]
      exact ih _ d _ _
    · rw [if_neg h, if_neg h]
      exact ⟨rfl, rfl⟩

/-- Every copy of `sha512_update` into the buffer stays inside its 128 bytes. -/
theorem sha512_update_copies_bound (c : SHA512_CTX) (input : List Nat) (len : Nat)
    (hl : c.buffer_len < 128) :
    ∀ x ∈ sha512_update_copies c input len, x.1 + x.2 ≤ 128 := by
  obtain ⟨h1, h2, _, _⟩ := sha512_update_fill_full c input len hl
  obtain ⟨h3, h4⟩ := sha512_update_loop_buffer_len (sha512_update_fill c input len).1
    (sha512_update_fill c input len).2.1 (sha512_update_fill c input len).2.2
  have hmod : (c.buffer_len + len) % 128 < 128 := Nat.mod_lt _ (by decide)
  intro x hx
  unfold sha512_update_copies at hx
  simp only [SHA512_BLOCK_SIZE] at hx
  rcases List.mem_append.mp hx with hx | hx
  · split_ifs at hx
    all_goals first
      | exact absurd hx (List.not_mem_nil x)
      | (rw [List.mem_singleton] at hx; subst hx; simp only; omega)
  · split_ifs at hx
    all_goals first
      | exact absurd hx (List.not_mem_nil x)
      | (rw [List.mem_singleton] at hx; subst hx; simp only; omega)

/-- Every read of `sha512_update` from the caller's data lies within its first `len` bytes. -/
theorem sha512_update_reads_bound (c : SHA512_CTX) (len : Nat) :
    ∀ x ∈ sha512_update_reads c len, x.1 + x.2 ≤ len := by
  intro x hx
  unfold sha512_update_reads at hx
  simp only [SHA512_BLOCK_SIZE] at hx
  generalize htc : (if len < 128 - c.buffer_len then len else 128 - c.buffer_len) = tc at hx
  have htc' : tc ≤ len := by rw [← htc]; split_ifs <;> omega
  generalize hin : (if c.buffer_len > 0 then tc else 0) = input1 at hx
  generalize hrem : (if c.buffer_len > 0 then len - tc else len) = remaining1 at hx
  have hsum : input1 + remaining1 = len := by
    rw [← hin, ← hrem]; split_ifs <;> omega
  obtain ⟨h1, h2⟩ := sha512_update_loop_reads_bound remaining1 input1 remaining1
  rcases List.mem_append.mp hx with hx | hx
  · rcases List.mem_append.mp hx with hx | hx
    · split_ifs at hx
      all_goals first
        | exact absurd hx (List.not_mem_nil x)
        | (rw [List.mem_singleton] at hx; subst hx; simp only; omega)
    · have := h1 x hx
      omega
  · split_ifs at hx
    all_goals first
      | exact absurd hx (List.not_mem_nil x)
      | (rw [List.mem_singleton] at hx; subst hx; simp only; omega)

/-- Every iteration of the padding loop of `sha512_final` copies at least one byte, into the
128 bytes of the buffer, from the first `total` bytes of the padding. -/
theorem sha512_final_copies_bound (fuel : Nat) :
    ∀ (c : SHA512_CTX) (padding : List Nat) (total i : Nat), c.buffer_len < 128 →
      ∀ x ∈ sha512_final_copies fuel c padding total i,
        x.1 + x.2.2 ≤ 128 ∧ x.2.1 + x.2.2 ≤ total ∧ 1 ≤ x.2.2 := by
  induction fuel with
  | zero => intro c padding total i _ x hx; exact absurd hx (List.not_mem_nil x)
  | succ k ih =>
    intro c padding total i hl x hx
    rw [sha512_final_copies] at hx
    by_cases hi : i < total
    · rw [if_pos hi] at hx
      simp only [SHA512_BLOCK_SIZE] at hx
      generalize htc : (if total - i < 128 - c.buffer_len then total - i
        else 128 - c.buffer_len) = tc at hx
      have htc' : tc ≤ total - i ∧ tc ≤ 128 - c.buffer_len ∧ 1 ≤ tc := by
        rw [← htc]; split_ifs <;> omega
      rcases List.mem_cons.mp hx with rfl | hx'
      · simp only; omega
      · refine ih _ padding total (i + tc) ?_ x hx'
        split_ifs with hfull
        · show (0 : Nat) < 128
          decide
        · show c.buffer_len + tc < 128
          omega
    · rw [if_neg hi] at hx
      exact absurd hx (List.not_mem_nil x)

theorem sha512_final_copies_done (fuel : Nat) (c : SHA512_CTX) (padding : List Nat)
    (total i : Nat) (h : ¬ i < total) : sha512_final_copies fuel c padding total i = [] := by
  cases fuel with
  | zero => rfl
  | succ k => rw [sha512_final_copies, if_neg h]

/-- One iteration of the padding loop when the padding left fills the buffer. -/
theorem sha512_final_copies_fill (fuel : Nat) (c : SHA512_CTX) (padding : List Nat)
    (total i : Nat)
    (hl : c.buffer_len < 128) (hi : i < total) (hsp : 128 - c.buffer_len ≤ total - i) :
    sha512_final_copies (fuel + 1) c padding total i =
      (c.buffer_len, i, 128 - c.buffer_len) ::
      sha512_final_copies fuel
        { c with state := sha512_compress c.state
                    (memcpy c.buffer c.buffer_len (padding.drop i) (128 - c.buffer_len)),
                 buffer := memcpy c.buffer c.buffer_len (padding.drop i) (128 - c.buffer_len),
                 buffer_len := 0 }
        padding total (i + (128 - c.buffer_len)) := by
  have hnlt : ¬ total - i < 128 - c.buffer_len := by omega
  have he : c.buffer_len + (128 - c.buffer_len) = 128 := by omega
  rw [sha512_final_copies, if_pos hi]
  simp only [SHA512_BLOCK_SIZE, hnlt, if_false, he, if_true]
  rw [sha512_transform_eq]

/-- The iterations of the padding loop of `sha512_final` on a context with fewer than 128
pending bytes, for any fuel of at least 2: one iteration when the padding fits the block, two
otherwise; the last one ends at `i = pad_len + 16`, where the loop condition fails. -/
theorem sha512_final_copies_spec (fuel : Nat) (c : SHA512_CTX) (padding : List Nat)
    (hl : c.buffer_len < 128) (hfuel : 2 ≤ fuel) :
    (c.buffer_len < 112 →
      sha512_final_copies fuel c padding (sha512_pad_len c.buffer_len + 16) 0
        = [(c.buffer_len, 0, sha512_pad_len c.buffer_len + 16)]) ∧
    (112 ≤ c.buffer_len →
      sha512_final_copies fuel c padding (sha512_pad_len c.buffer_len + 16) 0
        = [(c.buffer_len, 0, 128 - c.buffer_len), (0, 128 - c.buffer_len, 128)] ∧
      128 - c.buffer_len + 128 = sha512_pad_len c.buffer_len + 16) := by
  obtain ⟨k, rfl⟩ : ∃ k, fuel = k + 2 := ⟨fuel - 2, by omega⟩
  rw [(sha512_pad_len_pos c.buffer_len hl).2.2]
  constructor
  · intro hlt
    rw [if_pos hlt]
    rw [sha512_final_copies_fill (k + 1) c padding _ 0 hl (by omega) (by omega),
      sha512_final_copies_done _ _ _ _ _ (by omega)]
  · intro hge
    have hnlt : ¬ c.buffer_len < 112 := by omega
    rw [if_neg hnlt]
    rw [sha512_final_copies_fill (k + 1) c padding _ 0 hl (by omega) (by omega),
      sha512_final_copies_fill k _ padding _ _ (Nat.zero_lt_succ _) (by omega)
        (by simp only; omega),
      sha512_final_copies_done _ _ _ _ _ (by simp only; omega)]
    simp only [Nat.zero_add, Nat.sub_zero]
    exact ⟨trivial, by omega⟩

/-- The scratch array of `sha512_final` is written up to index `pad_len + 16`. -/
theorem sha512_padding_length (pad_len : Nat) (count : Nat × Nat) (h : 1 ≤ pad_len) :
    (sha512_padding pad_len count).length = pad_len + 16 := by
  unfold sha512_padding
  simp only [List.length_append, List.length_replicate, List.length_singleton, store_be64,
    List.length_cons, List.length_nil]
  omega

/-- C33: for every context with `buffer_len < B`, every copy that Update makes into
`ctx.buffer` has `offset + length <= B`, every read that Update makes from the caller's data
ends within its first `len` bytes, every iteration of Final's padding loop copies into the
buffer with `offset + length <= B` from the padding at `i + to_copy <= pad_len + L`, and the
scratch array of `2 B` bytes is written on `1 <= pad_len` and `pad_len + L <= 2 B` bytes
exactly. `B` is 64 and `L` is 8 for SHA-256; `B` is 128 and `L` is 16 for SHA-512. -/
theorem buffer_accesses_in_bounds (c : SHA256_CTX) (c' : SHA512_CTX) (input padding : List Nat)
    (len fuel : Nat) (hl : c.buffer_len < 64) (hl' : c'.buffer_len < 128) :
    ((∀ x ∈ sha256_update_copies c input len, x.1 + x.2 ≤ 64) ∧
     (∀ x ∈ sha256_update_reads c len, x.1 + x.2 ≤ len) ∧
     (∀ x ∈ sha256_final_copies fuel c padding (sha256_pad_len c.buffer_len + 8) 0,
       x.1 + x.2.2 ≤ 64 ∧ x.2.1 + x.2.2 ≤ sha256_pad_len c.buffer_len + 8) ∧
     1 ≤ sha256_pad_len c.buffer_len ∧ sha256_pad_len c.buffer_len + 8 ≤ 2 * 64 ∧
     (∀ bit_count, (sha256_padding (sha256_pad_len c.buffer_len) bit_count).length
       = sha256_pad_len c.buffer_len + 8)) ∧
    ((∀ x ∈ sha512_update_copies c' input len, x.1 + x.2 ≤ 128) ∧
     (∀ x ∈ sha512_update_reads c' len, x.1 + x.2 ≤ len) ∧
     (∀ x ∈ sha512_final_copies fuel c' padding (sha512_pad_len c'.buffer_len + 16) 0,
       x.1 + x.2.2 ≤ 128 ∧ x.2.1 + x.2.2 ≤ sha512_pad_len c'.buffer_len + 16) ∧
     1 ≤ sha512_pad_len c'.buffer_len ∧ sha512_pad_len c'.buffer_len + 16 ≤ 2 * 128 ∧
     (∀ count, (sha512_padding (sha512_pad_len c'.buffer_len) count).length
       = sha512_pad_len c'.buffer_len + 16)) :=
  ⟨⟨sha256_update_copies_bound c input len hl, sha256_update_reads_bound c len,
     fun x hx => ⟨(sha256_final_copies_bound fuel c padding _ 0 hl x hx).1,
       (sha256_final_copies_bound fuel c padding _ 0 hl x hx).2.1⟩,
     (sha256_pad_len_pos c.buffer_len hl).1, (sha256_pad_len_pos c.buffer_len hl).2.1,
     fun bit_count => sha256_padding_length _ bit_count (sha256_pad_len_pos c.buffer_len hl).1⟩,
   ⟨sha512_update_copies_bound c' input len hl', sha512_update_reads_bound c' len,
     fun x hx => ⟨(sha512_final_copies_bound fuel c' padding _ 0 hl' x hx).1,
       (sha512_final_copies_bound fuel c' padding _ 0 hl' x hx).2.1⟩,
     (sha512_pad_len_pos c'.buffer_len hl').1, (sha512_pad_len_pos c'.buffer_len hl').2.1,
     fun count => sha512_padding_length _ count (sha512_pad_len_pos c'.buffer_len hl').1⟩⟩

set_option maxRecDepth 100000 in
/-- Witness for C33: contexts with 3 pending bytes and a 200-byte input. Update tops the
buffer up with 61 (125) bytes at offset 3, and stores the last 11 (72) bytes read at offset
189 (125) of the data; Final's single iteration copies 61 (125) bytes at offset 3. -/
theorem buffer_accesses_in_bounds_witness :
    (3 < 64 ∧ 3 < 128) ∧
    (((3, 61) ∈ sha256_update_copies (SHA256_CTX.mk SHA256_H0 3 (List.replicate 64 0) 3)
          (List.replicate 200 1) 200 ∧ (3, 61).1 + (3, 61).2 ≤ 64) ∧
     ((189, 11) ∈ sha256_update_reads (SHA256_CTX.mk SHA256_H0 3 (List.replicate 64 0) 3) 200 ∧
        (189, 11).1 + (189, 11).2 ≤ 200) ∧
     ((3, 0, 61) ∈ sha256_final_copies 2 (SHA256_CTX.mk SHA256_H0 3 (List.replicate 64 0) 3)
          [] (sha256_pad_len 3 + 8) 0 ∧
        (3, 0, 61).1 + (3, 0, 61).2.2 ≤ 64 ∧
        (3, 0, 61).2.1 + (3, 0, 61).2.2 ≤ sha256_pad_len 3 + 8)) ∧
    (((3, 125) ∈ sha512_update_copies (SHA512_CTX.mk SHA512_H0 (24, 0) (List.replicate 128 0) 3)
          (List.replicate 200 1) 200 ∧ (3, 125).1 + (3, 125).2 ≤ 128) ∧
     ((125, 75) ∈ sha512_update_reads
          (SHA512_CTX.mk SHA512_H0 (24, 0) (List.replicate 128 0) 3) 200 ∧
        (125, 75).1 + (125, 75).2 ≤ 200) ∧
     ((3, 0, 125) ∈ sha512_final_copies 2
          (SHA512_CTX.mk SHA512_H0 (24, 0) (List.replicate 128 0) 3)
          [] (sha512_pad_len 3 + 16) 0 ∧
        (3, 0, 125).1 + (3, 0, 125).2.2 ≤ 128 ∧
        (3, 0, 125).2.1 + (3, 0, 125).2.2 ≤ sha512_pad_len 3 + 16)) :=
  have m1 : (3, 61) ∈ sha256_update_copies (SHA256_CTX.mk SHA256_H0 3 (List.replicate 64 0) 3)
      (List.replicate 200 1) 200 := by decide!
  have m2 : (189, 11) ∈ sha256_update_reads
      (SHA256_CTX.mk SHA256_H0 3 (List.replicate 64 0) 3) 200 := by decide!
  have m3 : (3, 0, 61) ∈ sha256_final_copies 2
      (SHA256_CTX.mk SHA256_H0 3 (List.replicate 64 0) 3) [] (sha256_pad_len 3 + 8) 0 := by
    decide!
  have m4 : (3, 125) ∈ sha512_update_copies
      (SHA512_CTX.mk SHA512_H0 (24, 0) (List.replicate 128 0) 3)
      (List.replicate 200 1) 200 := by decide!
  have m5 : (125, 75) ∈ sha512_update_reads
      (SHA512_CTX.mk SHA512_H0 (24, 0) (List.replicate 128 0) 3) 200 := by decide!
  have m6 : (3, 0, 125) ∈ sha512_final_copies 2
      (SHA512_CTX.mk SHA512_H0 (24, 0) (List.replicate 128 0) 3) [] (sha512_pad_len 3 + 16) 0 := by
    decide!
  have h := buffer_accesses_in_bounds (SHA256_CTX.mk SHA256_H0 3 (List.replicate 64 0) 3)
    (SHA512_CTX.mk SHA512_H0 (24, 0) (List.replicate 128 0) 3) (List.replicate 200 1) [] 200 2
    (by decide) (by decide)
  ⟨⟨by decide, by decide⟩,
   ⟨⟨m1, h.1.1 _ m1⟩, ⟨m2, h.1.2.1 _ m2⟩, ⟨m3, h.1.2.2.1 _ m3⟩⟩,
   ⟨⟨m4, h.2.1 _ m4⟩, ⟨m5, h.2.2.1 _ m5⟩, ⟨m6, h.2.2.2.1 _ m6⟩⟩⟩

/-! ## A failing `sha512_update` -/

/-- The guards of `sha512_update` that return the null-pointer error leave the context as it
was; the overflow return leaves every field but `count[0]` as it was. -/
theorem sha512_update_failure_frame (c : SHA512_CTX) (data : Option (List Nat)) (len : Nat) :
    ((sha512_update (some c) data len).1 = SHA512_ERROR_NULL_POINTER →
      (sha512_update (some c) data len).2 = some c) ∧
    ((sha512_update (some c) data len).1 = SHA512_ERROR_OVERFLOW →
      ∃ r, (sha512_update (some c) data len).2 = some r ∧
        r.state = c.state ∧ r.count.2 = c.count.2 ∧ r.buffer = c.buffer ∧
        r.buffer_len = c.buffer_len ∧
        r.count.1 = (c.count.1 + (len <<< 3) % 2 ^ 64) % 2 ^ 64) := by
  have hn1 : ¬ SHA512_SUCCESS = SHA512_ERROR_NULL_POINTER := by decide
  have hn2 : ¬ SHA512_SUCCESS = SHA512_ERROR_OVERFLOW := by decide
  have hn3 : ¬ SHA512_ERROR_NULL_POINTER = SHA512_ERROR_OVERFLOW := by decide
  have hn4 : ¬ SHA512_ERROR_OVERFLOW = SHA512_ERROR_NULL_POINTER := by decide
  unfold sha512_update
  by_cases h0 : len = 0
  · simp only [h0, if_true]
    exact ⟨fun _ => by trivial, fun h => absurd h hn2⟩
  · simp only [h0, if_false]
    cases data with
    | none => exact ⟨fun _ => by trivial, fun h => absurd h hn3⟩
    | some input =>
      simp only
      split_ifs <;>
        first
        | exact ⟨fun h => absurd h hn4, fun _ => ⟨_, rfl, rfl, rfl, rfl, rfl, rfl⟩⟩
        | exact ⟨fun h => absurd h hn1, fun h => absurd h hn2⟩

/-- The overflow return of `sha512_update` is taken only with present data, `len > 0` and a
high counter word within 8 of its maximum. -/
theorem sha512_update_overflow_high_word (c : SHA512_CTX) (data : Option (List Nat))
    (len : Nat) (hsz : len < 2 ^ 64)
    (h : (sha512_update (some c) data len).1 = SHA512_ERROR_OVERFLOW) :
    data ≠ none ∧ 0 < len ∧ 2 ^ 64 - 8 ≤ c.count.2 := by
  have hn2 : ¬ SHA512_SUCCESS = SHA512_ERROR_OVERFLOW := by decide
  have hn3 : ¬ SHA512_ERROR_NULL_POINTER = SHA512_ERROR_OVERFLOW := by decide
  have hhi : len >>> 61 < 8 := by
    rw [Nat.shiftRight_eq_div_pow]
    omega
  revert h
  unfold sha512_update
  by_cases h0 : len = 0
  · simp only [h0, if_true]
    exact fun h => absurd h hn2
  · simp only [h0, if_false]
    cases data with
    | none => exact fun h => absurd h hn3
    | some input =>
      simp only [UINT64_MAX]
      split_ifs with h1 h2 h3 <;> intro h <;>
        first
        | exact absurd h hn2
        | (refine ⟨fun hd => Option.noConfusion hd, Nat.pos_of_ne_zero h0, ?_⟩
           omega)

set_option maxRecDepth 100000 in
/-- C34, as stated, fails: a call of `sha512_update` that returns the overflow error with a
changed context. The context holds `2^125 - 1` bytes (`count = 2^128 - 8` bits, 127 bytes
buffered); one more byte makes the low counter word wrap to 0 before the check on the high
word returns `SHA512_ERROR_OVERFLOW`, and the returned context keeps `count[0] = 0`. -/
theorem sha512_update_overflow_not_atomic :
    sha512_update
        (some (SHA512_CTX.mk SHA512_H0 (2 ^ 64 - 8, 2 ^ 64 - 1) (List.replicate 128 0) 127))
        (some [0x61]) 1
      = (SHA512_ERROR_OVERFLOW,
         some (SHA512_CTX.mk SHA512_H0 (0, 2 ^ 64 - 1) (List.replicate 128 0) 127)) ∧
    (sha512_update
        (some (SHA512_CTX.mk SHA512_H0 (2 ^ 64 - 8, 2 ^ 64 - 1) (List.replicate 128 0) 127))
        (some [0x61]) 1).2
      ≠ some (SHA512_CTX.mk SHA512_H0 (2 ^ 64 - 8, 2 ^ 64 - 1) (List.replicate 128 0) 127) := by
  decide!

/-- C34, amended: for every context, data and `len`, whenever `sha512_update` returns the
null-pointer error every field of the context is exactly as it was before the call; whenever
it returns the overflow error the state, the high counter word `count[1]`, the buffer and
`buffer_len` are as they were, and the low counter word `count[0]` has been advanced by
`len << 3` modulo `2^64`. For `len` a `size_t`, the overflow error is returned only with
present data, `len > 0` and `count[1] >= 2^64 - 8`. -/
theorem sha512_update_failure_effect (c : SHA512_CTX) (data : Option (List Nat)) (len : Nat) :
    ((sha512_update (some c) data len).1 = SHA512_ERROR_NULL_POINTER →
      (sha512_update (some c) data len).2 = some c) ∧
    ((sha512_update (some c) data len).1 = SHA512_ERROR_OVERFLOW →
      ∃ r, (sha512_update (some c) data len).2 = some r ∧
        r.state = c.state ∧ r.count.2 = c.count.2 ∧ r.buffer = c.buffer ∧
        r.buffer_len = c.buffer_len ∧
        r.count.1 = (c.count.1 + (len <<< 3) % 2 ^ 64) % 2 ^ 64) ∧
    (len < 2 ^ 64 → (sha512_update (some c) data len).1 = SHA512_ERROR_OVERFLOW →
      data ≠ none ∧ 0 < len ∧ 2 ^ 64 - 8 ≤ c.count.2) :=
  ⟨(sha512_update_failure_frame c data len).1, (sha512_update_failure_frame c data len).2,
   fun hsz h => sha512_update_overflow_high_word c data len hsz h⟩

set_option maxRecDepth 100000 in
/-- Witness for C34, amended: a call with absent data and `len = 5`, which returns the
null-pointer error, and a one-byte call on a context that holds `2^125 - 1` bytes, which
returns the overflow error. -/
theorem sha512_update_failure_effect_witness :
    ((sha512_update (some (SHA512_CTX.mk SHA512_H0 (24, 0) (List.replicate 128 7) 3))
          none 5).1 = SHA512_ERROR_NULL_POINTER ∧
      (sha512_update (some (SHA512_CTX.mk SHA512_H0 (24, 0) (List.replicate 128 7) 3))
          none 5).2 = some (SHA512_CTX.mk SHA512_H0 (24, 0) (List.replicate 128 7) 3)) ∧
    ((1 < 2 ^ 64 ∧
      (sha512_update
          (some (SHA512_CTX.mk SHA512_H0 (2 ^ 64 - 8, 2 ^ 64 - 1) (List.replicate 128 0) 127))
          (some [0x61]) 1).1 = SHA512_ERROR_OVERFLOW) ∧
      (∃ r, (sha512_update
            (some (SHA512_CTX.mk SHA512_H0 (2 ^ 64 - 8, 2 ^ 64 - 1) (List.replicate 128 0) 127))
            (some [0x61]) 1).2 = some r ∧
        r.state = SHA512_H0 ∧ r.count.2 = 2 ^ 64 - 1 ∧ r.buffer = List.replicate 128 0 ∧
        r.buffer_len = 127 ∧
        r.count.1 = (2 ^ 64 - 8 + (1 <<< 3) % 2 ^ 64) % 2 ^ 64) ∧
      (some [0x61] ≠ none ∧ 0 < 1 ∧ 2 ^ 64 - 8 ≤ 2 ^ 64 - 1)) :=
  have h1 : (sha512_update (some (SHA512_CTX.mk SHA512_H0 (24, 0) (List.replicate 128 7) 3))
      none 5).1 = SHA512_ERROR_NULL_POINTER := by decide!
  have h2 : (sha512_update
      (some (SHA512_CTX.mk SHA512_H0 (2 ^ 64 - 8, 2 ^ 64 - 1) (List.replicate 128 0) 127))
      (some [0x61]) 1).1 = SHA512_ERROR_OVERFLOW := by decide!
  ⟨⟨h1, (sha512_update_failure_effect
      (SHA512_CTX.mk SHA512_H0 (24, 0) (List.replicate 128 7) 3) none 5).1 h1⟩,
   ⟨by decide, h2⟩,
   (sha512_update_failure_effect
      (SHA512_CTX.mk SHA512_H0 (2 ^ 64 - 8, 2 ^ 64 - 1) (List.replicate 128 0) 127)
      (some [0x61]) 1).2.1 h2,
   (sha512_update_failure_effect
      (SHA512_CTX.mk SHA512_H0 (2 ^ 64 - 8, 2 ^ 64 - 1) (List.replicate 128 0) 127)
      (some [0x61]) 1).2.2 (by decide) h2⟩

/-! ## The counter and the buffered length over a sequence of Update calls -/

theorem sha256_update_calls_length (calls : List (Option (List Nat) × Nat)) :
    ∀ ctx : Option SHA256_CTX, (sha256_update_calls ctx calls).1.length = calls.length := by
  induction calls with
  | nil => intro ctx; rfl
  | cons call rest ih =>
    intro ctx
    show ((sha256_update_calls (sha256_update ctx call.1 call.2).2 rest).1.length + 1 = _)
    rw [ih]; rfl

theorem sha512_update_calls_length (calls : List (Option (List Nat) × Nat)) :
    ∀ ctx : Option SHA512_CTX, (sha512_update_calls ctx calls).1.length = calls.length := by
  induction calls with
  | nil => intro ctx; rfl
  | cons call rest ih =>
    intro ctx
    show ((sha512_update_calls (sha512_update ctx call.1 call.2).2 rest).1.length + 1 = _)
    rw [ih]; rfl

/-- When every call returned success, the accepted bytes are all the bytes passed. -/
theorem accepted_bytes_all (calls : List (Option (List Nat) × Nat)) :
    ∀ codes : List Nat, codes.length = calls.length → (∀ code ∈ codes, code = 0) →
      accepted_bytes calls codes = (calls.map Prod.snd).sum := by
  induction calls with
  | nil => intro codes _ _; cases codes <;> rfl
  | cons call rest ih =>
    intro codes hlen hall
    cases codes with
    | nil => simp at hlen
    | cons code codes =>
      have h0 : code = 0 := hall code (List.mem_cons_self _ _)
      have hrest := ih codes (by simpa using hlen)
        (fun x hx => hall x (List.mem_cons_of_mem _ hx))
      show (if code = 0 then call.2 else 0) + accepted_bytes rest codes = _
      rw [if_pos h0, hrest, List.map_cons, List.sum_cons]

/-- One call of `sha256_update`, successful or not, on a context whose counter is at most
`2^61 - 1` and whose `buffer_len` is the counter modulo 64. -/
theorem sha256_update_step (c : SHA256_CTX) (data : Option (List Nat)) (len : Nat)
    (hl : c.buffer_len < 64) (hinv : c.buffer_len = c.count % 64)
    (hc : c.count ≤ 2 ^ 61 - 1) (hsz : len < 2 ^ 64) :
    ∃ r, (sha256_update (some c) data len).2 = some r ∧
      r.buffer_len < 64 ∧ r.buffer_len = r.count % 64 ∧ r.count ≤ 2 ^ 61 - 1 ∧
      r.count = c.count +
        (if (sha256_update (some c) data len).1 = 0 then len else 0) := by
  by_cases h0 : len = 0
  · subst h0
    exact ⟨c, rfl, hl, hinv, hc, rfl⟩
  · cases data with
    | none =>
      have e : sha256_update (some c) none len = (SHA256_ERROR_NULL_POINTER, some c) := by
        unfold sha256_update
        simp only [h0, if_false]
      rw [e]
      exact ⟨c, rfl, hl, hinv, hc, rfl⟩
    | some d =>
      by_cases hov : c.count + len ≤ 2 ^ 61 - 1
      · rw [sha256_update_accept c d len (Nat.pos_of_ne_zero h0) hov]
        refine ⟨_, rfl, ?_, ?_, ?_, ?_⟩
        · rw [sha256_update_data_buffer_len
          (SHA256_CTX.mk c.state (c.count + len) c.buffer c.buffer_len) d len hl]
          exact Nat.mod_lt _ (by decide)
        · rw [sha256_update_data_buffer_len
          (SHA256_CTX.mk c.state (c.count + len) c.buffer c.buffer_len) d len hl,
          sha256_update_data_count]
          show (c.buffer_len + len) % 64 = (c.count + len) % 64
          omega
        · rw [sha256_update_data_count]; exact hov
        · rw [sha256_update_data_count]; rfl
      · have hr := (sha256_update_overflow_rule c d len (Nat.pos_of_ne_zero h0) hsz)
        have hcode : (sha256_update (some c) (some d) len).1 = SHA256_ERROR_OVERFLOW :=
          hr.1.mpr (by omega)
        refine ⟨c, hr.2.1 hcode, hl, hinv, hc, ?_⟩
        rw [hcode, if_neg (by decide)]
        rfl

/-- Any sequence of `sha256_update` calls: the counter stays at most `2^61 - 1`, is the number
of bytes of the successful calls added to the starting counter, and `buffer_len` stays the
counter modulo 64. -/
theorem sha256_update_calls_count (calls : List (Option (List Nat) × Nat)) :
    ∀ c : SHA256_CTX, c.buffer_len < 64 → c.buffer_len = c.count % 64 →
      c.count ≤ 2 ^ 61 - 1 → (∀ call ∈ calls, call.2 < 2 ^ 64) →
      ∃ r, (sha256_update_calls (some c) calls).2 = some r ∧
        r.buffer_len < 64 ∧ r.buffer_len = r.count % 64 ∧ r.count ≤ 2 ^ 61 - 1 ∧
        r.count = c.count + accepted_bytes calls (sha256_update_calls (some c) calls).1 := by
  induction calls with
  | nil => intro c hl hinv hc _; exact ⟨c, rfl, hl, hinv, hc, rfl⟩
  | cons call rest ih =>
    intro c hl hinv hc hsz
    obtain ⟨r1, e1, hl1, hinv1, hc1, hcount1⟩ :=
      sha256_update_step c call.1 call.2 hl hinv hc (hsz call (List.mem_cons_self _ _))
    obtain ⟨r, e, hlr, hinvr, hcr, hcountr⟩ :=
      ih r1 hl1 hinv1 hc1 (fun x hx => hsz x (List.mem_cons_of_mem _ hx))
    refine ⟨r, ?_, hlr, hinvr, hcr, ?_⟩
    · show (sha256_update_calls (sha256_update (some c) call.1 call.2).2 rest).2 = some r
      rw [e1]; exact e
    · show r.count = c.count +
        ((if (sha256_update (some c) call.1 call.2).1 = 0 then call.2 else 0) +
          accepted_bytes rest
            (sha256_update_calls (sha256_update (some c) call.1 call.2).2 rest).1)
      rw [e1, hcountr, hcount1]
      omega

/-- One successful call of `sha512_update` on a context whose 128-bit counter is `8 n` and
whose `buffer_len` is `n` modulo 128. -/
theorem sha512_update_step (c : SHA512_CTX) (data : Option (List Nat)) (len n : Nat)
    (hl : c.buffer_len < 128) (hlo : c.count.1 < 2 ^ 64) (hhi : c.count.2 < 2 ^ 64)
    (h8 : c.count.2 * 2 ^ 64 + c.count.1 = 8 * n) (hinv : c.buffer_len = n % 128)
    (hsz : len < 2 ^ 64)
    (hok : (sha512_update (some c) data len).1 = SHA512_SUCCESS) :
    ∃ r, (sha512_update (some c) data len).2 = some r ∧
      r.buffer_len < 128 ∧ r.count.1 < 2 ^ 64 ∧ r.count.2 < 2 ^ 64 ∧
      r.count.2 * 2 ^ 64 + r.count.1 = 8 * (n + len) ∧ r.buffer_len = (n + len) % 128 := by
  by_cases h0 : len = 0
  · subst h0
    exact ⟨c, rfl, hl, hlo, hhi, h8, hinv⟩
  · cases data with
    | none =>
      have e : sha512_update (some c) none len = (SHA512_ERROR_NULL_POINTER, some c) := by
        unfold sha512_update
        simp only [h0, if_false]
      rw [e] at hok
      have hn : ¬ SHA512_ERROR_NULL_POINTER = SHA512_SUCCESS := by decide
      exact absurd hok hn
    | some d =>
      have hpos : 0 < len := Nat.pos_of_ne_zero h0
      have hr := (sha512_update_counter_exact c d len hpos hsz hlo hhi).1
      have hlt : c.count.2 * 2 ^ 64 + c.count.1 + 8 * len < 2 ^ 128 := by
        by_contra hge
        have := hr.mpr (Nat.le_of_not_lt hge)
        rw [hok] at this
        have hn : ¬ SHA512_SUCCESS = SHA512_ERROR_OVERFLOW := by decide
        exact absurd this hn
      rw [sha512_update_accept c d len hpos hsz hlo hhi hlt]
      refine ⟨_, rfl, ?_, ?_, ?_, ?_, ?_⟩
      · rw [sha512_update_data_buffer_len
          (SHA512_CTX.mk c.state ((c.count.1 + 8 * len) % 2 ^ 64,
            (c.count.2 * 2 ^ 64 + c.count.1 + 8 * len) / 2 ^ 64) c.buffer c.buffer_len) d len hl]
        exact Nat.mod_lt _ (by decide)
      · rw [sha512_update_data_count]
        exact Nat.mod_lt _ (Nat.two_pow_pos 64)
      · rw [sha512_update_data_count]
        show (c.count.2 * 2 ^ 64 + c.count.1 + 8 * len) / 2 ^ 64 < 2 ^ 64
        omega
      · rw [sha512_update_data_count]
        show (c.count.2 * 2 ^ 64 + c.count.1 + 8 * len) / 2 ^ 64 * 2 ^ 64
          + (c.count.1 + 8 * len) % 2 ^ 64 = 8 * (n + len)
        omega
      · rw [sha512_update_data_buffer_len
          (SHA512_CTX.mk c.state ((c.count.1 + 8 * len) % 2 ^ 64,
            (c.count.2 * 2 ^ 64 + c.count.1 + 8 * len) / 2 ^ 64) c.buffer c.buffer_len) d len hl]
        show (c.buffer_len + len) % 128 = (n + len) % 128
        omega

/-- Any sequence of successful `sha512_update` calls: the 128-bit counter is eight times the
number of bytes passed, and `buffer_len` is that number modulo 128. -/
theorem sha512_update_calls_count (calls : List (Option (List Nat) × Nat)) :
    ∀ (c : SHA512_CTX) (n : Nat), c.buffer_len < 128 → c.count.1 < 2 ^ 64 →
      c.count.2 < 2 ^ 64 → c.count.2 * 2 ^ 64 + c.count.1 = 8 * n →
      c.buffer_len = n % 128 → (∀ call ∈ calls, call.2 < 2 ^ 64) →
      (∀ code ∈ (sha512_update_calls (some c) calls).1, code = SHA512_SUCCESS) →
      ∃ r, (sha512_update_calls (some c) calls).2 = some r ∧
        r.buffer_len < 128 ∧ r.count.1 < 2 ^ 64 ∧ r.count.2 < 2 ^ 64 ∧
        r.count.2 * 2 ^ 64 + r.count.1 = 8 * (n + (calls.map Prod.snd).sum) ∧
        r.buffer_len = (n + (calls.map Prod.snd).sum) % 128 := by
  induction calls with
  | nil => intro c n hl hlo hhi h8 hinv _ _; exact ⟨c, rfl, hl, hlo, hhi, h8, hinv⟩
  | cons call rest ih =>
    intro c n hl hlo hhi h8 hinv hsz hall
    have hok : (sha512_update (some c) call.1 call.2).1 = SHA512_SUCCESS :=
      hall _ (List.mem_cons_self _ _)
    obtain ⟨r1, e1, hl1, hlo1, hhi1, h81, hinv1⟩ :=
      sha512_update_step c call.1 call.2 n hl hlo hhi h8 hinv
        (hsz call (List.mem_cons_self _ _)) hok
    have hall' : ∀ code ∈ (sha512_update_calls (some r1) rest).1, code = SHA512_SUCCESS := by
      intro code hcode
      refine hall code ?_
      show code ∈ (sha512_update (some c) call.1 call.2).1 ::
        (sha512_update_calls (sha512_update (some c) call.1 call.2).2 rest).1
      rw [e1]
      exact List.mem_cons_of_mem _ hcode
    obtain ⟨r, e, hlr, hlor, hhir, h8r, hinvr⟩ :=
      ih r1 (n + call.2) hl1 hlo1 hhi1 h81 hinv1
        (fun x hx => hsz x (List.mem_cons_of_mem _ hx)) hall'
    refine ⟨r, ?_, hlr, hlor, hhir, ?_, ?_⟩
    · show (sha512_update_calls (sha512_update (some c) call.1 call.2).2 rest).2 = some r
      rw [e1]; exact e
    · rw [h8r, List.map_cons, List.sum_cons, Nat.add_assoc]
    · rw [hinvr, List.map_cons, List.sum_cons, Nat.add_assoc]

/-- C35: after Init and any sequence of Update calls that all return success (each `len` a
`size_t`), `buffer_len` is the number of bytes accepted so far modulo the block size: for
SHA-256 the counter is that number and `buffer_len = count mod 64`; for SHA-512 the 128-bit
counter `count[1] * 2^64 + count[0]` is eight times that number, so a multiple of 8, and
`buffer_len = (counter / 8) mod 128`. -/
theorem buffer_len_tracks_counter (c : SHA256_CTX) (c' : SHA512_CTX)
    (calls : List (Option (List Nat) × Nat)) (hsz : ∀ call ∈ calls, call.2 < 2 ^ 64) :
    ((∀ code ∈ (sha256_update_calls (sha256_init (some c)).2 calls).1,
        code = SHA256_SUCCESS) →
      ∃ r, (sha256_update_calls (sha256_init (some c)).2 calls).2 = some r ∧
        r.count = (calls.map Prod.snd).sum ∧
        r.buffer_len = r.count % 64 ∧
        r.buffer_len = (calls.map Prod.snd).sum % 64) ∧
    ((∀ code ∈ (sha512_update_calls (sha512_init (some c')).2 calls).1,
        code = SHA512_SUCCESS) →
      ∃ r, (sha512_update_calls (sha512_init (some c')).2 calls).2 = some r ∧
        r.count.1 < 2 ^ 64 ∧ r.count.2 < 2 ^ 64 ∧
        r.count.2 * 2 ^ 64 + r.count.1 = 8 * (calls.map Prod.snd).sum ∧
        8 ∣ r.count.2 * 2 ^ 64 + r.count.1 ∧
        r.buffer_len = (r.count.2 * 2 ^ 64 + r.count.1) / 8 % 128 ∧
        r.buffer_len = (calls.map Prod.snd).sum % 128) := by
  constructor
  · intro hall
    obtain ⟨r, e, _, hinv, _, hcount⟩ :=
      sha256_update_calls_count calls
        (SHA256_CTX.mk SHA256_H0 0 c.buffer 0) (show (0 : Nat) < 64 by decide) rfl
        (Nat.zero_le _) hsz
    have hacc := accepted_bytes_all calls _ (sha256_update_calls_length calls _) hall
    have hcount' : r.count = (calls.map Prod.snd).sum := by
      have h1 : r.count = 0 + accepted_bytes calls
          (sha256_update_calls (sha256_init (some c)).2 calls).1 := hcount
      rw [h1, hacc, Nat.zero_add]
    exact ⟨r, e, hcount', hinv, by rw [hinv, hcount']⟩
  · intro hall
    obtain ⟨r, e, _, hlo, hhi, h8, hinv⟩ :=
      sha512_update_calls_count calls
        (SHA512_CTX.mk SHA512_H0 (0, 0) c'.buffer 0) 0 (show (0 : Nat) < 128 by decide)
        (Nat.two_pow_pos 64) (Nat.two_pow_pos 64)
        (show 0 * 2 ^ 64 + 0 = 8 * 0 by omega) rfl hsz hall
    rw [Nat.zero_add] at h8 hinv
    refine ⟨r, e, hlo, hhi, h8, ⟨_, h8⟩, ?_, hinv⟩
    rw [h8, hinv, Nat.mul_div_cancel_left _ (by decide : 0 < 8)]

set_option maxRecDepth 100000 in
/-- Witness for C35: a 3-byte call, an empty call without data and a 70-byte call. -/
theorem buffer_len_tracks_counter_witness :
    (∀ call ∈ [(some [1, 2, 3], 3), (none, 0), (some (List.replicate 70 5), 70)],
        call.2 < 2 ^ 64) ∧
    (∃ r, (sha256_update_calls (sha256_init (some sha256_zero_ctx)).2
          [(some [1, 2, 3], 3), (none, 0), (some (List.replicate 70 5), 70)]).2 = some r ∧
        r.count = 73 ∧ r.buffer_len = r.count % 64 ∧ r.buffer_len = 73 % 64) ∧
    (∃ r, (sha512_update_calls (sha512_init (some sha512_zero_ctx)).2
          [(some [1, 2, 3], 3), (none, 0), (some (List.replicate 70 5), 70)]).2 = some r ∧
        r.count.1 < 2 ^ 64 ∧ r.count.2 < 2 ^ 64 ∧
        r.count.2 * 2 ^ 64 + r.count.1 = 8 * 73 ∧
        8 ∣ r.count.2 * 2 ^ 64 + r.count.1 ∧
        r.buffer_len = (r.count.2 * 2 ^ 64 + r.count.1) / 8 % 128 ∧
        r.buffer_len = 73 % 128) :=
  have hsz : ∀ call ∈ [(some [1, 2, 3], 3), (none, 0), (some (List.replicate 70 5), 70)],
      call.2 < 2 ^ 64 := by decide
  have h1 : ∀ code ∈ (sha256_update_calls (sha256_init (some sha256_zero_ctx)).2
        [(some [1, 2, 3], 3), (none, 0), (some (List.replicate 70 5), 70)]).1,
      code = SHA256_SUCCESS := by decide!
  have h2 : ∀ code ∈ (sha512_update_calls (sha512_init (some sha512_zero_ctx)).2
        [(some [1, 2, 3], 3), (none, 0), (some (List.replicate 70 5), 70)]).1,
      code = SHA512_SUCCESS := by decide!
  ⟨hsz,
   (buffer_len_tracks_counter sha256_zero_ctx sha512_zero_ctx
      [(some [1, 2, 3], 3), (none, 0), (some (List.replicate 70 5), 70)] hsz).1 h1,
   (buffer_len_tracks_counter sha256_zero_ctx sha512_zero_ctx
      [(some [1, 2, 3], 3), (none, 0), (some (List.replicate 70 5), 70)] hsz).2 h2⟩

/-! ## The bit length encoded by `sha256_final` -/

/-- The padding loop of `sha256_final` does not touch the counter. -/
theorem sha256_final_loop_count (fuel : Nat) :
    ∀ (c : SHA256_CTX) (padding : List Nat) (total i : Nat),
      (sha256_final_loop fuel c padding total i).count = c.count := by
  induction fuel with
  | zero => intro c padding total i; rfl
  | succ k ih =>
    intro c padding total i
    unfold sha256_final_loop
    split
    · dsimp only
      rw [ih]
      split_ifs <;> rfl
    · rfl

/-- The last 8 bytes of the padding written by `sha256_final` are the length field. -/
theorem sha256_padding_length_field (pad_len bit_count : Nat) (h : 1 ≤ pad_len) :
    (sha256_padding pad_len bit_count).drop pad_len = be_bytes 8 bit_count := by
  unfold sha256_padding
  have hlen : ([0x80] ++ List.replicate (pad_len - 1) 0).length = pad_len := by
    rw [List.length_append, List.length_replicate, List.length_singleton]
    omega
  rw [List.drop_append_of_le_length (Nat.le_of_eq hlen.symm),
    List.drop_eq_nil_of_le (Nat.le_of_eq hlen), List.nil_append, store_be64_eq_be_bytes]

/-- C36: after `sha256_init` and any sequence of `sha256_update` calls, successful or failing
(each `len` a `size_t`), `count <= 2^61 - 1` and `count` is the total number of bytes of the
successful calls; the 64-bit value `count * 8` of `sha256_final` is eight times that number
without reduction modulo `2^64`; the length field of the padding that `sha256_final` feeds
is its big-endian encoding; and the padding loop leaves the counter unchanged. -/
theorem sha256_bit_length_never_wraps (c : SHA256_CTX)
    (calls : List (Option (List Nat) × Nat)) (hsz : ∀ call ∈ calls, call.2 < 2 ^ 64) :
    ∃ r, (sha256_update_calls (sha256_init (some c)).2 calls).2 = some r ∧
      r.count ≤ 2 ^ 61 - 1 ∧
      r.count = accepted_bytes calls (sha256_update_calls (sha256_init (some c)).2 calls).1 ∧
      (r.count * 8) % 2 ^ 64
        = 8 * accepted_bytes calls (sha256_update_calls (sha256_init (some c)).2 calls).1 ∧
      (∀ out, sha256_final (some r) (some out) =
        (SHA256_SUCCESS, some sha256_zero_ctx,
          some (sha256_digest_bytes
            (sha256_final_loop (sha256_pad_len r.buffer_len + 8) r
              (sha256_padding (sha256_pad_len r.buffer_len)
                (8 * accepted_bytes calls
                  (sha256_update_calls (sha256_init (some c)).2 calls).1))
              (sha256_pad_len r.buffer_len + 8) 0).state ++ out.drop 32))) ∧
      (sha256_padding (sha256_pad_len r.buffer_len) ((r.count * 8) % 2 ^ 64)).drop
          (sha256_pad_len r.buffer_len)
        = be_bytes 8 (8 * accepted_bytes calls
            (sha256_update_calls (sha256_init (some c)).2 calls).1) ∧
      ∀ fuel padding total i,
        (sha256_final_loop fuel r padding total i).count = r.count := by
  obtain ⟨r, e, hl, _, hc, hcount⟩ :=
    sha256_update_calls_count calls
      (SHA256_CTX.mk SHA256_H0 0 c.buffer 0) (show (0 : Nat) < 64 by decide) rfl
      (Nat.zero_le _) hsz
  have hcount' : r.count
      = accepted_bytes calls (sha256_update_calls (sha256_init (some c)).2 calls).1 := by
    have h1 : r.count = 0 + accepted_bytes calls
        (sha256_update_calls (sha256_init (some c)).2 calls).1 := hcount
    rw [h1, Nat.zero_add]
  have hbits : (r.count * 8) % 2 ^ 64
      = 8 * accepted_bytes calls (sha256_update_calls (sha256_init (some c)).2 calls).1 := by
    rw [← hcount']
    omega
  refine ⟨r, e, hc, hcount', hbits, fun out => ?_, ?_,
    fun fuel padding total i => sha256_final_loop_count fuel r padding total i⟩
  · rw [← hbits]
    rfl
  · rw [sha256_padding_length_field _ _ (sha256_pad_len_pos _ hl).1, hbits]

set_option maxRecDepth 100000 in
/-- Witness for C36: a 3-byte call, a call that fails for absent data and a call that fails
for overflow leave `count = 3`. -/
theorem sha256_bit_length_never_wraps_witness :
    (∀ call ∈ [(some [1, 2, 3], 3), (none, 5), (some [], 2 ^ 61)], call.2 < 2 ^ 64) ∧
    (sha256_update_calls (sha256_init (some sha256_zero_ctx)).2
        [(some [1, 2, 3], 3), (none, 5), (some [], 2 ^ 61)]).1 = [0, 1, 2] ∧
    ∃ r, (sha256_update_calls (sha256_init (some sha256_zero_ctx)).2
          [(some [1, 2, 3], 3), (none, 5), (some [], 2 ^ 61)]).2 = some r ∧
      r.count ≤ 2 ^ 61 - 1 ∧
      r.count = accepted_bytes [(some [1, 2, 3], 3), (none, 5), (some [], 2 ^ 61)]
        (sha256_update_calls (sha256_init (some sha256_zero_ctx)).2
          [(some [1, 2, 3], 3), (none, 5), (some [], 2 ^ 61)]).1 :=
  ⟨by decide, by decide!,
   (sha256_bit_length_never_wraps sha256_zero_ctx
      [(some [1, 2, 3], 3), (none, 5), (some [], 2 ^ 61)] (by decide)).elim
     fun r h => ⟨r, h.1, h.2.1, h.2.2.1⟩⟩

/-- On exit from the padding loop of `sha256_final` the buffer is empty. -/
theorem sha256_final_loop_exit (fuel : Nat) (c : SHA256_CTX) (padding : List Nat)
    (hl : c.buffer_len < 64) (hfuel : 2 ≤ fuel) :
    (sha256_final_loop fuel c padding (sha256_pad_len c.buffer_len + 8) 0).buffer_len = 0 := by
  rw [sha256_final_loop_fuel fuel c padding hl hfuel, (sha256_pad_len_pos c.buffer_len hl).2.2]
  by_cases hlt : c.buffer_len < 56
  · rw [if_pos hlt]
    rw [sha256_final_loop_fill 1 c padding _ 0 hl (by omega) (by omega),
      sha256_final_loop_done _ _ _ _ _ (by omega)]
  · rw [if_neg hlt]
    rw [sha256_final_loop_fill 1 c padding _ 0 hl (by omega) (by omega),
      sha256_final_loop_fill 0 _ padding _ _ (Nat.zero_lt_succ _) (by omega)
        (by simp only; omega),
      sha256_final_loop_done _ _ _ _ _ (by simp only; omega)]

/-- The padding loop of `sha256_final` on a context with fewer than 64 pending bytes: at most
two iterations, each copying at least one byte, together the whole `pad_len + 8` bytes. -/
theorem sha256_final_loop_terminates (c : SHA256_CTX) (padding : List Nat) (fuel : Nat)
    (hl : c.buffer_len < 64) (hfuel : 2 ≤ fuel) :
    (sha256_final_copies fuel c padding (sha256_pad_len c.buffer_len + 8) 0).length ≤ 2 ∧
    (∀ x ∈ sha256_final_copies fuel c padding (sha256_pad_len c.buffer_len + 8) 0,
      1 ≤ x.2.2) ∧
    ((sha256_final_copies fuel c padding (sha256_pad_len c.buffer_len + 8) 0).map
      (fun x => x.2.2)).sum = sha256_pad_len c.buffer_len + 8 ∧
    sha256_final_loop fuel c padding (sha256_pad_len c.buffer_len + 8) 0
      = sha256_final_loop 2 c padding (sha256_pad_len c.buffer_len + 8) 0 ∧
    (sha256_final_loop fuel c padding (sha256_pad_len c.buffer_len + 8) 0).buffer_len = 0 ∧
    2 ≤ sha256_pad_len c.buffer_len + 8 := by
  obtain ⟨h1, h2⟩ := sha256_final_copies_spec fuel c padding hl hfuel
  refine ⟨?_, fun x hx => (sha256_final_copies_bound fuel c padding _ 0 hl x hx).2.2, ?_,
    sha256_final_loop_fuel fuel c padding hl hfuel,
    sha256_final_loop_exit fuel c padding hl hfuel, ?_⟩
  · by_cases hlt : c.buffer_len < 56
    · rw [h1 hlt]; exact Nat.le_succ 1
    · rw [(h2 (by omega)).1]; exact Nat.le_refl 2
  · by_cases hlt : c.buffer_len < 56
    · rw [h1 hlt]
      simp only [List.map_cons, List.map_nil, List.sum_cons, List.sum_nil, Nat.add_zero]
    · rw [(h2 (by omega)).1, ← (h2 (by omega)).2]
      simp only [List.map_cons, List.map_nil, List.sum_cons, List.sum_nil, Nat.add_zero]
  · have := (sha256_pad_len_pos c.buffer_len hl).1
    omega

/-- On exit from the padding loop of `sha512_final` the buffer is empty. -/
theorem sha512_final_loop_exit (fuel : Nat) (c : SHA512_CTX) (padding : List Nat)
    (hl : c.buffer_len < 128) (hfuel : 2 ≤ fuel) :
    (sha512_final_loop fuel c padding (sha512_pad_len c.buffer_len + 16) 0).buffer_len = 0 := by
  rw [sha512_final_loop_fuel fuel c padding hl hfuel, (sha512_pad_len_pos c.buffer_len hl).2.2]
  by_cases hlt : c.buffer_len < 112
  · rw [if_pos hlt]
    rw [sha512_final_loop_fill 1 c padding _ 0 hl (by omega) (by omega),
      sha512_final_loop_done _ _ _ _ _ (by omega)]
  · rw [if_neg hlt]
    rw [sha512_final_loop_fill 1 c padding _ 0 hl (by omega) (by omega),
      sha512_final_loop_fill 0 _ padding _ _ (Nat.zero_lt_succ _) (by omega)
        (by simp only; omega),
      sha512_final_loop_done _ _ _ _ _ (by simp only; omega)]

/-- The padding loop of `sha512_final` on a context with fewer than 128 pending bytes: at most
two iterations, each copying at least one byte, together the whole `pad_len + 16` bytes. -/
theorem sha512_final_loop_terminates (c : SHA512_CTX) (padding : List Nat) (fuel : Nat)
    (hl : c.buffer_len < 128) (hfuel : 2 ≤ fuel) :
    (sha512_final_copies fuel c padding (sha512_pad_len c.buffer_len + 16) 0).length ≤ 2 ∧
    (∀ x ∈ sha512_final_copies fuel c padding (sha512_pad_len c.buffer_len + 16) 0,
      1 ≤ x.2.2) ∧
    ((sha512_final_copies fuel c padding (sha512_pad_len c.buffer_len + 16) 0).map
      (fun x => x.2.2)).sum = sha512_pad_len c.buffer_len + 16 ∧
    sha512_final_loop fuel c padding (sha512_pad_len c.buffer_len + 16) 0
      = sha512_final_loop 2 c padding (sha512_pad_len c.buffer_len + 16) 0 ∧
    (sha512_final_loop fuel c padding (sha512_pad_len c.buffer_len + 16) 0).buffer_len = 0 ∧
    2 ≤ sha512_pad_len c.buffer_len + 16 := by
  obtain ⟨h1, h2⟩ := sha512_final_copies_spec fuel c padding hl hfuel
  refine ⟨?_, fun x hx => (sha512_final_copies_bound fuel c padding _ 0 hl x hx).2.2, ?_,
    sha512_final_loop_fuel fuel c padding hl hfuel,
    sha512_final_loop_exit fuel c padding hl hfuel, ?_⟩
  · by_cases hlt : c.buffer_len < 112
    · rw [h1 hlt]; exact Nat.le_succ 1
    · rw [(h2 (by omega)).1]; exact Nat.le_refl 2
  · by_cases hlt : c.buffer_len < 112
    · rw [h1 hlt]
      simp only [List.map_cons, List.map_nil, List.sum_cons, List.sum_nil, Nat.add_zero]
    · rw [(h2 (by omega)).1, ← (h2 (by omega)).2]
      simp only [List.map_cons, List.map_nil, List.sum_cons, List.sum_nil, Nat.add_zero]
  · have := (sha512_pad_len_pos c.buffer_len hl).1
    omega

/-- C37: for every context with `buffer_len` below the block size, the padding loop of Final,
run with any fuel of at least 2 (Final gives it `pad_len + L >= 2`), makes at most two
iterations, each copying at least one byte; the bytes copied add up to `pad_len + L`, so the
loop condition `i < pad_len + L` ends it, with the same result as with fuel 2; and on exit
`buffer_len` is 0. `L` is 8 for SHA-256 and 16 for SHA-512. -/
theorem final_padding_loop_terminates (c : SHA256_CTX) (c' : SHA512_CTX) (padding : List Nat)
    (fuel : Nat) (hl : c.buffer_len < 64) (hl' : c'.buffer_len < 128) (hfuel : 2 ≤ fuel) :
    ((sha256_final_copies fuel c padding (sha256_pad_len c.buffer_len + 8) 0).length ≤ 2 ∧
     (∀ x ∈ sha256_final_copies fuel c padding (sha256_pad_len c.buffer_len + 8) 0,
       1 ≤ x.2.2) ∧
     ((sha256_final_copies fuel c padding (sha256_pad_len c.buffer_len + 8) 0).map
       (fun x => x.2.2)).sum = sha256_pad_len c.buffer_len + 8 ∧
     sha256_final_loop fuel c padding (sha256_pad_len c.buffer_len + 8) 0
       = sha256_final_loop 2 c padding (sha256_pad_len c.buffer_len + 8) 0 ∧
     (sha256_final_loop fuel c padding (sha256_pad_len c.buffer_len + 8) 0).buffer_len = 0 ∧
     2 ≤ sha256_pad_len c.buffer_len + 8) ∧
    ((sha512_final_copies fuel c' padding (sha512_pad_len c'.buffer_len + 16) 0).length ≤ 2 ∧
     (∀ x ∈ sha512_final_copies fuel c' padding (sha512_pad_len c'.buffer_len + 16) 0,
       1 ≤ x.2.2) ∧
     ((sha512_final_copies fuel c' padding (sha512_pad_len c'.buffer_len + 16) 0).map
       (fun x => x.2.2)).sum = sha512_pad_len c'.buffer_len + 16 ∧
     sha512_final_loop fuel c' padding (sha512_pad_len c'.buffer_len + 16) 0
       = sha512_final_loop 2 c' padding (sha512_pad_len c'.buffer_len + 16) 0 ∧
     (sha512_final_loop fuel c' padding (sha512_pad_len c'.buffer_len + 16) 0).buffer_len = 0 ∧
     2 ≤ sha512_pad_len c'.buffer_len + 16) :=
  ⟨sha256_final_loop_terminates c padding fuel hl hfuel,
   sha512_final_loop_terminates c' padding fuel hl' hfuel⟩

set_option maxRecDepth 100000 in
/-- Witness for C37: contexts with 60 (120) pending bytes, where the padding takes two
iterations, run with the fuel `pad_len + L` that Final gives the loop. -/
theorem final_padding_loop_terminates_witness :
    (60 < 64 ∧ 120 < 128 ∧ 2 ≤ 68) ∧
    (sha256_final_copies 68 (SHA256_CTX.mk SHA256_H0 60 (List.replicate 64 0) 60)
        (sha256_padding 60 480) (sha256_pad_len 60 + 8) 0).length ≤ 2 ∧
    (sha256_final_loop 68 (SHA256_CTX.mk SHA256_H0 60 (List.replicate 64 0) 60)
        (sha256_padding 60 480) (sha256_pad_len 60 + 8) 0).buffer_len = 0 ∧
    (sha512_final_copies 68 (SHA512_CTX.mk SHA512_H0 (960, 0) (List.replicate 128 0) 120)
        (sha256_padding 60 480) (sha512_pad_len 120 + 16) 0).length ≤ 2 ∧
    (sha512_final_loop 68 (SHA512_CTX.mk SHA512_H0 (960, 0) (List.replicate 128 0) 120)
        (sha256_padding 60 480) (sha512_pad_len 120 + 16) 0).buffer_len = 0 :=
  have h := final_padding_loop_terminates
    (SHA256_CTX.mk SHA256_H0 60 (List.replicate 64 0) 60)
    (SHA512_CTX.mk SHA512_H0 (960, 0) (List.replicate 128 0) 120)
    (sha256_padding 60 480) 68 (by decide) (by decide) (by decide)
  ⟨⟨by decide, by decide, by decide⟩, h.1.1, h.1.2.2.2.2.1, h.2.1, h.2.2.2.2.2.1⟩

/-! ## Decoding the output of ToHex -/

theorem hex_digit_value_digit (k : Nat) (h : k < 16) :
    hex_digit_value (hex_chars.getD k (Char.ofNat 0)) = k := by
  revert k
  decide

theorem byte_nibbles (x : Nat) (h : x < 256) : (x >>> 4 &&& 0xf) * 16 + (x &&& 0xf) = x := by
  have e : (0xf : Nat) = 2 ^ 4 - 1 := rfl
  rw [high_nibble x h, e, Nat.and_pow_two_sub_one_eq_mod, Nat.shiftRight_eq_div_pow]
  omega

theorem hex_decode_pairs (f g : Nat → Char) (l : List Nat) :
    hex_decode (l.flatMap (fun i => [f i, g i]))
      = l.map (fun i => hex_digit_value (f i) * 16 + hex_digit_value (g i)) := by
  induction l with
  | nil => rfl
  | cons a rest ih =>
    rw [List.flatMap_cons, List.map_cons, ← ih]
    rfl

theorem range_map_getD (h : List Nat) (n : Nat) (hl : h.length = n) :
    (List.range n).map (fun i => h.getD i 0) = h := by
  apply List.ext_getElem
  · rw [List.length_map, List.length_range, hl]
  · intro i h1 h2
    rw [List.getElem_map, List.getElem_range, List.getD_eq_getElem _ _ h2]

/-- Decoding the hex digits written for `n` bytes gives the bytes back. -/
theorem hex_decode_digits (h : List Nat) (n : Nat) (hl : h.length = n)
    (hb : ∀ x ∈ h, x < 256) :
    hex_decode ((List.range n).flatMap (fun i =>
        [hex_chars.getD ((h.getD i 0 >>> 4) &&& 0xf) (Char.ofNat 0),
         hex_chars.getD (h.getD i 0 &&& 0xf) (Char.ofNat 0)])) = h := by
  rw [hex_decode_pairs
    (fun i => hex_chars.getD ((h.getD i 0 >>> 4) &&& 0xf) (Char.ofNat 0))
    (fun i => hex_chars.getD (h.getD i 0 &&& 0xf) (Char.ofNat 0))]
  have e : ∀ i, hex_digit_value (hex_chars.getD ((h.getD i 0 >>> 4) &&& 0xf) (Char.ofNat 0)) * 16
      + hex_digit_value (hex_chars.getD (h.getD i 0 &&& 0xf) (Char.ofNat 0)) = h.getD i 0 := by
    intro i
    rw [hex_digit_value_digit _ (nibble_lt _), hex_digit_value_digit _ (nibble_lt _),
      byte_nibbles _ (getD_byte h i hb)]
  simp only [e]
  exact range_map_getD h n hl

theorem sha256_cstr_to_hex (h : List Nat) (buf : List Char) :
    (sha256_to_hex (some h) (some buf)).2.map cstr = some (String.mk (sha256_hex_chars h)) := by
  rw [sha256_to_hex_eq]
  show some (cstr (sha256_hex_chars h ++ [Char.ofNat 0] ++ buf.drop 65)) = _
  rw [cstr_of_terminated (sha256_hex_chars h) _ (fun c hc => (hex_pairs_no_nul h 32 c hc).2)]

theorem sha512_cstr_to_hex (h : List Nat) (buf : List Char) :
    (sha512_to_hex (some h) (some buf)).2.map cstr = some (String.mk (sha512_hex_chars h)) := by
  rw [sha512_to_hex_eq]
  show some (cstr (sha512_hex_chars h ++ [Char.ofNat 0] ++ buf.drop 129)) = _
  rw [cstr_of_terminated (sha512_hex_chars h) _ (fun c hc => (hex_pairs_no_nul h 64 c hc).2)]

/-- C38: for every two 32-byte digests `h1` and `h2`, if `sha256_to_hex` writes the same C
string for both then `h1 = h2`; and decoding each pair of hex characters of the string written
for `h1` as high and low nibble gives `h1` back. Likewise for `sha512_to_hex` on 64-byte
digests. -/
theorem to_hex_injective (h1 h2 g1 g2 : List Nat) (buf1 buf2 : List Char)
    (hl1 : h1.length = 32) (hl2 : h2.length = 32) (gl1 : g1.length = 64) (gl2 : g2.length = 64)
    (hb1 : ∀ x ∈ h1, x < 256) (hb2 : ∀ x ∈ h2, x < 256)
    (gb1 : ∀ x ∈ g1, x < 256) (gb2 : ∀ x ∈ g2, x < 256) :
    (((sha256_to_hex (some h1) (some buf1)).2.map cstr
        = (sha256_to_hex (some h2) (some buf2)).2.map cstr → h1 = h2) ∧
     (sha256_to_hex (some h1) (some buf1)).2.map (fun out => hex_decode (cstr out).toList)
        = some h1) ∧
    (((sha512_to_hex (some g1) (some buf1)).2.map cstr
        = (sha512_to_hex (some g2) (some buf2)).2.map cstr → g1 = g2) ∧
     (sha512_to_hex (some g1) (some buf1)).2.map (fun out => hex_decode (cstr out).toList)
        = some g1) := by
  have d256 : ∀ h : List Nat, h.length = 32 → (∀ x ∈ h, x < 256) →
      hex_decode (sha256_hex_chars h) = h := fun h hl hb => hex_decode_digits h 32 hl hb
  have d512 : ∀ h : List Nat, h.length = 64 → (∀ x ∈ h, x < 256) →
      hex_decode (sha512_hex_chars h) = h := fun h hl hb => hex_decode_digits h 64 hl hb
  refine ⟨⟨fun heq => ?_, ?_⟩, ⟨fun heq => ?_, ?_⟩⟩
  · rw [sha256_cstr_to_hex, sha256_cstr_to_hex] at heq
    have hc : sha256_hex_chars h1 = sha256_hex_chars h2 := congrArg String.data (Option.some.inj heq)
    rw [← d256 h1 hl1 hb1, hc, d256 h2 hl2 hb2]
  · have := congrArg (Option.map (fun s : String => hex_decode s.toList))
      (sha256_cstr_to_hex h1 buf1)
    rw [Option.map_map] at this
    rw [show (fun out => hex_decode (cstr out).toList)
        = (fun s : String => hex_decode s.toList) ∘ cstr from rfl, this]
    show some (hex_decode (sha256_hex_chars h1)) = _
    rw [d256 h1 hl1 hb1]
  · rw [sha512_cstr_to_hex, sha512_cstr_to_hex] at heq
    have hc : sha512_hex_chars g1 = sha512_hex_chars g2 := congrArg String.data (Option.some.inj heq)
    rw [← d512 g1 gl1 gb1, hc, d512 g2 gl2 gb2]
  · have := congrArg (Option.map (fun s : String => hex_decode s.toList))
      (sha512_cstr_to_hex g1 buf1)
    rw [Option.map_map] at this
    rw [show (fun out => hex_decode (cstr out).toList)
        = (fun s : String => hex_decode s.toList) ∘ cstr from rfl, this]
    show some (hex_decode (sha512_hex_chars g1)) = _
    rw [d512 g1 gl1 gb1]

set_option maxRecDepth 100000 in
/-- Witness for C38: the same digest converted into two different character buffers. -/
theorem to_hex_injective_witness :
    ((List.replicate 32 0xAB).length = 32 ∧ (List.replicate 64 0xCD).length = 64 ∧
      (∀ x ∈ List.replicate 32 0xAB, x < 256) ∧ (∀ x ∈ List.replicate 64 0xCD, x < 256) ∧
      (sha256_to_hex (some (List.replicate 32 0xAB)) (some [])).2.map cstr
        = (sha256_to_hex (some (List.replicate 32 0xAB))
            (some (List.replicate 70 'x'))).2.map cstr ∧
      (sha512_to_hex (some (List.replicate 64 0xCD)) (some [])).2.map cstr
        = (sha512_to_hex (some (List.replicate 64 0xCD))
            (some (List.replicate 70 'x'))).2.map cstr) ∧
    List.replicate 32 0xAB = List.replicate 32 0xAB ∧
    (sha256_to_hex (some (List.replicate 32 0xAB)) (some [])).2.map
        (fun out => hex_decode (cstr out).toList) = some (List.replicate 32 0xAB) ∧
    List.replicate 64 0xCD = List.replicate 64 0xCD ∧
    (sha512_to_hex (some (List.replicate 64 0xCD)) (some [])).2.map
        (fun out => hex_decode (cstr out).toList) = some (List.replicate 64 0xCD) :=
  have e1 : (sha256_to_hex (some (List.replicate 32 0xAB)) (some [])).2.map cstr
      = (sha256_to_hex (some (List.replicate 32 0xAB))
          (some (List.replicate 70 'x'))).2.map cstr := by
    rw [sha256_cstr_to_hex, sha256_cstr_to_hex]
  have e2 : (sha512_to_hex (some (List.replicate 64 0xCD)) (some [])).2.map cstr
      = (sha512_to_hex (some (List.replicate 64 0xCD))
          (some (List.replicate 70 'x'))).2.map cstr := by
    rw [sha512_cstr_to_hex, sha512_cstr_to_hex]
  have h := to_hex_injective (List.replicate 32 0xAB) (List.replicate 32 0xAB)
    (List.replicate 64 0xCD) (List.replicate 64 0xCD) [] (List.replicate 70 'x')
    (by decide) (by decide) (by decide) (by decide) (by decide) (by decide) (by decide)
    (by decide)
  ⟨⟨by decide, by decide, by decide, by decide, e1, e2⟩, h.1.1 e1, h.1.2, h.2.1 e2, h.2.2⟩

/-! ## The result code of the one-shot SHA-512 -/

/-- On a context whose counter is zero, `sha512_update` with present data succeeds for every
`len` of the type `size_t`. -/
theorem sha512_update_fresh (c : SHA512_CTX) (d : List Nat) (len : Nat)
    (hc : c.count = (0, 0)) (h0 : len ≠ 0) (hsz : len < 2 ^ 64) :
    ∃ r, sha512_update (some c) (some d) len = (SHA512_SUCCESS, some r) := by
  have hlo : c.count.1 < 2 ^ 64 := by rw [hc]; exact Nat.two_pow_pos 64
  have hhi : c.count.2 < 2 ^ 64 := by rw [hc]; exact Nat.two_pow_pos 64
  have h : c.count.2 * 2 ^ 64 + c.count.1 + 8 * len < 2 ^ 128 := by
    rw [hc]
    show 0 * 2 ^ 64 + 0 + 8 * len < 2 ^ 128
    omega
  exact ⟨_, sha512_update_accept c d len (Nat.pos_of_ne_zero h0) hsz hlo hhi h⟩

/-- C39: for every data, every `len < 2^64` and every output, `sha512` never returns
`SHA512_ERROR_OVERFLOW` (nor does its Update step): it returns success or the null-pointer
error, and it returns success if and only if (`len = 0` or the data is present) and the
output is present. -/
theorem sha512_oneshot_never_overflows (stack : SHA512_CTX) (data : Option (List Nat))
    (len : Nat) (hash : Option (List Nat)) (hsz : len < 2 ^ 64) :
    (sha512 stack data len hash).1 ≠ SHA512_ERROR_OVERFLOW ∧
    (sha512_update (sha512_init (some stack)).2 data len).1 ≠ SHA512_ERROR_OVERFLOW ∧
    ((sha512 stack data len hash).1 = SHA512_SUCCESS ∨
      (sha512 stack data len hash).1 = SHA512_ERROR_NULL_POINTER) ∧
    ((sha512 stack data len hash).1 = SHA512_SUCCESS ↔
      (len = 0 ∨ data ≠ none) ∧ hash ≠ none) := by
  have hn1 : ¬ SHA512_ERROR_NULL_POINTER = SHA512_ERROR_OVERFLOW := by decide
  have hn2 : ¬ SHA512_SUCCESS = SHA512_ERROR_OVERFLOW := by decide
  have hn3 : ¬ SHA512_ERROR_NULL_POINTER = SHA512_SUCCESS := by decide
  have hinit : (sha512_init (some stack)).2
      = some (SHA512_CTX.mk SHA512_H0 (0, 0) stack.buffer 0) := rfl
  have key : ∀ c r, sha512_update (some (SHA512_CTX.mk SHA512_H0 (0, 0) stack.buffer 0)) data len
        = (c, some r) →
      sha512 stack data len hash =
        if c ≠ SHA512_SUCCESS then (c, sha512_zero_ctx, hash)
        else match sha512_final (some r) hash with
          | (ret, none, out) => (ret, r, out)
          | (ret, some c2, out) => (ret, c2, out) := by
    intro c r hu
    unfold sha512 sha512_init
    simp only [ne_eq, not_true_eq_false, if_false]
    rw [hu]
  by_cases h0 : len = 0
  · subst h0
    have hu : sha512_update (some (SHA512_CTX.mk SHA512_H0 (0, 0) stack.buffer 0)) data 0
        = (SHA512_SUCCESS, some (SHA512_CTX.mk SHA512_H0 (0, 0) stack.buffer 0)) := rfl
    rw [key _ _ hu, hinit, hu, if_neg (fun h => h rfl)]
    cases hash with
    | none =>
      exact ⟨hn1, hn2, Or.inr rfl, ⟨fun h => absurd h hn3, fun h => absurd rfl h.2⟩⟩
    | some out =>
      exact ⟨hn2, hn2, Or.inl rfl, ⟨fun _ => ⟨Or.inl rfl, fun h => Option.noConfusion h⟩,
        fun _ => rfl⟩⟩
  · cases data with
    | none =>
      have hu : sha512_update (some (SHA512_CTX.mk SHA512_H0 (0, 0) stack.buffer 0)) none len
          = (SHA512_ERROR_NULL_POINTER,
              some (SHA512_CTX.mk SHA512_H0 (0, 0) stack.buffer 0)) := by
        unfold sha512_update
        simp only [h0, if_false]
      rw [key _ _ hu, hinit, hu, if_pos hn3]
      refine ⟨hn1, hn1, Or.inr rfl, ⟨fun h => absurd h hn3, fun h => ?_⟩⟩
      rcases h.1 with h1 | h1
      · exact absurd h1 h0
      · exact absurd rfl h1
    | some d =>
      obtain ⟨r, hu⟩ := sha512_update_fresh (SHA512_CTX.mk SHA512_H0 (0, 0) stack.buffer 0)
        d len rfl h0 hsz
      rw [key _ _ hu, hinit, hu, if_neg (fun h => h rfl)]
      cases hash with
      | none =>
        exact ⟨hn1, hn2, Or.inr rfl, ⟨fun h => absurd h hn3, fun h => absurd rfl h.2⟩⟩
      | some out =>
        exact ⟨hn2, hn2, Or.inl rfl,
          ⟨fun _ => ⟨Or.inr (fun h => Option.noConfusion h), fun h => Option.noConfusion h⟩,
            fun _ => rfl⟩⟩

/-- Witness for C39: the one-shot call on a 3-byte input with `len = 3`. -/
theorem sha512_oneshot_never_overflows_witness :
    3 < 2 ^ 64 ∧
    (sha512 sha512_zero_ctx (some [0x61, 0x62, 0x63]) 3 (some [])).1 ≠ SHA512_ERROR_OVERFLOW :=
  ⟨by decide,
   (sha512_oneshot_never_overflows sha512_zero_ctx (some [0x61, 0x62, 0x63]) 3 (some [])
      (by decide)).1⟩

/-! ## The constant tables of the two families -/

set_option maxRecDepth 100000 in
/-- C40: for every `i < 64`, `SHA256_K[i]` is the upper 32 bits of `SHA512_K[i]`, and for
every `i < 8` the state word `i` that `sha256_init` sets is the upper 32 bits of the state
word `i` that `sha512_init` sets. -/
theorem constant_tables_agree (c : SHA256_CTX) (c' : SHA512_CTX) :
    (∀ i, i < 64 → SHA256_K.getD i 0 = SHA512_K.getD i 0 >>> 32) ∧
    ∃ r r', sha256_init (some c) = (SHA256_SUCCESS, some r) ∧
      sha512_init (some c') = (SHA512_SUCCESS, some r') ∧
      ∀ i, i < 8 → r.state.getD i 0 = r'.state.getD i 0 >>> 32 := by
  refine ⟨by decide!, _, _, rfl, rfl, ?_⟩
  show ∀ i, i < 8 → SHA256_H0.getD i 0 = SHA512_H0.getD i 0 >>> 32
  decide!

/-- Witness for C40: the round constant of index 63 and the initial state word of index 7. -/
theorem constant_tables_agree_witness :
    (63 < 64 ∧ SHA256_K.getD 63 0 = SHA512_K.getD 63 0 >>> 32) ∧
    (7 < 8 ∧ ∃ r r', sha256_init (some sha256_zero_ctx) = (SHA256_SUCCESS, some r) ∧
      sha512_init (some sha512_zero_ctx) = (SHA512_SUCCESS, some r') ∧
      r.state.getD 7 0 = r'.state.getD 7 0 >>> 32) :=
  ⟨⟨by decide, (constant_tables_agree sha256_zero_ctx sha512_zero_ctx).1 63 (by decide)⟩,
   by decide,
   (constant_tables_agree sha256_zero_ctx sha512_zero_ctx).2.elim fun r h =>
     h.elim fun r' h' => ⟨r, r', h'.1, h'.2.1, h'.2.2 7 (by decide)⟩⟩

end Digest
